import Mathlib

/-!
# TimeShiftHandle: drag time-shift of clips and tracks

A shallow embedding of `src/tracks/ui/TimeShiftHandle.cpp`.

* Times (C++ `double`) are exact rationals; floating-point rounding is not modelled.
* Pointers are identifiers: a `ClipId` names a `WaveClip` object and a `TrackId`
  names a `Track` object.  The project holds one heap per object kind, so that
  `clip->Offset(d)` acts on the object whether or not a track currently owns it,
  exactly as a pointer dereference does.
* Functions whose C++ body may fail to return normally (a loop that need not
  terminate, a null dereference) return `Option`, with `none` for "does not
  return".  Loops take a `fuel` bound on the number of passes.
-/

namespace TimeShift

/-! ## Data model -/

/-- Identity of a `Track` object (a `Track*`). -/
abbrev TrackId := Nat

/-- Identity of a `WaveClip` object (a `WaveClip*`). -/
abbrev ClipId := Nat

/-- Track kinds tested by `Track::GetKind()`. -/
inductive TrackKind where
  | Wave
  | Label
  | Note
  | Time
deriving DecidableEq, Repr

/-- Modelled from the spec: the `WaveClip` class is declared outside this file.  A clip has a
start time (`GetStartTime`), an end time (`GetEndTime`, here start plus duration) and a
sample rate. -/
structure WaveClip where
  mOffset : ℚ
  mDuration : ℚ
  mRate : ℚ
deriving DecidableEq

/-- The clip's start time, `WaveClip::GetStartTime()`. -/
def WaveClip.GetStartTime (c : WaveClip) : ℚ := c.mOffset

/-- The clip's end time, `WaveClip::GetEndTime()`. -/
def WaveClip.GetEndTime (c : WaveClip) : ℚ := c.mOffset + c.mDuration

/-- Modelled from the spec: `offset(clip, delta)`, the body of `WaveClip::Offset`, moves the clip
in time and changes nothing else. -/
def WaveClip.Offset (c : WaveClip) (delta : ℚ) : WaveClip :=
  { c with mOffset := c.mOffset + delta }

/-- Modelled from the spec: the `Track` / `WaveTrack` classes are declared outside this file.
`mLinked` is `GetLinked()` (true on the left channel of a stereo pair), `mLink` is `GetLink()`
(the stereo partner, if any), `mClips` is the clip container of a wave track, and a track that
is not a wave track is a single span `[mOffset, mOffset + mDuration]`. -/
structure Track where
  kind : TrackKind
  mLinked : Bool
  mLink : Option TrackId
  mSelected : Bool
  mRate : ℚ
  mOffset : ℚ
  mDuration : ℚ
  mClips : List ClipId
deriving DecidableEq

/-- Calls made on the undo history (`PushState`, `RollbackState`), in order. -/
inductive UndoCall where
  | Push (msg : String) (shortLabel : String) (consolidate : Bool)
  | Rollback
deriving DecidableEq, Repr

/-- The part of `AudacityProject` the handle reads and writes: the heaps of track and clip
objects, the `TrackList` order, the selected region of the view and the calls made on the
undo history. -/
structure Project where
  tracks : TrackId → Track
  clips : ClipId → WaveClip
  trackList : List TrackId
  selT0 : ℚ
  selT1 : ℚ
  undoCalls : List UndoCall

/-- Entry of the captured clip array (`TrackClip`).  A fresh entry has `origTrack = track`,
no destination and an empty holder. -/
structure TrackClip where
  track : TrackId
  origTrack : TrackId
  dstTrack : Option TrackId
  clip : Option ClipId
  holder : Option ClipId
deriving DecidableEq, Repr

/-- Modelled from the spec: the constructor `TrackClip(Track *t, WaveClip *c)` is declared
outside this file.  A new entry has the given track, also as original track, and the given
clip; it has no destination yet and holds no extracted clip. -/
def TrackClip.new (t : TrackId) (c : Option ClipId) : TrackClip :=
  { track := t, origTrack := t, dstTrack := none, clip := c, holder := none }

/-- The drag session state `ClipMoveState`. -/
structure ClipMoveState where
  capturedClipArray : List TrackClip
  trackExclusions : List TrackId
  capturedClip : Option ClipId
  capturedClipIsSelection : Bool
  hSlideAmount : ℚ
  snapLeft : Int
  snapRight : Int
  mMouseClickX : Int
deriving DecidableEq

/-- The pixel/time mapping of `ViewInfo`, taken as given: `PositionToTime(x)` and
`TimeToPosition(t, origin)`. -/
structure ViewInfo where
  PositionToTime : Int → ℚ
  TimeToPosition : ℚ → Int → Int

/-- The snap manager, taken as given: `Snap(track, t, rightEdge).outTime`. -/
abbrev SnapManager := TrackId → ℚ → Bool → ℚ

/-- The overlap oracle `WaveTrack::CanOffsetClip(clip, amount, &allowed)`, queried on a
track of the current project: the returned pair is (return value, `allowed`). -/
abbrev CanOffsetClipFn := Project → TrackId → ClipId → ℚ → Bool × ℚ

/-- The insertion test `WaveTrack::CanInsertClip(clip, slideBy, tolerance)` on a destination
track; `slideBy` and `tolerance` are passed by reference, so it returns
(return value, `slideBy`, `tolerance`). -/
abbrev CanInsertClipFn := Project → TrackId → ClipId → ℚ → ℚ → Bool × ℚ × ℚ

/-! ## Track and clip container operations -/

/-- The call `clip->Offset(delta)` on the clip object `c`. -/
def Project.offsetClip (p : Project) (c : ClipId) (delta : ℚ) : Project :=
  { p with clips := Function.update p.clips c ((p.clips c).Offset delta) }

/-- Modelled from the spec: `offset(track, delta)`, the body of `Track::Offset`.  A wave track
moves each of its clips; any other track moves its own span. -/
def Project.offsetTrack (p : Project) (t : TrackId) (delta : ℚ) : Project :=
  if (p.tracks t).kind = TrackKind.Wave then
    (p.tracks t).mClips.foldl (fun q c => q.offsetClip c delta) p
  else
    let moved : Track := { p.tracks t with mOffset := (p.tracks t).mOffset + delta }
    { p with tracks := Function.update p.tracks t moved }

/-- Modelled from the spec: `Track::GetStartTime()`.  A wave track starts at its earliest clip
(0 without clips), any other track at its own offset. -/
def Project.trackStartTime (p : Project) (t : TrackId) : ℚ :=
  if (p.tracks t).kind = TrackKind.Wave then
    match (p.tracks t).mClips with
    | [] => 0
    | c :: cs => cs.foldl (fun best d => min best (p.clips d).GetStartTime) (p.clips c).GetStartTime
  else (p.tracks t).mOffset

/-- Modelled from the spec: `Track::GetEndTime()`.  A wave track ends at its latest clip end
(0 without clips), any other track at the end of its own span. -/
def Project.trackEndTime (p : Project) (t : TrackId) : ℚ :=
  if (p.tracks t).kind = TrackKind.Wave then
    match (p.tracks t).mClips with
    | [] => 0
    | c :: cs => cs.foldl (fun best d => max best (p.clips d).GetEndTime) (p.clips c).GetEndTime
  else (p.tracks t).mOffset + (p.tracks t).mDuration

/-- Modelled from the spec: `TrackList::GetStartTime()`, the earliest track start (0 for an
empty list). -/
def Project.GetStartTime (p : Project) : ℚ :=
  match p.trackList with
  | [] => 0
  | t :: ts => ts.foldl (fun best u => min best (p.trackStartTime u)) (p.trackStartTime t)

/-- Modelled from the spec: `TrackList::GetEndTime()`, the latest track end (0 for an empty
list). -/
def Project.GetEndTime (p : Project) : ℚ :=
  match p.trackList with
  | [] => 0
  | t :: ts => ts.foldl (fun best u => max best (p.trackEndTime u)) (p.trackEndTime t)

/-- Two clips overlap in time: their half-open spans intersect. -/
def WaveClip.Overlaps (a b : WaveClip) : Prop :=
  a.GetStartTime < b.GetEndTime ∧ b.GetStartTime < a.GetEndTime

instance (a b : WaveClip) : Decidable (a.Overlaps b) := by
  unfold WaveClip.Overlaps; infer_instance

/-! ## DoOffset -/

/-- One iteration of the loop over the captured array in `DoOffset`. -/
def DoOffsetEntry (offset : ℚ) (pExcludedClip : Option ClipId) (p : Project) (tc : TrackClip) :
    Project :=
  match tc.clip with
  | some c => if some c ≠ pExcludedClip then p.offsetClip c offset else p
  | none => p.offsetTrack tc.track offset

/-- The shift-click loop of `DoOffset`:
`for (channel = ...; channel; channel = channel->GetLinked() ? channel->GetLink() : nullptr)`. -/
def offsetChannels (offset : ℚ) : Nat → Project → Option TrackId → Option Project
  | _, p, none => some p
  | 0, _, some _ => none
  | fuel + 1, p, some channel =>
    let q := p.offsetTrack channel offset
    offsetChannels offset fuel q (if (q.tracks channel).mLinked then (q.tracks channel).mLink else none)

/-- The function `DoOffset(state, pTrack, offset, pExcludedClip)`. -/
def DoOffset (fuel : Nat) (state : ClipMoveState) (p : Project) (pTrack : Option TrackId)
    (offset : ℚ) (pExcludedClip : Option ClipId) : Option Project :=
  if state.capturedClipArray ≠ [] then
    some (state.capturedClipArray.foldl (DoOffsetEntry offset pExcludedClip) p)
  else
    match pTrack with
    | some t =>
      offsetChannels offset fuel p
        (some (if (p.tracks t).mLink.isSome ∧ ¬ (p.tracks t).mLinked
               then (p.tracks t).mLink.getD t else t))
    | none => some p

/-! ## DoSlideHorizontal -/

/-- The update of the state after one `CanOffsetClip` query in `DoSlideHorizontal`. -/
def applyAllowed (state : ClipMoveState) (r : Bool × ℚ) : ClipMoveState :=
  if r.1 then
    if state.hSlideAmount ≠ r.2 then
      { state with hSlideAmount := r.2, snapLeft := -1, snapRight := -1 }
    else state
  else
    { state with hSlideAmount := 0, snapLeft := -1, snapRight := -1 }

/-- Body of the `for` loop of `DoSlideHorizontal` for one captured entry: displace the other
captured clips, query `CanOffsetClip`, update the state, and (the `finally`) move the
displaced clips back. -/
def slideEntry (canOffsetClip : CanOffsetClipFn) (fuel : Nat) (safeBigDistance : ℚ)
    (sp : ClipMoveState × Project) (trackClip : TrackClip) : Option (ClipMoveState × Project) :=
  match trackClip.clip with
  | none => some sp
  | some clip =>
    (DoOffset fuel sp.1 sp.2 none (-safeBigDistance) (some clip)).bind fun p1 =>
      let state := applyAllowed sp.1 (canOffsetClip p1 trackClip.track clip sp.1.hSlideAmount)
      (DoOffset fuel state p1 none safeBigDistance (some clip)).map fun p2 => (state, p2)

/-- One pass of the `for` loop of `DoSlideHorizontal` over the captured array. -/
def slidePass (canOffsetClip : CanOffsetClipFn) (fuel : Nat) (safeBigDistance : ℚ) :
    List TrackClip → ClipMoveState × Project → Option (ClipMoveState × Project)
  | [], sp => some sp
  | tc :: rest, sp =>
    (slideEntry canOffsetClip fuel safeBigDistance sp tc).bind
      (slidePass canOffsetClip fuel safeBigDistance rest)

/-- The `do ... while ( state.hSlideAmount != initialAllowed )` loop of `DoSlideHorizontal`;
`fuel` bounds the number of passes. -/
def slideLoop (canOffsetClip : CanOffsetClipFn) (safeBigDistance : ℚ) :
    Nat → ClipMoveState × Project → Option (ClipMoveState × Project)
  | 0, _ => none
  | fuel + 1, sp =>
    (slidePass canOffsetClip (fuel + 1) safeBigDistance sp.1.capturedClipArray sp).bind fun sp1 =>
      if sp1.1.hSlideAmount ≠ sp.1.hSlideAmount then slideLoop canOffsetClip safeBigDistance fuel sp1
      else some sp1

/-- The function `TimeShiftHandle::DoSlideHorizontal(state, trackList, capturedTrack)`. -/
def DoSlideHorizontal (canOffsetClip : CanOffsetClipFn) (fuel : Nat)
    (state : ClipMoveState) (p : Project) (capturedTrack : TrackId) :
    Option (ClipMoveState × Project) :=
  if state.capturedClipArray.length ≠ 0 then
    let safeBigDistance : ℚ := 1000 + 2 * (p.GetEndTime - p.GetStartTime)
    (slideLoop canOffsetClip safeBigDistance fuel (state, p)).bind fun sp =>
      if sp.1.hSlideAmount ≠ 0 then
        (DoOffset fuel sp.1 sp.2 none sp.1.hSlideAmount none).map fun q => (sp.1, q)
      else some sp
  else
    (DoOffset fuel state p (some capturedTrack) state.hSlideAmount none).map fun q => (state, q)

/-! ## FindDesiredSlideAmount -/

/-- The C library `rint`: the nearest integer, a tie going to the even one. -/
def rint (x : ℚ) : ℤ :=
  if x - ⌊x⌋ < 1 / 2 then ⌊x⌋
  else if 1 / 2 < x - ⌊x⌋ then ⌊x⌋ + 1
  else if ⌊x⌋ % 2 = 0 then ⌊x⌋ else ⌊x⌋ + 1

/-- The slide amount of `FindDesiredSlideAmount` before snapping: the pointer displacement
in time, set to a sample point of `track` when that is a wave track. -/
def quantizedSlide (viewInfo : ViewInfo) (p : Project) (m_x : Int) (state : ClipMoveState)
    (track : TrackId) : ℚ :=
  let raw : ℚ := viewInfo.PositionToTime m_x - viewInfo.PositionToTime state.mMouseClickX
  if (p.tracks track).kind = TrackKind.Wave then
    (rint (raw * (p.tracks track).mRate) : ℚ) / (p.tracks track).mRate
  else raw

/-- The start time that `FindDesiredSlideAmount` snaps: that of the captured clip, or of the
captured track when no clip is captured. -/
def capturedStart (p : Project) (state : ClipMoveState) (capturedTrack : TrackId) : ℚ :=
  match state.capturedClip with
  | some c => (p.clips c).GetStartTime
  | none => p.trackStartTime capturedTrack

/-- The end time that `FindDesiredSlideAmount` snaps: that of the captured clip, or of the
captured track when no clip is captured. -/
def capturedEnd (p : Project) (state : ClipMoveState) (capturedTrack : TrackId) : ℚ :=
  match state.capturedClip with
  | some c => (p.clips c).GetEndTime
  | none => p.trackEndTime capturedTrack

/-- The function `FindDesiredSlideAmount`; it returns the desired slide amount and the state,
whose snap positions it assigns.  `xx` is `mRect.x`, `m_x` is `event.m_x`, `track` is the track
under the pointer. -/
def FindDesiredSlideAmount (viewInfo : ViewInfo) (p : Project) (xx : Int) (m_x : Int)
    (pSnapManager : Option SnapManager) (slideUpDownOnly snapPreferRightEdge : Bool)
    (state : ClipMoveState) (capturedTrack track : TrackId) : ℚ × ClipMoveState :=
  if slideUpDownOnly then (0, state)
  else
    let desiredSlideAmount : ℚ := quantizedSlide viewInfo p m_x state track
    match pSnapManager with
    | none => (desiredSlideAmount, state)
    | some snapManager =>
      let clipLeft : ℚ := capturedStart p state capturedTrack + desiredSlideAmount
      let clipRight : ℚ := capturedEnd p state capturedTrack + desiredSlideAmount
      let snappedLeft : ℚ := snapManager capturedTrack clipLeft false
      let snappedRight : ℚ := snapManager capturedTrack clipRight false
      let both : Prop := snappedLeft ≠ clipLeft ∧ snappedRight ≠ clipRight
      let newClipLeft : ℚ := if both ∧ snapPreferRightEdge = true then clipLeft else snappedLeft
      let newClipRight : ℚ :=
        if both ∧ ¬ snapPreferRightEdge = true then clipRight else snappedRight
      let cleared : ClipMoveState := { state with snapLeft := -1, snapRight := -1 }
      if newClipLeft ≠ clipLeft then
        (desiredSlideAmount + (newClipLeft - clipLeft),
          { cleared with snapLeft := viewInfo.TimeToPosition newClipLeft xx })
      else if newClipRight ≠ clipRight then
        (desiredSlideAmount + (newClipRight - clipRight),
          { cleared with snapRight := viewInfo.TimeToPosition newClipRight xx })
      else (desiredSlideAmount, cleared)

/-! ## Audio track rows -/

/-- Track `t` is the right channel of a stereo pair: it has a partner and is not the linked
(left) one. -/
def Project.isRightChannel (p : Project) (t : TrackId) : Bool :=
  (p.tracks t).mLink.isSome && !(p.tracks t).mLinked

/-- Modelled from the spec: `TrackListOfKindIterator(Track::Wave)` stepped with `Next(true)` is
declared outside this file.  It visits, in list order, the wave tracks that are primary (left
or mono) channels, "skipping right-channel partners". -/
def Project.audioTracks (p : Project) : List TrackId :=
  p.trackList.filter fun t =>
    decide ((p.tracks t).kind = TrackKind.Wave) && !p.isRightChannel t

/-- The function `NthAudioTrack(list, nn)`. -/
def NthAudioTrack (p : Project) (nn : Int) : Option TrackId :=
  if 0 ≤ nn then p.audioTracks.get? nn.toNat else none

/-- The loop of `TrackPosition`: the index, counted from `nn`, of the first visited track that
is `pFindTrack` or its partner, and -1 when there is none. -/
def trackPositionFrom (pFindTrack : TrackId) (partner : Option TrackId) :
    List TrackId → Int → Int
  | [], _ => -1
  | pTrack :: rest, nn =>
    if pTrack = pFindTrack ∨ some pTrack = partner then nn
    else trackPositionFrom pFindTrack partner rest (nn + 1)

/-- The function `TrackPosition(list, pFindTrack)`. -/
def TrackPosition (p : Project) (pFindTrack : TrackId) : Int :=
  trackPositionFrom pFindTrack (p.tracks pFindTrack).mLink p.audioTracks 0

/-! ## TemporaryClipRemover -/

/-- Modelled from the spec: `removeClip(track, clip) -> ownedClip`, the body of
`WaveTrack::RemoveAndReturnClip`.  The clip leaves the track's clip list and is handed to the
caller; the holder is empty when the track does not hold the clip. -/
def RemoveAndReturnClip (p : Project) (t : TrackId) (c : ClipId) : Project × Option ClipId :=
  if c ∈ (p.tracks t).mClips then
    let without : Track := { p.tracks t with mClips := (p.tracks t).mClips.erase c }
    ({ p with tracks := Function.update p.tracks t without }, some c)
  else (p, none)

/-- Modelled from the spec: `addClip(track, ownedClip)`, the body of `WaveTrack::AddClip`: the
clip is appended to the track's clip list. -/
def AddClip (p : Project) (t : TrackId) (c : ClipId) : Project :=
  let extended : Track := { p.tracks t with mClips := (p.tracks t).mClips ++ [c] }
  { p with tracks := Function.update p.tracks t extended }

/-- The constructor of `TemporaryClipRemover`: pluck the moving clips out of their tracks. -/
def TemporaryClipRemover.ctor : List TrackClip → Project → List TrackClip × Project
  | [], p => ([], p)
  | trackClip :: rest, p =>
    match trackClip.clip with
    | some pSrcClip =>
      let r := RemoveAndReturnClip p trackClip.track pSrcClip
      let done := TemporaryClipRemover.ctor rest r.1
      ({ trackClip with holder := r.2 } :: done.1, done.2)
    | none =>
      let done := TemporaryClipRemover.ctor rest p
      (trackClip :: done.1, done.2)

/-- The method `TemporaryClipRemover::Fail`: every entry's destination becomes its track. -/
def TemporaryClipRemover.Fail (arr : List TrackClip) : List TrackClip :=
  arr.map fun trackClip => { trackClip with dstTrack := some trackClip.track }

/-- The destructor of `TemporaryClipRemover`: put each moving clip into its destination track,
which becomes the entry's track.  There is no result when a destination or a holder is null. -/
def TemporaryClipRemover.dtor : List TrackClip → Project → Option (List TrackClip × Project)
  | [], p => some ([], p)
  | trackClip :: rest, p =>
    match trackClip.clip with
    | some _ =>
      match trackClip.dstTrack, trackClip.holder with
      | some dstTrack, some held =>
        (TemporaryClipRemover.dtor rest (AddClip p dstTrack held)).map fun done =>
          ({ trackClip with holder := none, track := dstTrack } :: done.1, done.2)
      | _, _ => none
    | none =>
      (TemporaryClipRemover.dtor rest p).map fun done => (trackClip :: done.1, done.2)

/-! ## Drag -/

/-- The refresh directive returned by a handler: a set of `RefreshCode` bits. -/
structure Result where
  refreshAll : Bool
  cancelled : Bool
  fixScrollbars : Bool
deriving DecidableEq, Repr

/-- The directive `RefreshNone`. -/
def RefreshNone : Result := ⟨false, false, false⟩

/-- The directive `RefreshAll`. -/
def RefreshAll : Result := ⟨true, false, false⟩

/-- The directive `RefreshAll | Cancelled`. -/
def RefreshAllCancelled : Result := ⟨true, true, false⟩

/-- What `Drag` reads of its `TrackPanelMouseEvent`: `event.m_x` and the track that
`evt.pCell` is, if it is one. -/
structure TrackPanelMouseEvent where
  m_x : Int
  pCell : Option TrackId

/-- The fields of the `TimeShiftHandle` object. -/
structure TimeShiftHandle where
  mCapturedTrack : TrackId
  mRectX : Int
  mRectWidth : Int
  mDidSlideVertically : Bool
  mSlideUpDownOnly : Bool
  mSnapPreferRightEdge : Bool
  mSnapManager : Option SnapManager
  mClipMoveState : ClipMoveState

/-- How the vertical part of a `Drag` call ended: not entered, left at the destination test
(`return RefreshAll` in the destination loop), left after a failed `CanInsertClip` test, or
accepted.  This is a record of the path taken and feeds back into nothing. -/
inductive VerticalOutcome where
  | NotAttempted
  | RejectedDestination
  | RejectedInsert
  | Accepted
deriving DecidableEq, Repr

/-- Result of a `Drag` call: the directive, the handle and the project after the call, and the
path taken by the vertical part. -/
structure DragResult where
  result : Result
  handle : TimeShiftHandle
  project : Project
  vertical : VerticalOutcome

/-- Modelled from the spec: `viewInfo.selectedRegion.move(delta)` is defined outside this file;
it moves "the selection's time bounds by the same delta". -/
def Project.moveSelection (p : Project) (delta : ℚ) : Project :=
  { p with selT0 := p.selT0 + delta, selT1 := p.selT1 + delta }

/-- The method `TimeShiftHandle::Cancel`: `pProject->RollbackState()`. -/
def Cancel (p : Project) : Result × Project :=
  (RefreshAll, { p with undoCalls := p.undoCalls ++ [UndoCall.Rollback] })

/-- The destination of a clip of `pSrcTrack` in the destination loop of `Drag`: the audio
track `diff` rows away, or its partner when the source is a right channel. -/
def resolveDestination (p : Project) (diff : Int) (pSrcTrack : TrackId) : Option TrackId :=
  let nth := NthAudioTrack p (diff + TrackPosition p pSrcTrack)
  let stereo : Bool := (p.tracks pSrcTrack).mLink.isSome
  if nth.isSome ∧ stereo = true ∧ ¬ (p.tracks pSrcTrack).mLinked = true then
    nth.bind fun d => (p.tracks d).mLink
  else nth

/-- The test `ok` of the destination loop of `Drag`: "can only move mono to mono, or left to
left, or right to right". -/
def destinationOk (p : Project) (pSrcTrack : TrackId) (pDstTrack : Option TrackId) : Bool :=
  let stereo : Bool := (p.tracks pSrcTrack).mLink.isSome
  match pDstTrack with
  | none => false
  | some d =>
    (stereo == (p.tracks d).mLink.isSome) &&
      (!stereo || ((p.tracks pSrcTrack).mLinked == (p.tracks d).mLinked))

/-- The destination loop of `Drag`: each clip entry gets the destination `diff` audio rows
away, when that track exists and is channel-compatible; the loop stops at the first entry for
which it does not (`false`), leaving the later entries untouched. -/
def assignDestinations (p : Project) (diff : Int) : List TrackClip → List TrackClip × Bool
  | [] => ([], true)
  | trackClip :: rest =>
    match trackClip.clip with
    | none =>
      let done := assignDestinations p diff rest
      (trackClip :: done.1, done.2)
    | some _ =>
      let pDstTrack := resolveDestination p diff trackClip.track
      if destinationOk p trackClip.track pDstTrack = true then
        let done := assignDestinations p diff rest
        ({ trackClip with dstTrack := pDstTrack } :: done.1, done.2)
      else (trackClip :: rest, false)

/-- The two `CanInsertClip` loops of `Drag` that stop at the first failure:
`ok = dstTrack->CanInsertClip(clip, desiredSlideAmount, tolerance); if (!ok) break;`.
The result is (`ok`, `desiredSlideAmount`, `tolerance`). -/
def checkInsert (canInsertClip : CanInsertClipFn) (p : Project) :
    List TrackClip → ℚ → ℚ → Option (Bool × ℚ × ℚ)
  | [], desiredSlideAmount, tolerance => some (true, desiredSlideAmount, tolerance)
  | trackClip :: rest, desiredSlideAmount, tolerance =>
    match trackClip.clip with
    | none => checkInsert canInsertClip p rest desiredSlideAmount tolerance
    | some pSrcClip =>
      match trackClip.dstTrack with
      | none => none
      | some dstTrack =>
        let r := canInsertClip p dstTrack pSrcClip desiredSlideAmount tolerance
        if r.1 then checkInsert canInsertClip p rest r.2.1 r.2.2
        else some (false, r.2.1, r.2.2)

/-- The loop of the failure branch of `Drag`:
`trackClip.dstTrack = trackClip.track; ok = ok && dstTrack->CanInsertClip(...)`. -/
def checkRestore (canInsertClip : CanInsertClipFn) (p : Project) :
    List TrackClip → Bool → ℚ → ℚ → List TrackClip × Bool × ℚ × ℚ
  | [], ok, desiredSlideAmount, tolerance => ([], ok, desiredSlideAmount, tolerance)
  | trackClip :: rest, ok, desiredSlideAmount, tolerance =>
    match trackClip.clip with
    | none =>
      let done := checkRestore canInsertClip p rest ok desiredSlideAmount tolerance
      (trackClip :: done.1, done.2)
    | some pSrcClip =>
      let back : TrackClip := { trackClip with dstTrack := some trackClip.track }
      if ok then
        let r := canInsertClip p trackClip.track pSrcClip desiredSlideAmount tolerance
        let done := checkRestore canInsertClip p rest r.1 r.2.1 r.2.2
        (back :: done.1, done.2)
      else
        let done := checkRestore canInsertClip p rest false desiredSlideAmount tolerance
        (back :: done.1, done.2)

/-- The loop `if (ok) trackClip.holder->Offset(slide)` of the failure branch of `Drag`.  There
is no result when a holder is null. -/
def offsetHolders (ok : Bool) (slide : ℚ) : List TrackClip → Project → Option Project
  | [], p => some p
  | trackClip :: rest, p =>
    match trackClip.clip with
    | none => offsetHolders ok slide rest p
    | some _ =>
      if ok then
        match trackClip.holder with
        | some held => offsetHolders ok slide rest (p.offsetClip held slide)
        | none => none
      else offsetHolders ok slide rest p

/-- The end of `Drag`, from `if (desiredSlideAmount == 0.0)` on. -/
def DragHorizontal (canOffsetClip : CanOffsetClipFn) (fuel : Nat) (desiredSlideAmount : ℚ)
    (slidVertically : Bool) (vertical : VerticalOutcome) (h : TimeShiftHandle) (p : Project) :
    Option DragResult :=
  if desiredSlideAmount = 0 then some ⟨RefreshAll, h, p, vertical⟩
  else
    (DoSlideHorizontal canOffsetClip fuel
        { h.mClipMoveState with hSlideAmount := desiredSlideAmount } p h.mCapturedTrack).bind
      fun sp =>
        let moved : Project :=
          if sp.1.capturedClipIsSelection = true then sp.2.moveSelection sp.1.hSlideAmount
          else sp.2
        let state : ClipMoveState :=
          if slidVertically = true then { sp.1 with hSlideAmount := 0 } else sp.1
        some ⟨RefreshAll, { h with mClipMoveState := state }, moved, vertical⟩

/-- The block of `Drag` entered when the pointer is over a wave track that is not the captured
track: resolve the destinations, pluck the clips, test the insertion, and either roll back and
return, or accept and go on to the horizontal slide. -/
def DragVertical (canOffsetClip : CanOffsetClipFn) (canInsertClip : CanInsertClipFn)
    (viewInfo : ViewInfo) (fuel : Nat) (evt : TrackPanelMouseEvent) (pTrack : TrackId)
    (desiredSlideAmount : ℚ) (h : TimeShiftHandle) (p : Project) : Option DragResult :=
  let diff : Int := TrackPosition p pTrack - TrackPosition p h.mCapturedTrack
  let resolved := assignDestinations p diff h.mClipMoveState.capturedClipArray
  if resolved.2 = false then
    some ⟨RefreshAll,
      { h with mClipMoveState := { h.mClipMoveState with capturedClipArray := resolved.1 } },
      p, VerticalOutcome.RejectedDestination⟩
  else
    let removed := TemporaryClipRemover.ctor resolved.1 p
    let slide : ℚ := desiredSlideAmount
    let tolerance : ℚ := viewInfo.PositionToTime (evt.m_x + 1) - viewInfo.PositionToTime evt.m_x
    (checkInsert canInsertClip removed.2 removed.1 desiredSlideAmount tolerance).bind fun first =>
      (if first.1 then checkInsert canInsertClip removed.2 removed.1 first.2.1 0
        else some first).bind fun second =>
        if second.1 = false then
          let restored := checkRestore canInsertClip removed.2
            (TemporaryClipRemover.Fail removed.1) true slide 0
          let ok : Bool := restored.2.1
          (offsetHolders ok slide restored.1 removed.2).bind fun shifted =>
            let state : ClipMoveState :=
              if ok then
                { h.mClipMoveState with mMouseClickX := evt.m_x, hSlideAmount := 0 }
              else h.mClipMoveState
            let moved : Project :=
              if ok = true ∧ h.mClipMoveState.capturedClipIsSelection = true then
                shifted.moveSelection slide
              else shifted
            (TemporaryClipRemover.dtor restored.1 moved).map fun put =>
              ⟨RefreshAll,
                { h with mClipMoveState := { state with capturedClipArray := put.1 } },
                put.2, VerticalOutcome.RejectedInsert⟩
        else
          (TemporaryClipRemover.dtor removed.1 removed.2).bind fun put =>
            DragHorizontal canOffsetClip fuel second.2.1 true VerticalOutcome.Accepted
              { h with
                mCapturedTrack := pTrack
                mDidSlideVertically := true
                mClipMoveState :=
                  { h.mClipMoveState with mMouseClickX := evt.m_x, capturedClipArray := put.1 } }
              put.2

/-- The method `TimeShiftHandle::Drag`.  `audioActive` is `pProject->IsAudioActive()`. -/
def Drag (canOffsetClip : CanOffsetClipFn) (canInsertClip : CanInsertClipFn)
    (viewInfo : ViewInfo) (fuel : Nat) (audioActive : Bool) (evt : TrackPanelMouseEvent)
    (h : TimeShiftHandle) (p : Project) : Option DragResult :=
  if audioActive then
    some ⟨RefreshAllCancelled, h, (Cancel p).2, VerticalOutcome.NotAttempted⟩
  else
    let track : Option TrackId :=
      match evt.pCell with
      | some t => some t
      | none =>
        if h.mRectX ≤ evt.m_x ∧ evt.m_x < h.mRectX + h.mRectWidth then some h.mCapturedTrack
        else none
    match track with
    | none => some ⟨RefreshNone, h, p, VerticalOutcome.NotAttempted⟩
    | some pTrack =>
      (DoOffset fuel h.mClipMoveState p (some h.mCapturedTrack)
          (-h.mClipMoveState.hSlideAmount) none).bind fun undone =>
        let p1 : Project :=
          if h.mClipMoveState.capturedClipIsSelection = true then
            undone.moveSelection (-h.mClipMoveState.hSlideAmount)
          else undone
        let found := FindDesiredSlideAmount viewInfo p1 h.mRectX evt.m_x h.mSnapManager
          h.mSlideUpDownOnly h.mSnapPreferRightEdge
          { h.mClipMoveState with hSlideAmount := 0 } h.mCapturedTrack pTrack
        let h1 : TimeShiftHandle := { h with mClipMoveState := found.2 }
        if found.2.capturedClip.isSome ∧ pTrack ≠ h.mCapturedTrack ∧
            (p1.tracks pTrack).kind = TrackKind.Wave then
          DragVertical canOffsetClip canInsertClip viewInfo fuel evt pTrack found.1 h1 p1
        else
          DragHorizontal canOffsetClip fuel found.1 false VerticalOutcome.NotAttempted h1 p1

/-! ## Release -/

/-- Modelled from the spec: `resample(clip, newRate)`, the body of `WaveClip::Resample`, is
declared outside this file.  The clip takes the new sample rate and keeps its place in time. -/
def WaveClip.Resample (c : WaveClip) (rate : ℚ) : WaveClip :=
  { c with mRate := rate }

/-- Modelled from the spec: the `%.02f` conversion of `wxString::Printf` is the C library's.  It
writes a number that is not negative "to two decimals": the nearest hundredth, as the units, a
point and two digits. -/
def formatTwoDecimals (x : ℚ) : String :=
  let n : Nat := (rint (x * 100)).toNat
  toString (n / 100) ++ "." ++ (if n % 100 < 10 then "0" else "") ++ toString (n % 100)

/-- The message that `Release` builds for a horizontal shift:
`msg.Printf(hSlideAmount > 0 ? right : left, fabs(hSlideAmount))`. -/
def shiftMessage (hSlideAmount : ℚ) : String :=
  (if 0 < hSlideAmount then "Time shifted tracks/clips right "
    else "Time shifted tracks/clips left ") ++ formatTwoDecimals |hSlideAmount| ++ " seconds"

/-- Result of a `Release` call: the directive, the handle and the project after the call, and
the calls `pWaveClip->Resample(rate)` made, in order.  The list of calls is a record and feeds
back into nothing. -/
structure ReleaseResult where
  result : Result
  handle : TimeShiftHandle
  project : Project
  resampled : List (ClipId × ℚ)

/-- One turn of the loop of `Release` over the captured clip array: a clip whose entry has
changed track is resampled to the rate of the entry's track.  (`MarkChanged` only invalidates
a display cache and is not modelled.) -/
def resampleEntry (acc : Project × List (ClipId × ℚ)) (trackClip : TrackClip) :
    Project × List (ClipId × ℚ) :=
  match trackClip.clip with
  | some pWaveClip =>
    if trackClip.track ≠ trackClip.origTrack then
      let rate : ℚ := (acc.1.tracks trackClip.track).mRate
      let resampled : WaveClip := (acc.1.clips pWaveClip).Resample rate
      ({ acc.1 with clips := Function.update acc.1.clips pWaveClip resampled },
        acc.2 ++ [(pWaveClip, rate)])
    else acc
  | none => acc

/-- The method `TimeShiftHandle::Release`.  `audioActive` is `pProject->IsAudioActive()`. -/
def Release (audioActive : Bool) (h : TimeShiftHandle) (p : Project) : ReleaseResult :=
  if audioActive then ⟨(Cancel p).1, h, (Cancel p).2, []⟩
  else
    let snapped : Bool :=
      decide (h.mClipMoveState.snapLeft ≠ -1 ∨ h.mClipMoveState.snapRight ≠ -1)
    let state : ClipMoveState :=
      if snapped then { h.mClipMoveState with snapLeft := -1, snapRight := -1 }
      else h.mClipMoveState
    let result : Result := if snapped then RefreshAll else RefreshNone
    let h1 : TimeShiftHandle := { h with mClipMoveState := state }
    if h.mDidSlideVertically = false ∧ state.hSlideAmount = 0 then ⟨result, h1, p, []⟩
    else
      let done := state.capturedClipArray.foldl resampleEntry (p, [])
      let msg : String :=
        if h.mDidSlideVertically then "Moved clips to another track"
        else shiftMessage state.hSlideAmount
      let consolidate : Bool := !h.mDidSlideVertically
      let pushed : Project :=
        { done.1 with
          undoCalls := done.1.undoCalls ++ [UndoCall.Push msg "Time-Shift" consolidate] }
      ⟨{ result with fixScrollbars := true }, h1, pushed, done.2⟩

/-! ## Capturing clips -/

/-- Modelled from the spec: `WaveClip::AfterClip(t)` is declared outside this file.  The time
`t` lies after the clip: at its end or later. -/
def WaveClip.AfterClip (c : WaveClip) (t : ℚ) : Bool := decide (c.GetEndTime ≤ t)

/-- Modelled from the spec: `WaveClip::BeforeClip(t)` is declared outside this file.  The time
`t` lies before the clip: at its start or earlier. -/
def WaveClip.BeforeClip (c : WaveClip) (t : ℚ) : Bool := decide (t ≤ c.GetStartTime)

/-- The loop of `AddClipsToCaptured` over the clips of the wave track `t`: a clip that is
neither after `t0` nor before `t1`, and that no entry holds yet, gets a new entry at the end
of the array. -/
def addWaveClips (p : Project) (t : TrackId) (t0 t1 : ℚ) :
    List ClipId → List TrackClip → List TrackClip
  | [], clips => clips
  | clip :: rest, clips =>
    if (!(p.clips clip).AfterClip t0 && !(p.clips clip).BeforeClip t1 &&
        !clips.any fun c => decide (c.clip = some clip)) = true then
      addWaveClips p t t0 t1 rest (clips ++ [TrackClip.new t (some clip)])
    else addWaveClips p t t0 t1 rest clips

/-- The function `AddClipsToCaptured(state, t, t0, t1)`.  `useMidi` tells whether the build
defines `USE_MIDI`. -/
def AddClipsToCaptured (useMidi : Bool) (state : ClipMoveState) (p : Project) (t : TrackId)
    (t0 t1 : ℚ) : ClipMoveState :=
  if (p.tracks t).kind = TrackKind.Wave then
    { state with
      capturedClipArray := addWaveClips p t t0 t1 (p.tracks t).mClips state.capturedClipArray }
  else if (state.capturedClipArray.any fun c => decide (c.track = t)) = true then
    { state with trackExclusions := state.trackExclusions ++ [t] }
  else if useMidi = true ∧ (p.tracks t).kind = TrackKind.Note ∧
      (p.trackEndTime t < t0 ∨ t1 < p.trackStartTime t) then state
  else
    { state with
      capturedClipArray := state.capturedClipArray ++ [TrackClip.new t none]
      trackExclusions := state.trackExclusions ++ [t] }

/-- The function `AddClipsToCaptured(state, viewInfo, t, withinSelection)`. -/
def AddClipsToCapturedWithin (useMidi : Bool) (state : ClipMoveState) (p : Project)
    (t : TrackId) (withinSelection : Bool) : ClipMoveState :=
  if withinSelection then AddClipsToCaptured useMidi state p t p.selT0 p.selT1
  else AddClipsToCaptured useMidi state p t (p.trackStartTime t) (p.trackEndTime t)

/-- The conversion `(sampleCount)(x)` of a `double`: the fraction is dropped. -/
def toSampleCount (x : ℚ) : ℤ := if 0 ≤ x then ⌊x⌋ else ⌈x⌉

/-- Modelled from the spec: `WaveTrack::GetClipAtSample` is declared outside this file.  It
returns the first clip of the track that holds the sample, a clip holding the samples from
that of its start time up to, and without, that of its end time. -/
def GetClipAtSample (p : Project) (t : TrackId) (sample : ℤ) : Option ClipId :=
  (p.tracks t).mClips.find? fun c =>
    decide (⌊(p.clips c).GetStartTime * (p.clips c).mRate + 1 / 2⌋ ≤ sample ∧
      sample < ⌊(p.clips c).GetEndTime * (p.clips c).mRate + 1 / 2⌋)

/-- The function `FindClipAtTime(pTrack, time)`. -/
def FindClipAtTime (p : Project) (pTrack : Option TrackId) (time : ℚ) : Option ClipId :=
  match pTrack with
  | some t =>
    let s0 : ℤ := toSampleCount (time * (p.tracks t).mRate + 1 / 2)
    if 0 ≤ s0 then GetClipAtSample p t s0 else none
  | none => none

/-- The tracks that a `SyncLockedTracksIterator` visits from `StartWith(track)` on, taken as
given: the sync-lock group of the track, in the order visited. -/
abbrev SyncLockGroup := TrackId → List TrackId

/-- The body of the sync-lock loop of `CreateListOfCapturedClips` for the entry `trackClip`:
the clips of the group that overlap the span of its clip and, in a build with `USE_MIDI`, the
clips of the group that overlap the span of its note track. -/
def expandEntry (useMidi : Bool) (group : SyncLockGroup) (p : Project) (state : ClipMoveState)
    (trackClip : TrackClip) : ClipMoveState :=
  let first : ClipMoveState :=
    match trackClip.clip with
    | some clip =>
      (group trackClip.track).foldl
        (fun s t => AddClipsToCaptured useMidi s p t (p.clips clip).GetStartTime
          (p.clips clip).GetEndTime) state
    | none => state
  if useMidi = true ∧ (p.tracks trackClip.track).kind = TrackKind.Note then
    (group trackClip.track).foldl
      (fun s t => AddClipsToCaptured useMidi s p t (p.trackStartTime trackClip.track)
        (p.trackEndTime trackClip.track)) first
  else first

/-- The sync-lock loop of `CreateListOfCapturedClips`,
`for (i = 0; i < state.capturedClipArray.size(); ++i)`, from index `i` on.  The array grows
while the loop runs; `fuel` bounds the number of tests of the loop condition. -/
def syncLockLoop (useMidi : Bool) (group : SyncLockGroup) (p : Project) :
    Nat → Nat → ClipMoveState → Option ClipMoveState
  | 0, _, _ => none
  | fuel + 1, i, state =>
    match state.capturedClipArray.get? i with
    | none => some state
    | some trackClip =>
      syncLockLoop useMidi group p fuel (i + 1) (expandEntry useMidi group p state trackClip)

/-- The first part of `CreateListOfCapturedClips`: the array is cleared; a click in the
selection captures the selected tracks within the selected region, another click captures
the clicked clip and the clip of the stereo partner at the click time. -/
def captureClicked (useMidi : Bool) (state : ClipMoveState) (p : Project)
    (capturedTrack : TrackId) (clickTime : ℚ) : ClipMoveState :=
  let cleared : ClipMoveState := { state with capturedClipArray := [] }
  if cleared.capturedClipIsSelection = true then
    p.trackList.foldl
      (fun s t =>
        if (p.tracks t).mSelected = true then AddClipsToCapturedWithin useMidi s p t true else s)
      cleared
  else
    let own : List TrackClip := [TrackClip.new capturedTrack cleared.capturedClip]
    match cleared.capturedClip, (p.tracks capturedTrack).mLink with
    | some _, some partner =>
      match FindClipAtTime p (some partner) clickTime with
      | some clip =>
        { cleared with capturedClipArray := own ++ [TrackClip.new partner (some clip)] }
      | none => { cleared with capturedClipArray := own }
    | _, _ => { cleared with capturedClipArray := own }

/-- The method `TimeShiftHandle::CreateListOfCapturedClips`. -/
def CreateListOfCapturedClips (useMidi : Bool) (group : SyncLockGroup) (fuel : Nat)
    (state : ClipMoveState) (p : Project) (capturedTrack : TrackId) (syncLocked : Bool)
    (clickTime : ℚ) : Option ClipMoveState :=
  let first : ClipMoveState := captureClicked useMidi state p capturedTrack clickTime
  if syncLocked then syncLockLoop useMidi group p fuel 0 first else some first

/-! ## The overlap oracle of the spec -/

/-- The clip `c`, moved by `d`, overlaps no other clip of track `t`. -/
def clipFreeAt (p : Project) (t : TrackId) (c : ClipId) (d : ℚ) : Bool :=
  (p.tracks t).mClips.all fun o =>
    decide (o = c ∨ ¬ ((p.clips c).Offset d).Overlaps (p.clips o))

/-- The amount `d` goes in the direction of `amount` and is no larger in magnitude. -/
def withinRequest (amount d : ℚ) : Prop :=
  if 0 ≤ amount then 0 ≤ d ∧ d ≤ amount else amount ≤ d ∧ d ≤ 0

instance (amount d : ℚ) : Decidable (withinRequest amount d) := by
  unfold withinRequest; infer_instance

/-- The amounts at which `CanOffsetClip` may settle: the requested amount, the amounts that
bring the clip edge to edge with another clip of the track, and zero. -/
def offsetCandidates (p : Project) (t : TrackId) (c : ClipId) (amount : ℚ) : List ℚ :=
  amount ::
    (((p.tracks t).mClips.filter fun o => decide (o ≠ c)).map fun o =>
      if 0 ≤ amount then (p.clips o).GetStartTime - (p.clips c).GetEndTime
      else (p.clips o).GetEndTime - (p.clips c).GetStartTime) ++ [0]

/-- The amount of largest magnitude in a non-empty list. -/
def largestMagnitude (d : ℚ) (ds : List ℚ) : ℚ :=
  ds.foldl (fun best e => if |best| < |e| then e else best) d

/-- Modelled from the spec: `WaveTrack::CanOffsetClip` is defined outside this file.  The spec
gives `canOffsetClip(clip, delta) -> allowedDelta` as "the largest delta ≤ current candidate
that this clip can move without overlapping" the other clips of its track, and lets it report
"cannot move at all".  The allowed amount is the largest one, in the direction of the request
and no larger than it, at which the clip overlaps no other clip of the track; the call reports
failure when there is no such amount. -/
def CanOffsetClip : CanOffsetClipFn := fun p t c amount =>
  match (offsetCandidates p t c amount).filter
      fun d => decide (withinRequest amount d) && clipFreeAt p t c d with
  | [] => (false, 0)
  | d :: ds => (true, largestMagnitude d ds)

/-! ## Properties of the oracle used by the claims -/

/-- The oracle property of C1: an allowed amount is one at which the queried clip overlaps no
other clip of its track. -/
def OracleSound (f : CanOffsetClipFn) : Prop :=
  ∀ p t c amount, (f p t c amount).1 = true →
    ∀ o ∈ (p.tracks t).mClips, o ≠ c →
      ¬ ((p.clips c).Offset (f p t c amount).2).Overlaps (p.clips o)

/-- The oracle property of C2: an allowed amount is zero or has the sign of the request, and
is no larger in magnitude. -/
def OracleShrinks (f : CanOffsetClipFn) : Prop :=
  ∀ p t c amount, (f p t c amount).1 = true →
    ((f p t c amount).2 = 0 ∨ (0 < amount ∧ 0 < (f p t c amount).2) ∨
      (amount < 0 ∧ (f p t c amount).2 < 0)) ∧ |(f p t c amount).2| ≤ |amount|

/-- The resolved amount `h` is zero or has the sign of the request `D`, and is no larger in
magnitude. -/
def SlideBounded (D h : ℚ) : Prop :=
  (h = 0 ∨ (0 < D ∧ 0 < h) ∨ (D < 0 ∧ h < 0)) ∧ |h| ≤ |D|

/-- No two clips of a track overlap in time. -/
def NoOverlap (p : Project) : Prop :=
  ∀ t, ∀ c ∈ (p.tracks t).mClips, ∀ o ∈ (p.tracks t).mClips, o ≠ c →
    ¬ (p.clips c).Overlaps (p.clips o)

/-- The capture set is one that `CreateListOfCapturedClips` builds: a clip entry names a clip
of its track, a whole-track entry (no clip) names a track that is not a wave track, and no
clip is captured twice. -/
def CaptureWellFormed (p : Project) (arr : List TrackClip) : Prop :=
  (∀ tc ∈ arr, ∀ c, tc.clip = some c → c ∈ (p.tracks tc.track).mClips) ∧
  (∀ tc ∈ arr, tc.clip = none → (p.tracks tc.track).kind ≠ TrackKind.Wave) ∧
  (arr.filterMap fun tc => tc.clip).Nodup

/-- The clip `c` is captured (moving): some entry of the capture set holds it. -/
def Captured (arr : List TrackClip) (c : ClipId) : Prop :=
  ∃ tc ∈ arr, tc.clip = some c

instance (arr : List TrackClip) (c : ClipId) : Decidable (Captured arr c) := by
  unfold Captured; infer_instance

/-- The project `q` has every clip where `p` has it, and every track of `q` has the kind and
the clips it has in `p`. -/
def SamePlacement (p q : Project) : Prop :=
  q.clips = p.clips ∧
    ∀ t, (q.tracks t).mClips = (p.tracks t).mClips ∧ (q.tracks t).kind = (p.tracks t).kind

/-- The captured clip of entry `tc`, moved by `h` from its place in `p`, overlaps no
stationary clip of the entry's track. -/
def ClearAt (p : Project) (arr : List TrackClip) (tc : TrackClip) (h : ℚ) : Prop :=
  ∀ c, tc.clip = some c → ∀ o ∈ (p.tracks tc.track).mClips, ¬ Captured arr o →
    ¬ ((p.clips c).Offset h).Overlaps (p.clips o)

/-- The project `q` has the track list of `p`, and every track of `q` has the kind, the stereo
link and the clips it has in `p`: nothing but times differs. -/
def SameStructure (p q : Project) : Prop :=
  q.trackList = p.trackList ∧
    ∀ t, (q.tracks t).kind = (p.tracks t).kind ∧ (q.tracks t).mLinked = (p.tracks t).mLinked ∧
      (q.tracks t).mLink = (p.tracks t).mLink ∧ (q.tracks t).mClips = (p.tracks t).mClips

/-- The number of entries that hold clip `c`, plucked out of track `t`. -/
def heldFrom (arr : List TrackClip) (t : TrackId) (c : ClipId) : Nat :=
  arr.countP fun e => decide (e.clip ≠ none ∧ e.track = t ∧ e.holder = some c)

/-- The number of entries that hold clip `c`, bound for the destination track `t`. -/
def heldFor (arr : List TrackClip) (t : TrackId) (c : ClipId) : Nat :=
  arr.countP fun e => decide (e.clip ≠ none ∧ e.dstTrack = some t ∧ e.holder = some c)

/-- The entries `e` and `e2` differ at most in their holder, and not at all when they hold no
clip. -/
def SameButHolder (e e2 : TrackClip) : Prop :=
  e2.track = e.track ∧ e2.origTrack = e.origTrack ∧ e2.dstTrack = e.dstTrack ∧
    e2.clip = e.clip ∧ (e.clip = none → e2.holder = e.holder)

/-- The entries `e` and `e2` differ at most in their destination. -/
def SameButDestination (e e2 : TrackClip) : Prop :=
  e2.track = e.track ∧ e2.origTrack = e.origTrack ∧ e2.holder = e.holder ∧ e2.clip = e.clip

/-- What the destructor of `TemporaryClipRemover` makes of an entry: a clip entry has its
destination as track and an empty holder, a whole-track entry is as it was. -/
def PutBack (e e2 : TrackClip) : Prop :=
  e2.clip = e.clip ∧ e2.origTrack = e.origTrack ∧ e2.dstTrack = e.dstTrack ∧
    (e.clip = none → e2.track = e.track ∧ e2.holder = e.holder) ∧
    (e.clip ≠ none → some e2.track = e.dstTrack ∧ e2.holder = none ∧ e.holder ≠ none)

/-- The destination `D` is channel-compatible with the source `S`: `S` is mono exactly when `D`
is mono, and when `S` is a channel of a stereo pair, `D` has the same left/right role. -/
def ChannelCompatible (p : Project) (S D : TrackId) : Prop :=
  (p.tracks S).mLink.isSome = (p.tracks D).mLink.isSome ∧
    ((p.tracks S).mLink.isSome = true → (p.tracks S).mLinked = (p.tracks D).mLinked)

/-- The track `D` is the destination of source `S` at audio row `row`: the row holds a track,
and `D` is that track, or its partner when `S` is a right channel. -/
def DestinationAt (p : Project) (row : Int) (S D : TrackId) : Prop :=
  ∃ D0, NthAudioTrack p row = some D0 ∧
    if p.isRightChannel S = true then (p.tracks D0).mLink = some D else D = D0

/-- The entry `e2` is the entry `e` with a resolved destination: nothing but the destination
differs, and a clip entry has a destination `diff` rows from its track, channel-compatible
with it. -/
def Resolved (p : Project) (diff : Int) (e e2 : TrackClip) : Prop :=
  SameButDestination e e2 ∧
    (e.clip ≠ none → ∃ D, e2.dstTrack = some D ∧
      DestinationAt p (diff + TrackPosition p e.track) e.track D ∧
      ChannelCompatible p e.track D)

/-- The entry `e2` is the entry `e` sent back: nothing but the destination differs, and the
destination is the entry's own track. -/
def SentBack (e e2 : TrackClip) : Prop :=
  SameButDestination e e2 ∧ e2.dstTrack = some e.track

/-- The entry `e2` is the entry `e` left in its track: same track, same original track, same
clip, and no clip held that was not held before. -/
def LeftInTrack (e e2 : TrackClip) : Prop :=
  e2.track = e.track ∧ e2.origTrack = e.origTrack ∧ e2.clip = e.clip ∧
    (e.holder = none → e2.holder = none)

/-- Every captured clip belongs to exactly one track, the track of its entry, and is listed
there once. -/
def ClipsOwned (p : Project) (arr : List TrackClip) : Prop :=
  ∀ tc ∈ arr, ∀ c, tc.clip = some c →
    ∀ t, (p.tracks t).mClips.count c = if t = tc.track then 1 else 0

/-- What an accepted vertical move makes of the entry `e`: the entry `e2` has the same clip and
original track, and for a clip entry its track is the destination `diff` audio rows from the
old track, channel-compatible with it, and the one track of `q` that holds the clip. -/
def MovedTo (p q : Project) (diff : Int) (e e2 : TrackClip) : Prop :=
  e2.clip = e.clip ∧ e2.origTrack = e.origTrack ∧
    ∀ c, e.clip = some c →
      e2.holder = none ∧
      DestinationAt p (diff + TrackPosition p e.track) e.track e2.track ∧
      ChannelCompatible p e.track e2.track ∧
      (∀ t, (q.tracks t).mClips.count c = if t = e2.track then 1 else 0) ∧
      (e2.track ≠ e.track → c ∉ (q.tracks e.track).mClips)

/-- An insertion test that accepts a clip on track 0 only. -/
def insertOnlyHome : CanInsertClipFn :=
  fun _ t _ slideBy tolerance => (decide (t = 0), slideBy, tolerance)

/-- The stereo links of the track list are well formed: no track is listed twice, the partner
of a primary wave channel is a right channel, and the partner of a right wave channel is a
primary wave channel of the list. -/
def LinksWellFormed (p : Project) : Prop :=
  p.trackList.Nodup ∧
  ∀ t ∈ p.trackList, (p.tracks t).kind = TrackKind.Wave → ∀ r, (p.tracks t).mLink = some r →
    if p.isRightChannel t = true then
      r ∈ p.trackList ∧ (p.tracks r).kind = TrackKind.Wave ∧ p.isRightChannel r = false
    else p.isRightChannel r = true

/-- Every track of `q` has the sample rate it has in `p`. -/
def SameRates (p q : Project) : Prop :=
  ∀ t, (q.tracks t).mRate = (p.tracks t).mRate

/-- The clips held by the entries of a capture array, in order. -/
def capturedClips (arr : List TrackClip) : List ClipId := arr.filterMap fun e => e.clip

/-- The tracks of the entries of a capture array that hold no clip (the whole-track entries),
in order. -/
def capturedTracks (arr : List TrackClip) : List TrackId :=
  (arr.filter fun e => e.clip.isNone).map fun e => e.track

/-- The test `t->GetEndTime() < t0 || t->GetStartTime() > t1` that, in a build with
`USE_MIDI`, keeps a note track out of the capture array. -/
def noteOutside (useMidi : Bool) (p : Project) (t : TrackId) (t0 t1 : ℚ) : Prop :=
  useMidi = true ∧ (p.tracks t).kind = TrackKind.Note ∧
    (p.trackEndTime t < t0 ∨ t1 < p.trackStartTime t)

/-- The entries and the project that the vertical part of `Drag` works on once the
`TemporaryClipRemover` is constructed: the destinations are assigned for the track `pTrack`
under the pointer, and the captured clips are plucked out of their tracks. -/
def pluckedFor (p : Project) (pTrack capturedTrack : TrackId) (arr : List TrackClip) :
    List TrackClip × Project :=
  TemporaryClipRemover.ctor
    (assignDestinations p (TrackPosition p pTrack - TrackPosition p capturedTrack) arr).1 p

/-- The flag `ok` at the end of the loop of the failure branch of `Drag`: every plucked clip
has passed `CanInsertClip` on its own track, for the step's slide amount and the tolerance 0. -/
def restoreOk (canInsertClip : CanInsertClipFn) (p : Project) (pTrack capturedTrack : TrackId)
    (arr : List TrackClip) (slide : ℚ) : Bool :=
  (checkRestore canInsertClip (pluckedFor p pTrack capturedTrack arr).2
    (TemporaryClipRemover.Fail (pluckedFor p pTrack capturedTrack arr).1) true slide 0).2.1

/-- The project that `CanOffsetClip` is queried on for the captured clip `clip` in the loop
body of `DoSlideHorizontal`: every other entry of the capture set is displaced by
`-safeBigDistance`. -/
def displacedFor (p : Project) (arr : List TrackClip) (safeBigDistance : ℚ) (clip : ClipId) :
    Project :=
  arr.foldl (DoOffsetEntry (-safeBigDistance) (some clip)) p

/-- The state after the loop body of `DoSlideHorizontal` for one entry, with the oracle of the
spec, on a project whose clips are where they are in `p`. -/
def entryState (p : Project) (safeBigDistance : ℚ) (state : ClipMoveState) (tc : TrackClip) :
    ClipMoveState :=
  match tc.clip with
  | none => state
  | some clip =>
    applyAllowed state
      (CanOffsetClip (displacedFor p state.capturedClipArray safeBigDistance clip) tc.track clip
        state.hSlideAmount)

/-- The state after one pass of the `for` loop of `DoSlideHorizontal` over the entries `l`. -/
def passState (p : Project) (safeBigDistance : ℚ) (l : List TrackClip)
    (state : ClipMoveState) : ClipMoveState :=
  l.foldl (entryState p safeBigDistance) state

/-- A bound on the number of passes of the loop of `DoSlideHorizontal`: one, and for every
captured clip one more than the number of other clips on its track. -/
def slidePassBound (p : Project) (arr : List TrackClip) : Nat :=
  (arr.map fun tc =>
    match tc.clip with
    | none => 0
    | some c => ((p.tracks tc.track).mClips.filter fun o => decide (o ≠ c)).length + 1).sum + 1

/-- The amounts that the loop of `DoSlideHorizontal` can take for the request `D`: the
candidates of the oracle for every captured clip, with the other captured clips displaced. -/
def slideCandidates (p : Project) (arr : List TrackClip) (safeBigDistance D : ℚ) : List ℚ :=
  arr.flatMap fun tc =>
    match tc.clip with
    | none => []
    | some c => offsetCandidates (displacedFor p arr safeBigDistance c) tc.track c D

/-- The number of candidate amounts that are smaller in magnitude than `h`. -/
def slideMeasure (p : Project) (arr : List TrackClip) (safeBigDistance D h : ℚ) : Nat :=
  (slideCandidates p arr safeBigDistance D).countP fun e => decide (|e| < |h|)

/-! ## Sample projects -/

/-- A mono wave track holding the given clips. -/
def monoWaveTrack (clips : List ClipId) : Track :=
  { kind := TrackKind.Wave, mLinked := false, mLink := none, mSelected := false,
    mRate := 44100, mOffset := 0, mDuration := 0, mClips := clips }

/-- One mono wave track (track 0) holding clip 0 on `[2, 5)` and clip 1 on `[6, 8)`. -/
def twoClipProject : Project :=
  { tracks := fun t => if t = 0 then monoWaveTrack [0, 1] else monoWaveTrack []
    clips := fun c => if c = 0 then ⟨2, 3, 44100⟩ else ⟨6, 2, 44100⟩
    trackList := [0], selT0 := 0, selT1 := 0, undoCalls := [] }

/-- One mono wave track (track 0) holding the single clip 0 on `[2, 5)`. -/
def oneClipProject : Project :=
  { tracks := fun t => if t = 0 then monoWaveTrack [0] else monoWaveTrack []
    clips := fun _ => ⟨2, 3, 44100⟩
    trackList := [0], selT0 := 0, selT1 := 0, undoCalls := [] }

/-- A drag state that has captured clip 0 of track 0 and requests the slide amount `D`. -/
def slideState (D : ℚ) : ClipMoveState :=
  { capturedClipArray := [TrackClip.new 0 (some 0)], trackExclusions := [],
    capturedClip := some 0, capturedClipIsSelection := false, hSlideAmount := D,
    snapLeft := -1, snapRight := -1, mMouseClickX := 0 }

/-- Two mono wave tracks: track 0 holds clip 0 on `[2, 5)`, track 1 holds clip 1 on `[6, 8)`. -/
def twoTrackProject : Project :=
  { tracks := fun t =>
      if t = 0 then monoWaveTrack [0] else if t = 1 then monoWaveTrack [1] else monoWaveTrack []
    clips := fun c => if c = 0 then ⟨2, 3, 44100⟩ else ⟨6, 2, 44100⟩
    trackList := [0, 1], selT0 := 0, selT1 := 0, undoCalls := [] }

/-- A stereo pair (track 0 left, track 1 right) above a mono track 2.  Clip 0 on the left
channel and clip 1 on the right channel both span `[2, 5)`; the mono track is empty. -/
def stereoProject : Project :=
  { tracks := fun t =>
      if t = 0 then { monoWaveTrack [0] with mLinked := true, mLink := some 1 }
      else if t = 1 then { monoWaveTrack [1] with mLink := some 0 }
      else monoWaveTrack []
    clips := fun _ => ⟨2, 3, 44100⟩
    trackList := [0, 1, 2], selT0 := 0, selT1 := 0, undoCalls := [] }

/-- A handle that has captured clip 0 of track 0 at pointer position 0, nothing slid yet. -/
def monoHandle : TimeShiftHandle :=
  { mCapturedTrack := 0, mRectX := 0, mRectWidth := 100, mDidSlideVertically := false,
    mSlideUpDownOnly := false, mSnapPreferRightEdge := false, mSnapManager := none,
    mClipMoveState := slideState 0 }

/-- A handle that has captured clip 0 of the left channel 0 and, with it, clip 1 of the right
channel 1, at pointer position 0, nothing slid yet. -/
def stereoHandle : TimeShiftHandle :=
  { mCapturedTrack := 0, mRectX := 0, mRectWidth := 100, mDidSlideVertically := false,
    mSlideUpDownOnly := false, mSnapPreferRightEdge := false, mSnapManager := none,
    mClipMoveState :=
      { capturedClipArray := [TrackClip.new 0 (some 0), TrackClip.new 1 (some 1)],
        trackExclusions := [], capturedClip := some 0, capturedClipIsSelection := false,
        hSlideAmount := 0, snapLeft := -1, snapRight := -1, mMouseClickX := 0 } }

/-- An insertion test that refuses every clip. -/
def insertNever : CanInsertClipFn := fun _ _ _ slideBy tolerance => (false, slideBy, tolerance)

/-- An insertion test that accepts every clip where it is asked to go. -/
def insertAlways : CanInsertClipFn := fun _ _ _ slideBy tolerance => (true, slideBy, tolerance)

/-- A view at one pixel per second with its origin at time 0. -/
def unitView : ViewInfo :=
  { PositionToTime := fun x => (x : ℚ), TimeToPosition := fun t origin => ⌊t⌋ + origin }

/-- A snap manager with a single snap target: an edge at time 3 is pulled to 7/2. -/
def snapThreeToHalf : SnapManager := fun _ t _ => if t = 3 then 7 / 2 else t

/-- The handle of `monoHandle` in a session that has slid clip 0 by `D` so far. -/
def slidHandle (D : ℚ) : TimeShiftHandle :=
  { monoHandle with mClipMoveState := slideState D }

/-- Two mono wave tracks of different rates after a vertical move: clip 0 on `[2, 5)`, made at
44100 Hz, now lies in track 1, whose rate is 8000 Hz; track 0 is empty. -/
def mixedRateProject : Project :=
  { tracks := fun t =>
      if t = 1 then { monoWaveTrack [0] with mRate := 8000 } else monoWaveTrack []
    clips := fun _ => ⟨2, 3, 44100⟩
    trackList := [0, 1], selT0 := 0, selT1 := 0, undoCalls := [] }

/-- A handle whose session has moved clip 0 from track 0 to track 1. -/
def movedHandle : TimeShiftHandle :=
  { mCapturedTrack := 1, mRectX := 0, mRectWidth := 100, mDidSlideVertically := true,
    mSlideUpDownOnly := false, mSnapPreferRightEdge := false, mSnapManager := none,
    mClipMoveState :=
      { capturedClipArray :=
          [{ track := 1, origTrack := 0, dstTrack := some 1, clip := some 0, holder := none }],
        trackExclusions := [], capturedClip := some 0, capturedClipIsSelection := false,
        hSlideAmount := 0, snapLeft := -1, snapRight := -1, mMouseClickX := 0 } }

/-- An overlap oracle that meets no obstacle: every request is allowed as it is. -/
def allowAll : CanOffsetClipFn := fun _ _ _ amount => (true, amount)

/-- A drag state that has captured both clips of track 0 of `twoClipProject`, so that the track
holds no stationary clip, and requests the slide amount `D`. -/
def pairState (D : ℚ) : ClipMoveState :=
  { capturedClipArray := [TrackClip.new 0 (some 0), TrackClip.new 0 (some 1)],
    trackExclusions := [], capturedClip := some 0, capturedClipIsSelection := false,
    hSlideAmount := D, snapLeft := -1, snapRight := -1, mMouseClickX := 0 }

/-- The stereo pair of `stereoProject` with both clips moved before time zero: clip 0 on the
left channel and clip 1 on the right channel both span `[-10, 5)`. -/
def earlyStereoProject : Project :=
  { stereoProject with clips := fun _ => ⟨-10, 15, 44100⟩ }

/-- The sync-lock grouping in which every track is alone in its group. -/
def ownGroup : SyncLockGroup := fun t => [t]

/-- A selected mono wave track 0 holding clip 0 on `[2, 5)` and clip 1 on `[6, 8)`, above a
selected note track 1 that spans `[10, 12]`; the selected region is `[0, 11/2]`. -/
def selectionProject : Project :=
  { tracks := fun t =>
      if t = 0 then { monoWaveTrack [0, 1] with mSelected := true }
      else if t = 1 then
        { kind := TrackKind.Note, mLinked := false, mLink := none, mSelected := true,
          mRate := 0, mOffset := 10, mDuration := 2, mClips := [] }
      else monoWaveTrack []
    clips := fun c => if c = 0 then ⟨2, 3, 44100⟩ else ⟨6, 2, 44100⟩
    trackList := [0, 1], selT0 := 0, selT1 := 11 / 2, undoCalls := [] }

/-- The state of a click on clip 0 inside the selection. -/
def selectionState : ClipMoveState :=
  { slideState 0 with capturedClipIsSelection := true }

/-- A view in which eleven pixels make one second. -/
def fineView : ViewInfo :=
  { PositionToTime := fun x => (x : ℚ) / 11, TimeToPosition := fun t origin => ⌊t * 11⌋ + origin }

/-- A drag state after a shift-click: nothing is captured, and the slide amount `D` is
requested. -/
def shiftState (D : ℚ) : ClipMoveState :=
  { capturedClipArray := [], trackExclusions := [],
    capturedClip := none, capturedClipIsSelection := false, hSlideAmount := D,
    snapLeft := -1, snapRight := -1, mMouseClickX := 0 }

/-- A snap manager with no snap point in reach: every time is returned unchanged. -/
def snapNothing : SnapManager := fun _ t _ => t

/-- The handle after `Click` at pointer position 3 on clip 0 of track 0 (it spans `[2, 5)` in
`unitView`), without modifier keys: clip 0 alone is captured, nothing has slid, the snap
positions are -1, and the left edge is the nearer one. -/
def clickedHandle : TimeShiftHandle :=
  { mCapturedTrack := 0, mRectX := 0, mRectWidth := 100, mDidSlideVertically := false,
    mSlideUpDownOnly := false, mSnapPreferRightEdge := false, mSnapManager := some snapNothing,
    mClipMoveState := { slideState 0 with mMouseClickX := 3 } }

/-- The handle of `clickedHandle` after a first `Drag` to pointer position 4 on the clicked
track: the session has slid clip 0 by one second. -/
def draggedHandle : TimeShiftHandle :=
  { clickedHandle with mClipMoveState := { slideState 1 with mMouseClickX := 3 } }

/-- The project `twoTrackProject` after that first `Drag`: clip 0 lies on `[3, 6)`. -/
def draggedProject : Project := twoTrackProject.offsetClip 0 1

/-- One mono wave track (track 0) with eight clips: the stationary clips 0 on `[22, 24)`, 1 on
`[37, 38)` and 2 on `[52, 53)`, and to their right the abutting clips 3 on `[53, 55)`, 4 on
`[55, 58)`, 5 on `[58, 60)`, 6 on `[60, 65)` and 7 on `[65, 68)`. -/
def combProject : Project :=
  { tracks := fun t => if t = 0 then monoWaveTrack [0, 1, 2, 3, 4, 5, 6, 7] else monoWaveTrack []
    clips := fun c =>
      if c = 0 then ⟨22, 2, 44100⟩ else if c = 1 then ⟨37, 1, 44100⟩
      else if c = 2 then ⟨52, 1, 44100⟩ else if c = 3 then ⟨53, 2, 44100⟩
      else if c = 4 then ⟨55, 3, 44100⟩ else if c = 5 then ⟨58, 2, 44100⟩
      else if c = 6 then ⟨60, 5, 44100⟩ else ⟨65, 3, 44100⟩
    trackList := [0], selT0 := 0, selT1 := 0, undoCalls := [] }

/-- The capture set of the clips 3 to 7 of `combProject`, in track order. -/
def combArray : List TrackClip :=
  [TrackClip.new 0 (some 3), TrackClip.new 0 (some 4), TrackClip.new 0 (some 5),
    TrackClip.new 0 (some 6), TrackClip.new 0 (some 7)]

/-- A drag state that has captured the clips 3 to 7 of `combProject` and requests the slide
amount `D`. -/
def combState (D : ℚ) : ClipMoveState :=
  { capturedClipArray := combArray,
    trackExclusions := [], capturedClip := some 3, capturedClipIsSelection := false,
    hSlideAmount := D, snapLeft := -1, snapRight := -1, mMouseClickX := 0 }

/-- An insertion test that looks at the clips of the track: it accepts the clip, moved by
`slideBy`, exactly when it then overlaps no clip of the track, and it nudges nothing. -/
def insertIfClear : CanInsertClipFn :=
  fun p t c slideBy tolerance =>
    ((p.tracks t).mClips.all fun o =>
        decide (¬ ((p.clips c).Offset slideBy).Overlaps (p.clips o)),
      slideBy, tolerance)

theorem largestMagnitude_mem (d : ℚ) (ds : List ℚ) : largestMagnitude d ds ∈ d :: ds := by
  unfold largestMagnitude
  induction ds generalizing d with
  | nil => simp
  | cons e es ih =>
    simp only [List.foldl_cons]
    by_cases h : |d| < |e|
    · rw [if_pos h]
      have := ih e
      simp only [List.mem_cons] at this ⊢
      rcases this with h1 | h1
      · exact Or.inr (Or.inl h1)
      · exact Or.inr (Or.inr h1)
    · rw [if_neg h]
      have := ih d
      simp only [List.mem_cons] at this ⊢
      rcases this with h1 | h1
      · exact Or.inl h1
      · exact Or.inr (Or.inr h1)

theorem CanOffsetClip_allowed (p : Project) (t : TrackId) (c : ClipId) (amount : ℚ)
    (h : (CanOffsetClip p t c amount).1 = true) :
    withinRequest amount (CanOffsetClip p t c amount).2 ∧
      clipFreeAt p t c (CanOffsetClip p t c amount).2 = true := by
  unfold CanOffsetClip at h ⊢
  split at h
  · simp at h
  · rename_i d ds heq
    simp only [heq]
    have hmem : largestMagnitude d ds ∈ d :: ds := largestMagnitude_mem d ds
    rw [← heq] at hmem
    have := (List.mem_filter.mp hmem).2
    simpa using this

theorem withinRequest_bounded (amount d : ℚ) (h : withinRequest amount d) :
    SlideBounded amount d := by
  unfold withinRequest at h
  unfold SlideBounded
  by_cases h0 : 0 ≤ amount
  · rw [if_pos h0] at h
    obtain ⟨h1, h2⟩ := h
    refine ⟨?_, ?_⟩
    · rcases eq_or_lt_of_le h1 with h3 | h3
      · exact Or.inl h3.symm
      · exact Or.inr (Or.inl ⟨lt_of_lt_of_le h3 h2, h3⟩)
    · rw [abs_of_nonneg h1, abs_of_nonneg h0]; exact h2
  · rw [if_neg h0] at h
    obtain ⟨h1, h2⟩ := h
    have h0' : amount < 0 := not_le.mp h0
    refine ⟨?_, ?_⟩
    · rcases eq_or_lt_of_le h2 with h3 | h3
      · exact Or.inl h3
      · exact Or.inr (Or.inr ⟨h0', h3⟩)
    · rw [abs_of_nonpos h2, abs_of_neg h0']; linarith

theorem CanOffsetClip_sound : OracleSound CanOffsetClip := by
  intro p t c amount h o ho hoc
  have h2 := (CanOffsetClip_allowed p t c amount h).2
  unfold clipFreeAt at h2
  rw [List.all_eq_true] at h2
  have := h2 o ho
  simp only [decide_eq_true_eq] at this
  rcases this with h3 | h3
  · exact absurd h3 hoc
  · exact h3

theorem CanOffsetClip_shrinks : OracleShrinks CanOffsetClip := by
  intro p t c amount h
  exact withinRequest_bounded _ _ (CanOffsetClip_allowed p t c amount h).1

/-! ## Lemmas: the slide amount only shrinks -/

theorem slideBounded_refl (D : ℚ) : SlideBounded D D := by
  unfold SlideBounded
  refine ⟨?_, le_refl _⟩
  rcases lt_trichotomy D 0 with h | h | h
  · exact Or.inr (Or.inr ⟨h, h⟩)
  · exact Or.inl h
  · exact Or.inr (Or.inl ⟨h, h⟩)

theorem slideBounded_zero (D : ℚ) : SlideBounded D 0 := by
  unfold SlideBounded
  exact ⟨Or.inl rfl, by simp⟩

theorem slideBounded_trans {D h k : ℚ} (h1 : SlideBounded D h) (h2 : SlideBounded h k) :
    SlideBounded D k := by
  unfold SlideBounded at *
  obtain ⟨s1, m1⟩ := h1
  obtain ⟨s2, m2⟩ := h2
  refine ⟨?_, le_trans m2 m1⟩
  rcases s2 with e | ⟨a, b⟩ | ⟨a, b⟩
  · exact Or.inl e
  · rcases s1 with e | ⟨a1, _⟩ | ⟨_, b1⟩
    · exact absurd e (ne_of_gt a)
    · exact Or.inr (Or.inl ⟨a1, b⟩)
    · exact absurd a (not_lt.mpr (le_of_lt b1))
  · rcases s1 with e | ⟨_, b1⟩ | ⟨a1, _⟩
    · exact absurd e (ne_of_lt a)
    · exact absurd a (not_lt.mpr (le_of_lt b1))
    · exact Or.inr (Or.inr ⟨a1, b⟩)

theorem applyAllowed_bounded (state : ClipMoveState) (r : Bool × ℚ)
    (hr : r.1 = true → SlideBounded state.hSlideAmount r.2) :
    SlideBounded state.hSlideAmount (applyAllowed state r).hSlideAmount := by
  unfold applyAllowed
  by_cases h1 : r.1 = true
  · rw [if_pos h1]
    by_cases h2 : state.hSlideAmount ≠ r.2
    · rw [if_pos h2]; exact hr h1
    · rw [if_neg h2]; exact slideBounded_refl _
  · rw [if_neg h1]; exact slideBounded_zero _

theorem applyAllowed_array (state : ClipMoveState) (r : Bool × ℚ) :
    (applyAllowed state r).capturedClipArray = state.capturedClipArray := by
  unfold applyAllowed
  split
  · split <;> rfl
  · rfl

theorem slideEntry_bounded (f : CanOffsetClipFn) (hf : OracleShrinks f) (fuel : Nat) (big : ℚ)
    (sp out : ClipMoveState × Project) (tc : TrackClip)
    (h : slideEntry f fuel big sp tc = some out) :
    SlideBounded sp.1.hSlideAmount out.1.hSlideAmount := by
  unfold slideEntry at h
  cases hc : tc.clip with
  | none =>
    simp only [hc, Option.some.injEq] at h
    subst h
    exact slideBounded_refl _
  | some clip =>
    simp only [hc, Option.bind_eq_some, Option.map_eq_some'] at h
    obtain ⟨p1, _, p2, _, rfl⟩ := h
    exact applyAllowed_bounded _ _ (fun hr => hf p1 tc.track clip sp.1.hSlideAmount hr)

theorem slidePass_bounded (f : CanOffsetClipFn) (hf : OracleShrinks f) (fuel : Nat) (big : ℚ)
    (arr : List TrackClip) (sp out : ClipMoveState × Project)
    (h : slidePass f fuel big arr sp = some out) :
    SlideBounded sp.1.hSlideAmount out.1.hSlideAmount := by
  induction arr generalizing sp with
  | nil =>
    simp only [slidePass, Option.some.injEq] at h
    subst h
    exact slideBounded_refl _
  | cons tc rest ih =>
    simp only [slidePass, Option.bind_eq_some] at h
    obtain ⟨mid, h1, h2⟩ := h
    exact slideBounded_trans (slideEntry_bounded f hf fuel big sp mid tc h1) (ih mid h2)

theorem slideLoop_bounded (f : CanOffsetClipFn) (hf : OracleShrinks f) (big : ℚ) (fuel : Nat)
    (sp out : ClipMoveState × Project)
    (h : slideLoop f big fuel sp = some out) :
    SlideBounded sp.1.hSlideAmount out.1.hSlideAmount := by
  induction fuel generalizing sp with
  | zero => simp [slideLoop] at h
  | succ n ih =>
    simp only [slideLoop, Option.bind_eq_some] at h
    obtain ⟨mid, h1, h2⟩ := h
    have hb := slidePass_bounded f hf _ big _ sp mid h1
    by_cases hne : mid.1.hSlideAmount ≠ sp.1.hSlideAmount
    · rw [if_pos hne] at h2
      exact slideBounded_trans hb (ih mid h2)
    · rw [if_neg hne] at h2
      simp only [Option.some.injEq] at h2
      subst h2
      exact hb

/-! ## Lemmas: what `DoOffset` moves -/

theorem WaveClip.Offset_zero (c : WaveClip) : c.Offset 0 = c := by
  cases c; simp [WaveClip.Offset]

theorem WaveClip.Offset_Offset (c : WaveClip) (a b : ℚ) :
    (c.Offset a).Offset b = c.Offset (a + b) := by
  cases c; simp [WaveClip.Offset, add_assoc]

theorem DoOffset_of_ne_nil (fuel : Nat) (state : ClipMoveState) (p : Project)
    (pTrack : Option TrackId) (offset : ℚ) (excl : Option ClipId)
    (h : state.capturedClipArray ≠ []) :
    DoOffset fuel state p pTrack offset excl =
      some (state.capturedClipArray.foldl (DoOffsetEntry offset excl) p) := by
  unfold DoOffset
  rw [if_pos h]

theorem DoOffsetEntry_some (d : ℚ) (excl : Option ClipId) (q : Project) (tc : TrackClip)
    (c : ClipId) (hc : tc.clip = some c) :
    (DoOffsetEntry d excl q tc).tracks = q.tracks ∧
    ∀ x, (DoOffsetEntry d excl q tc).clips x =
      if x = c ∧ some c ≠ excl then (q.clips x).Offset d else q.clips x := by
  unfold DoOffsetEntry
  rw [hc]
  by_cases he : some c ≠ excl
  · simp only [if_pos he, Project.offsetClip, true_and]
    intro x
    by_cases hx : x = c
    · subst hx; simp [he]
    · simp [hx]
  · simp only [if_neg he, true_and]
    intro x
    simp [he]

theorem DoOffsetEntry_none (d : ℚ) (excl : Option ClipId) (q : Project) (tc : TrackClip)
    (hc : tc.clip = none) (hk : (q.tracks tc.track).kind ≠ TrackKind.Wave) :
    (DoOffsetEntry d excl q tc).clips = q.clips ∧
    ∀ t, ((DoOffsetEntry d excl q tc).tracks t).mClips = (q.tracks t).mClips ∧
      ((DoOffsetEntry d excl q tc).tracks t).kind = (q.tracks t).kind := by
  unfold DoOffsetEntry
  rw [hc]
  simp only [Project.offsetTrack, if_neg hk, true_and]
  intro t
  by_cases ht : t = tc.track
  · subst ht; simp
  · simp [ht]

/-- On a well-formed capture set, `DoOffset` moves exactly the captured clips other than the
excluded one, each once, and changes neither the kind nor the clip list of any track. -/
theorem DoOffset_fold_spec (d : ℚ) (excl : Option ClipId) (arr : List TrackClip) (q : Project)
    (hnd : (arr.filterMap fun tc => tc.clip).Nodup)
    (hk : ∀ tc ∈ arr, tc.clip = none → (q.tracks tc.track).kind ≠ TrackKind.Wave) :
    (∀ x, (arr.foldl (DoOffsetEntry d excl) q).clips x =
      if Captured arr x ∧ some x ≠ excl then (q.clips x).Offset d else q.clips x) ∧
    ∀ t, ((arr.foldl (DoOffsetEntry d excl) q).tracks t).mClips = (q.tracks t).mClips ∧
      ((arr.foldl (DoOffsetEntry d excl) q).tracks t).kind = (q.tracks t).kind := by
  induction arr generalizing q with
  | nil => simp [Captured]
  | cons tc rest ih =>
    simp only [List.foldl_cons]
    cases hc : tc.clip with
    | none =>
      have hstep := DoOffsetEntry_none d excl q tc hc (hk tc (List.mem_cons_self _ _) hc)
      have hnd2 : (rest.filterMap fun tc => tc.clip).Nodup := by
        simpa [List.filterMap_cons, hc] using hnd
      have hk2 : ∀ tc2 ∈ rest, tc2.clip = none →
          ((DoOffsetEntry d excl q tc).tracks tc2.track).kind ≠ TrackKind.Wave := by
        intro tc2 h2 h3
        rw [(hstep.2 tc2.track).2]
        exact hk tc2 (List.mem_cons_of_mem _ h2) h3
      obtain ⟨ih1, ih2⟩ := ih (DoOffsetEntry d excl q tc) hnd2 hk2
      refine ⟨?_, ?_⟩
      · intro x
        rw [ih1 x, hstep.1]
        have hcap : Captured (tc :: rest) x ↔ Captured rest x := by
          unfold Captured
          constructor
          · rintro ⟨e, he, hx⟩
            rcases List.mem_cons.mp he with h1 | h1
            · subst h1; rw [hc] at hx; cases hx
            · exact ⟨e, h1, hx⟩
          · rintro ⟨e, he, hx⟩
            exact ⟨e, List.mem_cons_of_mem _ he, hx⟩
        simp only [hcap]
      · intro t
        rw [(ih2 t).1, (ih2 t).2, (hstep.2 t).1, (hstep.2 t).2]
        exact ⟨rfl, rfl⟩
    | some c =>
      have hstep := DoOffsetEntry_some d excl q tc c hc
      have hnd' : c ∉ (rest.filterMap fun tc => tc.clip) ∧
          (rest.filterMap fun tc => tc.clip).Nodup := by
        simpa [List.filterMap_cons, hc] using hnd
      have hk2 : ∀ tc2 ∈ rest, tc2.clip = none →
          ((DoOffsetEntry d excl q tc).tracks tc2.track).kind ≠ TrackKind.Wave := by
        intro tc2 h2 h3
        rw [hstep.1]
        exact hk tc2 (List.mem_cons_of_mem _ h2) h3
      obtain ⟨ih1, ih2⟩ := ih (DoOffsetEntry d excl q tc) hnd'.2 hk2
      have hnotin : ¬ Captured rest c := by
        rintro ⟨e, he, hx⟩
        exact hnd'.1 (List.mem_filterMap.mpr ⟨e, he, hx⟩)
      refine ⟨?_, ?_⟩
      · intro x
        rw [ih1 x, hstep.2 x]
        by_cases hx : x = c
        · subst hx
          have hcap : Captured (tc :: rest) x := ⟨tc, List.mem_cons_self _ _, hc⟩
          simp [hnotin, hcap]
        · have hcap : Captured (tc :: rest) x ↔ Captured rest x := by
            unfold Captured
            constructor
            · rintro ⟨e, he, hx2⟩
              rcases List.mem_cons.mp he with h1 | h1
              · subst h1; rw [hc] at hx2; exact absurd (Option.some.inj hx2).symm hx
              · exact ⟨e, h1, hx2⟩
            · rintro ⟨e, he, hx2⟩
              exact ⟨e, List.mem_cons_of_mem _ he, hx2⟩
          simp [hx, hcap]
      · intro t
        rw [(ih2 t).1, (ih2 t).2, hstep.1]
        exact ⟨rfl, rfl⟩

/-! ## Lemmas: the passes of `DoSlideHorizontal` leave the clips in place -/

theorem slideBounded_antisymm {a b : ℚ} (h1 : SlideBounded a b) (h2 : SlideBounded b a) :
    b = a := by
  unfold SlideBounded at h1 h2
  obtain ⟨s1, m1⟩ := h1
  obtain ⟨_, m2⟩ := h2
  have hm : |b| = |a| := le_antisymm m1 m2
  rcases s1 with e | ⟨ha, hb⟩ | ⟨ha, hb⟩
  · rw [e, abs_zero] at hm
    rw [e, abs_eq_zero.mp hm.symm]
  · rwa [abs_of_pos ha, abs_of_pos hb] at hm
  · rw [abs_of_neg ha, abs_of_neg hb] at hm
    linarith

theorem samePlacement_wellFormed {p q : Project} {arr : List TrackClip}
    (hq : SamePlacement p q) (hwf : CaptureWellFormed p arr) :
    ∀ tc ∈ arr, tc.clip = none → (q.tracks tc.track).kind ≠ TrackKind.Wave := by
  intro tc htc hc
  rw [(hq.2 tc.track).2]
  exact hwf.2.1 tc htc hc

/-- Displacing the other captured clips by `-big` and then by `big` puts every clip back. -/
theorem displace_restore (p q : Project) (arr : List TrackClip) (big : ℚ) (clip : ClipId)
    (hq : SamePlacement p q) (hwf : CaptureWellFormed p arr) :
    SamePlacement p ((arr.foldl (DoOffsetEntry big (some clip))
      (arr.foldl (DoOffsetEntry (-big) (some clip)) q))) := by
  have h1 := DoOffset_fold_spec (-big) (some clip) arr q hwf.2.2 (samePlacement_wellFormed hq hwf)
  have hk1 : ∀ tc ∈ arr, tc.clip = none →
      (((arr.foldl (DoOffsetEntry (-big) (some clip)) q)).tracks tc.track).kind
        ≠ TrackKind.Wave := by
    intro tc htc hc
    rw [(h1.2 tc.track).2]
    exact samePlacement_wellFormed hq hwf tc htc hc
  have h2 := DoOffset_fold_spec big (some clip) arr _ hwf.2.2 hk1
  refine ⟨?_, ?_⟩
  · funext x
    rw [h2.1 x, h1.1 x, ← hq.1]
    by_cases hx : Captured arr x ∧ some x ≠ some clip
    · rw [if_pos hx, if_pos hx, WaveClip.Offset_Offset]
      simp [WaveClip.Offset_zero]
    · rw [if_neg hx, if_neg hx]
  · intro t
    rw [(h2.2 t).1, (h2.2 t).2, (h1.2 t).1, (h1.2 t).2]
    exact hq.2 t

theorem slideEntry_spec (f : CanOffsetClipFn) (hs : OracleSound f) (hm : OracleShrinks f)
    (fuel : Nat) (big : ℚ) (p : Project) (arr : List TrackClip)
    (hwf : CaptureWellFormed p arr) (hno : NoOverlap p)
    (sp out : ClipMoveState × Project) (tc : TrackClip) (htc : tc ∈ arr)
    (harr : sp.1.capturedClipArray = arr) (hq : SamePlacement p sp.2)
    (h : slideEntry f fuel big sp tc = some out) :
    SamePlacement p out.2 ∧ out.1.capturedClipArray = arr ∧
      SlideBounded sp.1.hSlideAmount out.1.hSlideAmount ∧
      (out.1.hSlideAmount = sp.1.hSlideAmount → ClearAt p arr tc out.1.hSlideAmount) := by
  have hb := slideEntry_bounded f hm fuel big sp out tc h
  have hne : arr ≠ [] := List.ne_nil_of_mem htc
  subst harr
  unfold slideEntry at h
  cases hc : tc.clip with
  | none =>
    simp only [hc, Option.some.injEq] at h
    subst h
    refine ⟨hq, rfl, hb, ?_⟩
    intro _ c hc2
    rw [hc] at hc2
    cases hc2
  | some clip =>
    have hne2 : ∀ r, (applyAllowed sp.1 r).capturedClipArray ≠ [] := by
      intro r; rw [applyAllowed_array]; exact hne
    simp only [hc, DoOffset_of_ne_nil _ _ _ _ _ _ hne, Option.some_bind,
      DoOffset_of_ne_nil _ _ _ _ _ _ (hne2 _), Option.map_some', Option.some.injEq] at h
    subst h
    simp only [applyAllowed_array]
    refine ⟨displace_restore p sp.2 _ big clip hq hwf, trivial, hb, ?_⟩
    intro heq c hc2 o ho hncap
    rw [hc] at hc2
    have hcc : clip = c := Option.some.inj hc2
    subst hcc
    have h1 := DoOffset_fold_spec (-big) (some clip) _ sp.2 hwf.2.2 (samePlacement_wellFormed hq hwf)
    have hc1 : (sp.1.capturedClipArray.foldl (DoOffsetEntry (-big) (some clip)) sp.2).clips clip
        = p.clips clip := by
      rw [h1.1 clip, ← hq.1]; simp
    have ho1 : (sp.1.capturedClipArray.foldl (DoOffsetEntry (-big) (some clip)) sp.2).clips o
        = p.clips o := by
      rw [h1.1 o, ← hq.1]; simp [hncap]
    have hmem : o ∈ ((sp.1.capturedClipArray.foldl (DoOffsetEntry (-big) (some clip))
        sp.2).tracks tc.track).mClips := by
      rw [(h1.2 tc.track).1, (hq.2 tc.track).1]; exact ho
    have hoc : o ≠ clip := by
      rintro rfl
      exact hncap ⟨tc, htc, hc⟩
    have hsound := hs (sp.1.capturedClipArray.foldl (DoOffsetEntry (-big) (some clip)) sp.2)
      tc.track clip sp.1.hSlideAmount
    generalize f (sp.1.capturedClipArray.foldl (DoOffsetEntry (-big) (some clip)) sp.2)
      tc.track clip sp.1.hSlideAmount = r at heq hsound ⊢
    unfold applyAllowed at heq ⊢
    by_cases hr : r.1 = true
    · simp only [hr, if_true] at heq ⊢
      by_cases hd : sp.1.hSlideAmount ≠ r.2
      · simp only [if_pos hd] at heq
        exact absurd heq.symm hd
      · simp only [if_neg hd]
        have hd2 : sp.1.hSlideAmount = r.2 := not_not.mp hd
        have := hsound hr o hmem hoc
        rw [hc1, ho1, ← hd2] at this
        exact this
    · simp only [hr] at heq ⊢
      simp only [Bool.false_eq_true, if_false] at heq ⊢
      rw [WaveClip.Offset_zero]
      exact hno tc.track clip (hwf.1 tc htc clip hc) o ho hoc

theorem slidePass_spec (f : CanOffsetClipFn) (hs : OracleSound f) (hm : OracleShrinks f)
    (fuel : Nat) (big : ℚ) (p : Project) (arr : List TrackClip)
    (hwf : CaptureWellFormed p arr) (hno : NoOverlap p)
    (rest : List TrackClip) (hsub : ∀ tc ∈ rest, tc ∈ arr)
    (sp out : ClipMoveState × Project)
    (harr : sp.1.capturedClipArray = arr) (hq : SamePlacement p sp.2)
    (h : slidePass f fuel big rest sp = some out) :
    SamePlacement p out.2 ∧ out.1.capturedClipArray = arr ∧
      SlideBounded sp.1.hSlideAmount out.1.hSlideAmount ∧
      (out.1.hSlideAmount = sp.1.hSlideAmount →
        ∀ tc ∈ rest, ClearAt p arr tc out.1.hSlideAmount) := by
  induction rest generalizing sp with
  | nil =>
    simp only [slidePass, Option.some.injEq] at h
    subst h
    exact ⟨hq, harr, slideBounded_refl _, fun _ tc htc => absurd htc (List.not_mem_nil tc)⟩
  | cons tc rest ih =>
    simp only [slidePass, Option.bind_eq_some] at h
    obtain ⟨mid, h1, h2⟩ := h
    obtain ⟨e1, e2, e3, e4⟩ := slideEntry_spec f hs hm fuel big p arr hwf hno sp mid tc
      (hsub tc (List.mem_cons_self _ _)) harr hq h1
    obtain ⟨r1, r2, r3, r4⟩ := ih (fun x hx => hsub x (List.mem_cons_of_mem _ hx)) mid e2 e1 h2
    refine ⟨r1, r2, slideBounded_trans e3 r3, ?_⟩
    intro heq x hx
    have hmid : mid.1.hSlideAmount = sp.1.hSlideAmount := by
      apply slideBounded_antisymm e3
      rw [← heq]; exact r3
    rcases List.mem_cons.mp hx with hx1 | hx1
    · subst hx1
      have := e4 hmid
      rw [heq, ← hmid]; exact this
    · exact r4 (by rw [heq, hmid]) x hx1

theorem slideLoop_spec (f : CanOffsetClipFn) (hs : OracleSound f) (hm : OracleShrinks f)
    (big : ℚ) (p : Project) (arr : List TrackClip)
    (hwf : CaptureWellFormed p arr) (hno : NoOverlap p) (fuel : Nat)
    (sp out : ClipMoveState × Project)
    (harr : sp.1.capturedClipArray = arr) (hq : SamePlacement p sp.2)
    (h : slideLoop f big fuel sp = some out) :
    SamePlacement p out.2 ∧ out.1.capturedClipArray = arr ∧
      ∀ tc ∈ arr, ClearAt p arr tc out.1.hSlideAmount := by
  induction fuel generalizing sp with
  | zero => simp [slideLoop] at h
  | succ n ih =>
    simp only [slideLoop, Option.bind_eq_some] at h
    obtain ⟨mid, h1, h2⟩ := h
    rw [harr] at h1
    obtain ⟨r1, r2, _, r4⟩ := slidePass_spec f hs hm (n + 1) big p arr hwf hno arr
      (fun _ hx => hx) sp mid harr hq h1
    by_cases hne : mid.1.hSlideAmount ≠ sp.1.hSlideAmount
    · rw [if_pos hne] at h2
      exact ih mid r2 r1 h2
    · rw [if_neg hne] at h2
      simp only [Option.some.injEq] at h2
      subst h2
      exact ⟨r1, r2, r4 (not_not.mp hne)⟩

theorem samePlacement_refl (p : Project) : SamePlacement p p :=
  ⟨rfl, fun _ => ⟨rfl, rfl⟩⟩

/-! ## C1, C2: the resolved slide -/

/-- C1: on a project in which no two clips of a track overlap, with a capture set as the
handle builds it and `CanOffsetClip` the oracle of the spec (an allowed amount is in the
direction of the request, no larger than it, and places the queried clip clear of every other
clip of its track), after `DoSlideHorizontal` returns no captured clip overlaps a clip of its
own track that is not captured. -/
theorem DoSlideHorizontal_no_overlap (f : CanOffsetClipFn) (hs : OracleSound f)
    (hm : OracleShrinks f) (fuel : Nat) (state : ClipMoveState) (p : Project)
    (capturedTrack : TrackId) (out : ClipMoveState × Project)
    (hwf : CaptureWellFormed p state.capturedClipArray) (hno : NoOverlap p)
    (h : DoSlideHorizontal f fuel state p capturedTrack = some out) :
    ∀ tc ∈ state.capturedClipArray, ∀ c, tc.clip = some c →
      ∀ o ∈ (out.2.tracks tc.track).mClips, ¬ Captured state.capturedClipArray o →
        ¬ (out.2.clips c).Overlaps (out.2.clips o) := by
  intro tc htc c hc o ho hncap
  have hne : state.capturedClipArray ≠ [] := List.ne_nil_of_mem htc
  have hlen : state.capturedClipArray.length ≠ 0 := by
    simpa [List.length_eq_zero] using hne
  unfold DoSlideHorizontal at h
  simp only [if_pos hlen, Option.bind_eq_some] at h
  obtain ⟨sp, h1, h2⟩ := h
  obtain ⟨r1, r2, r3⟩ := slideLoop_spec f hs hm _ p state.capturedClipArray hwf hno fuel
    (state, p) sp rfl (samePlacement_refl p) h1
  have hclear := r3 tc htc c hc
  by_cases hz : sp.1.hSlideAmount ≠ 0
  · rw [if_pos hz] at h2
    have hne2 : sp.1.capturedClipArray ≠ [] := by rw [r2]; exact hne
    simp only [DoOffset_of_ne_nil _ _ _ _ _ _ hne2, Option.map_some', Option.some.injEq] at h2
    subst h2
    rw [r2] at ho ⊢
    have hspec := DoOffset_fold_spec sp.1.hSlideAmount none state.capturedClipArray sp.2
      hwf.2.2 (samePlacement_wellFormed r1 hwf)
    simp only at ho ⊢
    rw [(hspec.2 tc.track).1, (r1.2 tc.track).1] at ho
    rw [hspec.1 c, hspec.1 o, r1.1]
    have hcap : Captured state.capturedClipArray c := ⟨tc, htc, hc⟩
    simp only [hcap, hncap, ne_eq, not_false_eq_true, and_self, if_true, false_and, if_false,
      reduceCtorEq]
    exact hclear o ho hncap
  · rw [if_neg hz] at h2
    simp only [Option.some.injEq] at h2
    subst h2
    rw [(r1.2 tc.track).1] at ho
    have := hclear o ho hncap
    rw [not_not.mp hz, WaveClip.Offset_zero] at this
    rw [r1.1]
    exact this

/-- C2: when `CanOffsetClip` never reports an allowed amount of opposite sign to, or of larger
magnitude than, the amount it is asked about, the value of `state.hSlideAmount` after
`DoSlideHorizontal` is zero or has the sign of the requested amount, and its magnitude is at
most that of the requested amount. -/
theorem DoSlideHorizontal_amount_bounded (f : CanOffsetClipFn) (hm : OracleShrinks f)
    (fuel : Nat) (state : ClipMoveState) (p : Project) (capturedTrack : TrackId)
    (out : ClipMoveState × Project)
    (h : DoSlideHorizontal f fuel state p capturedTrack = some out) :
    (out.1.hSlideAmount = 0 ∨ (0 < state.hSlideAmount ∧ 0 < out.1.hSlideAmount) ∨
      (state.hSlideAmount < 0 ∧ out.1.hSlideAmount < 0)) ∧
    |out.1.hSlideAmount| ≤ |state.hSlideAmount| := by
  unfold DoSlideHorizontal at h
  by_cases hlen : state.capturedClipArray.length ≠ 0
  · simp only [if_pos hlen, Option.bind_eq_some] at h
    obtain ⟨sp, h1, h2⟩ := h
    have hb := slideLoop_bounded f hm _ fuel (state, p) sp h1
    by_cases hz : sp.1.hSlideAmount ≠ 0
    · simp only [if_pos hz, Option.map_eq_some'] at h2
      obtain ⟨q, _, rfl⟩ := h2
      exact hb
    · simp only [if_neg hz, Option.some.injEq] at h2
      subst h2
      exact hb
  · simp only [if_neg hlen, Option.map_eq_some'] at h
    obtain ⟨q, _, rfl⟩ := h
    exact slideBounded_refl _

/-! ## Lemmas: a single captured clip -/

theorem largestMagnitude_eq_head (d : ℚ) (ds : List ℚ) (h : ∀ e ∈ ds, |e| ≤ |d|) :
    largestMagnitude d ds = d := by
  unfold largestMagnitude
  induction ds with
  | nil => rfl
  | cons e es ih =>
    simp only [List.foldl_cons]
    rw [if_neg (not_lt.mpr (h e (List.mem_cons_self _ _)))]
    exact ih (fun x hx => h x (List.mem_cons_of_mem _ hx))

theorem withinRequest_self (amount : ℚ) : withinRequest amount amount := by
  unfold withinRequest
  split
  · exact ⟨by assumption, le_refl _⟩
  · exact ⟨le_refl _, le_of_lt (not_le.mp (by assumption))⟩

/-- When the clip is clear of the other clips at the requested amount, the oracle allows the
whole request. -/
theorem CanOffsetClip_free (p : Project) (t : TrackId) (c : ClipId) (amount : ℚ)
    (h : clipFreeAt p t c amount = true) : CanOffsetClip p t c amount = (true, amount) := by
  unfold CanOffsetClip
  have hhead : (decide (withinRequest amount amount) && clipFreeAt p t c amount) = true := by
    simp [withinRequest_self, h]
  unfold offsetCandidates
  rw [List.cons_append, List.filter_cons_of_pos (by simpa using hhead)]
  simp only
  rw [largestMagnitude_eq_head]
  intro e he
  have hw := (List.mem_filter.mp he).2
  simp only [Bool.and_eq_true, decide_eq_true_eq] at hw
  exact (withinRequest_bounded amount e hw.1).2

theorem slidePass_single (f : CanOffsetClipFn) (fuel : Nat) (big : ℚ) (st : ClipMoveState)
    (q : Project) (tc : TrackClip) (a : ClipId) (harr : st.capturedClipArray = [tc])
    (hc : tc.clip = some a) :
    slidePass f fuel big st.capturedClipArray (st, q) =
      some (applyAllowed st (f q tc.track a st.hSlideAmount), q) := by
  simp [slidePass, slideEntry, hc, DoOffset, harr, applyAllowed_array, DoOffsetEntry]

theorem applyAllowed_same (st : ClipMoveState) : applyAllowed st (true, st.hSlideAmount) = st := by
  simp [applyAllowed]

theorem slideLoop_single_settled (f : CanOffsetClipFn) (n : Nat) (big : ℚ) (st : ClipMoveState)
    (q : Project) (tc : TrackClip) (a : ClipId) (harr : st.capturedClipArray = [tc])
    (hc : tc.clip = some a)
    (hf : f q tc.track a st.hSlideAmount = (true, st.hSlideAmount)) :
    slideLoop f big (n + 1) (st, q) = some (st, q) := by
  simp only [slideLoop]
  rw [slidePass_single f (n + 1) big st q tc a harr hc, hf, applyAllowed_same]
  simp

theorem DoOffset_single (fuel : Nat) (st : ClipMoveState) (q : Project) (tc : TrackClip)
    (a : ClipId) (d : ℚ) (harr : st.capturedClipArray = [tc]) (hc : tc.clip = some a) :
    DoOffset fuel st q none d none = some (q.offsetClip a d) := by
  simp [DoOffset, harr, DoOffsetEntry, hc]

theorem offsetClip_clips_self (q : Project) (a : ClipId) (d : ℚ) :
    (q.offsetClip a d).clips a = (q.clips a).Offset d := by
  simp [Project.offsetClip]

theorem clipFreeAt_alone (p : Project) (t : TrackId) (a : ClipId) (d : ℚ)
    (hclips : (p.tracks t).mClips = [a]) : clipFreeAt p t a d = true := by
  simp [clipFreeAt, hclips]

/-- A single captured clip that is clear of the other clips of its track at the requested
amount is moved by the whole request. -/
theorem DoSlideHorizontal_single_free (n : Nat) (state : ClipMoveState) (p : Project)
    (capturedTrack : TrackId) (tc : TrackClip) (a : ClipId)
    (harr : state.capturedClipArray = [tc]) (hc : tc.clip = some a)
    (hfree : clipFreeAt p tc.track a state.hSlideAmount = true) :
    ∃ out, DoSlideHorizontal CanOffsetClip (n + 1) state p capturedTrack = some out ∧
      out.1.hSlideAmount = state.hSlideAmount ∧
      (out.2.clips a).GetStartTime = (p.clips a).GetStartTime + state.hSlideAmount ∧
      (out.2.clips a).GetEndTime = (p.clips a).GetEndTime + state.hSlideAmount := by
  have hloop := slideLoop_single_settled CanOffsetClip n
    (1000 + 2 * (p.GetEndTime - p.GetStartTime)) state p tc a harr hc
    (CanOffsetClip_free p tc.track a _ hfree)
  unfold DoSlideHorizontal
  have hlen : state.capturedClipArray.length ≠ 0 := by simp [harr]
  simp only [if_pos hlen, hloop, Option.some_bind]
  by_cases hz : state.hSlideAmount ≠ 0
  · rw [if_pos hz, DoOffset_single (n + 1) state p tc a _ harr hc]
    refine ⟨_, rfl, rfl, ?_, ?_⟩
    · simp [offsetClip_clips_self, WaveClip.Offset, WaveClip.GetStartTime]
    · simp [offsetClip_clips_self, WaveClip.Offset, WaveClip.GetEndTime]; ring
  · rw [if_neg hz]
    refine ⟨_, rfl, rfl, ?_, ?_⟩
    · simp [not_not.mp hz]
    · simp [not_not.mp hz]

theorem clipFreeAt_pair (p : Project) (t : TrackId) (a b : ClipId) (d : ℚ)
    (hclips : (p.tracks t).mClips = [a, b] ∨ (p.tracks t).mClips = [b, a]) (hab : a ≠ b) :
    clipFreeAt p t a d = true ↔ ¬ ((p.clips a).Offset d).Overlaps (p.clips b) := by
  have hba : b ≠ a := fun h => hab h.symm
  rcases hclips with h | h <;> simp [clipFreeAt, h, hba]

theorem offsetCandidates_pair (p : Project) (t : TrackId) (a b : ClipId) (d : ℚ)
    (hclips : (p.tracks t).mClips = [a, b] ∨ (p.tracks t).mClips = [b, a]) (hab : a ≠ b)
    (hd : 0 ≤ d) :
    offsetCandidates p t a d =
      [d, (p.clips b).GetStartTime - (p.clips a).GetEndTime, 0] := by
  have hba : b ≠ a := fun h => hab h.symm
  rcases hclips with h | h <;> simp [offsetCandidates, h, hba, hd, List.filter]

/-- A clip that the request would push into the clip to its right is allowed to move up to
that clip's left edge. -/
theorem CanOffsetClip_blocked (p : Project) (t : TrackId) (a b : ClipId) (d : ℚ)
    (hclips : (p.tracks t).mClips = [a, b] ∨ (p.tracks t).mClips = [b, a]) (hab : a ≠ b)
    (hB : (p.clips a).GetEndTime ≤ (p.clips b).GetStartTime)
    (hD1 : (p.clips b).GetStartTime - (p.clips a).GetEndTime < d)
    (hD2 : (p.clips a).GetStartTime + d < (p.clips b).GetEndTime) :
    CanOffsetClip p t a d = (true, (p.clips b).GetStartTime - (p.clips a).GetEndTime) := by
  have hd : 0 ≤ d := by linarith
  have hg : 0 ≤ (p.clips b).GetStartTime - (p.clips a).GetEndTime := by linarith
  have hf1 : clipFreeAt p t a d = false := by
    rw [← Bool.not_eq_true, clipFreeAt_pair p t a b d hclips hab, not_not]
    unfold WaveClip.Overlaps
    simp only [WaveClip.Offset, WaveClip.GetStartTime, WaveClip.GetEndTime] at *
    constructor <;> linarith
  have hf2 : clipFreeAt p t a ((p.clips b).GetStartTime - (p.clips a).GetEndTime) = true := by
    rw [clipFreeAt_pair p t a b _ hclips hab]
    unfold WaveClip.Overlaps
    simp only [WaveClip.Offset, WaveClip.GetStartTime, WaveClip.GetEndTime] at *
    intro h
    linarith [h.2]
  have hf3 : clipFreeAt p t a 0 = true := by
    rw [clipFreeAt_pair p t a b _ hclips hab, WaveClip.Offset_zero]
    unfold WaveClip.Overlaps
    intro h
    linarith [h.2]
  have hw2 : withinRequest d ((p.clips b).GetStartTime - (p.clips a).GetEndTime) := by
    unfold withinRequest
    rw [if_pos hd]
    exact ⟨hg, le_of_lt hD1⟩
  have hw3 : withinRequest d 0 := by
    unfold withinRequest
    rw [if_pos hd]
    exact ⟨le_refl _, hd⟩
  unfold CanOffsetClip
  rw [offsetCandidates_pair p t a b d hclips hab hd]
  simp only [List.filter, hf1, hf2, hf3, hw2, hw3, decide_True, Bool.and_false, Bool.and_true]
  rw [largestMagnitude_eq_head]
  intro e he
  simp only [List.mem_singleton] at he
  subst he
  simp

/-- A single captured clip that the request would push into the one other clip of its track,
lying to its right, is moved up to that clip's left edge. -/
theorem DoSlideHorizontal_single_blocked (n : Nat) (state : ClipMoveState) (p : Project)
    (capturedTrack : TrackId) (tc : TrackClip) (a b : ClipId)
    (harr : state.capturedClipArray = [tc]) (hc : tc.clip = some a)
    (hclips : (p.tracks tc.track).mClips = [a, b] ∨ (p.tracks tc.track).mClips = [b, a])
    (hab : a ≠ b)
    (hB : (p.clips a).GetEndTime ≤ (p.clips b).GetStartTime)
    (hD1 : (p.clips b).GetStartTime - (p.clips a).GetEndTime < state.hSlideAmount)
    (hD2 : (p.clips a).GetStartTime + state.hSlideAmount < (p.clips b).GetEndTime) :
    ∃ out, DoSlideHorizontal CanOffsetClip (n + 2) state p capturedTrack = some out ∧
      out.1.hSlideAmount = (p.clips b).GetStartTime - (p.clips a).GetEndTime ∧
      (out.2.clips a).GetStartTime = (p.clips a).GetStartTime +
        ((p.clips b).GetStartTime - (p.clips a).GetEndTime) ∧
      (out.2.clips a).GetEndTime = (p.clips b).GetStartTime ∧
      out.2.clips b = p.clips b := by
  have hq1 := CanOffsetClip_blocked p tc.track a b state.hSlideAmount hclips hab hB hD1 hD2
  have hfree : clipFreeAt p tc.track a
      ((p.clips b).GetStartTime - (p.clips a).GetEndTime) = true := by
    rw [clipFreeAt_pair p tc.track a b _ hclips hab]
    unfold WaveClip.Overlaps
    simp only [WaveClip.Offset, WaveClip.GetStartTime, WaveClip.GetEndTime] at *
    intro h
    linarith [h.2]
  have hne : state.hSlideAmount ≠ (p.clips b).GetStartTime - (p.clips a).GetEndTime :=
    ne_of_gt hD1
  have hpass1 : applyAllowed state
      (true, (p.clips b).GetStartTime - (p.clips a).GetEndTime) =
      { state with hSlideAmount := (p.clips b).GetStartTime - (p.clips a).GetEndTime,
                   snapLeft := -1, snapRight := -1 } := by
    simp [applyAllowed, hne]
  have hloop2 := slideLoop_single_settled CanOffsetClip n
    (1000 + 2 * (p.GetEndTime - p.GetStartTime))
    { state with hSlideAmount := (p.clips b).GetStartTime - (p.clips a).GetEndTime,
                 snapLeft := -1, snapRight := -1 } p tc a harr hc
    (CanOffsetClip_free p tc.track a _ hfree)
  have hloop : slideLoop CanOffsetClip (1000 + 2 * (p.GetEndTime - p.GetStartTime)) (n + 2)
      (state, p) = some ({ state with
        hSlideAmount := (p.clips b).GetStartTime - (p.clips a).GetEndTime,
        snapLeft := -1, snapRight := -1 }, p) := by
    rw [slideLoop]
    simp only []
    rw [slidePass_single CanOffsetClip (n + 1 + 1) _ state p tc a harr hc, hq1, hpass1]
    simp only [Option.some_bind]
    rw [if_pos (fun h => hne h.symm)]
    exact hloop2
  unfold DoSlideHorizontal
  have hlen : state.capturedClipArray.length ≠ 0 := by simp [harr]
  simp only [if_pos hlen, hloop, Option.some_bind]
  by_cases hz : (p.clips b).GetStartTime - (p.clips a).GetEndTime ≠ 0
  · rw [if_pos hz, DoOffset_single (n + 2)
      { state with hSlideAmount := (p.clips b).GetStartTime - (p.clips a).GetEndTime,
                   snapLeft := -1, snapRight := -1 } p tc a _ harr hc]
    refine ⟨_, rfl, rfl, ?_, ?_, ?_⟩
    · simp [offsetClip_clips_self, WaveClip.Offset, WaveClip.GetStartTime]
    · simp [offsetClip_clips_self, WaveClip.Offset, WaveClip.GetEndTime]; ring
    · simp only [Project.offsetClip]
      exact Function.update_noteq (fun h : b = a => hab h.symm) _ _
  · rw [if_neg hz]
    have hz2 := not_not.mp hz
    refine ⟨_, rfl, rfl, ?_, ?_, rfl⟩
    · simp [hz2]
    · simp only; linarith

theorem twoClipProject_noOverlap : NoOverlap twoClipProject := by
  intro t c hc o ho hoc
  by_cases ht : t = 0
  · subst ht
    simp only [twoClipProject, monoWaveTrack, if_true, List.mem_cons, List.mem_singleton,
      List.not_mem_nil, or_false] at hc ho
    rcases hc with rfl | rfl <;> rcases ho with rfl | rfl
    · exact absurd rfl hoc
    · norm_num [WaveClip.Overlaps, twoClipProject, WaveClip.GetStartTime, WaveClip.GetEndTime]
    · norm_num [WaveClip.Overlaps, twoClipProject, WaveClip.GetStartTime, WaveClip.GetEndTime]
    · exact absurd rfl hoc
  · simp [twoClipProject, monoWaveTrack, ht] at hc

theorem slideState_wellFormed (D : ℚ) :
    CaptureWellFormed twoClipProject (slideState D).capturedClipArray := by
  refine ⟨?_, ?_, ?_⟩
  · intro tc htc c hc
    simp only [slideState, List.mem_singleton] at htc
    subst htc
    simp only [TrackClip.new, Option.some.injEq] at hc
    subst hc
    simp [twoClipProject, monoWaveTrack, TrackClip.new]
  · intro tc htc hc
    simp only [slideState, List.mem_singleton] at htc
    subst htc
    simp [TrackClip.new] at hc
  · simp [slideState, TrackClip.new]

theorem slideState_two_blocked :
    ∃ out, DoSlideHorizontal CanOffsetClip 2 (slideState 2) twoClipProject 0 = some out :=
  let ⟨out, h, _⟩ := DoSlideHorizontal_single_blocked 0 (slideState 2) twoClipProject
    0 (TrackClip.new 0 (some 0)) 0 1 rfl rfl (Or.inl (by rfl)) (by decide)
    (by norm_num [twoClipProject, WaveClip.GetEndTime, WaveClip.GetStartTime])
    (by norm_num [twoClipProject, slideState, WaveClip.GetEndTime, WaveClip.GetStartTime])
    (by norm_num [twoClipProject, slideState, WaveClip.GetEndTime, WaveClip.GetStartTime])
  ⟨out, h⟩

/-- C1, witness: clip 0 on `[2, 5)` captured and clip 1 on `[6, 8)` stationary, requested
amount 2, with the oracle of the spec. -/
theorem DoSlideHorizontal_no_overlap_witness :
    OracleSound CanOffsetClip ∧ OracleShrinks CanOffsetClip ∧
    CaptureWellFormed twoClipProject (slideState 2).capturedClipArray ∧
    NoOverlap twoClipProject ∧
    ∃ out, DoSlideHorizontal CanOffsetClip 2 (slideState 2) twoClipProject 0 = some out ∧
      ∀ tc ∈ (slideState 2).capturedClipArray, ∀ c, tc.clip = some c →
        ∀ o ∈ (out.2.tracks tc.track).mClips, ¬ Captured (slideState 2).capturedClipArray o →
          ¬ (out.2.clips c).Overlaps (out.2.clips o) := by
  obtain ⟨out, h⟩ := slideState_two_blocked
  exact ⟨CanOffsetClip_sound, CanOffsetClip_shrinks, slideState_wellFormed 2,
    twoClipProject_noOverlap, out, h,
    DoSlideHorizontal_no_overlap CanOffsetClip CanOffsetClip_sound CanOffsetClip_shrinks 2
      (slideState 2) twoClipProject 0 out (slideState_wellFormed 2) twoClipProject_noOverlap h⟩

/-- C2, witness: the same drag; the resolved amount has the sign of, and is no larger than,
the requested amount 2. -/
theorem DoSlideHorizontal_amount_bounded_witness :
    OracleShrinks CanOffsetClip ∧
    ∃ out, DoSlideHorizontal CanOffsetClip 2 (slideState 2) twoClipProject 0 = some out ∧
      (out.1.hSlideAmount = 0 ∨ (0 < (slideState 2).hSlideAmount ∧ 0 < out.1.hSlideAmount) ∨
        ((slideState 2).hSlideAmount < 0 ∧ out.1.hSlideAmount < 0)) ∧
      |out.1.hSlideAmount| ≤ |(slideState 2).hSlideAmount| := by
  obtain ⟨out, h⟩ := slideState_two_blocked
  exact ⟨CanOffsetClip_shrinks, out, h,
    DoSlideHorizontal_amount_bounded CanOffsetClip CanOffsetClip_shrinks 2 (slideState 2)
      twoClipProject 0 out h⟩

/-! ## C3: a clip blocked by a stationary clip -/

/-- C3, counterexample: with clip 0 on `[2, 5)` captured, clip 1 on `[6, 8)` stationary on the
same track and the requested amount 10 (larger than the gap 1), the resolved amount is 10,
not the gap: the clip clears the stationary clip on its far side and lands on `[12, 15)`. -/
theorem DoSlideHorizontal_jumps_over :
    (twoClipProject.clips 0).GetEndTime ≤ (twoClipProject.clips 1).GetStartTime ∧
    (twoClipProject.clips 1).GetStartTime - (twoClipProject.clips 0).GetEndTime < 10 ∧
    ∃ out, DoSlideHorizontal CanOffsetClip 2 (slideState 10) twoClipProject 0 = some out ∧
      out.1.hSlideAmount = 10 ∧
      out.1.hSlideAmount ≠
        (twoClipProject.clips 1).GetStartTime - (twoClipProject.clips 0).GetEndTime ∧
      (out.2.clips 0).GetStartTime = 12 ∧ (out.2.clips 0).GetEndTime = 15 := by
  refine ⟨by norm_num [twoClipProject, WaveClip.GetEndTime, WaveClip.GetStartTime],
    by norm_num [twoClipProject, WaveClip.GetEndTime, WaveClip.GetStartTime], ?_⟩
  have hfree : clipFreeAt twoClipProject (TrackClip.new 0 (some 0)).track 0
      (slideState 10).hSlideAmount = true := by
    rw [clipFreeAt_pair twoClipProject _ 0 1 _ (Or.inl (by rfl)) (by decide)]
    norm_num [WaveClip.Overlaps, twoClipProject, slideState, WaveClip.Offset,
      WaveClip.GetEndTime, WaveClip.GetStartTime]
  obtain ⟨out, h1, h2, h3, h4⟩ := DoSlideHorizontal_single_free 1 (slideState 10)
    twoClipProject 0 (TrackClip.new 0 (some 0)) 0 rfl rfl hfree
  refine ⟨out, h1, h2, ?_, ?_, ?_⟩
  · rw [h2]
    norm_num [twoClipProject, slideState, WaveClip.GetEndTime, WaveClip.GetStartTime]
  · rw [h3]
    norm_num [twoClipProject, slideState, WaveClip.GetEndTime, WaveClip.GetStartTime]
  · rw [h4]
    norm_num [twoClipProject, slideState, WaveClip.GetEndTime, WaveClip.GetStartTime]

/-- C3, amended: for a capture set holding one clip `a` and a single stationary clip `b` on the
same track with `b.start ≥ a.end`, for every requested amount `D` with
`b.start - a.end < D < b.end - a.start` (the request would make `a` overlap `b`),
`DoSlideHorizontal` returns with the amount resolved to exactly `b.start - a.end`; `a` is moved
by that amount, so that its end is `b.start`, and `b` is not moved. -/
theorem DoSlideHorizontal_blocked (n : Nat) (state : ClipMoveState) (p : Project)
    (capturedTrack : TrackId) (tc : TrackClip) (a b : ClipId)
    (harr : state.capturedClipArray = [tc]) (hc : tc.clip = some a)
    (hclips : (p.tracks tc.track).mClips = [a, b] ∨ (p.tracks tc.track).mClips = [b, a])
    (hab : a ≠ b)
    (hB : (p.clips a).GetEndTime ≤ (p.clips b).GetStartTime)
    (hD1 : (p.clips b).GetStartTime - (p.clips a).GetEndTime < state.hSlideAmount)
    (hD2 : state.hSlideAmount < (p.clips b).GetEndTime - (p.clips a).GetStartTime) :
    ∃ out, DoSlideHorizontal CanOffsetClip (n + 2) state p capturedTrack = some out ∧
      out.1.hSlideAmount = (p.clips b).GetStartTime - (p.clips a).GetEndTime ∧
      (out.2.clips a).GetStartTime = (p.clips a).GetStartTime +
        ((p.clips b).GetStartTime - (p.clips a).GetEndTime) ∧
      (out.2.clips a).GetEndTime = (p.clips b).GetStartTime ∧
      out.2.clips b = p.clips b :=
  DoSlideHorizontal_single_blocked n state p capturedTrack tc a b harr hc hclips hab hB hD1
    (by linarith)

/-- C3, witness: clip 0 on `[2, 5)`, clip 1 on `[6, 8)`, requested amount 2: the resolved
amount is 1 and clip 0 lands on `[3, 6)`. -/
theorem DoSlideHorizontal_blocked_witness :
    ∃ out, DoSlideHorizontal CanOffsetClip 2 (slideState 2) twoClipProject 0 = some out ∧
      out.1.hSlideAmount = 1 ∧
      (out.2.clips 0).GetStartTime = 3 ∧ (out.2.clips 0).GetEndTime = 6 := by
  obtain ⟨out, h1, h2, h3, h4, _⟩ := DoSlideHorizontal_blocked 0 (slideState 2) twoClipProject
    0 (TrackClip.new 0 (some 0)) 0 1 rfl rfl (Or.inl (by rfl)) (by decide)
    (by norm_num [twoClipProject, WaveClip.GetEndTime, WaveClip.GetStartTime])
    (by norm_num [twoClipProject, slideState, WaveClip.GetEndTime, WaveClip.GetStartTime])
    (by norm_num [twoClipProject, slideState, WaveClip.GetEndTime, WaveClip.GetStartTime])
  refine ⟨out, h1, ?_, ?_, ?_⟩
  · rw [h2]; norm_num [twoClipProject, WaveClip.GetEndTime, WaveClip.GetStartTime]
  · rw [h3]; norm_num [twoClipProject, WaveClip.GetEndTime, WaveClip.GetStartTime]
  · rw [h4]; norm_num [twoClipProject, WaveClip.GetEndTime, WaveClip.GetStartTime]

/-! ## C4: a single clip without obstacles -/

/-- C4: for a capture set holding a single clip `a` whose track contains no other clip, for
every requested amount `DoSlideHorizontal` returns, leaves `state.hSlideAmount` equal to the
request, and moves the clip so that its start and its end are both increased by exactly the
request. -/
theorem DoSlideHorizontal_single_clip (n : Nat) (state : ClipMoveState) (p : Project)
    (capturedTrack : TrackId) (tc : TrackClip) (a : ClipId)
    (harr : state.capturedClipArray = [tc]) (hc : tc.clip = some a)
    (hclips : (p.tracks tc.track).mClips = [a]) :
    ∃ out, DoSlideHorizontal CanOffsetClip (n + 1) state p capturedTrack = some out ∧
      out.1.hSlideAmount = state.hSlideAmount ∧
      (out.2.clips a).GetStartTime = (p.clips a).GetStartTime + state.hSlideAmount ∧
      (out.2.clips a).GetEndTime = (p.clips a).GetEndTime + state.hSlideAmount := by
  exact DoSlideHorizontal_single_free n state p capturedTrack tc a harr hc
    (clipFreeAt_alone p tc.track a _ hclips)

/-- C4, witness: clip 0 on `[2, 5)` alone on its track, requested amount 1: the resolved
amount is 1 and the clip lands on `[3, 6)`. -/
theorem DoSlideHorizontal_single_clip_witness :
    ∃ out, DoSlideHorizontal CanOffsetClip 1 (slideState 1) oneClipProject 0 = some out ∧
      out.1.hSlideAmount = 1 ∧
      (out.2.clips 0).GetStartTime = 3 ∧ (out.2.clips 0).GetEndTime = 6 := by
  obtain ⟨out, h1, h2, h3, h4⟩ := DoSlideHorizontal_single_clip 0 (slideState 1)
    oneClipProject 0 (TrackClip.new 0 (some 0)) 0 rfl rfl rfl
  refine ⟨out, h1, ?_, ?_, ?_⟩
  · rw [h2]; rfl
  · rw [h3]; norm_num [oneClipProject, slideState, WaveClip.GetStartTime]
  · rw [h4]; norm_num [oneClipProject, slideState, WaveClip.GetEndTime]

/-! ## C9, C10: snapping in `FindDesiredSlideAmount` -/

/-- C9: for every call of `FindDesiredSlideAmount` that consults the snap manager, whatever
the two `Snap` results are, on return at most one of `snapLeft` and `snapRight` has been
assigned a snapped position: both are the sentinel -1, or `snapRight` is -1 and `snapLeft` is
the position of the snapped left edge, or `snapLeft` is -1 and `snapRight` is the position of
the snapped right edge. -/
theorem FindDesiredSlideAmount_snap_exclusive (viewInfo : ViewInfo) (p : Project)
    (xx m_x : Int) (snapManager : SnapManager) (snapPreferRightEdge : Bool)
    (state : ClipMoveState) (capturedTrack track : TrackId) :
    ((FindDesiredSlideAmount viewInfo p xx m_x (some snapManager) false snapPreferRightEdge
        state capturedTrack track).2.snapLeft = -1 ∧
      (FindDesiredSlideAmount viewInfo p xx m_x (some snapManager) false snapPreferRightEdge
        state capturedTrack track).2.snapRight = -1) ∨
    ((FindDesiredSlideAmount viewInfo p xx m_x (some snapManager) false snapPreferRightEdge
        state capturedTrack track).2.snapRight = -1 ∧
      (FindDesiredSlideAmount viewInfo p xx m_x (some snapManager) false snapPreferRightEdge
        state capturedTrack track).2.snapLeft =
        viewInfo.TimeToPosition
          (snapManager capturedTrack
            (capturedStart p state capturedTrack + quantizedSlide viewInfo p m_x state track)
            false) xx) ∨
    ((FindDesiredSlideAmount viewInfo p xx m_x (some snapManager) false snapPreferRightEdge
        state capturedTrack track).2.snapLeft = -1 ∧
      (FindDesiredSlideAmount viewInfo p xx m_x (some snapManager) false snapPreferRightEdge
        state capturedTrack track).2.snapRight =
        viewInfo.TimeToPosition
          (snapManager capturedTrack
            (capturedEnd p state capturedTrack + quantizedSlide viewInfo p m_x state track)
            false) xx) := by
  simp only [FindDesiredSlideAmount, Bool.false_eq_true, if_false]
  split_ifs <;> simp_all

/-- C10: for every call of `FindDesiredSlideAmount` in which an edge is snapped, the returned
amount makes the kept edge coincide with its snap target.  The left edge is kept when it snaps
and the right edge does not snap or is not preferred: then captured start plus the returned
amount is the time `Snap` returned for the left edge.  The right edge is kept when it snaps and
the left edge does not snap or the right one is preferred: then captured end plus the returned
amount is the time `Snap` returned for the right edge.  So when both edges would snap, the kept
edge is the right one exactly when the prefer-right-edge flag is set. -/
theorem FindDesiredSlideAmount_snapped_edge (viewInfo : ViewInfo) (p : Project)
    (xx m_x : Int) (snapManager : SnapManager) (snapPreferRightEdge : Bool)
    (state : ClipMoveState) (capturedTrack track : TrackId)
    (hsnap :
      snapManager capturedTrack
          (capturedStart p state capturedTrack + quantizedSlide viewInfo p m_x state track) false
        ≠ capturedStart p state capturedTrack + quantizedSlide viewInfo p m_x state track ∨
      snapManager capturedTrack
          (capturedEnd p state capturedTrack + quantizedSlide viewInfo p m_x state track) false
        ≠ capturedEnd p state capturedTrack + quantizedSlide viewInfo p m_x state track) :
    ((snapManager capturedTrack
          (capturedStart p state capturedTrack + quantizedSlide viewInfo p m_x state track) false
        ≠ capturedStart p state capturedTrack + quantizedSlide viewInfo p m_x state track ∧
      (snapManager capturedTrack
          (capturedEnd p state capturedTrack + quantizedSlide viewInfo p m_x state track) false
        ≠ capturedEnd p state capturedTrack + quantizedSlide viewInfo p m_x state track →
        snapPreferRightEdge = false)) →
      capturedStart p state capturedTrack +
        (FindDesiredSlideAmount viewInfo p xx m_x (some snapManager) false snapPreferRightEdge
          state capturedTrack track).1 =
      snapManager capturedTrack
        (capturedStart p state capturedTrack + quantizedSlide viewInfo p m_x state track) false) ∧
    ((snapManager capturedTrack
          (capturedEnd p state capturedTrack + quantizedSlide viewInfo p m_x state track) false
        ≠ capturedEnd p state capturedTrack + quantizedSlide viewInfo p m_x state track ∧
      (snapManager capturedTrack
          (capturedStart p state capturedTrack + quantizedSlide viewInfo p m_x state track) false
        ≠ capturedStart p state capturedTrack + quantizedSlide viewInfo p m_x state track →
        snapPreferRightEdge = true)) →
      capturedEnd p state capturedTrack +
        (FindDesiredSlideAmount viewInfo p xx m_x (some snapManager) false snapPreferRightEdge
          state capturedTrack track).1 =
      snapManager capturedTrack
        (capturedEnd p state capturedTrack + quantizedSlide viewInfo p m_x state track) false) := by
  simp only [FindDesiredSlideAmount, Bool.false_eq_true, if_false]
  generalize snapManager capturedTrack
    (capturedStart p state capturedTrack + quantizedSlide viewInfo p m_x state track) false = L
    at hsnap ⊢
  generalize snapManager capturedTrack
    (capturedEnd p state capturedTrack + quantizedSlide viewInfo p m_x state track) false = R
    at hsnap ⊢
  generalize capturedStart p state capturedTrack = s0 at hsnap ⊢
  generalize capturedEnd p state capturedTrack = e0 at hsnap ⊢
  generalize quantizedSlide viewInfo p m_x state track = d0 at hsnap ⊢
  cases snapPreferRightEdge <;> by_cases hL : L = s0 + d0 <;> by_cases hR : R = e0 + d0 <;>
    simp_all <;> ring

/-! ## Lemmas: offsets keep the structure of the project -/

theorem sameStructure_refl (p : Project) : SameStructure p p :=
  ⟨rfl, fun _ => ⟨rfl, rfl, rfl, rfl⟩⟩

theorem sameStructure_trans {p q r : Project} (h1 : SameStructure p q)
    (h2 : SameStructure q r) : SameStructure p r := by
  refine ⟨h2.1.trans h1.1, fun t => ?_⟩
  obtain ⟨a1, a2, a3, a4⟩ := h1.2 t
  obtain ⟨b1, b2, b3, b4⟩ := h2.2 t
  exact ⟨b1.trans a1, b2.trans a2, b3.trans a3, b4.trans a4⟩

theorem offsetClip_sameStructure (p : Project) (c : ClipId) (d : ℚ) :
    SameStructure p (p.offsetClip c d) :=
  ⟨rfl, fun _ => ⟨rfl, rfl, rfl, rfl⟩⟩

theorem foldl_offsetClip_sameStructure (d : ℚ) (cs : List ClipId) (p : Project) :
    SameStructure p (cs.foldl (fun q c => q.offsetClip c d) p) := by
  induction cs generalizing p with
  | nil => exact sameStructure_refl p
  | cons c rest ih =>
    simp only [List.foldl_cons]
    exact sameStructure_trans (offsetClip_sameStructure p c d) (ih _)

theorem offsetTrack_sameStructure (p : Project) (t : TrackId) (d : ℚ) :
    SameStructure p (p.offsetTrack t d) := by
  unfold Project.offsetTrack
  split
  · exact foldl_offsetClip_sameStructure d _ p
  · refine ⟨rfl, fun u => ?_⟩
    by_cases hu : u = t
    · subst hu; simp
    · simp [hu]

theorem DoOffsetEntry_sameStructure (d : ℚ) (excl : Option ClipId) (p : Project)
    (tc : TrackClip) : SameStructure p (DoOffsetEntry d excl p tc) := by
  unfold DoOffsetEntry
  split
  · split
    · exact offsetClip_sameStructure p _ d
    · exact sameStructure_refl p
  · exact offsetTrack_sameStructure p _ d

theorem foldl_DoOffsetEntry_sameStructure (d : ℚ) (excl : Option ClipId)
    (arr : List TrackClip) (p : Project) :
    SameStructure p (arr.foldl (DoOffsetEntry d excl) p) := by
  induction arr generalizing p with
  | nil => exact sameStructure_refl p
  | cons tc rest ih =>
    simp only [List.foldl_cons]
    exact sameStructure_trans (DoOffsetEntry_sameStructure d excl p tc) (ih _)

theorem offsetChannels_sameStructure (d : ℚ) (fuel : Nat) (p q : Project)
    (channel : Option TrackId) (h : offsetChannels d fuel p channel = some q) :
    SameStructure p q := by
  induction fuel generalizing p channel with
  | zero =>
    cases channel with
    | none =>
      simp only [offsetChannels, Option.some.injEq] at h
      subst h; exact sameStructure_refl p
    | some c => simp [offsetChannels] at h
  | succ n ih =>
    cases channel with
    | none =>
      simp only [offsetChannels, Option.some.injEq] at h
      subst h; exact sameStructure_refl p
    | some c =>
      simp only [offsetChannels] at h
      exact sameStructure_trans (offsetTrack_sameStructure p c d) (ih _ _ h)

theorem DoOffset_sameStructure (fuel : Nat) (state : ClipMoveState) (p q : Project)
    (pTrack : Option TrackId) (d : ℚ) (excl : Option ClipId)
    (h : DoOffset fuel state p pTrack d excl = some q) : SameStructure p q := by
  unfold DoOffset at h
  split at h
  · simp only [Option.some.injEq] at h
    subst h
    exact foldl_DoOffsetEntry_sameStructure d excl _ p
  · split at h
    · exact offsetChannels_sameStructure d fuel p q _ h
    · simp only [Option.some.injEq] at h
      subst h; exact sameStructure_refl p

theorem moveSelection_sameStructure (p : Project) (d : ℚ) :
    SameStructure p (p.moveSelection d) :=
  ⟨rfl, fun _ => ⟨rfl, rfl, rfl, rfl⟩⟩

theorem slideEntry_sameStructure (f : CanOffsetClipFn) (fuel : Nat) (big : ℚ)
    (sp out : ClipMoveState × Project) (tc : TrackClip)
    (h : slideEntry f fuel big sp tc = some out) :
    SameStructure sp.2 out.2 ∧ out.1.capturedClipArray = sp.1.capturedClipArray := by
  unfold slideEntry at h
  cases hc : tc.clip with
  | none =>
    simp only [hc, Option.some.injEq] at h
    subst h
    exact ⟨sameStructure_refl _, rfl⟩
  | some clip =>
    simp only [hc, Option.bind_eq_some, Option.map_eq_some'] at h
    obtain ⟨p1, h1, p2, h2, rfl⟩ := h
    exact ⟨sameStructure_trans (DoOffset_sameStructure _ _ _ _ _ _ _ h1)
      (DoOffset_sameStructure _ _ _ _ _ _ _ h2), applyAllowed_array _ _⟩

theorem slidePass_sameStructure (f : CanOffsetClipFn) (fuel : Nat) (big : ℚ)
    (arr : List TrackClip) (sp out : ClipMoveState × Project)
    (h : slidePass f fuel big arr sp = some out) :
    SameStructure sp.2 out.2 ∧ out.1.capturedClipArray = sp.1.capturedClipArray := by
  induction arr generalizing sp with
  | nil =>
    simp only [slidePass, Option.some.injEq] at h
    subst h
    exact ⟨sameStructure_refl _, rfl⟩
  | cons tc rest ih =>
    simp only [slidePass, Option.bind_eq_some] at h
    obtain ⟨mid, h1, h2⟩ := h
    obtain ⟨a1, a2⟩ := slideEntry_sameStructure f fuel big sp mid tc h1
    obtain ⟨b1, b2⟩ := ih mid h2
    exact ⟨sameStructure_trans a1 b1, b2.trans a2⟩

theorem slideLoop_sameStructure (f : CanOffsetClipFn) (big : ℚ) (fuel : Nat)
    (sp out : ClipMoveState × Project) (h : slideLoop f big fuel sp = some out) :
    SameStructure sp.2 out.2 ∧ out.1.capturedClipArray = sp.1.capturedClipArray := by
  induction fuel generalizing sp with
  | zero => simp [slideLoop] at h
  | succ n ih =>
    simp only [slideLoop, Option.bind_eq_some] at h
    obtain ⟨mid, h1, h2⟩ := h
    obtain ⟨a1, a2⟩ := slidePass_sameStructure f _ big _ sp mid h1
    by_cases hne : mid.1.hSlideAmount ≠ sp.1.hSlideAmount
    · rw [if_pos hne] at h2
      obtain ⟨b1, b2⟩ := ih mid h2
      exact ⟨sameStructure_trans a1 b1, b2.trans a2⟩
    · rw [if_neg hne] at h2
      simp only [Option.some.injEq] at h2
      subst h2
      exact ⟨a1, a2⟩

theorem DoSlideHorizontal_sameStructure (f : CanOffsetClipFn) (fuel : Nat)
    (state : ClipMoveState) (p : Project) (capturedTrack : TrackId)
    (out : ClipMoveState × Project)
    (h : DoSlideHorizontal f fuel state p capturedTrack = some out) :
    SameStructure p out.2 ∧ out.1.capturedClipArray = state.capturedClipArray := by
  unfold DoSlideHorizontal at h
  split at h
  · simp only [Option.bind_eq_some] at h
    obtain ⟨sp, h1, h2⟩ := h
    obtain ⟨a1, a2⟩ := slideLoop_sameStructure f _ fuel (state, p) sp h1
    split at h2
    · simp only [Option.map_eq_some'] at h2
      obtain ⟨q, hq, rfl⟩ := h2
      exact ⟨sameStructure_trans a1 (DoOffset_sameStructure _ _ _ _ _ _ _ hq), a2⟩
    · simp only [Option.some.injEq] at h2
      subst h2
      exact ⟨a1, a2⟩
  · simp only [Option.map_eq_some'] at h
    obtain ⟨q, hq, rfl⟩ := h
    exact ⟨DoOffset_sameStructure _ _ _ _ _ _ _ hq, rfl⟩

theorem DragHorizontal_spec (f : CanOffsetClipFn) (fuel : Nat) (desired : ℚ)
    (slidVertically : Bool) (v : VerticalOutcome) (h : TimeShiftHandle) (p : Project)
    (out : DragResult) (hd : DragHorizontal f fuel desired slidVertically v h p = some out) :
    SameStructure p out.project ∧ out.vertical = v ∧
      out.handle.mClipMoveState.capturedClipArray = h.mClipMoveState.capturedClipArray ∧
      out.handle.mDidSlideVertically = h.mDidSlideVertically ∧
      out.handle.mCapturedTrack = h.mCapturedTrack := by
  unfold DragHorizontal at hd
  split at hd
  · simp only [Option.some.injEq] at hd
    subst hd
    exact ⟨sameStructure_refl _, rfl, rfl, rfl, rfl⟩
  · simp only [Option.bind_eq_some, Option.some.injEq] at hd
    obtain ⟨sp, h1, rfl⟩ := hd
    obtain ⟨a1, a2⟩ := DoSlideHorizontal_sameStructure f fuel _ p _ sp h1
    refine ⟨?_, rfl, ?_, rfl, rfl⟩
    · show SameStructure p (if sp.1.capturedClipIsSelection = true
        then sp.2.moveSelection sp.1.hSlideAmount else sp.2)
      by_cases hs : sp.1.capturedClipIsSelection = true
      · rw [if_pos hs]; exact sameStructure_trans a1 (moveSelection_sameStructure _ _)
      · rw [if_neg hs]; exact a1
    · cases slidVertically <;> simpa using a2

/-! ## Lemmas: plucking clips out and putting them back -/

theorem RemoveAndReturnClip_count (p : Project) (t0 : TrackId) (c0 : ClipId) (t : TrackId)
    (c : ClipId) :
    ((RemoveAndReturnClip p t0 c0).1.tracks t).mClips.count c +
      (if t0 = t ∧ (RemoveAndReturnClip p t0 c0).2 = some c then 1 else 0) =
    (p.tracks t).mClips.count c := by
  unfold RemoveAndReturnClip
  by_cases hmem : c0 ∈ (p.tracks t0).mClips
  · simp only [if_pos hmem, Option.some.injEq]
    by_cases ht : t0 = t
    · subst ht
      simp only [Function.update_same, true_and]
      by_cases hc : c0 = c
      · subst hc
        rw [if_pos rfl, List.count_erase_self]
        have := List.count_pos_iff.mpr hmem
        omega
      · rw [if_neg hc, List.count_erase_of_ne (fun h => hc h.symm)]
        rfl
    · have ht2 : t ≠ t0 := fun h => ht h.symm
      simp [ht, Function.update_noteq ht2]
  · simp [if_neg hmem]

theorem RemoveAndReturnClip_holder (p : Project) (t0 : TrackId) (c0 c : ClipId)
    (h : (RemoveAndReturnClip p t0 c0).2 = some c) : c = c0 := by
  unfold RemoveAndReturnClip at h
  split at h
  · simp only [Option.some.injEq] at h
    exact h.symm
  · simp at h

theorem AddClip_count (p : Project) (t0 : TrackId) (c0 : ClipId) (t : TrackId) (c : ClipId) :
    ((AddClip p t0 c0).tracks t).mClips.count c =
      (p.tracks t).mClips.count c + (if t0 = t ∧ c0 = c then 1 else 0) := by
  unfold AddClip
  by_cases ht : t0 = t
  · subst ht
    simp only [Function.update_same, List.count_append, true_and]
    by_cases hc : c0 = c
    · subst hc; simp
    · simp [hc, List.count_singleton]
  · have ht2 : t ≠ t0 := fun h => ht h.symm
    simp [ht, Function.update_noteq ht2]

/-- The constructor of `TemporaryClipRemover` takes out of each track exactly the clips that
the entries then hold, and changes the entries in their holder only. -/
theorem ctor_spec (arr : List TrackClip) (p : Project) :
    (∀ t c, ((TemporaryClipRemover.ctor arr p).2.tracks t).mClips.count c +
        heldFrom (TemporaryClipRemover.ctor arr p).1 t c = (p.tracks t).mClips.count c) ∧
    List.Forall₂ SameButHolder arr (TemporaryClipRemover.ctor arr p).1 ∧
    (∀ e ∈ (TemporaryClipRemover.ctor arr p).1, ∀ c, e.clip ≠ none → e.holder = some c →
      e.clip = some c) := by
  induction arr generalizing p with
  | nil =>
    refine ⟨fun t c => ?_, List.Forall₂.nil, fun e he => absurd he (List.not_mem_nil e)⟩
    simp [TemporaryClipRemover.ctor, heldFrom]
  | cons tc rest ih =>
    cases hc : tc.clip with
    | none =>
      obtain ⟨i1, i2, i3⟩ := ih p
      simp only [TemporaryClipRemover.ctor, hc]
      refine ⟨fun t c => ?_, List.Forall₂.cons ⟨rfl, rfl, rfl, rfl, fun _ => rfl⟩ i2, ?_⟩
      · rw [← i1 t c]
        simp [heldFrom, List.countP_cons, hc]
      · intro e he c hne hh
        rcases List.mem_cons.mp he with h1 | h1
        · subst h1; exact absurd hc hne
        · exact i3 e h1 c hne hh
    | some c0 =>
      obtain ⟨i1, i2, i3⟩ := ih (RemoveAndReturnClip p tc.track c0).1
      simp only [TemporaryClipRemover.ctor, hc]
      refine ⟨fun t c => ?_, List.Forall₂.cons ⟨rfl, rfl, rfl, hc.symm,
        fun hn => by rw [hc] at hn; cases hn⟩ i2, ?_⟩
      · rw [← RemoveAndReturnClip_count p tc.track c0 t c, ← i1 t c]
        simp only [heldFrom, List.countP_cons, hc, ne_eq, reduceCtorEq, not_false_eq_true,
          true_and, decide_eq_true_eq]
        omega
      · intro e he c hne hh
        rcases List.mem_cons.mp he with h1 | h1
        · subst h1
          simp only at hh ⊢
          rw [RemoveAndReturnClip_holder p tc.track c0 c hh]
        · exact i3 e h1 c hne hh

/-- The destructor of `TemporaryClipRemover`, when it returns, has added to each track exactly
the held clips bound for it, and made each clip entry's destination its track. -/
theorem dtor_spec (arr arr2 : List TrackClip) (p p2 : Project)
    (h : TemporaryClipRemover.dtor arr p = some (arr2, p2)) :
    (∀ t c, (p2.tracks t).mClips.count c = (p.tracks t).mClips.count c + heldFor arr t c) ∧
    List.Forall₂ PutBack arr arr2 := by
  induction arr generalizing p arr2 p2 with
  | nil =>
    simp only [TemporaryClipRemover.dtor, Option.some.injEq, Prod.mk.injEq] at h
    obtain ⟨rfl, rfl⟩ := h
    exact ⟨fun t c => by simp [heldFor], List.Forall₂.nil⟩
  | cons tc rest ih =>
    cases hc : tc.clip with
    | none =>
      simp only [TemporaryClipRemover.dtor, hc, Option.map_eq_some', Prod.mk.injEq] at h
      obtain ⟨done, hd, rfl, rfl⟩ := h
      obtain ⟨i1, i2⟩ := ih done.1 p done.2 hd
      refine ⟨fun t c => ?_, List.Forall₂.cons ⟨rfl, rfl, rfl, fun _ => ⟨rfl, rfl⟩,
        fun hne => absurd hc hne⟩ i2⟩
      rw [i1 t c]
      simp [heldFor, List.countP_cons, hc]
    | some c0 =>
      cases hdst : tc.dstTrack with
      | none => simp [TemporaryClipRemover.dtor, hc, hdst] at h
      | some d =>
        cases hh : tc.holder with
        | none => simp [TemporaryClipRemover.dtor, hc, hdst, hh] at h
        | some held =>
          simp only [TemporaryClipRemover.dtor, hc, hdst, hh, Option.map_eq_some',
            Prod.mk.injEq] at h
          obtain ⟨done, hd, rfl, rfl⟩ := h
          obtain ⟨i1, i2⟩ := ih done.1 (AddClip p d held) done.2 hd
          refine ⟨fun t c => ?_, List.Forall₂.cons ⟨hc.symm, rfl, hdst.symm, ?_, ?_⟩ i2⟩
          · rw [i1 t c, AddClip_count]
            simp only [heldFor, List.countP_cons, hc, hdst, hh, ne_eq, reduceCtorEq,
              not_false_eq_true, true_and, Option.some.injEq, decide_eq_true_eq]
            omega
          · intro hn; rw [hc] at hn; cases hn
          · intro _
            exact ⟨hdst.symm, rfl, by rw [hh]; simp⟩

/-! ## Lemmas: audio rows depend on the structure only -/

theorem audioTracks_congr {p q : Project} (h : SameStructure p q) :
    q.audioTracks = p.audioTracks := by
  unfold Project.audioTracks Project.isRightChannel
  rw [h.1]
  apply List.filter_congr
  intro t _
  obtain ⟨a1, a2, a3, _⟩ := h.2 t
  rw [a1, a2, a3]

theorem TrackPosition_congr {p q : Project} (h : SameStructure p q) (t : TrackId) :
    TrackPosition q t = TrackPosition p t := by
  unfold TrackPosition
  rw [audioTracks_congr h, (h.2 t).2.2.1]

theorem NthAudioTrack_congr {p q : Project} (h : SameStructure p q) (nn : Int) :
    NthAudioTrack q nn = NthAudioTrack p nn := by
  unfold NthAudioTrack
  rw [audioTracks_congr h]

theorem resolveDestination_congr {p q : Project} (h : SameStructure p q) (diff : Int)
    (S : TrackId) : resolveDestination q diff S = resolveDestination p diff S := by
  unfold resolveDestination
  simp only [NthAudioTrack_congr h, TrackPosition_congr h, (h.2 S).2.1, (h.2 S).2.2.1]
  cases NthAudioTrack p (diff + TrackPosition p S) with
  | none => rfl
  | some d => simp only [Option.some_bind, (h.2 d).2.2.1]

theorem destinationOk_congr {p q : Project} (h : SameStructure p q) (S : TrackId)
    (D : Option TrackId) : destinationOk q S D = destinationOk p S D := by
  unfold destinationOk
  cases D with
  | none => rfl
  | some d => simp only [(h.2 S).2.1, (h.2 S).2.2.1, (h.2 d).2.1, (h.2 d).2.2.1]

theorem assignDestinations_congr {p q : Project} (h : SameStructure p q) (diff : Int)
    (arr : List TrackClip) : assignDestinations q diff arr = assignDestinations p diff arr := by
  induction arr with
  | nil => rfl
  | cons tc rest ih =>
    simp only [assignDestinations, ih, resolveDestination_congr h, destinationOk_congr h]

theorem forall₂_sameButDestination_refl (l : List TrackClip) :
    List.Forall₂ SameButDestination l l := by
  induction l with
  | nil => exact List.Forall₂.nil
  | cons a l ih => exact List.Forall₂.cons ⟨rfl, rfl, rfl, rfl⟩ ih

theorem assignDestinations_shape (p : Project) (diff : Int) (arr : List TrackClip) :
    List.Forall₂ SameButDestination arr (assignDestinations p diff arr).1 := by
  induction arr with
  | nil => exact List.Forall₂.nil
  | cons tc rest ih =>
    simp only [assignDestinations]
    cases hc : tc.clip with
    | none => exact List.Forall₂.cons ⟨rfl, rfl, rfl, rfl⟩ ih
    | some c =>
      simp only
      by_cases hok : destinationOk p tc.track (resolveDestination p diff tc.track) = true
      · rw [if_pos hok]
        exact List.Forall₂.cons ⟨rfl, rfl, rfl, hc.symm⟩ ih
      · rw [if_neg hok]
        exact forall₂_sameButDestination_refl _

theorem destinationOk_resolve (p : Project) (diff : Int) (S : TrackId)
    (hok : destinationOk p S (resolveDestination p diff S) = true) :
    ∃ D, resolveDestination p diff S = some D ∧
      DestinationAt p (diff + TrackPosition p S) S D ∧ ChannelCompatible p S D := by
  cases hres : resolveDestination p diff S with
  | none => simp [hres, destinationOk] at hok
  | some D =>
    refine ⟨D, rfl, ?_, ?_⟩
    · unfold resolveDestination at hres
      unfold DestinationAt
      cases hn : NthAudioTrack p (diff + TrackPosition p S) with
      | none => simp [hn] at hres
      | some d0 =>
        refine ⟨d0, rfl, ?_⟩
        simp only [hn, Option.isSome_some, true_and, Option.some_bind] at hres
        by_cases hr : (p.tracks S).mLink.isSome = true ∧ ¬ (p.tracks S).mLinked = true
        · rw [if_pos hr] at hres
          have : p.isRightChannel S = true := by
            simp [Project.isRightChannel, hr.1, hr.2]
          rw [if_pos this]; exact hres
        · rw [if_neg hr] at hres
          have : ¬ p.isRightChannel S = true := by
            simp only [Project.isRightChannel, Bool.and_eq_true, Bool.not_eq_true']
            intro hh
            exact hr ⟨hh.1, by simp [hh.2]⟩
          rw [if_neg this]
          exact (Option.some.inj hres).symm
    · rw [hres] at hok
      simp only [destinationOk, Bool.and_eq_true, beq_iff_eq, Bool.or_eq_true,
        Bool.not_eq_true'] at hok
      refine ⟨hok.1, fun hs => ?_⟩
      rcases hok.2 with h1 | h1
      · rw [hs] at h1; cases h1
      · exact h1

theorem assignDestinations_ok (p : Project) (diff : Int) (arr : List TrackClip)
    (h : (assignDestinations p diff arr).2 = true) :
    List.Forall₂ (Resolved p diff) arr (assignDestinations p diff arr).1 := by
  induction arr with
  | nil => exact List.Forall₂.nil
  | cons tc rest ih =>
    simp only [assignDestinations] at h ⊢
    cases hc : tc.clip with
    | none =>
      simp only [hc] at h ⊢
      exact List.Forall₂.cons ⟨⟨rfl, rfl, rfl, rfl⟩, fun hne => absurd hc hne⟩ (ih h)
    | some c =>
      simp only [hc] at h ⊢
      by_cases hok : destinationOk p tc.track (resolveDestination p diff tc.track) = true
      · rw [if_pos hok] at h ⊢
        refine List.Forall₂.cons ⟨⟨rfl, rfl, rfl, hc.symm⟩, fun _ => ?_⟩ (ih h)
        exact destinationOk_resolve p diff tc.track hok
      · rw [if_neg hok] at h
        simp at h

/-! ## Lemmas: the paths of `Drag` -/

theorem forall₂_compose {R S T : TrackClip → TrackClip → Prop}
    (hRS : ∀ a b c, R a b → S b c → T a c) {l1 l2 l3 : List TrackClip}
    (h1 : List.Forall₂ R l1 l2) (h2 : List.Forall₂ S l2 l3) : List.Forall₂ T l1 l3 := by
  induction h1 generalizing l3 with
  | nil => cases h2; exact List.Forall₂.nil
  | cons hab _ ih =>
    cases h2 with
    | cons hbc hrest => exact List.Forall₂.cons (hRS _ _ _ hab hbc) (ih hrest)

theorem checkRestore_sentBack (f : CanInsertClipFn) (p : Project) (arr : List TrackClip)
    (ok : Bool) (d tol : ℚ) :
    List.Forall₂ SentBack arr
      (checkRestore f p (TemporaryClipRemover.Fail arr) ok d tol).1 := by
  induction arr generalizing ok d tol with
  | nil => exact List.Forall₂.nil
  | cons tc rest ih =>
    simp only [TemporaryClipRemover.Fail, List.map_cons] at ih ⊢
    simp only [checkRestore]
    cases hc : tc.clip with
    | none => exact List.Forall₂.cons ⟨⟨rfl, rfl, rfl, hc.symm⟩, rfl⟩ (ih _ _ _)
    | some c =>
      simp only
      cases ok with
      | true => exact List.Forall₂.cons ⟨⟨rfl, rfl, rfl, hc.symm⟩, rfl⟩ (ih _ _ _)
      | false => exact List.Forall₂.cons ⟨⟨rfl, rfl, rfl, hc.symm⟩, rfl⟩ (ih _ _ _)

theorem heldFor_sentBack (arr arr2 : List TrackClip) (h : List.Forall₂ SentBack arr arr2)
    (t : TrackId) (c : ClipId) : heldFor arr2 t c = heldFrom arr t c := by
  induction h with
  | nil => rfl
  | cons hab _ ih =>
    obtain ⟨⟨a1, _, a3, a4⟩, a5⟩ := hab
    simp only [heldFor, heldFrom, List.countP_cons] at ih ⊢
    rw [ih, a4, a5, a3]
    simp

theorem offsetHolders_tracks (ok : Bool) (slide : ℚ) (arr : List TrackClip) (p q : Project)
    (h : offsetHolders ok slide arr p = some q) : q.tracks = p.tracks := by
  induction arr generalizing p with
  | nil =>
    simp only [offsetHolders, Option.some.injEq] at h
    subst h; rfl
  | cons tc rest ih =>
    simp only [offsetHolders] at h
    cases hc : tc.clip with
    | none =>
      simp only [hc] at h
      exact ih p h
    | some c =>
      simp only [hc] at h
      cases ok with
      | false =>
        simp only [Bool.false_eq_true, if_false] at h
        exact ih p h
      | true =>
        simp only [if_true] at h
        cases hh : tc.holder with
        | none => simp [hh] at h
        | some held =>
          simp only [hh] at h
          exact (ih _ h).trans rfl

theorem FindDesiredSlideAmount_array (viewInfo : ViewInfo) (p : Project) (xx m_x : Int)
    (snap : Option SnapManager) (upDown prefer : Bool) (state : ClipMoveState)
    (capturedTrack track : TrackId) :
    (FindDesiredSlideAmount viewInfo p xx m_x snap upDown prefer state capturedTrack
      track).2.capturedClipArray = state.capturedClipArray ∧
    (FindDesiredSlideAmount viewInfo p xx m_x snap upDown prefer state capturedTrack
      track).2.capturedClip = state.capturedClip := by
  unfold FindDesiredSlideAmount
  cases upDown with
  | true => exact ⟨rfl, rfl⟩
  | false =>
    cases snap with
    | none => exact ⟨rfl, rfl⟩
    | some sm =>
      simp only [Bool.false_eq_true, if_false]
      split_ifs <;> exact ⟨rfl, rfl⟩

/-- A `Drag` call that entered the vertical part ran `DragVertical` for the track under the
pointer, on a project of the same structure and on a state with the same captured array. -/
theorem Drag_vertical_inv (cO : CanOffsetClipFn) (cI : CanInsertClipFn) (viewInfo : ViewInfo)
    (fuel : Nat) (audioActive : Bool) (evt : TrackPanelMouseEvent) (h : TimeShiftHandle)
    (p : Project) (out : DragResult)
    (hd : Drag cO cI viewInfo fuel audioActive evt h p = some out)
    (hv : out.vertical ≠ VerticalOutcome.NotAttempted) :
    ∃ pTrack p1 st d, evt.pCell = some pTrack ∧ pTrack ≠ h.mCapturedTrack ∧
      SameStructure p p1 ∧ st.capturedClipArray = h.mClipMoveState.capturedClipArray ∧
      DragVertical cO cI viewInfo fuel evt pTrack d
        { h with mClipMoveState := st } p1 = some out := by
  unfold Drag at hd
  cases audioActive with
  | true =>
    simp only [if_true, Option.some.injEq] at hd
    subst hd
    exact absurd rfl hv
  | false =>
    simp only [Bool.false_eq_true, if_false] at hd
    split at hd
    · simp only [Option.some.injEq] at hd
      subst hd
      exact absurd rfl hv
    · rename_i pTrack htrack
      simp only [Option.bind_eq_some] at hd
      obtain ⟨undone, hundo, hrest⟩ := hd
      have hs1 := DoOffset_sameStructure _ _ _ _ _ _ _ hundo
      have hs2 : SameStructure p (if h.mClipMoveState.capturedClipIsSelection = true
          then undone.moveSelection (-h.mClipMoveState.hSlideAmount) else undone) := by
        by_cases hsel : h.mClipMoveState.capturedClipIsSelection = true
        · rw [if_pos hsel]
          exact sameStructure_trans hs1 (moveSelection_sameStructure _ _)
        · rw [if_neg hsel]; exact hs1
      generalize (if h.mClipMoveState.capturedClipIsSelection = true
          then undone.moveSelection (-h.mClipMoveState.hSlideAmount) else undone) = p1
        at hrest hs2
      have harr := (FindDesiredSlideAmount_array viewInfo p1 h.mRectX evt.m_x h.mSnapManager
        h.mSlideUpDownOnly h.mSnapPreferRightEdge { h.mClipMoveState with hSlideAmount := 0 }
        h.mCapturedTrack pTrack).1
      generalize FindDesiredSlideAmount viewInfo p1 h.mRectX evt.m_x h.mSnapManager
        h.mSlideUpDownOnly h.mSnapPreferRightEdge { h.mClipMoveState with hSlideAmount := 0 }
        h.mCapturedTrack pTrack = found at hrest harr
      by_cases hcond : found.2.capturedClip.isSome = true ∧ pTrack ≠ h.mCapturedTrack ∧
          (p1.tracks pTrack).kind = TrackKind.Wave
      · rw [if_pos hcond] at hrest
        have hcell : evt.pCell = some pTrack := by
          cases hp : evt.pCell with
          | some t =>
            rw [hp] at htrack
            simp only [Option.some.injEq] at htrack
            rw [htrack]
          | none =>
            rw [hp] at htrack
            simp only at htrack
            split at htrack
            · simp only [Option.some.injEq] at htrack
              exact absurd htrack.symm hcond.2.1
            · cases htrack
        exact ⟨pTrack, p1, found.2, found.1, hcell, hcond.2.1, hs2, harr, hrest⟩
      · rw [if_neg hcond] at hrest
        have := (DragHorizontal_spec _ _ _ _ _ _ _ _ hrest).2.1
        exact absurd this hv

/-- The three ways `DragVertical` returns: at the destination test, with the project and all
but the destinations as they were; after a failed insertion test, through the destructor on
entries sent back to their tracks; or accepted, through the destructor on the resolved
destinations and then the horizontal slide. -/
theorem DragVertical_cases (cO : CanOffsetClipFn) (cI : CanInsertClipFn) (viewInfo : ViewInfo)
    (fuel : Nat) (evt : TrackPanelMouseEvent) (pTrack : TrackId) (desired : ℚ)
    (h : TimeShiftHandle) (p : Project) (out : DragResult)
    (hd : DragVertical cO cI viewInfo fuel evt pTrack desired h p = some out) :
    (out.vertical = VerticalOutcome.RejectedDestination ∧
      (assignDestinations p (TrackPosition p pTrack - TrackPosition p h.mCapturedTrack)
        h.mClipMoveState.capturedClipArray).2 = false ∧
      out.project = p ∧
      out.handle.mClipMoveState.capturedClipArray =
        (assignDestinations p (TrackPosition p pTrack - TrackPosition p h.mCapturedTrack)
          h.mClipMoveState.capturedClipArray).1) ∨
    ((assignDestinations p (TrackPosition p pTrack - TrackPosition p h.mCapturedTrack)
        h.mClipMoveState.capturedClipArray).2 = true ∧
      ((out.vertical = VerticalOutcome.RejectedInsert ∧
        ∃ restored moved put, TemporaryClipRemover.dtor restored moved = some put ∧
          moved.tracks = (TemporaryClipRemover.ctor
            (assignDestinations p (TrackPosition p pTrack - TrackPosition p h.mCapturedTrack)
              h.mClipMoveState.capturedClipArray).1 p).2.tracks ∧
          List.Forall₂ SentBack (TemporaryClipRemover.ctor
            (assignDestinations p (TrackPosition p pTrack - TrackPosition p h.mCapturedTrack)
              h.mClipMoveState.capturedClipArray).1 p).1 restored ∧
          out.project = put.2 ∧ out.handle.mClipMoveState.capturedClipArray = put.1) ∨
       (out.vertical = VerticalOutcome.Accepted ∧
        ∃ put, TemporaryClipRemover.dtor
            (TemporaryClipRemover.ctor
              (assignDestinations p (TrackPosition p pTrack - TrackPosition p h.mCapturedTrack)
                h.mClipMoveState.capturedClipArray).1 p).1
            (TemporaryClipRemover.ctor
              (assignDestinations p (TrackPosition p pTrack - TrackPosition p h.mCapturedTrack)
                h.mClipMoveState.capturedClipArray).1 p).2 = some put ∧
          SameStructure put.2 out.project ∧
          out.handle.mClipMoveState.capturedClipArray = put.1 ∧
          out.handle.mDidSlideVertically = true ∧ out.handle.mCapturedTrack = pTrack))) := by
  unfold DragVertical at hd
  simp only at hd
  generalize assignDestinations p (TrackPosition p pTrack - TrackPosition p h.mCapturedTrack)
    h.mClipMoveState.capturedClipArray = resolved at hd ⊢
  by_cases hres : resolved.2 = false
  · rw [if_pos hres] at hd
    simp only [Option.some.injEq] at hd
    subst hd
    exact Or.inl ⟨rfl, hres, rfl, rfl⟩
  · rw [if_neg hres] at hd
    have hres2 : resolved.2 = true := by simpa using hres
    refine Or.inr ⟨hres2, ?_⟩
    generalize TemporaryClipRemover.ctor resolved.1 p = removed at hd ⊢
    simp only [Option.bind_eq_some] at hd
    obtain ⟨first, _, second, _, hrest⟩ := hd
    by_cases hsec : second.1 = false
    · rw [if_pos hsec] at hrest
      simp only [Option.bind_eq_some, Option.map_eq_some'] at hrest
      obtain ⟨shifted, hshift, put, hput, rfl⟩ := hrest
      refine Or.inl ⟨rfl, _, _, put, hput, ?_, checkRestore_sentBack cI removed.2 removed.1 _ _ _,
        rfl, rfl⟩
      have ht := offsetHolders_tracks _ _ _ _ _ hshift
      split
      · exact ht
      · exact ht
    · rw [if_neg hsec] at hrest
      simp only [Option.bind_eq_some] at hrest
      obtain ⟨put, hput, hhoriz⟩ := hrest
      obtain ⟨a1, a2, a3, a4, a5⟩ := DragHorizontal_spec _ _ _ _ _ _ _ _ hhoriz
      exact Or.inr ⟨a2, put, hput, a1, a3, a4, a5⟩

theorem leftInTrack_of_chain (e e1 e2 e3 e4 : TrackClip) (h1 : SameButDestination e e1)
    (h2 : SameButHolder e1 e2) (h3 : SentBack e2 e3) (h4 : PutBack e3 e4) :
    LeftInTrack e e4 := by
  obtain ⟨a1, a2, a3, a4⟩ := h1
  obtain ⟨b1, b2, _, b4, b5⟩ := h2
  obtain ⟨⟨c1, c2, c3, c4⟩, c5⟩ := h3
  obtain ⟨d1, d2, _, d4, d5⟩ := h4
  have hclip3 : e3.clip = e.clip := by rw [c4, b4, a4]
  have hclip1 : e1.clip = e.clip := a4
  refine ⟨?_, by rw [d2, c2, b2, a2], by rw [d1, hclip3], ?_⟩
  · by_cases hn : e3.clip = none
    · rw [(d4 hn).1, c1, b1, a1]
    · have := (d5 hn).1
      rw [c5] at this
      rw [Option.some.inj this, b1, a1]
  · intro hh
    by_cases hn : e3.clip = none
    · rw [(d4 hn).2, c3, b5 (by rw [hclip1, ← hclip3]; exact hn), a3, hh]
    · exact (d5 hn).2.1

/-! ## C5: a rejected vertical move changes no track membership -/

/-- C5: for every `Drag` call that returns with the vertical move rejected (at the
destination test, or after `CanInsertClip` failed at the one-pixel or the zero tolerance),
every track holds after the call the clips it held before, each as often as before, and every
captured entry has the track, the original track and the clip it had before, and holds no
clip unless it held one before: no clip has changed track, none is left detached, none is in
two tracks. -/
theorem Drag_rejected_keeps_tracks (cO : CanOffsetClipFn) (cI : CanInsertClipFn)
    (viewInfo : ViewInfo) (fuel : Nat) (audioActive : Bool) (evt : TrackPanelMouseEvent)
    (h : TimeShiftHandle) (p : Project) (out : DragResult)
    (hd : Drag cO cI viewInfo fuel audioActive evt h p = some out)
    (hrej : out.vertical = VerticalOutcome.RejectedDestination ∨
      out.vertical = VerticalOutcome.RejectedInsert) :
    (∀ t, (out.project.tracks t).mClips.Perm (p.tracks t).mClips) ∧
    List.Forall₂ LeftInTrack h.mClipMoveState.capturedClipArray
      out.handle.mClipMoveState.capturedClipArray := by
  have hv : out.vertical ≠ VerticalOutcome.NotAttempted := by
    rcases hrej with h1 | h1 <;> rw [h1] <;> decide
  obtain ⟨pTrack, p1, st, d, _, _, hs, harr, hdv⟩ :=
    Drag_vertical_inv cO cI viewInfo fuel audioActive evt h p out hd hv
  have hshape := assignDestinations_shape p1
    (TrackPosition p1 pTrack - TrackPosition p1 h.mCapturedTrack) st.capturedClipArray
  rcases DragVertical_cases cO cI viewInfo fuel evt pTrack d _ p1 out hdv with
    ⟨_, _, hproj, harr2⟩ | ⟨_, ⟨_, restored, moved, put, hput, hmoved, hsent, hproj, harr2⟩ |
      ⟨hacc, _⟩⟩
  · refine ⟨fun t => ?_, ?_⟩
    · rw [hproj, (hs.2 t).2.2.2]
    · rw [harr2, ← harr]
      exact hshape.imp fun a b hab => ⟨hab.1, hab.2.1, hab.2.2.2, fun hh => by rw [hab.2.2.1, hh]⟩
  · simp only at hsent hmoved harr2
    obtain ⟨c1, c2, _⟩ := ctor_spec
      (assignDestinations p1 (TrackPosition p1 pTrack - TrackPosition p1 h.mCapturedTrack)
        st.capturedClipArray).1 p1
    obtain ⟨d1, d2⟩ := dtor_spec restored put.1 moved put.2 hput
    refine ⟨fun t => ?_, ?_⟩
    · rw [List.perm_iff_count]
      intro c
      rw [hproj, d1 t c, hmoved, heldFor_sentBack _ _ hsent, c1 t c, (hs.2 t).2.2.2]
    · rw [harr2, ← harr]
      have h12 := forall₂_compose (T := fun a c => ∃ b, SameButDestination a b ∧
        SameButHolder b c) (fun a b c hab hbc => ⟨b, hab, hbc⟩) hshape c2
      have h34 := forall₂_compose (T := fun a c => ∃ b, SentBack a b ∧ PutBack b c)
        (fun a b c hab hbc => ⟨b, hab, hbc⟩) hsent d2
      exact forall₂_compose (fun a b c hab hbc => by
        obtain ⟨x, hx1, hx2⟩ := hab
        obtain ⟨y, hy1, hy2⟩ := hbc
        exact leftInTrack_of_chain a x b y c hx1 hx2 hy1 hy2) h12 h34
  · rcases hrej with h1 | h1 <;> rw [hacc] at h1 <;> cases h1

theorem sample_rejectedInsert :
    ∃ out, Drag CanOffsetClip insertNever unitView 1 false ⟨0, some 1⟩ monoHandle
      twoTrackProject = some out ∧ out.vertical = VerticalOutcome.RejectedInsert := by
  simp [Drag, monoHandle, twoTrackProject, slideState, DoOffset, DoOffsetEntry, TrackClip.new,
    FindDesiredSlideAmount, quantizedSlide, unitView, monoWaveTrack, rint, DragVertical,
    TrackPosition, trackPositionFrom, Project.audioTracks, Project.isRightChannel,
    assignDestinations, resolveDestination, destinationOk, NthAudioTrack,
    TemporaryClipRemover.ctor, TemporaryClipRemover.dtor, TemporaryClipRemover.Fail,
    RemoveAndReturnClip, AddClip, checkInsert, checkRestore, offsetHolders, insertNever,
    Project.offsetClip, Function.update]

/-- C5, witness: clip 0 of mono track 0 is dragged onto mono track 1, whose insertion test
refuses it. -/
theorem Drag_rejected_keeps_tracks_witness :
    ∃ out, Drag CanOffsetClip insertNever unitView 1 false ⟨0, some 1⟩ monoHandle
        twoTrackProject = some out ∧
      out.vertical = VerticalOutcome.RejectedInsert ∧
      (∀ t, (out.project.tracks t).mClips.Perm (twoTrackProject.tracks t).mClips) ∧
      List.Forall₂ LeftInTrack monoHandle.mClipMoveState.capturedClipArray
        out.handle.mClipMoveState.capturedClipArray := by
  obtain ⟨out, h1, h2⟩ := sample_rejectedInsert
  exact ⟨out, h1, h2, Drag_rejected_keeps_tracks CanOffsetClip insertNever unitView 1 false
    ⟨0, some 1⟩ monoHandle twoTrackProject out h1 (Or.inr h2)⟩

theorem forall₂_left_mem {R : TrackClip → TrackClip → Prop} {l1 l2 : List TrackClip}
    (h : List.Forall₂ R l1 l2) : ∀ a ∈ l1, ∃ b ∈ l2, R a b := by
  induction h with
  | nil => intro a ha; exact absurd ha (List.not_mem_nil a)
  | cons hab _ ih =>
    intro a ha
    rcases List.mem_cons.mp ha with h1 | h1
    · subst h1; exact ⟨_, List.mem_cons_self _ _, hab⟩
    · obtain ⟨b, hb, hr⟩ := ih a h1
      exact ⟨b, List.mem_cons_of_mem _ hb, hr⟩

/-! ## C7: the destination rule -/

/-- C7: when a `Drag` call goes on past the destination resolution (the vertical move is
accepted, or rejected only by the insertion test), every captured clip entry with source track
`S` has a destination `D` at the audio row of `S` plus the row offset between the track under
the pointer and the captured track, and `D` is channel-compatible with `S`.  When the call
returns at the destination test, no track has lost or gained a clip and every entry has the
track, original track, clip and holder it had. -/
theorem Drag_destination_rule (cO : CanOffsetClipFn) (cI : CanInsertClipFn)
    (viewInfo : ViewInfo) (fuel : Nat) (audioActive : Bool) (evt : TrackPanelMouseEvent)
    (h : TimeShiftHandle) (p : Project) (out : DragResult)
    (hd : Drag cO cI viewInfo fuel audioActive evt h p = some out) :
    (out.vertical = VerticalOutcome.Accepted ∨ out.vertical = VerticalOutcome.RejectedInsert →
      ∃ pTrack, evt.pCell = some pTrack ∧
        ∀ tc ∈ h.mClipMoveState.capturedClipArray, tc.clip ≠ none →
          ∃ D, DestinationAt p
              (TrackPosition p pTrack - TrackPosition p h.mCapturedTrack +
                TrackPosition p tc.track) tc.track D ∧
            ChannelCompatible p tc.track D) ∧
    (out.vertical = VerticalOutcome.RejectedDestination →
      (∀ t, (out.project.tracks t).mClips = (p.tracks t).mClips) ∧
      List.Forall₂ SameButDestination h.mClipMoveState.capturedClipArray
        out.handle.mClipMoveState.capturedClipArray) := by
  constructor
  · intro hv
    have hv2 : out.vertical ≠ VerticalOutcome.NotAttempted := by
      rcases hv with h1 | h1 <;> rw [h1] <;> decide
    obtain ⟨pTrack, p1, st, d, hcell, _, hs, harr, hdv⟩ :=
      Drag_vertical_inv cO cI viewInfo fuel audioActive evt h p out hd hv2
    refine ⟨pTrack, hcell, ?_⟩
    have hcases := DragVertical_cases cO cI viewInfo fuel evt pTrack d _ p1 out hdv
    simp only [TrackPosition_congr hs, assignDestinations_congr hs, harr] at hcases
    rcases hcases with ⟨hrd, _⟩ | ⟨htrue, _⟩
    · rcases hv with h1 | h1 <;> rw [hrd] at h1 <;> cases h1
    · intro tc htc hclip
      obtain ⟨b, _, hb⟩ := forall₂_left_mem (assignDestinations_ok p _ _ htrue) tc htc
      obtain ⟨D, _, hD1, hD2⟩ := hb.2 hclip
      exact ⟨D, hD1, hD2⟩
  · intro hv
    have hv2 : out.vertical ≠ VerticalOutcome.NotAttempted := by rw [hv]; decide
    obtain ⟨pTrack, p1, st, d, _, _, hs, harr, hdv⟩ :=
      Drag_vertical_inv cO cI viewInfo fuel audioActive evt h p out hd hv2
    rcases DragVertical_cases cO cI viewInfo fuel evt pTrack d _ p1 out hdv with
      ⟨_, _, hproj, harr2⟩ | ⟨_, ⟨hri, _⟩ | ⟨hacc, _⟩⟩
    · refine ⟨fun t => by rw [hproj, (hs.2 t).2.2.2], ?_⟩
      rw [harr2, ← harr]
      exact assignDestinations_shape _ _ _
    · rw [hv] at hri; cases hri
    · rw [hv] at hacc; cases hacc

theorem sample_rejectedDestination (m_x : Int) :
    ∃ out, Drag CanOffsetClip insertAlways unitView 2 false ⟨m_x, some 2⟩ stereoHandle
      stereoProject = some out ∧ out.vertical = VerticalOutcome.RejectedDestination ∧
      out.project.clips 0 = stereoProject.clips 0 ∧
      out.project.clips 1 = stereoProject.clips 1 ∧
      out.handle.mClipMoveState.hSlideAmount = 0 := by
  simp [Drag, stereoHandle, stereoProject, DoOffset, DoOffsetEntry, TrackClip.new,
    FindDesiredSlideAmount, quantizedSlide, unitView, monoWaveTrack, DragVertical,
    TrackPosition, trackPositionFrom, Project.audioTracks, Project.isRightChannel,
    assignDestinations, resolveDestination, destinationOk, NthAudioTrack,
    Project.offsetClip, Function.update, WaveClip.Offset]

/-- C7, witness: a clip of the left channel of a stereo pair, captured with its partner clip
on the right channel, is dragged onto a mono track: the call returns at the destination
test. -/
theorem Drag_destination_rule_witness :
    ∃ out, Drag CanOffsetClip insertAlways unitView 2 false ⟨0, some 2⟩ stereoHandle
        stereoProject = some out ∧
      out.vertical = VerticalOutcome.RejectedDestination ∧
      (∀ t, (out.project.tracks t).mClips = (stereoProject.tracks t).mClips) ∧
      List.Forall₂ SameButDestination stereoHandle.mClipMoveState.capturedClipArray
        out.handle.mClipMoveState.capturedClipArray := by
  obtain ⟨out, h1, h2, _⟩ := sample_rejectedDestination 0
  exact ⟨out, h1, h2, (Drag_destination_rule CanOffsetClip insertAlways unitView 2 false
    ⟨0, some 2⟩ stereoHandle stereoProject out h1).2 h2⟩

/-! ## Lemmas: an accepted vertical move -/

theorem forall₂_right_mem {R : TrackClip → TrackClip → Prop} {l1 l2 : List TrackClip}
    (h : List.Forall₂ R l1 l2) : List.Forall₂ (fun a b => R a b ∧ a ∈ l1 ∧ b ∈ l2) l1 l2 := by
  induction h with
  | nil => exact List.Forall₂.nil
  | cons hab _ ih =>
    exact List.Forall₂.cons ⟨hab, List.mem_cons_self _ _, List.mem_cons_self _ _⟩
      (ih.imp fun a b hr => ⟨hr.1, List.mem_cons_of_mem _ hr.2.1, List.mem_cons_of_mem _ hr.2.2⟩)

theorem filterMap_clip_eq {R : TrackClip → TrackClip → Prop}
    (hR : ∀ a b, R a b → b.clip = a.clip) {l1 l2 : List TrackClip}
    (h : List.Forall₂ R l1 l2) :
    (l2.filterMap fun tc => tc.clip) = l1.filterMap fun tc => tc.clip := by
  induction h with
  | nil => rfl
  | cons hab _ ih =>
    simp only [List.filterMap_cons, hR _ _ hab, ih]

/-- In a capture set without a repeated clip, the entries holding clip `c` that satisfy `Q`
number one or none, according to whether the entry `e` of `c` satisfies `Q`. -/
theorem countP_unique (L : List TrackClip) (hnd : (L.filterMap fun tc => tc.clip).Nodup)
    (e : TrackClip) (he : e ∈ L) (c : ClipId) (hc : e.clip = some c)
    (Q : TrackClip → Bool) :
    L.countP (fun x => decide (x.clip = some c) && Q x) = if Q e = true then 1 else 0 := by
  induction L with
  | nil => exact absurd he (List.not_mem_nil e)
  | cons x rest ih =>
    rw [List.countP_cons]
    by_cases hx : x.clip = some c
    · have hnd2 : c ∉ (rest.filterMap fun tc => tc.clip) ∧
          (rest.filterMap fun tc => tc.clip).Nodup := by
        simpa [List.filterMap_cons, hx] using hnd
      have hex : e = x := by
        rcases List.mem_cons.mp he with h1 | h1
        · exact h1
        · exact absurd (List.mem_filterMap.mpr ⟨e, h1, hc⟩) hnd2.1
      have hzero : rest.countP (fun x => decide (x.clip = some c) && Q x) = 0 := by
        rw [List.countP_eq_zero]
        intro y hy
        have : y.clip ≠ some c := fun hyc => hnd2.1 (List.mem_filterMap.mpr ⟨y, hy, hyc⟩)
        simp [this]
      rw [hzero, hex]
      simp [hx]
    · have he2 : e ∈ rest := by
        rcases List.mem_cons.mp he with h1 | h1
        · rw [h1] at hc; exact absurd hc hx
        · exact h1
      have hnd2 : (rest.filterMap fun tc => tc.clip).Nodup := by
        cases hxc : x.clip with
        | none => simpa [List.filterMap_cons, hxc] using hnd
        | some c2 =>
          have : c2 ∉ (rest.filterMap fun tc => tc.clip) ∧
              (rest.filterMap fun tc => tc.clip).Nodup := by
            simpa [List.filterMap_cons, hxc] using hnd
          exact this.2
      rw [ih hnd2 he2]
      simp [hx]

/-- When every clip entry holds its own clip, the held clips taken from, and bound for, a
track are counted by the entry of the clip. -/
theorem held_counts (L : List TrackClip) (hnd : (L.filterMap fun tc => tc.clip).Nodup)
    (hheld : ∀ x ∈ L, x.clip ≠ none → x.holder = x.clip)
    (e : TrackClip) (he : e ∈ L) (c : ClipId) (hc : e.clip = some c) (t : TrackId) :
    heldFrom L t c = (if e.track = t then 1 else 0) ∧
    heldFor L t c = (if e.dstTrack = some t then 1 else 0) := by
  constructor
  · have := countP_unique L hnd e he c hc (fun x => decide (x.track = t))
    simp only [decide_eq_true_eq] at this
    rw [← this]
    unfold heldFrom
    apply List.countP_congr
    intro x hx
    simp only [decide_eq_true_eq, Bool.and_eq_true]
    constructor
    · rintro ⟨h1, h2, h3⟩
      exact ⟨by rw [← hheld x hx h1, h3], h2⟩
    · rintro ⟨h1, h2⟩
      have hne : x.clip ≠ none := by rw [h1]; simp
      exact ⟨hne, h2, by rw [hheld x hx hne, h1]⟩
  · have := countP_unique L hnd e he c hc (fun x => decide (x.dstTrack = some t))
    simp only [decide_eq_true_eq] at this
    rw [← this]
    unfold heldFor
    apply List.countP_congr
    intro x hx
    simp only [decide_eq_true_eq, Bool.and_eq_true]
    constructor
    · rintro ⟨h1, h2, h3⟩
      exact ⟨by rw [← hheld x hx h1, h3], h2⟩
    · rintro ⟨h1, h2⟩
      have hne : x.clip ≠ none := by rw [h1]; simp
      exact ⟨hne, h2, by rw [hheld x hx hne, h1]⟩

theorem movedTo_of_chain (p p1 removedProject q : Project) (diff : Int)
    (arr L : List TrackClip) (hs : SameStructure p p1) (hown : ClipsOwned p arr)
    (hndL : (L.filterMap fun tc => tc.clip).Nodup)
    (hheld : ∀ x ∈ L, x.clip ≠ none → x.holder = x.clip)
    (hremoved : ∀ t c, (removedProject.tracks t).mClips.count c + heldFrom L t c =
      (p1.tracks t).mClips.count c)
    (hput : ∀ t c, (q.tracks t).mClips.count c =
      (removedProject.tracks t).mClips.count c + heldFor L t c)
    (a b x e4 : TrackClip) (ha : a ∈ arr) (hx : x ∈ L) (hab : Resolved p diff a b)
    (hbx : SameButHolder b x) (hx4 : PutBack x e4) : MovedTo p q diff a e4 := by
  obtain ⟨⟨b1, b2, _, b4⟩, b5⟩ := hab
  obtain ⟨x1, x2, x3, x4, _⟩ := hbx
  obtain ⟨y1, y2, _, _, y5⟩ := hx4
  have hxclip : x.clip = a.clip := by rw [x4, b4]
  refine ⟨by rw [y1, hxclip], by rw [y2, x2, b2], ?_⟩
  intro c hac
  have hxc : x.clip = some c := by rw [hxclip, hac]
  have hxne : x.clip ≠ none := by rw [hxc]; simp
  have hane : a.clip ≠ none := by rw [hac]; simp
  obtain ⟨D, hD, hdest, hcompat⟩ := b5 hane
  obtain ⟨z1, z2, _⟩ := y5 hxne
  have htrack : e4.track = D := by
    rw [x3, hD] at z1
    exact Option.some.inj z1
  have hxtrack : x.track = a.track := by rw [x1, b1]
  have hxdst : x.dstTrack = some D := by rw [x3, hD]
  have hcount : ∀ t, (q.tracks t).mClips.count c = if t = e4.track then 1 else 0 := by
    intro t
    obtain ⟨k1, k2⟩ := held_counts L hndL hheld x hx c hxc t
    have h1 := hremoved t c
    have h2 := hput t c
    have h3 := hown a ha c hac t
    rw [(hs.2 t).2.2.2, h3, k1, hxtrack] at h1
    rw [k2, hxdst] at h2
    rw [h2, htrack]
    by_cases hta : a.track = t
    · rw [if_pos hta, if_pos hta.symm] at h1
      by_cases htd : D = t
      · simp only [htd, if_true]; omega
      · have htd2 : ¬ t = D := fun hh => htd hh.symm
        simp only [Option.some.injEq, htd, htd2, if_false]; omega
    · have hta2 : ¬ t = a.track := fun hh => hta hh.symm
      rw [if_neg hta, if_neg hta2] at h1
      by_cases htd : D = t
      · simp only [htd, if_true]; omega
      · have htd2 : ¬ t = D := fun hh => htd hh.symm
        simp only [Option.some.injEq, htd, htd2, if_false]; omega
  refine ⟨z2, by rw [htrack]; exact hdest, by rw [htrack]; exact hcompat, hcount, ?_⟩
  intro hne
  have := hcount a.track
  rw [if_neg (fun hh => hne hh.symm)] at this
  exact List.count_eq_zero.mp this

/-! ## C6: an accepted vertical move -/

/-- C6, amended: for every `Drag` call that returns with the vertical move accepted, on a
capture set in which every captured clip belongs to exactly one track (its entry's) and no
clip is captured twice: after the call every clip entry has as track the destination resolved
for it, holds no clip, and its clip is listed once in that track and in no other track; so it
is no longer in its previous track when the destination is a different track.  The
moved-vertically flag is set. -/
theorem Drag_accepted_moves_clips (cO : CanOffsetClipFn) (cI : CanInsertClipFn)
    (viewInfo : ViewInfo) (fuel : Nat) (audioActive : Bool) (evt : TrackPanelMouseEvent)
    (h : TimeShiftHandle) (p : Project) (out : DragResult)
    (hd : Drag cO cI viewInfo fuel audioActive evt h p = some out)
    (hacc : out.vertical = VerticalOutcome.Accepted)
    (hown : ClipsOwned p h.mClipMoveState.capturedClipArray)
    (hnd : (h.mClipMoveState.capturedClipArray.filterMap fun tc => tc.clip).Nodup) :
    ∃ pTrack, evt.pCell = some pTrack ∧
      List.Forall₂
        (MovedTo p out.project (TrackPosition p pTrack - TrackPosition p h.mCapturedTrack))
        h.mClipMoveState.capturedClipArray out.handle.mClipMoveState.capturedClipArray ∧
      out.handle.mDidSlideVertically = true := by
  have hv : out.vertical ≠ VerticalOutcome.NotAttempted := by rw [hacc]; decide
  obtain ⟨pTrack, p1, st, d, hcell, _, hs, harr, hdv⟩ :=
    Drag_vertical_inv cO cI viewInfo fuel audioActive evt h p out hd hv
  refine ⟨pTrack, hcell, ?_⟩
  have hcases := DragVertical_cases cO cI viewInfo fuel evt pTrack d _ p1 out hdv
  simp only [TrackPosition_congr hs, assignDestinations_congr hs, harr] at hcases
  rcases hcases with ⟨hrd, _⟩ | ⟨htrue, ⟨hri, _⟩ | ⟨_, put, hput, hsame, harr2, hdid, _⟩⟩
  · rw [hacc] at hrd; cases hrd
  · rw [hacc] at hri; cases hri
  · refine ⟨?_, hdid⟩
    have hres := assignDestinations_ok p _ _ htrue
    obtain ⟨c1, c2, c3⟩ := ctor_spec
      (assignDestinations p (TrackPosition p pTrack - TrackPosition p h.mCapturedTrack)
        h.mClipMoveState.capturedClipArray).1 p1
    obtain ⟨d1, d2⟩ := dtor_spec _ put.1 _ put.2 hput
    have hheld : ∀ x ∈ (TemporaryClipRemover.ctor
        (assignDestinations p (TrackPosition p pTrack - TrackPosition p h.mCapturedTrack)
          h.mClipMoveState.capturedClipArray).1 p1).1, x.clip ≠ none → x.holder = x.clip := by
      intro x hx hne
      obtain ⟨y, _, hy⟩ := forall₂_left_mem d2 x hx
      have hh := (hy.2.2.2.2 hne).2.2
      cases hxh : x.holder with
      | none => exact absurd hxh hh
      | some c => rw [c3 x hx c hne hxh]
    have hndL : ((TemporaryClipRemover.ctor
        (assignDestinations p (TrackPosition p pTrack - TrackPosition p h.mCapturedTrack)
          h.mClipMoveState.capturedClipArray).1 p1).1.filterMap fun tc => tc.clip).Nodup := by
      rw [filterMap_clip_eq (fun a b hab => hab.2.2.2.1) c2,
        filterMap_clip_eq (fun a b hab => hab.1.2.2.2) hres]
      exact hnd
    have hput2 : ∀ t c, (out.project.tracks t).mClips.count c =
        ((TemporaryClipRemover.ctor
          (assignDestinations p (TrackPosition p pTrack - TrackPosition p h.mCapturedTrack)
            h.mClipMoveState.capturedClipArray).1 p1).2.tracks t).mClips.count c +
        heldFor (TemporaryClipRemover.ctor
          (assignDestinations p (TrackPosition p pTrack - TrackPosition p h.mCapturedTrack)
            h.mClipMoveState.capturedClipArray).1 p1).1 t c := by
      intro t c
      rw [(hsame.2 t).2.2.2, d1 t c]
    have h12 := forall₂_compose (T := fun a c => ∃ b, Resolved p
        (TrackPosition p pTrack - TrackPosition p h.mCapturedTrack) a b ∧
        (SameButHolder b c ∧ b ∈ (assignDestinations p
          (TrackPosition p pTrack - TrackPosition p h.mCapturedTrack)
          h.mClipMoveState.capturedClipArray).1 ∧ c ∈ (TemporaryClipRemover.ctor
        (assignDestinations p (TrackPosition p pTrack - TrackPosition p h.mCapturedTrack)
          h.mClipMoveState.capturedClipArray).1 p1).1))
      (fun a b c hab hbc => ⟨b, hab, hbc⟩) hres (forall₂_right_mem c2)
    have h123 := forall₂_right_mem (forall₂_compose (T := fun a e4 => ∃ x, (∃ b, Resolved p
        (TrackPosition p pTrack - TrackPosition p h.mCapturedTrack) a b ∧
        (SameButHolder b x ∧ b ∈ (assignDestinations p
          (TrackPosition p pTrack - TrackPosition p h.mCapturedTrack)
          h.mClipMoveState.capturedClipArray).1 ∧ x ∈ (TemporaryClipRemover.ctor
        (assignDestinations p (TrackPosition p pTrack - TrackPosition p h.mCapturedTrack)
          h.mClipMoveState.capturedClipArray).1 p1).1)) ∧ PutBack x e4)
      (fun a b c hab hbc => ⟨b, hab, hbc⟩) h12 d2)
    rw [harr2]
    refine h123.imp ?_
    rintro a e4 ⟨⟨x, ⟨b, hab, hbx, _, hx⟩, hx4⟩, ha, _⟩
    exact movedTo_of_chain p p1 _ out.project _ _ _ hs hown hndL hheld c1 hput2 a b x e4 ha hx
      hab hbx hx4

/-- C6, counterexample: with clip 0 of the left channel (track 0) and clip 1 of the right
channel (track 1) captured, the pointer moves onto the right channel of the same pair.  The
row offset is zero, every destination is the entry's own track, the vertical move is accepted
and the moved-vertically flag is set, yet clip 0 is still in track 0, its previous track. -/
theorem Drag_accepted_same_track :
    ∃ out, Drag CanOffsetClip insertAlways unitView 1 false ⟨0, some 1⟩ stereoHandle
        stereoProject = some out ∧
      out.vertical = VerticalOutcome.Accepted ∧
      out.handle.mDidSlideVertically = true ∧
      stereoHandle.mClipMoveState.capturedClipArray.map (fun tc => (tc.track, tc.clip)) =
        [(0, some 0), (1, some 1)] ∧
      out.handle.mClipMoveState.capturedClipArray.map (fun tc => (tc.track, tc.clip)) =
        [(0, some 0), (1, some 1)] ∧
      0 ∈ (out.project.tracks 0).mClips := by
  simp [Drag, stereoHandle, stereoProject, DoOffset, DoOffsetEntry, TrackClip.new,
    FindDesiredSlideAmount, quantizedSlide, unitView, monoWaveTrack, rint, DragVertical,
    DragHorizontal, TrackPosition, trackPositionFrom, Project.audioTracks,
    Project.isRightChannel, assignDestinations, resolveDestination, destinationOk,
    NthAudioTrack, TemporaryClipRemover.ctor, TemporaryClipRemover.dtor, RemoveAndReturnClip,
    AddClip, checkInsert, insertAlways, Project.offsetClip, Function.update]

theorem sample_accepted :
    ∃ out, Drag CanOffsetClip insertAlways unitView 1 false ⟨0, some 1⟩ monoHandle
      twoTrackProject = some out ∧ out.vertical = VerticalOutcome.Accepted ∧
      (out.project.tracks 0).mClips = [] ∧ (out.project.tracks 1).mClips = [1, 0] := by
  simp [Drag, monoHandle, twoTrackProject, slideState, DoOffset, DoOffsetEntry, TrackClip.new,
    FindDesiredSlideAmount, quantizedSlide, unitView, monoWaveTrack, rint, DragVertical,
    DragHorizontal, TrackPosition, trackPositionFrom, Project.audioTracks,
    Project.isRightChannel, assignDestinations, resolveDestination, destinationOk,
    NthAudioTrack, TemporaryClipRemover.ctor, TemporaryClipRemover.dtor, RemoveAndReturnClip,
    AddClip, checkInsert, insertAlways, Project.offsetClip, Function.update]

theorem monoHandle_clipsOwned :
    ClipsOwned twoTrackProject monoHandle.mClipMoveState.capturedClipArray := by
  intro tc htc c hc t
  simp only [monoHandle, slideState, List.mem_singleton] at htc
  subst htc
  simp only [TrackClip.new, Option.some.injEq] at hc
  subst hc
  by_cases h0 : t = 0
  · subst h0; simp [twoTrackProject, monoWaveTrack, TrackClip.new]
  · by_cases h1 : t = 1
    · subst h1; simp [twoTrackProject, monoWaveTrack, TrackClip.new]
    · simp [twoTrackProject, monoWaveTrack, TrackClip.new, h0, h1]

/-- C6, witness: clip 0 of mono track 0 is dragged onto mono track 1, which accepts it. -/
theorem Drag_accepted_moves_clips_witness :
    ClipsOwned twoTrackProject monoHandle.mClipMoveState.capturedClipArray ∧
    (monoHandle.mClipMoveState.capturedClipArray.filterMap fun tc => tc.clip).Nodup ∧
    ∃ out, Drag CanOffsetClip insertAlways unitView 1 false ⟨0, some 1⟩ monoHandle
        twoTrackProject = some out ∧
      out.vertical = VerticalOutcome.Accepted ∧
      (out.project.tracks 0).mClips = [] ∧ (out.project.tracks 1).mClips = [1, 0] ∧
      ∃ pTrack, (⟨0, some 1⟩ : TrackPanelMouseEvent).pCell = some pTrack ∧
        List.Forall₂
          (MovedTo twoTrackProject out.project
            (TrackPosition twoTrackProject pTrack -
              TrackPosition twoTrackProject monoHandle.mCapturedTrack))
          monoHandle.mClipMoveState.capturedClipArray
          out.handle.mClipMoveState.capturedClipArray ∧
        out.handle.mDidSlideVertically = true := by
  have hnd : (monoHandle.mClipMoveState.capturedClipArray.filterMap
      fun tc => tc.clip).Nodup := by
    simp [monoHandle, slideState, TrackClip.new]
  obtain ⟨out, h1, h2, h3, h4⟩ := sample_accepted
  exact ⟨monoHandle_clipsOwned, hnd, out, h1, h2, h3, h4,
    Drag_accepted_moves_clips CanOffsetClip insertAlways unitView 1 false ⟨0, some 1⟩
      monoHandle twoTrackProject out h1 h2 monoHandle_clipsOwned hnd⟩

/-! ## C8: a vertical move rejected at the destination test drops the horizontal slide -/

/-- C8, the code at the failing input: clip 0 of the left channel, captured with clip 1 of
the right channel, both on `[2, 5)` and alone on their tracks, is dragged one second to the
right and onto a mono track.  The step's slide amount is 1, the call returns at the
destination test, and both clips are left at their baseline start 2, not at 3; the slide
amount of the state is 0. -/
theorem Drag_rejected_destination_drops_slide :
    (FindDesiredSlideAmount unitView stereoProject 0 1 none false false
      stereoHandle.mClipMoveState 0 2).1 = 1 ∧
    (stereoProject.tracks 0).mClips = [0] ∧ (stereoProject.tracks 1).mClips = [1] ∧
    ∃ out, Drag CanOffsetClip insertAlways unitView 2 false ⟨1, some 2⟩ stereoHandle
        stereoProject = some out ∧
      out.vertical = VerticalOutcome.RejectedDestination ∧
      (out.project.clips 0).GetStartTime = 2 ∧ (out.project.clips 1).GetStartTime = 2 ∧
      out.handle.mClipMoveState.hSlideAmount = 0 := by
  refine ⟨?_, rfl, rfl, ?_⟩
  · norm_num [FindDesiredSlideAmount, quantizedSlide, unitView, stereoProject, stereoHandle,
      monoWaveTrack, rint]
  · obtain ⟨out, h1, h2, h3, h4, h5⟩ := sample_rejectedDestination 1
    refine ⟨out, h1, h2, ?_, ?_, h5⟩
    · rw [h3]; rfl
    · rw [h4]; rfl

/-- The sibling path: when the vertical move is rejected by the insertion test instead, the
same one-second slide is applied to the clip put back in its track. -/
theorem Drag_rejected_insert_applies_slide :
    ∃ out, Drag CanOffsetClip insertOnlyHome unitView 1 false ⟨1, some 1⟩ monoHandle
        twoTrackProject = some out ∧
      out.vertical = VerticalOutcome.RejectedInsert ∧
      (twoTrackProject.clips 0).GetStartTime = 2 ∧
      (out.project.clips 0).GetStartTime = 3 := by
  simp [Drag, monoHandle, twoTrackProject, slideState, DoOffset, DoOffsetEntry, TrackClip.new,
    FindDesiredSlideAmount, quantizedSlide, unitView, monoWaveTrack, rint, DragVertical,
    TrackPosition, trackPositionFrom, Project.audioTracks, Project.isRightChannel,
    assignDestinations, resolveDestination, destinationOk, NthAudioTrack,
    TemporaryClipRemover.ctor, TemporaryClipRemover.dtor, TemporaryClipRemover.Fail,
    RemoveAndReturnClip, AddClip, checkInsert, checkRestore, offsetHolders, insertOnlyHome,
    Project.offsetClip, Function.update, WaveClip.Offset, WaveClip.GetStartTime]
  norm_num

/-! ## C10, witness -/

theorem sample_quantizedSlide :
    quantizedSlide unitView oneClipProject 1 (slideState 0) 0 = 1 := by
  norm_num [quantizedSlide, unitView, oneClipProject, monoWaveTrack, slideState, rint]

theorem sample_capturedStart : capturedStart oneClipProject (slideState 0) 0 = 2 := by
  norm_num [capturedStart, oneClipProject, slideState, WaveClip.GetStartTime]

theorem sample_leftSnaps :
    snapThreeToHalf 0 (capturedStart oneClipProject (slideState 0) 0 +
        quantizedSlide unitView oneClipProject 1 (slideState 0) 0) false ≠
      capturedStart oneClipProject (slideState 0) 0 +
        quantizedSlide unitView oneClipProject 1 (slideState 0) 0 := by
  rw [sample_quantizedSlide, sample_capturedStart]
  norm_num [snapThreeToHalf]

/-- C10, witness: clip 0 on `[2, 5)` is dragged one second to the right; its left edge, at 3,
snaps to 7/2, the right edge does not snap, and the returned amount puts the left edge on
7/2. -/
theorem FindDesiredSlideAmount_snapped_edge_witness :
    snapThreeToHalf 0 (capturedStart oneClipProject (slideState 0) 0 +
        quantizedSlide unitView oneClipProject 1 (slideState 0) 0) false ≠
      capturedStart oneClipProject (slideState 0) 0 +
        quantizedSlide unitView oneClipProject 1 (slideState 0) 0 ∧
    capturedStart oneClipProject (slideState 0) 0 +
        (FindDesiredSlideAmount unitView oneClipProject 0 1 (some snapThreeToHalf) false false
          (slideState 0) 0 0).1 = 7 / 2 := by
  refine ⟨sample_leftSnaps, ?_⟩
  rw [(FindDesiredSlideAmount_snapped_edge unitView oneClipProject 0 1 snapThreeToHalf false
    (slideState 0) 0 0 (Or.inl sample_leftSnaps)).1 ⟨sample_leftSnaps, fun _ => rfl⟩,
    sample_quantizedSlide, sample_capturedStart]
  norm_num [snapThreeToHalf]

/-! ## Lemmas: the spec oracle returns the largest allowed amount -/

theorem largestMagnitude_ge (d : ℚ) (ds : List ℚ) :
    ∀ e ∈ d :: ds, |e| ≤ |largestMagnitude d ds| := by
  unfold largestMagnitude
  induction ds generalizing d with
  | nil =>
    intro e he
    simp only [List.mem_singleton] at he
    subst he
    exact le_refl _
  | cons x xs ih =>
    intro e he
    simp only [List.foldl_cons]
    by_cases hlt : |d| < |x|
    · rw [if_pos hlt]
      rcases List.mem_cons.mp he with h1 | h1
      · subst h1
        exact le_trans (le_of_lt hlt) (ih x x (List.mem_cons_self _ _))
      · exact ih x e h1
    · rw [if_neg hlt]
      rcases List.mem_cons.mp he with h1 | h1
      · subst h1
        exact ih e e (List.mem_cons_self _ _)
      · rcases List.mem_cons.mp h1 with h2 | h2
        · subst h2
          exact le_trans (not_lt.mp hlt) (ih d d (List.mem_cons_self _ _))
        · exact ih d e (List.mem_cons_of_mem _ h2)

theorem mem_offsetCandidates_edge (p : Project) (t : TrackId) (c o : ClipId) (amount : ℚ)
    (ho : o ∈ (p.tracks t).mClips) (hoc : o ≠ c) :
    (if 0 ≤ amount then (p.clips o).GetStartTime - (p.clips c).GetEndTime
      else (p.clips o).GetEndTime - (p.clips c).GetStartTime) ∈
      offsetCandidates p t c amount := by
  unfold offsetCandidates
  refine List.mem_cons_of_mem _ (List.mem_append_left _ (List.mem_map.mpr ⟨o, ?_, rfl⟩))
  exact List.mem_filter.mpr ⟨ho, by simpa using hoc⟩

/-- Above every allowed amount there is a candidate amount that is allowed too. -/
theorem exists_candidate_beyond (p : Project) (t : TrackId) (c : ClipId) (amount d : ℚ)
    (hw : withinRequest amount d) (hfree : clipFreeAt p t c d = true) :
    ∃ x ∈ offsetCandidates p t c amount, withinRequest amount x ∧
      clipFreeAt p t c x = true ∧ |d| ≤ |x| := by
  unfold withinRequest at hw
  by_cases h0 : 0 ≤ amount
  · rw [if_pos h0] at hw
    obtain ⟨hd0, hda⟩ := hw
    have hne : ((offsetCandidates p t c amount).toFinset.filter
        fun x => d ≤ x ∧ x ≤ amount).Nonempty :=
      ⟨amount, by simp [offsetCandidates, hda]⟩
    obtain ⟨x, hx, hmin⟩ := Finset.exists_min_image _ id hne
    simp only [Finset.mem_filter, List.mem_toFinset, id] at hx hmin
    refine ⟨x, hx.1, ?_, ?_, ?_⟩
    · unfold withinRequest
      rw [if_pos h0]
      exact ⟨le_trans hd0 hx.2.1, hx.2.2⟩
    · unfold clipFreeAt at hfree ⊢
      rw [List.all_eq_true] at hfree ⊢
      intro o ho
      have hfo := hfree o ho
      simp only [decide_eq_true_eq] at hfo ⊢
      rcases hfo with hfo | hfo
      · exact Or.inl hfo
      · by_cases hoc : o = c
        · exact Or.inl hoc
        · refine Or.inr ?_
          intro hov
          unfold WaveClip.Overlaps at hfo hov
          simp only [WaveClip.Offset, WaveClip.GetStartTime, WaveClip.GetEndTime] at hfo hov
          have hg := mem_offsetCandidates_edge p t c o amount ho hoc
          rw [if_pos h0] at hg
          simp only [WaveClip.GetStartTime, WaveClip.GetEndTime] at hg
          have hgd : d ≤ (p.clips o).mOffset - ((p.clips c).mOffset + (p.clips c).mDuration) := by
            by_contra hcon
            apply hfo
            constructor
            · linarith [hov.1, hx.2.1]
            · linarith
          have := hmin _ ⟨hg, hgd, by linarith [hov.2, hx.2.2]⟩
          linarith [hov.2]
    · rw [abs_of_nonneg hd0, abs_of_nonneg (le_trans hd0 hx.2.1)]
      exact hx.2.1
  · rw [if_neg h0] at hw
    obtain ⟨hda, hd0⟩ := hw
    have hneg : amount < 0 := not_le.mp h0
    have hne : ((offsetCandidates p t c amount).toFinset.filter
        fun x => amount ≤ x ∧ x ≤ d).Nonempty :=
      ⟨amount, by simp [offsetCandidates, hda]⟩
    obtain ⟨x, hx, hmax⟩ := Finset.exists_max_image _ id hne
    simp only [Finset.mem_filter, List.mem_toFinset, id] at hx hmax
    refine ⟨x, hx.1, ?_, ?_, ?_⟩
    · unfold withinRequest
      rw [if_neg h0]
      exact ⟨hx.2.1, le_trans hx.2.2 hd0⟩
    · unfold clipFreeAt at hfree ⊢
      rw [List.all_eq_true] at hfree ⊢
      intro o ho
      have hfo := hfree o ho
      simp only [decide_eq_true_eq] at hfo ⊢
      rcases hfo with hfo | hfo
      · exact Or.inl hfo
      · by_cases hoc : o = c
        · exact Or.inl hoc
        · refine Or.inr ?_
          intro hov
          unfold WaveClip.Overlaps at hfo hov
          simp only [WaveClip.Offset, WaveClip.GetStartTime, WaveClip.GetEndTime] at hfo hov
          have hg := mem_offsetCandidates_edge p t c o amount ho hoc
          rw [if_neg h0] at hg
          simp only [WaveClip.GetStartTime, WaveClip.GetEndTime] at hg
          have hgd : (p.clips o).mOffset + (p.clips o).mDuration - (p.clips c).mOffset ≤ d := by
            by_contra hcon
            apply hfo
            constructor
            · linarith
            · linarith [hov.2, hx.2.2]
          have := hmax _ ⟨hg, by linarith [hov.1, hx.2.1], hgd⟩
          linarith [hov.1]
    · rw [abs_of_nonpos hd0, abs_of_nonpos (le_trans hx.2.2 hd0)]
      linarith [hx.2.2]

/-- The oracle modelled from the spec is the one the spec words describe: it fails only when
no amount within the request leaves the clip clear of the other clips of its track, and
otherwise its allowed amount is at least as large as every such amount. -/
theorem CanOffsetClip_largest (p : Project) (t : TrackId) (c : ClipId) (amount d : ℚ)
    (hw : withinRequest amount d) (hfree : clipFreeAt p t c d = true) :
    (CanOffsetClip p t c amount).1 = true ∧ |d| ≤ |(CanOffsetClip p t c amount).2| := by
  obtain ⟨x, hx, hxw, hxf, hdx⟩ := exists_candidate_beyond p t c amount d hw hfree
  have hmem : x ∈ (offsetCandidates p t c amount).filter
      fun d => decide (withinRequest amount d) && clipFreeAt p t c d :=
    List.mem_filter.mpr ⟨hx, by simp [hxw, hxf]⟩
  unfold CanOffsetClip
  split
  · rename_i heq
    rw [heq] at hmem
    exact absurd hmem (List.not_mem_nil x)
  · rename_i d0 ds heq
    rw [heq] at hmem
    exact ⟨rfl, le_trans hdx (largestMagnitude_ge d0 ds x hmem)⟩

/-! ## Lemmas: the resampling loop of `Release` -/

/-- What one turn of the resampling loop of `Release` does. -/
theorem resampleEntry_spec (acc : Project × List (ClipId × ℚ)) (tc : TrackClip) :
    (resampleEntry acc tc).1.tracks = acc.1.tracks ∧
    (resampleEntry acc tc).1.trackList = acc.1.trackList ∧
    (resampleEntry acc tc).1.selT0 = acc.1.selT0 ∧
    (resampleEntry acc tc).1.selT1 = acc.1.selT1 ∧
    (resampleEntry acc tc).1.undoCalls = acc.1.undoCalls ∧
    (∀ x, x ∈ (resampleEntry acc tc).2 ↔ x ∈ acc.2 ∨
      (tc.clip = some x.1 ∧ tc.track ≠ tc.origTrack ∧ x.2 = (acc.1.tracks tc.track).mRate)) ∧
    (∀ c, ¬ (tc.clip = some c ∧ tc.track ≠ tc.origTrack) →
      (resampleEntry acc tc).1.clips c = acc.1.clips c) ∧
    (∀ c, ((resampleEntry acc tc).1.clips c).mOffset = (acc.1.clips c).mOffset ∧
      ((resampleEntry acc tc).1.clips c).mDuration = (acc.1.clips c).mDuration) ∧
    (∀ c, tc.clip = some c → tc.track ≠ tc.origTrack →
      ((resampleEntry acc tc).1.clips c).mRate = (acc.1.tracks tc.track).mRate) := by
  unfold resampleEntry
  cases hc : tc.clip with
  | none => simp
  | some c0 =>
    by_cases hm : tc.track = tc.origTrack
    · simp [hm]
    · simp only [ne_eq, hm, not_false_eq_true, if_true, true_and, and_true]
      refine ⟨?_, ?_, ?_, ?_⟩
      · intro x
        rw [List.mem_append, List.mem_singleton]
        constructor
        · rintro (h | h)
          · exact Or.inl h
          · right
            rw [h]
            exact ⟨rfl, rfl⟩
        · rintro (h | ⟨h1, h2⟩)
          · exact Or.inl h
          · right
            cases x with
            | mk x1 x2 =>
              simp only [Option.some.injEq] at h1
              simp only at h2
              rw [h1, h2]
      · intro c hne
        have hcc : c ≠ c0 := by
          intro h
          exact hne (by rw [h])
        simp [Function.update, hcc]
      · intro c
        by_cases hcc : c = c0
        · subst hcc
          simp [Function.update, WaveClip.Resample]
        · simp [Function.update, hcc]
      · intro c hcc
        simp only [Option.some.injEq] at hcc
        subst hcc
        simp [Function.update, WaveClip.Resample]

/-- What the resampling loop of `Release` does over the whole array. -/
theorem resample_fold_spec (arr : List TrackClip) :
    ∀ acc : Project × List (ClipId × ℚ),
    (arr.foldl resampleEntry acc).1.tracks = acc.1.tracks ∧
    (arr.foldl resampleEntry acc).1.trackList = acc.1.trackList ∧
    (arr.foldl resampleEntry acc).1.selT0 = acc.1.selT0 ∧
    (arr.foldl resampleEntry acc).1.selT1 = acc.1.selT1 ∧
    (arr.foldl resampleEntry acc).1.undoCalls = acc.1.undoCalls ∧
    (∀ x, x ∈ (arr.foldl resampleEntry acc).2 ↔ x ∈ acc.2 ∨
      ∃ tc ∈ arr, tc.clip = some x.1 ∧ tc.track ≠ tc.origTrack ∧
        x.2 = (acc.1.tracks tc.track).mRate) ∧
    (∀ c, (∀ tc ∈ arr, ¬ (tc.clip = some c ∧ tc.track ≠ tc.origTrack)) →
      (arr.foldl resampleEntry acc).1.clips c = acc.1.clips c) ∧
    (∀ c, ((arr.foldl resampleEntry acc).1.clips c).mOffset = (acc.1.clips c).mOffset ∧
      ((arr.foldl resampleEntry acc).1.clips c).mDuration = (acc.1.clips c).mDuration) ∧
    (∀ c, (∃ tc ∈ arr, tc.clip = some c ∧ tc.track ≠ tc.origTrack) →
      ∃ tc ∈ arr, tc.clip = some c ∧ tc.track ≠ tc.origTrack ∧
        ((arr.foldl resampleEntry acc).1.clips c).mRate = (acc.1.tracks tc.track).mRate) := by
  induction arr with
  | nil =>
    intro acc
    simp
  | cons hd tl ih =>
    intro acc
    obtain ⟨e1, e2, e3, e4, e5, e6, e7, e8, e9⟩ := resampleEntry_spec acc hd
    obtain ⟨i1, i2, i3, i4, i5, i6, i7, i8, i9⟩ := ih (resampleEntry acc hd)
    simp only [List.foldl_cons]
    refine ⟨i1.trans e1, i2.trans e2, i3.trans e3, i4.trans e4, i5.trans e5, ?_, ?_, ?_, ?_⟩
    · intro x
      rw [i6 x, e6 x, e1]
      simp only [List.mem_cons, exists_eq_or_imp]
      tauto
    · intro c hno
      rw [i7 c (fun tc htc => hno tc (List.mem_cons_of_mem _ htc)),
        e7 c (hno hd (List.mem_cons_self _ _))]
    · intro c
      exact ⟨(i8 c).1.trans (e8 c).1, (i8 c).2.trans (e8 c).2⟩
    · intro c hex
      by_cases htl : ∃ tc ∈ tl, tc.clip = some c ∧ tc.track ≠ tc.origTrack
      · obtain ⟨tc, htc, h1, h2, h3⟩ := i9 c htl
        exact ⟨tc, List.mem_cons_of_mem _ htc, h1, h2, by rw [h3, e1]⟩
      · have hno : ∀ tc ∈ tl, ¬ (tc.clip = some c ∧ tc.track ≠ tc.origTrack) :=
          fun tc htc h => htl ⟨tc, htc, h⟩
        obtain ⟨tc, htc, h1, h2⟩ := hex
        rcases List.mem_cons.1 htc with heq | hmem
        · subst heq
          refine ⟨tc, List.mem_cons_self _ _, h1, h2, ?_⟩
          rw [i7 c hno]
          exact e9 c h1 h2
        · exact absurd ⟨h1, h2⟩ (hno tc hmem)

/-! ## C13: the audio guard -/

/-- C13: when audio is active, `Drag` and `Release` call the history rollback once and do
nothing else: the handle is left as it was, the tracks, the clips, the track list and the
selection of the project are those before the call, the only call on the history is one
rollback (no push), and nothing is resampled. -/
theorem guard_rolls_back_only (canOffsetClip : CanOffsetClipFn) (canInsertClip : CanInsertClipFn)
    (viewInfo : ViewInfo) (fuel : Nat) (evt : TrackPanelMouseEvent) (h : TimeShiftHandle)
    (p : Project) :
    Drag canOffsetClip canInsertClip viewInfo fuel true evt h p =
      some ⟨RefreshAllCancelled, h,
        { tracks := p.tracks, clips := p.clips, trackList := p.trackList, selT0 := p.selT0,
          selT1 := p.selT1, undoCalls := p.undoCalls ++ [UndoCall.Rollback] },
        VerticalOutcome.NotAttempted⟩ ∧
    Release true h p =
      ⟨RefreshAll, h,
        { tracks := p.tracks, clips := p.clips, trackList := p.trackList, selT0 := p.selT0,
          selT1 := p.selT1, undoCalls := p.undoCalls ++ [UndoCall.Rollback] },
        []⟩ := by
  constructor
  · simp [Drag, Cancel]
  · simp [Release, Cancel]

/-! ## C12: the history entry of `Release` -/

/-- A `Release` with audio not active, after a session that moved, runs the resampling loop
and pushes one history entry. -/
theorem Release_commits (h : TimeShiftHandle) (p : Project)
    (hm : ¬ (h.mDidSlideVertically = false ∧ h.mClipMoveState.hSlideAmount = 0)) :
    (Release false h p).project =
      { (h.mClipMoveState.capturedClipArray.foldl resampleEntry (p, [])).1 with
        undoCalls := p.undoCalls ++
          [UndoCall.Push
            (if h.mDidSlideVertically then "Moved clips to another track"
              else shiftMessage h.mClipMoveState.hSlideAmount) "Time-Shift"
            (!h.mDidSlideVertically)] } ∧
    (Release false h p).resampled =
      (h.mClipMoveState.capturedClipArray.foldl resampleEntry (p, [])).2 := by
  by_cases hs : decide (h.mClipMoveState.snapLeft ≠ -1 ∨ h.mClipMoveState.snapRight ≠ -1) = true
  · unfold Release
    simp only [Bool.false_eq_true, if_false, hs, if_true]
    rw [if_neg hm]
    simp only [(resample_fold_spec _ _).2.2.2.2.1, and_self]
  · unfold Release
    simp only [Bool.false_eq_true, if_false, hs]
    rw [if_neg hm]
    simp only [(resample_fold_spec _ _).2.2.2.2.1, and_self]

/-- C12: a `Release` with audio not active pushes exactly one history entry when the session
moved.  After a vertical move it is "Moved clips to another track", not consolidating.  After
a horizontal move only, by an amount that is not zero, it is consolidating and tells a shift
right by the amount when the amount is positive, and a shift left by the amount without its
sign when it is negative, written to two decimals. -/
theorem Release_pushes_once (h : TimeShiftHandle) (p : Project) :
    (h.mDidSlideVertically = true →
      (Release false h p).project.undoCalls = p.undoCalls ++
        [UndoCall.Push "Moved clips to another track" "Time-Shift" false]) ∧
    (h.mDidSlideVertically = false → 0 < h.mClipMoveState.hSlideAmount →
      (Release false h p).project.undoCalls = p.undoCalls ++
        [UndoCall.Push ("Time shifted tracks/clips right " ++
          formatTwoDecimals h.mClipMoveState.hSlideAmount ++ " seconds") "Time-Shift" true]) ∧
    (h.mDidSlideVertically = false → h.mClipMoveState.hSlideAmount < 0 →
      (Release false h p).project.undoCalls = p.undoCalls ++
        [UndoCall.Push ("Time shifted tracks/clips left " ++
          formatTwoDecimals (-h.mClipMoveState.hSlideAmount) ++ " seconds") "Time-Shift" true]) := by
  refine ⟨?_, ?_, ?_⟩
  · intro hv
    rw [(Release_commits h p (by simp [hv])).1]
    simp [hv]
  · intro hv hpos
    rw [(Release_commits h p (fun hh => ne_of_gt hpos hh.2)).1]
    simp [hv, shiftMessage, hpos, abs_of_pos hpos]
  · intro hv hneg
    rw [(Release_commits h p (fun hh => ne_of_lt hneg hh.2)).1]
    simp [hv, shiftMessage, not_lt.2 (le_of_lt hneg), abs_of_neg hneg]

/-- A release after a slide of half a second to the left pushes one consolidating entry that
reads "left 0.50 seconds". -/
theorem Release_pushes_once_witness :
    (slidHandle (-1 / 2)).mDidSlideVertically = false ∧
    (slidHandle (-1 / 2)).mClipMoveState.hSlideAmount < 0 ∧
    (Release false (slidHandle (-1 / 2)) oneClipProject).project.undoCalls =
      [UndoCall.Push "Time shifted tracks/clips left 0.50 seconds" "Time-Shift" true] := by
  have hv : (slidHandle (-1 / 2)).mDidSlideVertically = false := rfl
  have hneg : (slidHandle (-1 / 2)).mClipMoveState.hSlideAmount < 0 := by
    norm_num [slidHandle, slideState]
  refine ⟨hv, hneg, ?_⟩
  rw [(Release_pushes_once (slidHandle (-1 / 2)) oneClipProject).2.2 hv hneg]
  have hr : rint (-(-1 / 2 : ℚ) * 100) = 50 := by norm_num [rint]
  have hf : formatTwoDecimals (-(slidHandle (-1 / 2)).mClipMoveState.hSlideAmount) = "0.50" := by
    show formatTwoDecimals (-(-1 / 2 : ℚ)) = "0.50"
    unfold formatTwoDecimals
    rw [hr]
    decide
  rw [hf]
  decide

/-! ## C14: resampling on `Release` -/

/-- C14: a `Release` that commits (audio not active, the session moved) calls `Resample` on a
clip, with the rate of the track of its entry, exactly when the clip has an entry whose track
is not its original track; an entry without a clip adds no call.  After the call the clip has
that rate, every other clip is as before, no track changes, and the commit is made whatever
the rates: one history entry is pushed. -/
theorem Release_resamples_moved (h : TimeShiftHandle) (p : Project)
    (hm : h.mDidSlideVertically = true ∨ h.mClipMoveState.hSlideAmount ≠ 0) :
    (∀ c r, (c, r) ∈ (Release false h p).resampled ↔
      ∃ tc ∈ h.mClipMoveState.capturedClipArray,
        tc.clip = some c ∧ tc.track ≠ tc.origTrack ∧ r = (p.tracks tc.track).mRate) ∧
    (∀ c, (∃ tc ∈ h.mClipMoveState.capturedClipArray, tc.clip = some c ∧ tc.track ≠ tc.origTrack) →
      ∃ tc ∈ h.mClipMoveState.capturedClipArray, tc.clip = some c ∧ tc.track ≠ tc.origTrack ∧
        ((Release false h p).project.clips c).mRate = (p.tracks tc.track).mRate) ∧
    (∀ c, (∀ tc ∈ h.mClipMoveState.capturedClipArray,
        ¬ (tc.clip = some c ∧ tc.track ≠ tc.origTrack)) →
      (Release false h p).project.clips c = p.clips c) ∧
    (Release false h p).project.tracks = p.tracks ∧
    (∃ msg, (Release false h p).project.undoCalls =
      p.undoCalls ++ [UndoCall.Push msg "Time-Shift" (!h.mDidSlideVertically)]) := by
  have hne : ¬ (h.mDidSlideVertically = false ∧ h.mClipMoveState.hSlideAmount = 0) := by
    rintro ⟨h1, h2⟩
    rcases hm with hv | hs
    · rw [h1] at hv
      exact Bool.false_ne_true hv
    · exact hs h2
  obtain ⟨hproj, hres⟩ := Release_commits h p hne
  obtain ⟨f1, _, _, _, _, f6, f7, _, f9⟩ :=
    resample_fold_spec h.mClipMoveState.capturedClipArray (p, [])
  rw [hproj, hres]
  refine ⟨?_, ?_, ?_, f1, ⟨_, rfl⟩⟩
  · intro c r
    rw [f6 (c, r)]
    simp
  · intro c hex
    exact f9 c hex
  · intro c hno
    exact f7 c hno

/-- A release after clip 0 moved from track 0 to track 1, whose rate is 8000 Hz, resamples
clip 0 to 8000 Hz. -/
theorem Release_resamples_moved_witness :
    (movedHandle.mDidSlideVertically = true ∨ movedHandle.mClipMoveState.hSlideAmount ≠ 0) ∧
    ((0 : ClipId), (8000 : ℚ)) ∈ (Release false movedHandle mixedRateProject).resampled := by
  have hm : movedHandle.mDidSlideVertically = true ∨
      movedHandle.mClipMoveState.hSlideAmount ≠ 0 := Or.inl rfl
  refine ⟨hm, ?_⟩
  refine ((Release_resamples_moved movedHandle mixedRateProject hm).1 0 8000).2
    ⟨⟨1, 0, some 1, some 0, none⟩, ?_, rfl, by decide, ?_⟩
  · simp [movedHandle]
  · simp [mixedRateProject, monoWaveTrack]

/-! ## C19: audio rows -/

/-- The loop of `TrackPosition` stops at the first track that is the one looked for or its
partner, and returns the count of the tracks before it. -/
theorem trackPositionFrom_append (f : TrackId) (partner : Option TrackId) (x : TrackId)
    (post : List TrackId) (hx : x = f ∨ some x = partner) :
    ∀ (pre : List TrackId) (k : Int), (∀ y ∈ pre, y ≠ f ∧ some y ≠ partner) →
      trackPositionFrom f partner (pre ++ x :: post) k = k + pre.length := by
  intro pre
  induction pre with
  | nil =>
    intro k _
    simp [trackPositionFrom, hx]
  | cons a pre ih =>
    intro k hpre
    have ha := hpre a (List.mem_cons_self _ _)
    have hcond : ¬ (a = f ∨ some a = partner) := by
      rintro (h | h)
      · exact ha.1 h
      · exact ha.2 h
    rw [List.cons_append, trackPositionFrom, if_neg hcond,
      ih (k + 1) (fun y hy => hpre y (List.mem_cons_of_mem _ hy))]
    simp only [List.length_cons, Nat.cast_add, Nat.cast_one]
    ring

/-- A list splits at each of its indices. -/
theorem get?_split {α : Type} : ∀ (l : List α) (i : Nat) (t : α), l.get? i = some t →
    ∃ pre post, l = pre ++ t :: post ∧ pre.length = i := by
  intro l
  induction l with
  | nil =>
    intro i t h
    simp at h
  | cons a l ih =>
    intro i t h
    cases i with
    | zero =>
      simp only [List.get?_cons_zero, Option.some.injEq] at h
      exact ⟨[], l, by rw [h]; rfl, rfl⟩
    | succ i =>
      simp only [List.get?_cons_succ] at h
      obtain ⟨pre, post, h1, h2⟩ := ih i t h
      exact ⟨a :: pre, post, by rw [h1]; rfl, by simp [h2]⟩

/-- The audio tracks are the primary wave channels of the track list. -/
theorem mem_audioTracks (p : Project) (t : TrackId) :
    t ∈ p.audioTracks ↔
      t ∈ p.trackList ∧ (p.tracks t).kind = TrackKind.Wave ∧ p.isRightChannel t = false := by
  simp [Project.audioTracks, List.mem_filter]

/-- The row of a primary wave channel is its index among the audio tracks. -/
theorem TrackPosition_primary (p : Project) (hwf : LinksWellFormed p) (pre post : List TrackId)
    (t : TrackId) (hsplit : p.audioTracks = pre ++ t :: post) :
    TrackPosition p t = pre.length := by
  have hnodup : p.audioTracks.Nodup := hwf.1.filter _
  have hmem : t ∈ p.audioTracks := by
    rw [hsplit]
    simp
  obtain ⟨hlist, hwave, hprim⟩ := (mem_audioTracks p t).1 hmem
  unfold TrackPosition
  rw [hsplit, trackPositionFrom_append t _ t post (Or.inl rfl) pre 0, zero_add]
  intro y hy
  have hyA : y ∈ p.audioTracks := by
    rw [hsplit]
    exact List.mem_append_left _ hy
  constructor
  · intro hyt
    rw [hsplit] at hnodup
    have := (List.nodup_append.1 hnodup).2.2
    exact this (hyt ▸ hy) (List.mem_cons_self _ _)
  · intro hlink
    have hr := hwf.2 t hlist hwave y hlink.symm
    rw [if_neg (by rw [hprim]; exact Bool.false_ne_true)] at hr
    rw [((mem_audioTracks p y).1 hyA).2.2] at hr
    exact Bool.false_ne_true hr

/-- The row of a right channel is the index of its left partner among the audio tracks. -/
theorem TrackPosition_right (p : Project) (hwf : LinksWellFormed p) (pre post : List TrackId)
    (t l : TrackId) (hright : p.isRightChannel t = true) (hlink : (p.tracks t).mLink = some l)
    (hsplit : p.audioTracks = pre ++ l :: post) :
    TrackPosition p t = pre.length := by
  have hnodup : p.audioTracks.Nodup := hwf.1.filter _
  unfold TrackPosition
  rw [hsplit, hlink, trackPositionFrom_append t (some l) l post (Or.inr rfl) pre 0, zero_add]
  intro y hy
  have hyA : y ∈ p.audioTracks := by
    rw [hsplit]
    exact List.mem_append_left _ hy
  constructor
  · intro hyt
    subst hyt
    rw [((mem_audioTracks p y).1 hyA).2.2] at hright
    exact Bool.false_ne_true hright
  · intro hyl
    simp only [Option.some.injEq] at hyl
    rw [hsplit] at hnodup
    have := (List.nodup_append.1 hnodup).2.2
    exact this (hyl ▸ hy) (List.mem_cons_self _ _)

/-- C19: in a track list with well-formed stereo links, `TrackPosition` gives the primary wave
channels the rows 0, 1, ..., n-1 in list order (the track that `NthAudioTrack` finds at row `i`
has row `i`) and gives a right channel the row of its left partner; `NthAudioTrack` at the row
of a wave track of the list is that track when it is a primary channel and its left partner
when it is a right channel; and `NthAudioTrack` finds no track at a negative row or at a row
from n on, n being the number of primary wave channels of the list. -/
theorem TrackPosition_NthAudioTrack (p : Project) (hwf : LinksWellFormed p) :
    (∀ (i : Nat) (t : TrackId), p.audioTracks.get? i = some t → TrackPosition p t = i) ∧
    (∀ t ∈ p.trackList, (p.tracks t).kind = TrackKind.Wave → p.isRightChannel t = true →
      ∀ l, (p.tracks t).mLink = some l → TrackPosition p t = TrackPosition p l) ∧
    (∀ t ∈ p.trackList, (p.tracks t).kind = TrackKind.Wave → p.isRightChannel t = false →
      NthAudioTrack p (TrackPosition p t) = some t) ∧
    (∀ t ∈ p.trackList, (p.tracks t).kind = TrackKind.Wave → p.isRightChannel t = true →
      ∀ l, (p.tracks t).mLink = some l → NthAudioTrack p (TrackPosition p t) = some l) ∧
    (∀ nn : Int,
      nn < 0 ∨ ((p.trackList.filter fun t =>
        decide ((p.tracks t).kind = TrackKind.Wave) && !p.isRightChannel t).length : Int) ≤ nn →
      NthAudioTrack p nn = none) := by
  have hg : ∀ (pre post : List TrackId) (t : TrackId),
      (pre ++ t :: post).get? pre.length = some t := by
    intro pre post t
    induction pre with
    | nil => rfl
    | cons a pre ih => simpa using ih
  have hnth : ∀ (pre post : List TrackId) (t : TrackId), p.audioTracks = pre ++ t :: post →
      NthAudioTrack p (pre.length : Int) = some t := by
    intro pre post t hsplit
    unfold NthAudioTrack
    rw [if_pos (Int.natCast_nonneg _), Int.toNat_natCast, hsplit]
    exact hg pre post t
  have hleft : ∀ t ∈ p.trackList, (p.tracks t).kind = TrackKind.Wave →
      p.isRightChannel t = true → ∀ l, (p.tracks t).mLink = some l → l ∈ p.audioTracks := by
    intro t ht hw hr l hl
    have h := hwf.2 t ht hw l hl
    rw [if_pos hr] at h
    exact (mem_audioTracks p l).2 h
  refine ⟨?_, ?_, ?_, ?_, ?_⟩
  · intro i t hget
    obtain ⟨pre, post, hsplit, hlen⟩ := get?_split p.audioTracks i t hget
    rw [TrackPosition_primary p hwf pre post t hsplit, hlen]
  · intro t ht hw hr l hl
    obtain ⟨pre, post, hsplit⟩ := List.append_of_mem (hleft t ht hw hr l hl)
    rw [TrackPosition_right p hwf pre post t l hr hl hsplit,
      TrackPosition_primary p hwf pre post l hsplit]
  · intro t ht hw hr
    obtain ⟨pre, post, hsplit⟩ := List.append_of_mem ((mem_audioTracks p t).2 ⟨ht, hw, hr⟩)
    rw [TrackPosition_primary p hwf pre post t hsplit]
    exact hnth pre post t hsplit
  · intro t ht hw hr l hl
    obtain ⟨pre, post, hsplit⟩ := List.append_of_mem (hleft t ht hw hr l hl)
    rw [TrackPosition_right p hwf pre post t l hr hl hsplit]
    exact hnth pre post l hsplit
  · intro nn hnn
    unfold NthAudioTrack
    rcases hnn with hneg | hbig
    · rw [if_neg (not_le.2 hneg)]
    · have h0 : 0 ≤ nn := le_trans (Int.natCast_nonneg _) hbig
      rw [if_pos h0]
      apply List.get?_eq_none.2
      show p.audioTracks.length ≤ nn.toNat
      have : ((p.audioTracks.length : Nat) : Int) ≤ nn := hbig
      omega

/-- The stereo links of `stereoProject` are well formed. -/
theorem stereoProject_linksWellFormed : LinksWellFormed stereoProject := by
  refine ⟨by simp [stereoProject], ?_⟩
  intro t ht hw r hr
  simp only [stereoProject, List.mem_cons, List.mem_singleton, List.not_mem_nil, or_false] at ht
  rcases ht with ht | ht | ht <;> subst ht <;>
    simp [stereoProject, monoWaveTrack, Project.isRightChannel] at hr ⊢ <;>
    subst hr <;> simp [monoWaveTrack]

/-- In `stereoProject` the right channel 1 has the row of the left channel 0, row 0, where
`NthAudioTrack` finds the left channel; the mono track 2 has row 1; there is no row 2. -/
theorem TrackPosition_NthAudioTrack_witness :
    LinksWellFormed stereoProject ∧
    TrackPosition stereoProject 1 = TrackPosition stereoProject 0 ∧
    NthAudioTrack stereoProject (TrackPosition stereoProject 1) = some 0 ∧
    NthAudioTrack stereoProject (TrackPosition stereoProject 2) = some 2 ∧
    NthAudioTrack stereoProject 2 = none := by
  have h := TrackPosition_NthAudioTrack stereoProject stereoProject_linksWellFormed
  refine ⟨stereoProject_linksWellFormed, ?_, ?_, ?_, ?_⟩
  · exact h.2.1 1 (by simp [stereoProject]) (by simp [stereoProject, monoWaveTrack])
      (by simp [stereoProject, monoWaveTrack, Project.isRightChannel]) 0
      (by simp [stereoProject, monoWaveTrack])
  · exact h.2.2.2.1 1 (by simp [stereoProject]) (by simp [stereoProject, monoWaveTrack])
      (by simp [stereoProject, monoWaveTrack, Project.isRightChannel]) 0
      (by simp [stereoProject, monoWaveTrack])
  · exact h.2.2.1 2 (by simp [stereoProject]) (by simp [stereoProject, monoWaveTrack])
      (by simp [stereoProject, monoWaveTrack, Project.isRightChannel])
  · exact h.2.2.2.2 2 (Or.inr (by
      simp [stereoProject, monoWaveTrack, Project.isRightChannel, List.filter]))

/-! ## Lemmas: offsets keep the sample rates -/

theorem sameRates_refl (p : Project) : SameRates p p := fun _ => rfl

theorem sameRates_trans {p q r : Project} (h1 : SameRates p q) (h2 : SameRates q r) :
    SameRates p r := fun t => (h2 t).trans (h1 t)

theorem foldl_offsetClip_sameRates (d : ℚ) (cs : List ClipId) (p : Project) :
    SameRates p (cs.foldl (fun q c => q.offsetClip c d) p) := by
  induction cs generalizing p with
  | nil => exact sameRates_refl p
  | cons c rest ih =>
    simp only [List.foldl_cons]
    exact sameRates_trans (fun _ => rfl) (ih _)

theorem offsetTrack_sameRates (p : Project) (t : TrackId) (d : ℚ) :
    SameRates p (p.offsetTrack t d) := by
  unfold Project.offsetTrack
  split
  · exact foldl_offsetClip_sameRates d _ p
  · intro u
    by_cases hu : u = t
    · subst hu; simp
    · simp [hu]

theorem DoOffsetEntry_sameRates (d : ℚ) (excl : Option ClipId) (p : Project)
    (tc : TrackClip) : SameRates p (DoOffsetEntry d excl p tc) := by
  unfold DoOffsetEntry
  split
  · split
    · exact fun _ => rfl
    · exact sameRates_refl p
  · exact offsetTrack_sameRates p _ d

theorem foldl_DoOffsetEntry_sameRates (d : ℚ) (excl : Option ClipId)
    (arr : List TrackClip) (p : Project) :
    SameRates p (arr.foldl (DoOffsetEntry d excl) p) := by
  induction arr generalizing p with
  | nil => exact sameRates_refl p
  | cons tc rest ih =>
    simp only [List.foldl_cons]
    exact sameRates_trans (DoOffsetEntry_sameRates d excl p tc) (ih _)

theorem offsetChannels_sameRates (d : ℚ) (fuel : Nat) (p q : Project)
    (channel : Option TrackId) (h : offsetChannels d fuel p channel = some q) :
    SameRates p q := by
  induction fuel generalizing p channel with
  | zero =>
    cases channel with
    | none =>
      simp only [offsetChannels, Option.some.injEq] at h
      subst h; exact sameRates_refl p
    | some c => simp [offsetChannels] at h
  | succ n ih =>
    cases channel with
    | none =>
      simp only [offsetChannels, Option.some.injEq] at h
      subst h; exact sameRates_refl p
    | some c =>
      simp only [offsetChannels] at h
      exact sameRates_trans (offsetTrack_sameRates p c d) (ih _ _ h)

theorem DoOffset_sameRates (fuel : Nat) (state : ClipMoveState) (p q : Project)
    (pTrack : Option TrackId) (d : ℚ) (excl : Option ClipId)
    (h : DoOffset fuel state p pTrack d excl = some q) : SameRates p q := by
  unfold DoOffset at h
  split at h
  · simp only [Option.some.injEq] at h
    subst h
    exact foldl_DoOffsetEntry_sameRates d excl _ p
  · split at h
    · exact offsetChannels_sameRates d fuel p q _ h
    · simp only [Option.some.injEq] at h
      subst h; exact sameRates_refl p

/-! ## Lemmas: the slide amount when nothing is in the way -/

theorem slidePass_unobstructed (f : CanOffsetClipFn) (hallow : ∀ q t c a, f q t c a = (true, a))
    (fuel : Nat) (big : ℚ) (arr : List TrackClip) :
    ∀ sp out : ClipMoveState × Project, slidePass f fuel big arr sp = some out →
      out.1 = sp.1 := by
  induction arr with
  | nil =>
    intro sp out h
    simp only [slidePass, Option.some.injEq] at h
    rw [← h]
  | cons tc rest ih =>
    intro sp out h
    simp only [slidePass, Option.bind_eq_some] at h
    obtain ⟨mid, h1, h2⟩ := h
    have hmid : mid.1 = sp.1 := by
      unfold slideEntry at h1
      cases hc : tc.clip with
      | none =>
        simp only [hc, Option.some.injEq] at h1
        rw [← h1]
      | some c =>
        simp only [hc, Option.bind_eq_some, Option.map_eq_some', hallow, applyAllowed_same] at h1
        obtain ⟨_, _, _, _, rfl⟩ := h1
        rfl
    rw [ih mid out h2, hmid]

/-- With an oracle that allows every request, `DoSlideHorizontal` keeps the requested
amount. -/
theorem DoSlideHorizontal_unobstructed (f : CanOffsetClipFn)
    (hallow : ∀ q t c a, f q t c a = (true, a)) (fuel : Nat) (state : ClipMoveState)
    (p : Project) (capturedTrack : TrackId) (out : ClipMoveState × Project)
    (h : DoSlideHorizontal f fuel state p capturedTrack = some out) :
    out.1.hSlideAmount = state.hSlideAmount := by
  unfold DoSlideHorizontal at h
  split at h
  · simp only [Option.bind_eq_some] at h
    obtain ⟨sp, hloop, hrest⟩ := h
    have hsp : sp.1 = state := by
      cases fuel with
      | zero => simp [slideLoop] at hloop
      | succ n =>
        simp only [slideLoop, Option.bind_eq_some] at hloop
        obtain ⟨sp1, hpass, hif⟩ := hloop
        have h1 := slidePass_unobstructed f hallow _ _ _ _ _ hpass
        simp only [h1, ne_eq, not_true_eq_false, if_false, Option.some.injEq] at hif
        rw [← hif, h1]
    split at hrest
    · simp only [Option.map_eq_some'] at hrest
      obtain ⟨_, _, rfl⟩ := hrest
      rw [hsp]
    · simp only [Option.some.injEq] at hrest
      rw [← hrest, hsp]
  · simp only [Option.map_eq_some'] at h
    obtain ⟨_, _, rfl⟩ := h
    rfl

/-- The slide amount that `FindDesiredSlideAmount` sets to a sample point of a wave track is
a whole number of samples of that track. -/
theorem quantizedSlide_whole (viewInfo : ViewInfo) (p : Project) (m_x : Int)
    (state : ClipMoveState) (track : TrackId) (hk : (p.tracks track).kind = TrackKind.Wave)
    (hR : (p.tracks track).mRate ≠ 0) :
    ∃ n : ℤ, quantizedSlide viewInfo p m_x state track * (p.tracks track).mRate = n := by
  unfold quantizedSlide
  simp only [hk, if_true]
  exact ⟨_, div_mul_cancel₀ _ hR⟩

/-! ## C11: whole samples -/

/-- A `Drag` call that does not enter the vertical part ends in `DragHorizontal`, on the
project with the previous slide undone, with the amount of `FindDesiredSlideAmount`. -/
theorem Drag_horizontal_inv (cO : CanOffsetClipFn) (cI : CanInsertClipFn) (viewInfo : ViewInfo)
    (fuel : Nat) (evt : TrackPanelMouseEvent) (h : TimeShiftHandle) (p : Project)
    (out : DragResult) (pTrack : TrackId)
    (hd : Drag cO cI viewInfo fuel false evt h p = some out) (hcell : evt.pCell = some pTrack)
    (hv : out.vertical = VerticalOutcome.NotAttempted) :
    ∃ p1, SameStructure p p1 ∧ SameRates p p1 ∧
      DragHorizontal cO fuel
        (FindDesiredSlideAmount viewInfo p1 h.mRectX evt.m_x h.mSnapManager h.mSlideUpDownOnly
          h.mSnapPreferRightEdge { h.mClipMoveState with hSlideAmount := 0 } h.mCapturedTrack
          pTrack).1 false VerticalOutcome.NotAttempted
        { h with mClipMoveState :=
            (FindDesiredSlideAmount viewInfo p1 h.mRectX evt.m_x h.mSnapManager
              h.mSlideUpDownOnly h.mSnapPreferRightEdge
              { h.mClipMoveState with hSlideAmount := 0 } h.mCapturedTrack pTrack).2 } p1 =
        some out := by
  unfold Drag at hd
  simp only [Bool.false_eq_true, if_false, hcell, Option.bind_eq_some] at hd
  obtain ⟨undone, hundo, hrest⟩ := hd
  have hs1 := DoOffset_sameStructure _ _ _ _ _ _ _ hundo
  have hr1 := DoOffset_sameRates _ _ _ _ _ _ _ hundo
  have hs2 : SameStructure p (if h.mClipMoveState.capturedClipIsSelection = true
      then undone.moveSelection (-h.mClipMoveState.hSlideAmount) else undone) := by
    by_cases hsel : h.mClipMoveState.capturedClipIsSelection = true
    · rw [if_pos hsel]
      exact sameStructure_trans hs1 (moveSelection_sameStructure _ _)
    · rw [if_neg hsel]; exact hs1
  have hr2 : SameRates p (if h.mClipMoveState.capturedClipIsSelection = true
      then undone.moveSelection (-h.mClipMoveState.hSlideAmount) else undone) := by
    by_cases hsel : h.mClipMoveState.capturedClipIsSelection = true
    · rw [if_pos hsel]
      exact sameRates_trans hr1 (fun _ => rfl)
    · rw [if_neg hsel]; exact hr1
  generalize (if h.mClipMoveState.capturedClipIsSelection = true
      then undone.moveSelection (-h.mClipMoveState.hSlideAmount) else undone) = p1
    at hrest hs2 hr2
  refine ⟨p1, hs2, hr2, ?_⟩
  generalize FindDesiredSlideAmount viewInfo p1 h.mRectX evt.m_x h.mSnapManager
    h.mSlideUpDownOnly h.mSnapPreferRightEdge { h.mClipMoveState with hSlideAmount := 0 }
    h.mCapturedTrack pTrack = found at hrest ⊢
  by_cases hcond : found.2.capturedClip.isSome = true ∧ pTrack ≠ h.mCapturedTrack ∧
      (p1.tracks pTrack).kind = TrackKind.Wave
  · rw [if_pos hcond] at hrest
    rcases DragVertical_cases _ _ _ _ _ _ _ _ _ _ hrest with hc | ⟨_, hc | hc⟩
    · rw [hv] at hc
      exact absurd hc.1 (by decide)
    · rw [hv] at hc
      exact absurd hc.1 (by decide)
    · rw [hv] at hc
      exact absurd hc.1 (by decide)
  · rw [if_neg hcond] at hrest
    exact hrest

theorem offsetClip_zero (p : Project) (c : ClipId) : p.offsetClip c 0 = p := by
  unfold Project.offsetClip
  rw [WaveClip.Offset_zero, Function.update_eq_self]

/-- The first `Drag` step of a session that captured a single clip, with the pointer over the
captured track: there is no slide to undo, and the step is the horizontal part. -/
theorem Drag_single_on_track (cO : CanOffsetClipFn) (cI : CanInsertClipFn) (viewInfo : ViewInfo)
    (fuel : Nat) (evt : TrackPanelMouseEvent) (h : TimeShiftHandle) (p : Project)
    (tc : TrackClip) (a : ClipId) (hcell : evt.pCell = some h.mCapturedTrack)
    (h0 : h.mClipMoveState.hSlideAmount = 0)
    (hsel : h.mClipMoveState.capturedClipIsSelection = false)
    (harr : h.mClipMoveState.capturedClipArray = [tc]) (hc : tc.clip = some a) :
    Drag cO cI viewInfo fuel false evt h p =
      DragHorizontal cO fuel
        (FindDesiredSlideAmount viewInfo p h.mRectX evt.m_x h.mSnapManager h.mSlideUpDownOnly
          h.mSnapPreferRightEdge h.mClipMoveState h.mCapturedTrack h.mCapturedTrack).1
        false VerticalOutcome.NotAttempted
        { h with mClipMoveState :=
            (FindDesiredSlideAmount viewInfo p h.mRectX evt.m_x h.mSnapManager
              h.mSlideUpDownOnly h.mSnapPreferRightEdge h.mClipMoveState h.mCapturedTrack
              h.mCapturedTrack).2 } p := by
  have hundo : DoOffset fuel h.mClipMoveState p (some h.mCapturedTrack)
      (-h.mClipMoveState.hSlideAmount) none = some p := by
    rw [h0, neg_zero]
    simp [DoOffset, harr, DoOffsetEntry, hc, offsetClip_zero]
  unfold Drag
  simp only [Bool.false_eq_true, if_false, hcell, hundo, Option.some_bind]
  obtain ⟨ct, rx, rw, dv, ud, pr, sm, st⟩ := h
  obtain ⟨arr, excl, cc, sel, amount, sl, sr, mx⟩ := st
  simp only at h0 hsel
  subst h0
  subst hsel
  simp only [Bool.false_eq_true, if_false, ne_eq, not_true_eq_false, false_and, and_false]

/-- The horizontal part of `Drag` for an amount that is not zero leaves in the handle the
amount that `DoSlideHorizontal` resolved. -/
theorem DragHorizontal_amount (cO : CanOffsetClipFn) (fuel : Nat) (desired : ℚ)
    (v : VerticalOutcome) (h : TimeShiftHandle) (p : Project) (sp : ClipMoveState × Project)
    (hne : desired ≠ 0)
    (hs : DoSlideHorizontal cO fuel { h.mClipMoveState with hSlideAmount := desired } p
      h.mCapturedTrack = some sp) :
    ∃ out, DragHorizontal cO fuel desired false v h p = some out ∧
      out.handle.mClipMoveState.hSlideAmount = sp.1.hSlideAmount ∧ out.vertical = v := by
  unfold DragHorizontal
  rw [if_neg hne, hs]
  exact ⟨_, rfl, rfl, rfl⟩

/-- A single captured clip whose request the oracle allows as it is keeps the request. -/
theorem DoSlideHorizontal_single_allowed (f : CanOffsetClipFn) (n : Nat)
    (state : ClipMoveState) (p : Project) (capturedTrack : TrackId) (tc : TrackClip)
    (a : ClipId) (harr : state.capturedClipArray = [tc]) (hc : tc.clip = some a)
    (hf : f p tc.track a state.hSlideAmount = (true, state.hSlideAmount)) :
    ∃ out, DoSlideHorizontal f (n + 1) state p capturedTrack = some out ∧
      out.1.hSlideAmount = state.hSlideAmount := by
  have hloop := slideLoop_single_settled f n
    (1000 + 2 * (p.GetEndTime - p.GetStartTime)) state p tc a harr hc hf
  unfold DoSlideHorizontal
  have hlen : state.capturedClipArray.length ≠ 0 := by simp [harr]
  simp only [if_pos hlen, hloop, Option.some_bind]
  by_cases hz : state.hSlideAmount ≠ 0
  · rw [if_pos hz, DoOffset_single (n + 1) state p tc a _ harr hc]
    exact ⟨_, rfl, rfl⟩
  · rw [if_neg hz]
    exact ⟨_, rfl, rfl⟩

theorem sample_desired_plain (p : Project) (m_x : Int) (hk : (p.tracks 0).kind = TrackKind.Wave)
    (hR : (p.tracks 0).mRate = 44100) :
    FindDesiredSlideAmount unitView p 0 m_x none false false (slideState 0) 0 0 =
      ((m_x : ℚ), slideState 0) := by
  have hq : quantizedSlide unitView p m_x (slideState 0) 0 = (m_x : ℚ) := by
    unfold quantizedSlide
    simp only [hk, if_true, hR, unitView, slideState, Int.cast_zero, sub_zero]
    have hr : rint ((m_x : ℚ) * 44100) = m_x * 44100 := by
      unfold rint
      have hfl : ⌊(m_x : ℚ) * 44100⌋ = m_x * 44100 := by
        have : ((m_x : ℚ) * 44100) = ((m_x * 44100 : ℤ) : ℚ) := by push_cast; ring
        rw [this, Int.floor_intCast]
      rw [hfl]
      have : (m_x : ℚ) * 44100 - ((m_x * 44100 : ℤ) : ℚ) = 0 := by push_cast; ring
      rw [this]
      norm_num
    rw [hr]
    push_cast
    field_simp
  simp only [FindDesiredSlideAmount, Bool.false_eq_true, if_false, hq]

/-- A first drag step of one pixel, one second, with nothing in the way and no snap manager. -/
theorem sample_unobstructed :
    ∃ out, Drag allowAll insertNever unitView 2 false ⟨1, some 0⟩ monoHandle oneClipProject =
        some out ∧ out.vertical = VerticalOutcome.NotAttempted := by
  rw [Drag_single_on_track allowAll insertNever unitView 2 ⟨1, some 0⟩ monoHandle oneClipProject
    (TrackClip.new 0 (some 0)) 0 rfl rfl rfl rfl rfl]
  have hfound := sample_desired_plain oneClipProject 1 (by simp [oneClipProject, monoWaveTrack])
    (by simp [oneClipProject, monoWaveTrack])
  show ∃ out, DragHorizontal allowAll 2
    (FindDesiredSlideAmount unitView oneClipProject 0 1 none false false (slideState 0) 0 0).1
    false VerticalOutcome.NotAttempted
    { monoHandle with mClipMoveState :=
        (FindDesiredSlideAmount unitView oneClipProject 0 1 none false false
          (slideState 0) 0 0).2 } oneClipProject = some out ∧ _
  rw [hfound]
  obtain ⟨sp, hsp, _⟩ := DoSlideHorizontal_single_allowed allowAll 1
    { slideState 0 with hSlideAmount := ((1 : Int) : ℚ) } oneClipProject 0
    (TrackClip.new 0 (some 0)) 0 rfl rfl rfl
  obtain ⟨out, h1, _, h3⟩ := DragHorizontal_amount allowAll 2 ((1 : Int) : ℚ)
    VerticalOutcome.NotAttempted { monoHandle with mClipMoveState := slideState 0 }
    oneClipProject sp (by norm_num) hsp
  exact ⟨out, h1, h3⟩

theorem offsetClip_undo (p : Project) (c : ClipId) (d : ℚ) :
    (p.offsetClip c (-d)).offsetClip c d = p := by
  unfold Project.offsetClip
  simp only [Function.update_same, Function.update_idem, WaveClip.Offset_Offset,
    neg_add_cancel, WaveClip.Offset_zero, Function.update_eq_self]

/-- One pass of `DoSlideHorizontal` over two captured clips: each clip is tested with the
other one displaced, and the displaced clip is put back. -/
theorem slidePass_pair (f : CanOffsetClipFn) (fuel : Nat) (big : ℚ) (st : ClipMoveState)
    (q : Project) (tc0 tc1 : TrackClip) (a b : ClipId)
    (harr : st.capturedClipArray = [tc0, tc1]) (h0 : tc0.clip = some a)
    (h1 : tc1.clip = some b) (hab : a ≠ b) :
    slidePass f fuel big st.capturedClipArray (st, q) =
      some (applyAllowed
        (applyAllowed st (f (q.offsetClip b (-big)) tc0.track a st.hSlideAmount))
        (f (q.offsetClip a (-big)) tc1.track b
          (applyAllowed st (f (q.offsetClip b (-big)) tc0.track a st.hSlideAmount)).hSlideAmount),
        q) := by
  have hba : b ≠ a := fun h => hab h.symm
  rw [harr]
  simp only [slidePass, slideEntry, h0, h1, DoOffset, harr, applyAllowed_array, ne_eq,
    List.cons_ne_nil, not_false_eq_true, if_true, List.foldl_cons, List.foldl_nil,
    DoOffsetEntry, Option.some.injEq, hab, hba, not_true_eq_false, if_false, Option.some_bind,
    Option.map_some', offsetClip_undo]

/-- A clip that the request would push into the clip to its left is allowed to move up to
that clip's right edge. -/
theorem CanOffsetClip_blocked_left (p : Project) (t : TrackId) (a b : ClipId) (d : ℚ)
    (hclips : (p.tracks t).mClips = [a, b] ∨ (p.tracks t).mClips = [b, a]) (hab : a ≠ b)
    (hB : (p.clips b).GetEndTime ≤ (p.clips a).GetStartTime)
    (hD1 : d < (p.clips b).GetEndTime - (p.clips a).GetStartTime)
    (hD2 : (p.clips b).GetStartTime < (p.clips a).GetEndTime + d) :
    CanOffsetClip p t a d = (true, (p.clips b).GetEndTime - (p.clips a).GetStartTime) := by
  have hba : b ≠ a := fun h => hab h.symm
  have hd : ¬ 0 ≤ d := by
    intro h
    linarith
  have hg : (p.clips b).GetEndTime - (p.clips a).GetStartTime ≤ 0 := by linarith
  have hf1 : clipFreeAt p t a d = false := by
    rw [← Bool.not_eq_true, clipFreeAt_pair p t a b d hclips hab, not_not]
    unfold WaveClip.Overlaps
    simp only [WaveClip.Offset, WaveClip.GetStartTime, WaveClip.GetEndTime] at *
    constructor <;> linarith
  have hf2 : clipFreeAt p t a ((p.clips b).GetEndTime - (p.clips a).GetStartTime) = true := by
    rw [clipFreeAt_pair p t a b _ hclips hab]
    unfold WaveClip.Overlaps
    simp only [WaveClip.Offset, WaveClip.GetStartTime, WaveClip.GetEndTime] at *
    intro h
    linarith [h.1]
  have hf3 : clipFreeAt p t a 0 = true := by
    rw [clipFreeAt_pair p t a b _ hclips hab, WaveClip.Offset_zero]
    unfold WaveClip.Overlaps
    intro h
    linarith [h.1]
  have hw2 : withinRequest d ((p.clips b).GetEndTime - (p.clips a).GetStartTime) := by
    unfold withinRequest
    rw [if_neg hd]
    exact ⟨le_of_lt hD1, hg⟩
  have hw3 : withinRequest d 0 := by
    unfold withinRequest
    rw [if_neg hd]
    exact ⟨by linarith, le_refl _⟩
  have hcand : offsetCandidates p t a d =
      [d, (p.clips b).GetEndTime - (p.clips a).GetStartTime, 0] := by
    rcases hclips with h | h <;> simp [offsetCandidates, h, hba, hd, List.filter]
  unfold CanOffsetClip
  rw [hcand]
  simp only [List.filter, hf1, hf2, hf3, hw2, hw3, decide_True, Bool.and_false, Bool.and_true]
  rw [largestMagnitude_eq_head]
  intro e he
  simp only [List.mem_singleton] at he
  subst he
  simp

theorem twoClipProject_big :
    1000 + 2 * (twoClipProject.GetEndTime - twoClipProject.GetStartTime) = 1012 := by
  norm_num [Project.GetEndTime, Project.GetStartTime, Project.trackEndTime,
    Project.trackStartTime, twoClipProject, monoWaveTrack, WaveClip.GetEndTime,
    WaveClip.GetStartTime]

/-- Clip 0 asked to go 1008 to the left, with clip 1 displaced by 1012 to the left: clip 1 is
in the way, and the allowed amount is 1006 to the left. -/
theorem sample_sibling_blocks :
    CanOffsetClip (twoClipProject.offsetClip 1 (-1012)) 0 0 (-1008) = (true, -1006) := by
  rw [CanOffsetClip_blocked_left (twoClipProject.offsetClip 1 (-1012)) 0 0 1 (-1008)
    (Or.inl (by rfl)) (by decide)
    (by norm_num [Project.offsetClip, Function.update, twoClipProject, WaveClip.Offset,
      WaveClip.GetEndTime, WaveClip.GetStartTime])
    (by norm_num [Project.offsetClip, Function.update, twoClipProject, WaveClip.Offset,
      WaveClip.GetEndTime, WaveClip.GetStartTime])
    (by norm_num [Project.offsetClip, Function.update, twoClipProject, WaveClip.Offset,
      WaveClip.GetEndTime, WaveClip.GetStartTime])]
  norm_num [Project.offsetClip, Function.update, twoClipProject, WaveClip.Offset,
    WaveClip.GetEndTime, WaveClip.GetStartTime]

theorem sample_sibling_settled :
    CanOffsetClip (twoClipProject.offsetClip 1 (-1012)) 0 0 (-1006) = (true, -1006) := by
  apply CanOffsetClip_free
  rw [clipFreeAt_pair _ 0 0 1 _ (Or.inl (by rfl)) (by decide)]
  norm_num [WaveClip.Overlaps, Project.offsetClip, Function.update, twoClipProject,
    WaveClip.Offset, WaveClip.GetEndTime, WaveClip.GetStartTime]

theorem sample_other_free :
    CanOffsetClip (twoClipProject.offsetClip 0 (-1012)) 0 1 (-1006) = (true, -1006) := by
  apply CanOffsetClip_free
  rw [clipFreeAt_pair _ 0 1 0 _ (Or.inr (by rfl)) (by decide)]
  norm_num [WaveClip.Overlaps, Project.offsetClip, Function.update, twoClipProject,
    WaveClip.Offset, WaveClip.GetEndTime, WaveClip.GetStartTime]

/-- C20: both clips of track 0, on `[2, 5)` and `[6, 8)`, are captured, so that the track holds
no stationary clip, and the timeline spans 6 seconds, so that the other captured clip is put
1012 seconds to the left while a clip is tested.  For the request of 1008 seconds to the left
`DoSlideHorizontal` returns with the amount resolved to 1006 seconds to the left, not the
request: clip 0, moved by the request, lands on the displaced clip 1. -/
theorem DoSlideHorizontal_siblings_collide :
    (twoClipProject.tracks 0).mClips = [0, 1] ∧
    (∀ c ∈ (twoClipProject.tracks 0).mClips, Captured (pairState (-1008)).capturedClipArray c) ∧
    ∃ out, DoSlideHorizontal CanOffsetClip 2 (pairState (-1008)) twoClipProject 0 = some out ∧
      out.1.hSlideAmount = -1006 ∧ out.1.hSlideAmount ≠ (pairState (-1008)).hSlideAmount := by
  refine ⟨rfl, ?_, ?_⟩
  · intro c hc
    have hc2 : c = 0 ∨ c = 1 := by
      simpa [twoClipProject, monoWaveTrack] using hc
    rcases hc2 with rfl | rfl <;> simp [Captured, pairState, TrackClip.new]
  · have hst1 : applyAllowed (pairState (-1008)) (true, -1006) = pairState (-1006) := by
      simp [applyAllowed, pairState]
    have hpass1 : slidePass CanOffsetClip 2 1012 (pairState (-1008)).capturedClipArray
        (pairState (-1008), twoClipProject) = some (pairState (-1006), twoClipProject) := by
      rw [slidePass_pair CanOffsetClip 2 1012 (pairState (-1008)) twoClipProject
        (TrackClip.new 0 (some 0)) (TrackClip.new 0 (some 1)) 0 1 rfl rfl rfl (by decide)]
      show some (applyAllowed (applyAllowed (pairState (-1008))
          (CanOffsetClip (twoClipProject.offsetClip 1 (-1012)) 0 0 (-1008)))
        (CanOffsetClip (twoClipProject.offsetClip 0 (-1012)) 0 1
          (applyAllowed (pairState (-1008))
            (CanOffsetClip (twoClipProject.offsetClip 1 (-1012)) 0 0 (-1008))).hSlideAmount),
        twoClipProject) = _
      rw [sample_sibling_blocks, hst1]
      show some (applyAllowed (pairState (-1006))
        (CanOffsetClip (twoClipProject.offsetClip 0 (-1012)) 0 1 (-1006)), twoClipProject) = _
      rw [sample_other_free]
      rw [show ((true, (-1006 : ℚ)) : Bool × ℚ) = (true, (pairState (-1006)).hSlideAmount)
        from rfl, applyAllowed_same]
    have hpass2 : slidePass CanOffsetClip 1 1012 (pairState (-1006)).capturedClipArray
        (pairState (-1006), twoClipProject) = some (pairState (-1006), twoClipProject) := by
      rw [slidePass_pair CanOffsetClip 1 1012 (pairState (-1006)) twoClipProject
        (TrackClip.new 0 (some 0)) (TrackClip.new 0 (some 1)) 0 1 rfl rfl rfl (by decide)]
      show some (applyAllowed (applyAllowed (pairState (-1006))
          (CanOffsetClip (twoClipProject.offsetClip 1 (-1012)) 0 0 (-1006)))
        (CanOffsetClip (twoClipProject.offsetClip 0 (-1012)) 0 1
          (applyAllowed (pairState (-1006))
            (CanOffsetClip (twoClipProject.offsetClip 1 (-1012)) 0 0 (-1006))).hSlideAmount),
        twoClipProject) = _
      rw [sample_sibling_settled,
        show ((true, (-1006 : ℚ)) : Bool × ℚ) = (true, (pairState (-1006)).hSlideAmount)
          from rfl, applyAllowed_same]
      show some (applyAllowed (pairState (-1006))
        (CanOffsetClip (twoClipProject.offsetClip 0 (-1012)) 0 1 (-1006)), twoClipProject) = _
      rw [sample_other_free,
        show ((true, (-1006 : ℚ)) : Bool × ℚ) = (true, (pairState (-1006)).hSlideAmount)
          from rfl, applyAllowed_same]
    have hloop : slideLoop CanOffsetClip 1012 2 (pairState (-1008), twoClipProject) =
        some (pairState (-1006), twoClipProject) := by
      simp only [slideLoop]
      rw [hpass1]
      simp only [Option.some_bind]
      rw [if_pos (by norm_num [pairState]), hpass2]
      simp
    unfold DoSlideHorizontal
    rw [if_pos (by simp [pairState]), twoClipProject_big]
    simp only [hloop, Option.some_bind]
    rw [if_pos (by norm_num [pairState])]
    simp only [DoOffset, pairState, ne_eq, List.cons_ne_nil, not_false_eq_true, if_true,
      Option.map_some', Option.some.injEq]
    exact ⟨_, rfl, rfl, by norm_num⟩

/-! ## C16: the clicked clip and the clip of the stereo partner -/

/-- C16, amended: for a click that is not in the selection, with sync-lock off,
`CreateListOfCapturedClips` returns with an array whose first entry is the clicked clip on
the clicked track.  One more entry follows, the clip of the partner track, exactly when a clip
was clicked, the clicked track has a stereo partner, the sample of the click time at the rate
of the partner is not negative, and the partner has a clip holding that sample; otherwise the
first entry is the only one. -/
theorem capture_clicked_clip (useMidi : Bool) (group : SyncLockGroup) (fuel : Nat)
    (state : ClipMoveState) (p : Project) (capturedTrack : TrackId) (clickTime : ℚ)
    (hsel : state.capturedClipIsSelection = false) :
    ∃ out, CreateListOfCapturedClips useMidi group fuel state p capturedTrack false clickTime =
        some out ∧
      out.capturedClipArray.head? = some (TrackClip.new capturedTrack state.capturedClip) ∧
      (∀ c partner clip, state.capturedClip = some c →
        (p.tracks capturedTrack).mLink = some partner →
        0 ≤ toSampleCount (clickTime * (p.tracks partner).mRate + 1 / 2) →
        GetClipAtSample p partner
          (toSampleCount (clickTime * (p.tracks partner).mRate + 1 / 2)) = some clip →
        out.capturedClipArray =
          [TrackClip.new capturedTrack (some c), TrackClip.new partner (some clip)]) ∧
      ((state.capturedClip = none ∨ (p.tracks capturedTrack).mLink = none ∨
          ∃ partner, (p.tracks capturedTrack).mLink = some partner ∧
            (toSampleCount (clickTime * (p.tracks partner).mRate + 1 / 2) < 0 ∨
              GetClipAtSample p partner
                (toSampleCount (clickTime * (p.tracks partner).mRate + 1 / 2)) = none)) →
        out.capturedClipArray = [TrackClip.new capturedTrack state.capturedClip]) := by
  refine ⟨captureClicked useMidi state p capturedTrack clickTime, by simp [CreateListOfCapturedClips],
    ?_, ?_, ?_⟩
  · unfold captureClicked
    simp only [hsel, Bool.false_eq_true, if_false]
    split
    · split <;> rfl
    · rfl
  · intro c partner clip hc hl hs hg
    unfold captureClicked
    simp only [hsel, Bool.false_eq_true, if_false, hc, hl, FindClipAtTime, hs, if_true, hg,
      List.singleton_append]
  · intro hno
    unfold captureClicked
    simp only [hsel, Bool.false_eq_true, if_false]
    rcases hno with hc | hl | ⟨partner, hl, hs | hg⟩
    · simp only [hc]
    · simp only [hl]
      cases state.capturedClip <;> rfl
    · have hf : FindClipAtTime p (some partner) clickTime = none := by
        simp only [FindClipAtTime, if_neg (not_le.2 hs)]
      cases hcc : state.capturedClip with
      | none => rfl
      | some c => simp only [hl, hf]
    · have hf : FindClipAtTime p (some partner) clickTime = none := by
        simp only [FindClipAtTime, hg, ite_self]
      cases hcc : state.capturedClip with
      | none => rfl
      | some c => simp only [hl, hf]

theorem floor_add_half (n : ℤ) : ⌊(n : ℚ) + 1 / 2⌋ = n := by
  rw [Int.floor_eq_iff]
  constructor <;> linarith

theorem sample_click_sample :
    toSampleCount ((3 : ℚ) * (stereoProject.tracks 1).mRate + 1 / 2) = 132300 := by
  have e : (3 : ℚ) * (stereoProject.tracks 1).mRate + 1 / 2 = ((132300 : ℤ) : ℚ) + 1 / 2 := by
    norm_num [stereoProject, monoWaveTrack]
  rw [e]
  unfold toSampleCount
  rw [if_pos (by norm_num), floor_add_half]

theorem sample_clip_at_sample : GetClipAtSample stereoProject 1 132300 = some 1 := by
  have e1 : (stereoProject.clips 1).GetStartTime * (stereoProject.clips 1).mRate + 1 / 2 =
      ((88200 : ℤ) : ℚ) + 1 / 2 := by
    norm_num [stereoProject, WaveClip.GetStartTime]
  have e2 : (stereoProject.clips 1).GetEndTime * (stereoProject.clips 1).mRate + 1 / 2 =
      ((220500 : ℤ) : ℚ) + 1 / 2 := by
    norm_num [stereoProject, WaveClip.GetEndTime]
  have hclips : (stereoProject.tracks 1).mClips = [1] := by
    simp [stereoProject, monoWaveTrack]
  unfold GetClipAtSample
  rw [hclips]
  simp only [List.find?, e1, e2, floor_add_half]
  norm_num

/-- C16, witness: a click at time 3 on clip 0 of the left channel of `stereoProject` captures
clip 0 and, after it, clip 1 of the right channel, which holds the sample of time 3. -/
theorem capture_clicked_clip_witness :
    stereoHandle.mClipMoveState.capturedClipIsSelection = false ∧
    ∃ out, CreateListOfCapturedClips false ownGroup 0 stereoHandle.mClipMoveState stereoProject
        0 false 3 = some out ∧
      out.capturedClipArray = [TrackClip.new 0 (some 0), TrackClip.new 1 (some 1)] := by
  obtain ⟨out, h1, _, h2, _⟩ := capture_clicked_clip false ownGroup 0
    stereoHandle.mClipMoveState stereoProject 0 3 rfl
  refine ⟨rfl, out, h1, h2 0 1 1 rfl (by simp [stereoProject, monoWaveTrack]) ?_ ?_⟩
  · rw [sample_click_sample]
    decide
  · rw [sample_click_sample]
    exact sample_clip_at_sample

/-- C16, counterexample: in `earlyStereoProject` both channels hold a clip on `[-10, 5)`.  A
click at time -1 on clip 0 of the left channel, not in the selection and with sync-lock off:
a clip was clicked, the track has the stereo partner 1, and clip 1 of the partner spans the
click time; yet the capture set holds the clicked clip only, because the sample of the click
time is negative. -/
theorem capture_misses_partner_before_zero :
    stereoHandle.mClipMoveState.capturedClip = some 0 ∧
    stereoHandle.mClipMoveState.capturedClipIsSelection = false ∧
    (earlyStereoProject.tracks 0).mLink = some 1 ∧
    1 ∈ (earlyStereoProject.tracks 1).mClips ∧
    (earlyStereoProject.clips 1).GetStartTime ≤ -1 ∧
    -1 < (earlyStereoProject.clips 1).GetEndTime ∧
    ∃ out, CreateListOfCapturedClips false ownGroup 0 stereoHandle.mClipMoveState
        earlyStereoProject 0 false (-1) = some out ∧
      out.capturedClipArray = [TrackClip.new 0 (some 0)] := by
  have hs : ¬ 0 ≤ toSampleCount ((-1 : ℚ) * (earlyStereoProject.tracks 1).mRate + 1 / 2) := by
    have e : (-1 : ℚ) * (earlyStereoProject.tracks 1).mRate + 1 / 2 = -88199 / 2 := by
      norm_num [earlyStereoProject, stereoProject, monoWaveTrack]
    rw [e]
    unfold toSampleCount
    rw [if_neg (by norm_num)]
    have : ⌈(-88199 / 2 : ℚ)⌉ ≤ -1 := Int.ceil_le.2 (by norm_num)
    omega
  have hf : FindClipAtTime earlyStereoProject (some 1) (-1) = none := by
    simp only [FindClipAtTime, if_neg hs]
  refine ⟨rfl, rfl, by simp [earlyStereoProject, stereoProject, monoWaveTrack],
    by simp [earlyStereoProject, stereoProject, monoWaveTrack],
    by norm_num [earlyStereoProject, WaveClip.GetStartTime],
    by norm_num [earlyStereoProject, WaveClip.GetEndTime], ?_⟩
  refine ⟨captureClicked false stereoHandle.mClipMoveState earlyStereoProject 0 (-1),
    by simp [CreateListOfCapturedClips], ?_⟩
  have hl : (earlyStereoProject.tracks 0).mLink = some 1 := by
    simp [earlyStereoProject, stereoProject, monoWaveTrack]
  unfold captureClicked
  simp only [stereoHandle, Bool.false_eq_true, if_false, hl, hf]

/-! ## Lemmas: `AddClipsToCaptured` -/

theorem mem_capturedClips (arr : List TrackClip) (c : ClipId) :
    c ∈ capturedClips arr ↔ Captured arr c := by
  simp [capturedClips, Captured, List.mem_filterMap]

theorem mem_capturedTracks (arr : List TrackClip) (t : TrackId) :
    t ∈ capturedTracks arr ↔ ∃ e ∈ arr, e.clip = none ∧ e.track = t := by
  simp [capturedTracks, List.mem_map, List.mem_filter, and_assoc]

theorem capturedClips_append (a b : List TrackClip) :
    capturedClips (a ++ b) = capturedClips a ++ capturedClips b := by
  simp [capturedClips, List.filterMap_append]

theorem capturedTracks_append (a b : List TrackClip) :
    capturedTracks (a ++ b) = capturedTracks a ++ capturedTracks b := by
  simp [capturedTracks, List.filter_append]

theorem captured_append_left {a : List TrackClip} (b : List TrackClip) {c : ClipId}
    (h : Captured a c) : Captured (a ++ b) c := by
  obtain ⟨e, he, hc⟩ := h
  exact ⟨e, List.mem_append_left _ he, hc⟩

/-- The test of the clip loop of `AddClipsToCaptured`. -/
theorem addWaveClips_test (p : Project) (t0 t1 : ℚ) (clip : ClipId) (clips : List TrackClip) :
    (!(p.clips clip).AfterClip t0 && !(p.clips clip).BeforeClip t1 &&
        !clips.any fun c => decide (c.clip = some clip)) = true ↔
      t0 < (p.clips clip).GetEndTime ∧ (p.clips clip).GetStartTime < t1 ∧
        ¬ Captured clips clip := by
  simp [WaveClip.AfterClip, WaveClip.BeforeClip, Captured, and_assoc]

/-- The clip loop of `AddClipsToCaptured` appends entries: one for each clip of the list that
overlaps the span and is not captured yet. -/
theorem addWaveClips_spec (p : Project) (t : TrackId) (t0 t1 : ℚ) :
    ∀ (cs : List ClipId) (arr : List TrackClip), ∃ extra,
      addWaveClips p t t0 t1 cs arr = arr ++ extra ∧
      (∀ e ∈ extra, ∃ c ∈ cs, e = TrackClip.new t (some c) ∧
        t0 < (p.clips c).GetEndTime ∧ (p.clips c).GetStartTime < t1 ∧ ¬ Captured arr c) ∧
      (∀ c ∈ cs, t0 < (p.clips c).GetEndTime → (p.clips c).GetStartTime < t1 →
        Captured (arr ++ extra) c) ∧
      ((capturedClips arr).Nodup → (capturedClips (arr ++ extra)).Nodup) := by
  intro cs
  induction cs with
  | nil =>
    intro arr
    exact ⟨[], by simp [addWaveClips], by simp, by simp, by simp⟩
  | cons clip rest ih =>
    intro arr
    by_cases hcond : (!(p.clips clip).AfterClip t0 && !(p.clips clip).BeforeClip t1 &&
        !arr.any fun c => decide (c.clip = some clip)) = true
    · obtain ⟨extra, h1, h2, h3, h4⟩ := ih (arr ++ [TrackClip.new t (some clip)])
      obtain ⟨hA, hB, hC⟩ := (addWaveClips_test p t0 t1 clip arr).1 hcond
      refine ⟨TrackClip.new t (some clip) :: extra, ?_, ?_, ?_, ?_⟩
      · rw [addWaveClips, if_pos hcond, h1, List.append_assoc, List.singleton_append]
      · intro e he
        rcases List.mem_cons.1 he with heq | hmem
        · exact ⟨clip, List.mem_cons_self _ _, heq, hA, hB, hC⟩
        · obtain ⟨c, hc, e1, e2, e3, e4⟩ := h2 e hmem
          exact ⟨c, List.mem_cons_of_mem _ hc, e1, e2, e3,
            fun hcap => e4 (captured_append_left _ hcap)⟩
      · intro c hc hA2 hB2
        rw [← List.singleton_append, ← List.append_assoc]
        rcases List.mem_cons.1 hc with heq | hmem
        · subst heq
          exact captured_append_left _
            ⟨TrackClip.new t (some c), by simp, rfl⟩
        · exact h3 c hmem hA2 hB2
      · intro hnd
        rw [← List.singleton_append, ← List.append_assoc]
        apply h4
        rw [capturedClips_append]
        have hsingle : capturedClips [TrackClip.new t (some clip)] = [clip] := rfl
        rw [hsingle]
        apply List.Nodup.append hnd (List.nodup_singleton _)
        intro x hx1 hx2
        rw [List.mem_singleton] at hx2
        subst hx2
        exact hC ((mem_capturedClips arr x).1 hx1)
    · obtain ⟨extra, h1, h2, h3, h4⟩ := ih arr
      refine ⟨extra, ?_, ?_, ?_, h4⟩
      · rw [addWaveClips, if_neg hcond, h1]
      · intro e he
        obtain ⟨c, hc, rest2⟩ := h2 e he
        exact ⟨c, List.mem_cons_of_mem _ hc, rest2⟩
      · intro c hc hA2 hB2
        rcases List.mem_cons.1 hc with heq | hmem
        · subst heq
          by_contra hno
          apply hcond
          exact (addWaveClips_test p t0 t1 c arr).2
            ⟨hA2, hB2, fun hcap => hno (captured_append_left _ hcap)⟩
        · exact h3 c hmem hA2 hB2

theorem capturedTracks_of_clips (extra : List TrackClip)
    (h : ∀ e ∈ extra, e.clip ≠ none) : capturedTracks extra = [] := by
  unfold capturedTracks
  rw [List.map_eq_nil_iff, List.filter_eq_nil_iff]
  intro e he
  cases hc : e.clip with
  | none => exact absurd hc (h e he)
  | some c => simp

/-- What one call of `AddClipsToCaptured` adds to the capture array. -/
theorem AddClipsToCaptured_spec (useMidi : Bool) (state : ClipMoveState) (p : Project)
    (t : TrackId) (t0 t1 : ℚ) :
    ∃ extra,
      (AddClipsToCaptured useMidi state p t t0 t1).capturedClipArray =
        state.capturedClipArray ++ extra ∧
      (∀ e ∈ extra, e = TrackClip.new t e.clip ∧
        (∀ c, e.clip = some c → (p.tracks t).kind = TrackKind.Wave ∧ c ∈ (p.tracks t).mClips ∧
          t0 < (p.clips c).GetEndTime ∧ (p.clips c).GetStartTime < t1 ∧
          ¬ Captured state.capturedClipArray c) ∧
        (e.clip = none → (p.tracks t).kind ≠ TrackKind.Wave ∧
          (∀ e2 ∈ state.capturedClipArray, e2.track ≠ t) ∧ ¬ noteOutside useMidi p t t0 t1)) ∧
      ((capturedClips state.capturedClipArray).Nodup →
        (capturedClips (state.capturedClipArray ++ extra)).Nodup) ∧
      ((capturedTracks state.capturedClipArray).Nodup →
        (capturedTracks (state.capturedClipArray ++ extra)).Nodup) ∧
      ((p.tracks t).kind = TrackKind.Wave → ∀ c ∈ (p.tracks t).mClips,
        t0 < (p.clips c).GetEndTime → (p.clips c).GetStartTime < t1 →
        Captured (state.capturedClipArray ++ extra) c) ∧
      ((p.tracks t).kind ≠ TrackKind.Wave → ¬ noteOutside useMidi p t t0 t1 →
        ∃ e ∈ state.capturedClipArray ++ extra, e.track = t) := by
  unfold AddClipsToCaptured
  by_cases hk : (p.tracks t).kind = TrackKind.Wave
  · obtain ⟨extra, h1, h2, h3, h4⟩ :=
      addWaveClips_spec p t t0 t1 (p.tracks t).mClips state.capturedClipArray
    have hclip : ∀ e ∈ extra, e.clip ≠ none := by
      intro e he
      obtain ⟨c, _, heq, _⟩ := h2 e he
      rw [heq]
      simp [TrackClip.new]
    refine ⟨extra, by rw [if_pos hk]; exact h1, ?_, h4, ?_, fun _ => h3, fun hne => absurd hk hne⟩
    · intro e he
      obtain ⟨c, hc, heq, hA, hB, hC⟩ := h2 e he
      refine ⟨by rw [heq]; rfl, ?_, fun hn => absurd hn (hclip e he)⟩
      intro c2 hc2
      rw [heq] at hc2
      simp only [TrackClip.new, Option.some.injEq] at hc2
      subst hc2
      exact ⟨hk, hc, hA, hB, hC⟩
    · intro hnd
      rw [capturedTracks_append, capturedTracks_of_clips extra hclip, List.append_nil]
      exact hnd
  · rw [if_neg hk]
    by_cases hany : (state.capturedClipArray.any fun c => decide (c.track = t)) = true
    · rw [if_pos hany]
      refine ⟨[], by simp, by simp, by simp, by simp, fun h => absurd h hk, ?_⟩
      intro _ _
      simp only [List.any_eq_true, decide_eq_true_eq] at hany
      simpa using hany
    · rw [if_neg hany]
      have hnone : ∀ e2 ∈ state.capturedClipArray, e2.track ≠ t := by
        intro e2 he2 heq
        apply hany
        simp only [List.any_eq_true, decide_eq_true_eq]
        exact ⟨e2, he2, heq⟩
      by_cases hmidi : useMidi = true ∧ (p.tracks t).kind = TrackKind.Note ∧
          (p.trackEndTime t < t0 ∨ t1 < p.trackStartTime t)
      · rw [if_pos hmidi]
        exact ⟨[], by simp, by simp, by simp, by simp, fun h => absurd h hk,
          fun _ hno => absurd hmidi hno⟩
      · rw [if_neg hmidi]
        refine ⟨[TrackClip.new t none], rfl, ?_, ?_, ?_, fun h => absurd h hk, ?_⟩
        · intro e he
          rw [List.mem_singleton] at he
          subst he
          exact ⟨rfl, fun c hc => by simp [TrackClip.new] at hc, fun _ => ⟨hk, hnone, hmidi⟩⟩
        · intro hnd
          rw [capturedClips_append]
          simpa [capturedClips, TrackClip.new] using hnd
        · intro hnd
          rw [capturedTracks_append]
          have hsingle : capturedTracks [TrackClip.new t none] = [t] := rfl
          rw [hsingle]
          apply List.Nodup.append hnd (List.nodup_singleton _)
          intro x hx1 hx2
          rw [List.mem_singleton] at hx2
          subst hx2
          obtain ⟨e2, he2, _, htr⟩ := (mem_capturedTracks _ _).1 hx1
          exact hnone e2 he2 htr
        · intro _ _
          exact ⟨TrackClip.new t none, by simp, rfl⟩

/-! ## C15: a click in the selection -/

/-- A loop of calls of `AddClipsToCaptured`, with the same time bounds, over the tracks of a
list that pass a test: what it appends to the capture array. -/
theorem foldl_add_spec (useMidi : Bool) (p : Project) (t0 t1 : ℚ) (keep : TrackId → Bool) :
    ∀ (ts : List TrackId) (s : ClipMoveState), ∃ extra,
      (ts.foldl (fun s t =>
        if keep t = true then AddClipsToCaptured useMidi s p t t0 t1 else s)
        s).capturedClipArray = s.capturedClipArray ++ extra ∧
      (∀ e ∈ extra, e.track ∈ ts ∧ keep e.track = true ∧ e = TrackClip.new e.track e.clip ∧
        (∀ c, e.clip = some c → (p.tracks e.track).kind = TrackKind.Wave ∧
          c ∈ (p.tracks e.track).mClips ∧ t0 < (p.clips c).GetEndTime ∧
          (p.clips c).GetStartTime < t1) ∧
        (e.clip = none → (p.tracks e.track).kind ≠ TrackKind.Wave ∧
          ¬ noteOutside useMidi p e.track t0 t1)) ∧
      ((capturedClips s.capturedClipArray).Nodup →
        (capturedClips (s.capturedClipArray ++ extra)).Nodup) ∧
      ((capturedTracks s.capturedClipArray).Nodup →
        (capturedTracks (s.capturedClipArray ++ extra)).Nodup) ∧
      (∀ t ∈ ts, keep t = true → (p.tracks t).kind = TrackKind.Wave →
        ∀ c ∈ (p.tracks t).mClips, t0 < (p.clips c).GetEndTime →
          (p.clips c).GetStartTime < t1 → Captured (s.capturedClipArray ++ extra) c) ∧
      (∀ t ∈ ts, keep t = true → (p.tracks t).kind ≠ TrackKind.Wave →
        ¬ noteOutside useMidi p t t0 t1 →
        ∃ e ∈ s.capturedClipArray ++ extra, e.track = t) := by
  intro ts
  induction ts with
  | nil =>
    intro s
    exact ⟨[], by simp, by simp, by simp, by simp, by simp, by simp⟩
  | cons t rest ih =>
    intro s
    simp only [List.foldl_cons]
    by_cases hsel : keep t = true
    · simp only [hsel, if_true]
      obtain ⟨ex1, a1, a2, a3, a4, a5, a6⟩ := AddClipsToCaptured_spec useMidi s p t t0 t1
      obtain ⟨ex2, b1, b2, n1, n2, b3, b4⟩ := ih (AddClipsToCaptured useMidi s p t t0 t1)
      rw [a1] at b1 b3 b4 n1 n2
      rw [List.append_assoc] at b1 b3 b4 n1 n2
      refine ⟨ex1 ++ ex2, b1, ?_, fun h => n1 (a3 h), fun h => n2 (a4 h), ?_, ?_⟩
      · intro e he
        rcases List.mem_append.1 he with h1 | h2
        · obtain ⟨e1, e2, e3⟩ := a2 e h1
          have htr : e.track = t := by rw [e1]; rfl
          rw [htr]
          refine ⟨List.mem_cons_self _ _, hsel, e1, ?_, ?_⟩
          · intro c hc
            obtain ⟨k1, k2, k3, k4, _⟩ := e2 c hc
            exact ⟨k1, k2, k3, k4⟩
          · intro hn
            obtain ⟨k1, _, k3⟩ := e3 hn
            exact ⟨k1, k3⟩
        · obtain ⟨e1, e2⟩ := b2 e h2
          exact ⟨List.mem_cons_of_mem _ e1, e2⟩
      · intro u hu hs hw c hc hA hB
        rcases List.mem_cons.1 hu with heq | hmem
        · subst heq
          rw [← List.append_assoc]
          exact captured_append_left _ (a5 hw c hc hA hB)
        · exact b3 u hmem hs hw c hc hA hB
      · intro u hu hs hw hno
        rcases List.mem_cons.1 hu with heq | hmem
        · subst heq
          obtain ⟨e, he, htr⟩ := a6 hw hno
          rw [← List.append_assoc]
          exact ⟨e, List.mem_append_left _ he, htr⟩
        · exact b4 u hmem hs hw hno
    · simp only [hsel, if_false]
      obtain ⟨ex2, b1, b2, n1, n2, b3, b4⟩ := ih s
      refine ⟨ex2, b1, ?_, n1, n2, ?_, ?_⟩
      · intro e he
        obtain ⟨e1, e2⟩ := b2 e he
        exact ⟨List.mem_cons_of_mem _ e1, e2⟩
      · intro u hu hs hw c hc hA hB
        rcases List.mem_cons.1 hu with heq | hmem
        · subst heq
          exact absurd hs hsel
        · exact b3 u hmem hs hw c hc hA hB
      · intro u hu hs hw hno
        rcases List.mem_cons.1 hu with heq | hmem
        · subst heq
          exact absurd hs hsel
        · exact b4 u hmem hs hw hno

/-- The capture array after the first part of `CreateListOfCapturedClips`, for a click in the
selection. -/
theorem captureClicked_selection (useMidi : Bool) (state : ClipMoveState) (p : Project)
    (capturedTrack : TrackId) (clickTime : ℚ) (hsel : state.capturedClipIsSelection = true) :
    (captureClicked useMidi state p capturedTrack clickTime).capturedClipArray =
      (p.trackList.foldl (fun s t =>
        if (fun t => (p.tracks t).mSelected) t = true then
          AddClipsToCaptured useMidi s p t p.selT0 p.selT1
        else s) { state with capturedClipArray := [] }).capturedClipArray := by
  unfold captureClicked
  simp only [hsel, if_true, AddClipsToCapturedWithin]

/-- C15, amended: for a click in the selection, with sync-lock off, `CreateListOfCapturedClips`
returns with a capture array built anew.  Every entry is on a selected track of the list; an
entry with a clip is on a wave track and holds a clip of that track that is neither after the
start `t0` nor before the end `t1` of the selected region; an entry without a clip is on a
track that is not a wave track.  Every such clip of a selected wave track is captured, and
every selected track that is not a wave track has its whole-track entry, except, in a build
with `USE_MIDI`, a note track that ends before `t0` or starts after `t1`. -/
theorem capture_selection (useMidi : Bool) (group : SyncLockGroup) (fuel : Nat)
    (state : ClipMoveState) (p : Project) (capturedTrack : TrackId) (clickTime : ℚ)
    (hsel : state.capturedClipIsSelection = true) :
    ∃ out, CreateListOfCapturedClips useMidi group fuel state p capturedTrack false clickTime =
        some out ∧
      (∀ e ∈ out.capturedClipArray, e.track ∈ p.trackList ∧
        (p.tracks e.track).mSelected = true ∧
        (∀ c, e.clip = some c → (p.tracks e.track).kind = TrackKind.Wave ∧
          c ∈ (p.tracks e.track).mClips ∧ p.selT0 < (p.clips c).GetEndTime ∧
          (p.clips c).GetStartTime < p.selT1) ∧
        (e.clip = none → (p.tracks e.track).kind ≠ TrackKind.Wave ∧
          ¬ noteOutside useMidi p e.track p.selT0 p.selT1)) ∧
      (∀ t ∈ p.trackList, (p.tracks t).mSelected = true → (p.tracks t).kind = TrackKind.Wave →
        ∀ c ∈ (p.tracks t).mClips, p.selT0 < (p.clips c).GetEndTime →
          (p.clips c).GetStartTime < p.selT1 → Captured out.capturedClipArray c) ∧
      (∀ t ∈ p.trackList, (p.tracks t).mSelected = true → (p.tracks t).kind ≠ TrackKind.Wave →
        ¬ noteOutside useMidi p t p.selT0 p.selT1 →
        ∃ e ∈ out.capturedClipArray, e.track = t ∧ e.clip = none) := by
  obtain ⟨extra, h1, h2, _, _, h3, h4⟩ := foldl_add_spec useMidi p p.selT0 p.selT1
    (fun t => (p.tracks t).mSelected) p.trackList { state with capturedClipArray := [] }
  simp only [List.nil_append] at h1 h3 h4
  have hout : (captureClicked useMidi state p capturedTrack clickTime).capturedClipArray =
      extra := by
    rw [captureClicked_selection useMidi state p capturedTrack clickTime hsel]
    exact h1
  refine ⟨captureClicked useMidi state p capturedTrack clickTime,
    by simp [CreateListOfCapturedClips], ?_, ?_, ?_⟩
  · rw [hout]
    intro e he
    obtain ⟨k1, k2, _, k4, k5⟩ := h2 e he
    exact ⟨k1, k2, k4, k5⟩
  · rw [hout]
    exact h3
  · rw [hout]
    intro t ht hs hw hno
    obtain ⟨e, he, htr⟩ := h4 t ht hs hw hno
    refine ⟨e, he, htr, ?_⟩
    cases hc : e.clip with
    | none => rfl
    | some c =>
      have := ((h2 e he).2.2.2.1 c hc).1
      rw [htr] at this
      exact absurd this hw

/-- C15, witness: in a build without `USE_MIDI`, a click in the selection `[0, 11/2]` of
`selectionProject` captures clip 0 of the selected wave track, which spans `[2, 5)`, and the
selected note track as a whole. -/
theorem capture_selection_witness :
    selectionState.capturedClipIsSelection = true ∧
    ∃ out, CreateListOfCapturedClips false ownGroup 0 selectionState selectionProject 0 false 3 =
        some out ∧
      Captured out.capturedClipArray 0 ∧
      ∃ e ∈ out.capturedClipArray, e.track = 1 ∧ e.clip = none := by
  obtain ⟨out, h1, _, h3, h4⟩ := capture_selection false ownGroup 0 selectionState
    selectionProject 0 3 rfl
  refine ⟨rfl, out, h1, ?_, ?_⟩
  · exact h3 0 (by simp [selectionProject]) (by simp [selectionProject, monoWaveTrack])
      (by simp [selectionProject, monoWaveTrack]) 0 (by simp [selectionProject, monoWaveTrack])
      (by norm_num [selectionProject, WaveClip.GetEndTime])
      (by norm_num [selectionProject, WaveClip.GetStartTime])
  · exact h4 1 (by simp [selectionProject]) (by simp [selectionProject])
      (by simp [selectionProject]) (by simp [noteOutside])

/-- C15, counterexample: in a build with `USE_MIDI`, a click in the selection `[0, 11/2]` of
`selectionProject`, with sync-lock off.  Track 1 is a selected track of the list and is not a
wave track, yet the capture array holds the entry of clip 0 only: the note track starts at
10, after the end of the selected region, and gets no whole-track entry. -/
theorem capture_selection_skips_note :
    selectionState.capturedClipIsSelection = true ∧
    (1 : TrackId) ∈ selectionProject.trackList ∧
    (selectionProject.tracks 1).mSelected = true ∧
    (selectionProject.tracks 1).kind ≠ TrackKind.Wave ∧
    ∃ out, CreateListOfCapturedClips true ownGroup 0 selectionState selectionProject 0 false 3 =
        some out ∧
      out.capturedClipArray = [TrackClip.new 0 (some 0)] := by
  refine ⟨rfl, by simp [selectionProject], by simp [selectionProject],
    by simp [selectionProject], captureClicked true selectionState selectionProject 0 3,
    by simp [CreateListOfCapturedClips], ?_⟩
  simp [captureClicked, selectionState, slideState, selectionProject, AddClipsToCapturedWithin,
    AddClipsToCaptured, addWaveClips, monoWaveTrack, WaveClip.AfterClip, WaveClip.BeforeClip,
    WaveClip.GetEndTime, WaveClip.GetStartTime, Project.trackEndTime, Project.trackStartTime,
    TrackClip.new]
  norm_num

/-! ## Lemmas: the sync-lock loop -/

theorem rint_near (n : ℤ) (x : ℚ) (h1 : (n : ℚ) - 1 / 2 < x) (h2 : x < n + 1 / 2) :
    rint x = n := by
  unfold rint
  by_cases hx : (n : ℚ) ≤ x
  · have hf : ⌊x⌋ = n := by
      rw [Int.floor_eq_iff]
      constructor <;> linarith
    rw [hf, if_pos (by linarith)]
  · have hf : ⌊x⌋ = n - 1 := by
      rw [Int.floor_eq_iff]
      push_cast
      constructor <;> linarith
    rw [hf, if_neg (by push_cast; linarith), if_pos (by push_cast; linarith)]
    ring

theorem FindDesiredSlideAmount_unsnapped (viewInfo : ViewInfo) (p : Project) (xx m_x : Int)
    (pSnapManager : Option SnapManager) (snapPreferRightEdge : Bool) (state : ClipMoveState)
    (capturedTrack track : TrackId)
    (hsnap : ∀ snapManager, pSnapManager = some snapManager →
      snapManager capturedTrack
          (capturedStart p state capturedTrack + quantizedSlide viewInfo p m_x state track)
          false =
        capturedStart p state capturedTrack + quantizedSlide viewInfo p m_x state track ∧
      snapManager capturedTrack
          (capturedEnd p state capturedTrack + quantizedSlide viewInfo p m_x state track)
          false =
        capturedEnd p state capturedTrack + quantizedSlide viewInfo p m_x state track) :
    (FindDesiredSlideAmount viewInfo p xx m_x pSnapManager false snapPreferRightEdge state
      capturedTrack track).1 = quantizedSlide viewInfo p m_x state track := by
  unfold FindDesiredSlideAmount
  cases pSnapManager with
  | none => simp
  | some sm =>
    obtain ⟨hl, hr⟩ := hsnap sm rfl
    simp [hl, hr]

/-- C25 (the claim fails): clip 0 is captured on track 1, a wave track of rate 8000, there is no
snap manager, and the pointer, one pixel of an eleventh of a second from the click, is over
track 0, a wave track of rate 44100.  The returned delta is 4009/44100, the raw delta 1/11 set
to a sample point of the track under the pointer; it is not `rint(raw * 8000) / 8000`, the
sample point of the captured track. -/
theorem FindDesiredSlideAmount_pointer_rate :
    (mixedRateProject.tracks 1).kind = TrackKind.Wave ∧
    (mixedRateProject.tracks 1).mRate = 8000 ∧
    (mixedRateProject.tracks 0).mRate = 44100 ∧
    (FindDesiredSlideAmount fineView mixedRateProject 0 1 none false false (slideState 0)
      1 0).1 = 4009 / 44100 ∧
    (FindDesiredSlideAmount fineView mixedRateProject 0 1 none false false (slideState 0)
      1 0).1 ≠
      (rint ((fineView.PositionToTime 1 - fineView.PositionToTime 0) * 8000) : ℚ) / 8000 := by
  have h1 : rint ((1 : ℚ) / 11 * 44100) = 4009 :=
    rint_near 4009 _ (by norm_num) (by norm_num)
  have h2 : rint ((1 : ℚ) / 11 * 8000) = 727 :=
    rint_near 727 _ (by norm_num) (by norm_num)
  have hv : (FindDesiredSlideAmount fineView mixedRateProject 0 1 none false false
      (slideState 0) 1 0).1 = 4009 / 44100 := by
    have e : (fineView.PositionToTime 1 - fineView.PositionToTime (slideState 0).mMouseClickX)
        * (mixedRateProject.tracks 0).mRate = (1 : ℚ) / 11 * 44100 := by
      norm_num [fineView, slideState, mixedRateProject, monoWaveTrack]
    have hk : (mixedRateProject.tracks 0).kind = TrackKind.Wave := by
      simp [mixedRateProject, monoWaveTrack]
    simp only [FindDesiredSlideAmount, quantizedSlide, if_pos hk, e, h1]
    norm_num [mixedRateProject, monoWaveTrack]
  refine ⟨by simp [mixedRateProject, monoWaveTrack], by simp [mixedRateProject, monoWaveTrack],
    by simp [mixedRateProject, monoWaveTrack], hv, ?_⟩
  rw [hv]
  have e : (fineView.PositionToTime 1 - fineView.PositionToTime 0) * 8000
      = (1 : ℚ) / 11 * 8000 := by
    norm_num [fineView]
  rw [e, h2]
  norm_num

/-- C25 (amended): when `FindDesiredSlideAmount` is not in up-down-only mode and neither edge
snaps (there is no snap manager, or it returns both edges of the shifted captured clip
unchanged), the returned delta is the raw pointer displacement set to a sample point of the
track under the pointer, `rint(raw * R) / R` with `R` the rate of that track, when the pointer
is over a wave track, and the raw displacement itself when it is over another kind of track;
the rate of the captured track does not enter. -/
theorem FindDesiredSlideAmount_quantized (viewInfo : ViewInfo) (p : Project) (xx m_x : Int)
    (pSnapManager : Option SnapManager) (snapPreferRightEdge : Bool) (state : ClipMoveState)
    (capturedTrack track : TrackId)
    (hsnap : ∀ snapManager, pSnapManager = some snapManager →
      snapManager capturedTrack
          (capturedStart p state capturedTrack + quantizedSlide viewInfo p m_x state track)
          false =
        capturedStart p state capturedTrack + quantizedSlide viewInfo p m_x state track ∧
      snapManager capturedTrack
          (capturedEnd p state capturedTrack + quantizedSlide viewInfo p m_x state track)
          false =
        capturedEnd p state capturedTrack + quantizedSlide viewInfo p m_x state track) :
    ((p.tracks track).kind = TrackKind.Wave →
      (FindDesiredSlideAmount viewInfo p xx m_x pSnapManager false snapPreferRightEdge state
        capturedTrack track).1 =
        (rint ((viewInfo.PositionToTime m_x - viewInfo.PositionToTime state.mMouseClickX) *
          (p.tracks track).mRate) : ℚ) / (p.tracks track).mRate) ∧
    ((p.tracks track).kind ≠ TrackKind.Wave →
      (FindDesiredSlideAmount viewInfo p xx m_x pSnapManager false snapPreferRightEdge state
        capturedTrack track).1 =
        viewInfo.PositionToTime m_x - viewInfo.PositionToTime state.mMouseClickX) := by
  rw [FindDesiredSlideAmount_unsnapped viewInfo p xx m_x pSnapManager snapPreferRightEdge state
    capturedTrack track hsnap]
  constructor
  · intro hk
    simp only [quantizedSlide, if_pos hk]
  · intro hk
    simp only [quantizedSlide, if_neg hk]

theorem FindDesiredSlideAmount_quantized_witness :
    (mixedRateProject.tracks 0).kind = TrackKind.Wave ∧
    (FindDesiredSlideAmount fineView mixedRateProject 0 1 (some fun _ t _ => t) false false
      (slideState 0) 1 0).1 =
      (rint ((fineView.PositionToTime 1 - fineView.PositionToTime (slideState 0).mMouseClickX) *
        (mixedRateProject.tracks 0).mRate) : ℚ) / (mixedRateProject.tracks 0).mRate := by
  have hk : (mixedRateProject.tracks 0).kind = TrackKind.Wave := by
    simp [mixedRateProject, monoWaveTrack]
  exact ⟨hk, (FindDesiredSlideAmount_quantized fineView mixedRateProject 0 1
    (some fun _ t _ => t) false (slideState 0) 1 0
    (fun sm hsm => by cases hsm; exact ⟨rfl, rfl⟩)).1 hk⟩

/-! ## C24: the shift-click slide of a whole track -/

theorem foldl_offsetClip_clips (d : ℚ) (cs : List ClipId) (hn : cs.Nodup) (p : Project)
    (x : ClipId) :
    (cs.foldl (fun q c => q.offsetClip c d) p).clips x =
      if x ∈ cs then (p.clips x).Offset d else p.clips x := by
  induction cs generalizing p with
  | nil => simp
  | cons c rest ih =>
    rw [List.foldl_cons, ih (List.nodup_cons.1 hn).2]
    have hc : c ∉ rest := (List.nodup_cons.1 hn).1
    by_cases hx : x = c
    · subst hx
      simp [hc, Project.offsetClip]
    · by_cases hr : x ∈ rest
      · simp [hr, Project.offsetClip, hx]
      · simp [hr, hx, Project.offsetClip]

theorem offsetTrack_wave_clips (p : Project) (t : TrackId) (d : ℚ)
    (hk : (p.tracks t).kind = TrackKind.Wave) (hn : (p.tracks t).mClips.Nodup) (x : ClipId) :
    (p.offsetTrack t d).clips x =
      if x ∈ (p.tracks t).mClips then (p.clips x).Offset d else p.clips x := by
  unfold Project.offsetTrack
  rw [if_pos hk]
  exact foldl_offsetClip_clips d _ hn p x

theorem offsetChannels_one (d : ℚ) (n : Nat) (p : Project) (t : TrackId)
    (hstop : (p.tracks t).mLinked = true → (p.tracks t).mLink = none) :
    offsetChannels d (n + 1) p (some t) = some (p.offsetTrack t d) := by
  have hs := (offsetTrack_sameStructure p t d).2 t
  unfold offsetChannels
  simp only [hs.2.1, hs.2.2.1]
  by_cases hl : (p.tracks t).mLinked = true
  · rw [if_pos hl, hstop hl]
    cases n <;> rfl
  · rw [if_neg hl]
    cases n <;> rfl

theorem offsetChannels_two (d : ℚ) (n : Nat) (p : Project) (l r : TrackId)
    (hl : (p.tracks l).mLinked = true) (hlr : (p.tracks l).mLink = some r)
    (hr : (p.tracks r).mLinked = false) :
    offsetChannels d (n + 2) p (some l) =
      some ((p.offsetTrack l d).offsetTrack r d) := by
  have hs := (offsetTrack_sameStructure p l d).2
  rw [offsetChannels]
  simp only [(hs l).2.1, (hs l).2.2.1, hl, hlr, if_true]
  exact offsetChannels_one d n _ r (fun h => by rw [(hs r).2.1, hr] at h; cases h)

/-- C24: with an empty capture set `DoSlideHorizontal` returns, whatever the overlap oracle
is, with the state (so `hSlideAmount`) unchanged and with `Track::Offset(hSlideAmount)` applied
once to the captured track when it has no partner, and once to the left and once to the right
channel of its stereo pair when it has one, whether the captured track is the left or the right
channel.  For two wave channels that list each clip once, every clip of either channel is
thereby moved by exactly `hSlideAmount`, and no other clip moves. -/
theorem DoSlideHorizontal_empty_capture (f : CanOffsetClipFn) (n : Nat) (state : ClipMoveState)
    (p : Project) (t : TrackId) (harr : state.capturedClipArray = []) :
    ((p.tracks t).mLink = none →
      DoSlideHorizontal f (n + 1) state p t =
        some (state, p.offsetTrack t state.hSlideAmount)) ∧
    (∀ r, (p.tracks t).mLinked = true → (p.tracks t).mLink = some r →
      (p.tracks r).mLinked = false →
      DoSlideHorizontal f (n + 2) state p t =
        some (state, (p.offsetTrack t state.hSlideAmount).offsetTrack r state.hSlideAmount)) ∧
    (∀ l, (p.tracks t).mLinked = false → (p.tracks t).mLink = some l →
      (p.tracks l).mLinked = true → (p.tracks l).mLink = some t →
      DoSlideHorizontal f (n + 2) state p t =
        some (state, (p.offsetTrack l state.hSlideAmount).offsetTrack t state.hSlideAmount)) ∧
    (∀ l r d, (p.tracks l).kind = TrackKind.Wave → (p.tracks r).kind = TrackKind.Wave →
      ((p.tracks l).mClips ++ (p.tracks r).mClips).Nodup →
      ∀ x, ((p.offsetTrack l d).offsetTrack r d).clips x =
        if x ∈ (p.tracks l).mClips ∨ x ∈ (p.tracks r).mClips then (p.clips x).Offset d
        else p.clips x) := by
  have hD : ∀ fuel, DoSlideHorizontal f fuel state p t =
      (offsetChannels state.hSlideAmount fuel p
        (some (if (p.tracks t).mLink.isSome ∧ ¬ (p.tracks t).mLinked
               then (p.tracks t).mLink.getD t else t))).map fun q => (state, q) := by
    intro fuel
    simp [DoSlideHorizontal, DoOffset, harr]
  refine ⟨fun hnone => ?_, fun r hl hlr hr => ?_, fun l hl hlr hll hlt => ?_,
    fun l r d hkl hkr hnd x => ?_⟩
  · rw [hD, hnone]
    simp only [Option.isSome_none, Bool.false_eq_true, false_and, if_false]
    rw [offsetChannels_one _ _ _ _ (fun _ => hnone)]
    rfl
  · rw [hD, hlr, hl]
    simp only [not_true_eq_false, and_false, if_false]
    rw [offsetChannels_two _ _ _ _ r hl hlr hr]
    rfl
  · rw [hD, hlr, hl]
    simp only [Option.isSome_some, Bool.false_eq_true, not_false_eq_true, and_self, if_true,
      Option.getD_some]
    rw [offsetChannels_two _ _ _ _ t hll hlt hl]
    rfl
  · have hs := (offsetTrack_sameStructure p l d).2 r
    have hnl : (p.tracks l).mClips.Nodup := (List.nodup_append.1 hnd).1
    have hnr : (p.tracks r).mClips.Nodup := (List.nodup_append.1 hnd).2.1
    have hdis := (List.nodup_append.1 hnd).2.2
    rw [offsetTrack_wave_clips _ r d (by rw [hs.1, hkr]) (by rw [hs.2.2.2]; exact hnr),
      hs.2.2.2, offsetTrack_wave_clips p l d hkl hnl]
    by_cases hxr : x ∈ (p.tracks r).mClips
    · have hxl : x ∉ (p.tracks l).mClips := fun h => hdis h hxr
      simp [hxr, hxl]
    · simp [hxr]

theorem DoSlideHorizontal_empty_capture_witness :
    (shiftState 3).capturedClipArray = [] ∧
    (stereoProject.tracks 1).mLinked = false ∧ (stereoProject.tracks 1).mLink = some 0 ∧
    (stereoProject.tracks 0).mLinked = true ∧ (stereoProject.tracks 0).mLink = some 1 ∧
    DoSlideHorizontal CanOffsetClip 2 (shiftState 3) stereoProject 1 =
      some (shiftState 3,
        (stereoProject.offsetTrack 0 (shiftState 3).hSlideAmount).offsetTrack 1
          (shiftState 3).hSlideAmount) :=
  ⟨rfl, by simp [stereoProject, monoWaveTrack], by simp [stereoProject, monoWaveTrack],
    by simp [stereoProject, monoWaveTrack], by simp [stereoProject, monoWaveTrack],
    (DoSlideHorizontal_empty_capture CanOffsetClip 0 (shiftState 3) stereoProject 1 rfl).2.2.1 0
      (by simp [stereoProject, monoWaveTrack]) (by simp [stereoProject, monoWaveTrack])
      (by simp [stereoProject, monoWaveTrack]) (by simp [stereoProject, monoWaveTrack])⟩

/-! ## C22: the snap positions after the horizontal slide -/

/-- C26 (failing input): after `Click` on clip 0 of track 0 at pointer position 3, one `Drag`
to position 6 over track 1 and `Release`, all with the guard unset, with an insertion test
that accepts a clip exactly where it overlaps no clip of the track.  Moved by the three
seconds of the step, clip 0 would lie on `[5, 8)`, over clip 1 on `[6, 8)` of track 1, so the
test refuses it there; it accepts it back on track 0, which holds no other clip.  The `Drag`
call puts the clip back shifted by three seconds and sets `hSlideAmount` to 0 without setting
`mDidSlideVertically`.  `Release` then returns without a call on the undo history, yet clip 0
starts at 5 and not at 2, where it was after `Click`. -/
theorem Release_silent_after_rejected_insert :
    ∃ out, Drag CanOffsetClip insertIfClear unitView 1 false ⟨6, some 1⟩ clickedHandle
        twoTrackProject = some out ∧
      out.vertical = VerticalOutcome.RejectedInsert ∧
      out.handle.mDidSlideVertically = false ∧
      out.handle.mClipMoveState.hSlideAmount = 0 ∧
      (Release false out.handle out.project).result = RefreshNone ∧
      (Release false out.handle out.project).project.undoCalls = twoTrackProject.undoCalls ∧
      (Release false out.handle out.project).project = out.project ∧
      (twoTrackProject.clips 0).GetStartTime = 2 ∧
      ((Release false out.handle out.project).project.clips 0).GetStartTime = 5 := by
  simp [Drag, clickedHandle, snapNothing, twoTrackProject, slideState, DoOffset, DoOffsetEntry,
    TrackClip.new, FindDesiredSlideAmount, quantizedSlide, unitView, monoWaveTrack, rint,
    DragVertical, TrackPosition, trackPositionFrom, Project.audioTracks,
    Project.isRightChannel, assignDestinations, resolveDestination, destinationOk,
    NthAudioTrack, TemporaryClipRemover.ctor, TemporaryClipRemover.dtor,
    TemporaryClipRemover.Fail, RemoveAndReturnClip, AddClip, checkInsert, checkRestore,
    offsetHolders, insertIfClear, Project.offsetClip, Function.update, WaveClip.Offset,
    WaveClip.GetStartTime, WaveClip.GetEndTime, WaveClip.Overlaps, Release, capturedStart,
    capturedEnd]
  norm_num

/-! ## C21: where a rejected vertical move puts the clips back -/

theorem FindDesiredSlideAmount_fields (viewInfo : ViewInfo) (p : Project) (xx m_x : Int)
    (snap : Option SnapManager) (upDown prefer : Bool) (state : ClipMoveState)
    (capturedTrack track : TrackId) :
    (FindDesiredSlideAmount viewInfo p xx m_x snap upDown prefer state capturedTrack
      track).2.capturedClipIsSelection = state.capturedClipIsSelection ∧
    (FindDesiredSlideAmount viewInfo p xx m_x snap upDown prefer state capturedTrack
      track).2.hSlideAmount = state.hSlideAmount ∧
    (FindDesiredSlideAmount viewInfo p xx m_x snap upDown prefer state capturedTrack
      track).2.mMouseClickX = state.mMouseClickX := by
  unfold FindDesiredSlideAmount
  cases upDown with
  | true => exact ⟨rfl, rfl, rfl⟩
  | false =>
    cases snap with
    | none => exact ⟨rfl, rfl, rfl⟩
    | some sm =>
      simp only [Bool.false_eq_true, if_false]
      split_ifs <;> exact ⟨rfl, rfl, rfl⟩

/-- A `Drag` call that entered the vertical part has undone the previous slide and run
`DragVertical` with the amount of `FindDesiredSlideAmount`. -/
theorem Drag_vertical_undo (cO : CanOffsetClipFn) (cI : CanInsertClipFn) (viewInfo : ViewInfo)
    (fuel : Nat) (audioActive : Bool) (evt : TrackPanelMouseEvent) (h : TimeShiftHandle)
    (p : Project) (out : DragResult)
    (hd : Drag cO cI viewInfo fuel audioActive evt h p = some out)
    (hv : out.vertical ≠ VerticalOutcome.NotAttempted) :
    ∃ pTrack undone p1, evt.pCell = some pTrack ∧
      DoOffset fuel h.mClipMoveState p (some h.mCapturedTrack)
        (-h.mClipMoveState.hSlideAmount) none = some undone ∧
      p1 = (if h.mClipMoveState.capturedClipIsSelection = true then
        undone.moveSelection (-h.mClipMoveState.hSlideAmount) else undone) ∧
      DragVertical cO cI viewInfo fuel evt pTrack
        (FindDesiredSlideAmount viewInfo p1 h.mRectX evt.m_x h.mSnapManager h.mSlideUpDownOnly
          h.mSnapPreferRightEdge { h.mClipMoveState with hSlideAmount := 0 } h.mCapturedTrack
          pTrack).1
        { h with mClipMoveState :=
            (FindDesiredSlideAmount viewInfo p1 h.mRectX evt.m_x h.mSnapManager
              h.mSlideUpDownOnly h.mSnapPreferRightEdge
              { h.mClipMoveState with hSlideAmount := 0 } h.mCapturedTrack pTrack).2 } p1 =
        some out := by
  unfold Drag at hd
  cases audioActive with
  | true =>
    simp only [if_true, Option.some.injEq] at hd
    subst hd
    exact absurd rfl hv
  | false =>
    simp only [Bool.false_eq_true, if_false] at hd
    split at hd
    · simp only [Option.some.injEq] at hd
      subst hd
      exact absurd rfl hv
    · rename_i pTrack htrack
      simp only [Option.bind_eq_some] at hd
      obtain ⟨undone, hundo, hrest⟩ := hd
      refine ⟨pTrack, undone, _, ?_, hundo, rfl, ?_⟩
      · by_cases hcond : (FindDesiredSlideAmount viewInfo
            (if h.mClipMoveState.capturedClipIsSelection = true then
              undone.moveSelection (-h.mClipMoveState.hSlideAmount) else undone)
            h.mRectX evt.m_x h.mSnapManager h.mSlideUpDownOnly h.mSnapPreferRightEdge
            { h.mClipMoveState with hSlideAmount := 0 } h.mCapturedTrack
            pTrack).2.capturedClip.isSome = true ∧ pTrack ≠ h.mCapturedTrack ∧
            ((if h.mClipMoveState.capturedClipIsSelection = true then
              undone.moveSelection (-h.mClipMoveState.hSlideAmount)
              else undone).tracks pTrack).kind = TrackKind.Wave
        · cases hp : evt.pCell with
          | some t =>
            rw [hp] at htrack
            simp only [Option.some.injEq] at htrack
            rw [htrack]
          | none =>
            rw [hp] at htrack
            simp only at htrack
            split at htrack
            · simp only [Option.some.injEq] at htrack
              exact absurd htrack.symm hcond.2.1
            · cases htrack
        · rw [if_neg hcond] at hrest
          have := (DragHorizontal_spec _ _ _ _ _ _ _ _ hrest).2.1
          exact absurd this hv
      · by_cases hcond : (FindDesiredSlideAmount viewInfo
            (if h.mClipMoveState.capturedClipIsSelection = true then
              undone.moveSelection (-h.mClipMoveState.hSlideAmount) else undone)
            h.mRectX evt.m_x h.mSnapManager h.mSlideUpDownOnly h.mSnapPreferRightEdge
            { h.mClipMoveState with hSlideAmount := 0 } h.mCapturedTrack
            pTrack).2.capturedClip.isSome = true ∧ pTrack ≠ h.mCapturedTrack ∧
            ((if h.mClipMoveState.capturedClipIsSelection = true then
              undone.moveSelection (-h.mClipMoveState.hSlideAmount)
              else undone).tracks pTrack).kind = TrackKind.Wave
        · rw [if_pos hcond] at hrest
          exact hrest
        · rw [if_neg hcond] at hrest
          have := (DragHorizontal_spec _ _ _ _ _ _ _ _ hrest).2.1
          exact absurd this hv

/-- The failure branch of `DragVertical`: the holders are offset when `ok`, the destructor puts
the clips back, and the state is reset when `ok`. -/
theorem DragVertical_rejected_insert (cO : CanOffsetClipFn) (cI : CanInsertClipFn)
    (viewInfo : ViewInfo) (fuel : Nat) (evt : TrackPanelMouseEvent) (pTrack : TrackId)
    (desired : ℚ) (h : TimeShiftHandle) (p : Project) (out : DragResult)
    (hd : DragVertical cO cI viewInfo fuel evt pTrack desired h p = some out)
    (hrej : out.vertical = VerticalOutcome.RejectedInsert) :
    ∃ shifted moved put,
      offsetHolders
        (restoreOk cI p pTrack h.mCapturedTrack h.mClipMoveState.capturedClipArray desired)
        desired
        (checkRestore cI (pluckedFor p pTrack h.mCapturedTrack
            h.mClipMoveState.capturedClipArray).2
          (TemporaryClipRemover.Fail (pluckedFor p pTrack h.mCapturedTrack
            h.mClipMoveState.capturedClipArray).1) true desired 0).1
        (pluckedFor p pTrack h.mCapturedTrack h.mClipMoveState.capturedClipArray).2 =
        some shifted ∧
      moved.clips = shifted.clips ∧
      TemporaryClipRemover.dtor
        (checkRestore cI (pluckedFor p pTrack h.mCapturedTrack
            h.mClipMoveState.capturedClipArray).2
          (TemporaryClipRemover.Fail (pluckedFor p pTrack h.mCapturedTrack
            h.mClipMoveState.capturedClipArray).1) true desired 0).1 moved = some put ∧
      out.project = put.2 ∧
      out.handle.mDidSlideVertically = h.mDidSlideVertically ∧
      out.handle.mClipMoveState.hSlideAmount =
        (if restoreOk cI p pTrack h.mCapturedTrack h.mClipMoveState.capturedClipArray desired
          = true then 0 else h.mClipMoveState.hSlideAmount) ∧
      out.handle.mClipMoveState.mMouseClickX =
        (if restoreOk cI p pTrack h.mCapturedTrack h.mClipMoveState.capturedClipArray desired
          = true then evt.m_x else h.mClipMoveState.mMouseClickX) := by
  unfold DragVertical at hd
  simp only at hd
  unfold restoreOk pluckedFor
  generalize assignDestinations p (TrackPosition p pTrack - TrackPosition p h.mCapturedTrack)
    h.mClipMoveState.capturedClipArray = resolved at hd ⊢
  by_cases hres : resolved.2 = false
  · rw [if_pos hres] at hd
    simp only [Option.some.injEq] at hd
    subst hd
    cases hrej
  · rw [if_neg hres] at hd
    generalize TemporaryClipRemover.ctor resolved.1 p = removed at hd ⊢
    simp only [Option.bind_eq_some] at hd
    obtain ⟨first, _, second, _, hrest⟩ := hd
    by_cases hsec : second.1 = false
    · rw [if_pos hsec] at hrest
      simp only [Option.bind_eq_some, Option.map_eq_some'] at hrest
      obtain ⟨shifted, hshift, put, hput, rfl⟩ := hrest
      refine ⟨shifted, _, put, hshift, ?_, hput, rfl, rfl, ?_, ?_⟩
      · split <;> rfl
      · simp only
        split <;> rfl
      · simp only
        split <;> rfl
    · rw [if_neg hsec] at hrest
      simp only [Option.bind_eq_some] at hrest
      obtain ⟨put, hput, hhoriz⟩ := hrest
      have := (DragHorizontal_spec _ _ _ _ _ _ _ _ hhoriz).2.1
      rw [this] at hrej
      cases hrej

theorem ctor_clips (arr : List TrackClip) (p : Project) :
    (TemporaryClipRemover.ctor arr p).2.clips = p.clips := by
  induction arr generalizing p with
  | nil => rfl
  | cons tc rest ih =>
    simp only [TemporaryClipRemover.ctor]
    cases hc : tc.clip with
    | none => exact ih p
    | some c =>
      simp only
      rw [ih]
      unfold RemoveAndReturnClip
      split <;> rfl

theorem dtor_clips (arr arr2 : List TrackClip) (p p2 : Project)
    (h : TemporaryClipRemover.dtor arr p = some (arr2, p2)) : p2.clips = p.clips := by
  induction arr generalizing p arr2 p2 with
  | nil =>
    simp only [TemporaryClipRemover.dtor, Option.some.injEq, Prod.mk.injEq] at h
    rw [← h.2]
  | cons tc rest ih =>
    cases hc : tc.clip with
    | none =>
      simp only [TemporaryClipRemover.dtor, hc, Option.map_eq_some', Prod.mk.injEq] at h
      obtain ⟨done, hdone, _, rfl⟩ := h
      exact ih _ _ _ hdone
    | some c =>
      cases hdst : tc.dstTrack with
      | none => simp [TemporaryClipRemover.dtor, hc, hdst] at h
      | some d =>
        cases hh : tc.holder with
        | none => simp [TemporaryClipRemover.dtor, hc, hdst, hh] at h
        | some held =>
          simp only [TemporaryClipRemover.dtor, hc, hdst, hh, Option.map_eq_some',
            Prod.mk.injEq] at h
          obtain ⟨done, hdone, _, rfl⟩ := h
          rw [ih _ _ _ hdone]
          rfl

theorem forall₂_clip_map {R : TrackClip → TrackClip → Prop} {l1 l2 : List TrackClip}
    (h : List.Forall₂ R l1 l2) (hR : ∀ a b, R a b → b.clip = a.clip) :
    l2.map (fun e => e.clip) = l1.map (fun e => e.clip) := by
  induction h with
  | nil => rfl
  | cons hab _ ih => simp only [List.map_cons, hR _ _ hab, ih]

theorem forall₂_mem_right {R : TrackClip → TrackClip → Prop} {l1 l2 : List TrackClip}
    (h : List.Forall₂ R l1 l2) : ∀ b ∈ l2, ∃ a ∈ l1, R a b := by
  induction h with
  | nil => intro b hb; exact absurd hb (List.not_mem_nil b)
  | cons hab _ ih =>
    intro b hb
    rcases List.mem_cons.mp hb with h1 | h1
    · subst h1
      exact ⟨_, List.mem_cons_self _ _, hab⟩
    · obtain ⟨a, ha, hr⟩ := ih b h1
      exact ⟨a, List.mem_cons_of_mem _ ha, hr⟩

theorem captured_iff_map (arr : List TrackClip) (x : ClipId) :
    Captured arr x ↔ some x ∈ arr.map (fun e => e.clip) := by
  unfold Captured
  simp only [List.mem_map]

theorem filterMap_clip_of_map {l1 l2 : List TrackClip}
    (h : l2.map (fun e => e.clip) = l1.map (fun e => e.clip)) :
    (l2.filterMap fun tc => tc.clip) = l1.filterMap fun tc => tc.clip := by
  have e : ∀ l : List TrackClip,
      (l.filterMap fun tc => tc.clip) = (l.map fun e => e.clip).filterMap id := by
    intro l
    rw [List.filterMap_map]
    rfl
  rw [e l2, e l1, h]

/-- The loop `if (ok) trackClip.holder->Offset(slide)` moves every captured clip once when `ok`
and nothing otherwise, when each entry holds its own clip and no clip is captured twice. -/
theorem offsetHolders_clips (ok : Bool) (slide : ℚ) (arr : List TrackClip) (p q : Project)
    (h : offsetHolders ok slide arr p = some q)
    (hhold : ∀ e ∈ arr, ∀ c, e.clip ≠ none → e.holder = some c → e.clip = some c)
    (hnd : (arr.filterMap fun tc => tc.clip).Nodup) (x : ClipId) :
    q.clips x = if Captured arr x ∧ ok = true then (p.clips x).Offset slide else p.clips x := by
  induction arr generalizing p with
  | nil =>
    simp only [offsetHolders, Option.some.injEq] at h
    subst h
    simp [Captured]
  | cons tc rest ih =>
    have hhold2 : ∀ e ∈ rest, ∀ c, e.clip ≠ none → e.holder = some c → e.clip = some c :=
      fun e he => hhold e (List.mem_cons_of_mem _ he)
    cases hc : tc.clip with
    | none =>
      simp only [offsetHolders, hc] at h
      have hnd2 : (rest.filterMap fun tc => tc.clip).Nodup := by
        simpa [List.filterMap_cons, hc] using hnd
      rw [ih p h hhold2 hnd2]
      have hcap : Captured (tc :: rest) x ↔ Captured rest x := by
        simp [Captured, hc]
      simp only [hcap]
    | some c =>
      have hnd1 : c ∉ (rest.filterMap fun tc => tc.clip) ∧
          (rest.filterMap fun tc => tc.clip).Nodup := by
        simpa [List.filterMap_cons, hc] using hnd
      have hcrest : ¬ Captured rest c := by
        rintro ⟨e, he, hec⟩
        exact hnd1.1 (List.mem_filterMap.2 ⟨e, he, hec⟩)
      have hcap : Captured (tc :: rest) x ↔ (x = c ∨ Captured rest x) := by
        simp only [Captured, List.mem_cons, exists_eq_or_imp, hc, Option.some.injEq]
        constructor
        · rintro (h1 | h1)
          · exact Or.inl h1.symm
          · exact Or.inr h1
        · rintro (h1 | h1)
          · exact Or.inl h1.symm
          · exact Or.inr h1
      cases ok with
      | false =>
        simp only [offsetHolders, hc, Bool.false_eq_true, if_false] at h
        rw [ih p h hhold2 hnd1.2]
        simp
      | true =>
        simp only [offsetHolders, hc, if_true] at h
        cases hh : tc.holder with
        | none => simp [hh] at h
        | some held =>
          have hheld : held = c := by
            have := hhold tc (List.mem_cons_self _ _) held (by simp [hc]) hh
            rw [hc] at this
            exact (Option.some.inj this).symm
          subst hheld
          simp only [hh] at h
          rw [ih _ h hhold2 hnd1.2]
          by_cases hx : x = held
          · subst hx
            simp [hcrest, hcap, Project.offsetClip]
          · simp [hcap, hx, Project.offsetClip]

/-- The entries that the failure branch of `Drag` offsets hold the captured clips: the same
clips in the same order as the captured array, each held by its own entry. -/
theorem restored_entries (cI : CanInsertClipFn) (p : Project) (pTrack capturedTrack : TrackId)
    (arr : List TrackClip) (ok : Bool) (d tol : ℚ) :
    ((checkRestore cI (pluckedFor p pTrack capturedTrack arr).2
      (TemporaryClipRemover.Fail (pluckedFor p pTrack capturedTrack arr).1) ok d tol).1.map
        fun e => e.clip) = arr.map (fun e => e.clip) ∧
    ∀ e ∈ (checkRestore cI (pluckedFor p pTrack capturedTrack arr).2
      (TemporaryClipRemover.Fail (pluckedFor p pTrack capturedTrack arr).1) ok d tol).1,
      ∀ c, e.clip ≠ none → e.holder = some c → e.clip = some c := by
  unfold pluckedFor
  have h1 := assignDestinations_shape p
    (TrackPosition p pTrack - TrackPosition p capturedTrack) arr
  generalize (assignDestinations p (TrackPosition p pTrack - TrackPosition p capturedTrack)
    arr).1 = resolved at h1 ⊢
  obtain ⟨_, h2, h3⟩ := ctor_spec resolved p
  generalize TemporaryClipRemover.ctor resolved p = removed at h2 h3 ⊢
  have h4 := checkRestore_sentBack cI removed.2 removed.1 ok d tol
  generalize (checkRestore cI removed.2 (TemporaryClipRemover.Fail removed.1) ok d tol).1
    = restored at h4 ⊢
  refine ⟨?_, fun e he c hne hh => ?_⟩
  · rw [forall₂_clip_map h4 (fun a b hab => hab.1.2.2.2),
      forall₂_clip_map h2 (fun a b hab => hab.2.2.2.1),
      forall₂_clip_map h1 (fun a b hab => hab.2.2.2)]
  · obtain ⟨a, ha, hab⟩ := forall₂_mem_right h4 e he
    rw [hab.1.2.2.2] at hne ⊢
    rw [hab.1.2.2.1] at hh
    exact h3 a ha c hne hh

theorem DragVertical_empty (cO : CanOffsetClipFn) (cI : CanInsertClipFn) (viewInfo : ViewInfo)
    (fuel : Nat) (evt : TrackPanelMouseEvent) (pTrack : TrackId) (desired : ℚ)
    (h : TimeShiftHandle) (p : Project) (out : DragResult)
    (harr : h.mClipMoveState.capturedClipArray = [])
    (hd : DragVertical cO cI viewInfo fuel evt pTrack desired h p = some out) :
    out.vertical = VerticalOutcome.Accepted := by
  unfold DragVertical at hd
  simp only [harr, assignDestinations, TemporaryClipRemover.ctor, checkInsert,
    TemporaryClipRemover.dtor, Option.some_bind, if_true, Bool.true_eq_false, if_false] at hd
  exact (DragHorizontal_spec _ _ _ _ _ _ _ _ hd).2.1

/-- C21 (amended): for every `Drag` call that returns with the vertical move rejected by
`CanInsertClip`, on a well-formed capture set.  The call first undoes the cumulative slide of
the session (`undone`), so every captured clip is at its baseline; `slide` is the amount that
`FindDesiredSlideAmount` returns for this step, and `ok` says that every plucked clip passed
`CanInsertClip` on its own track for that amount at tolerance 0.  On return every captured clip
is at its baseline plus `slide` when `ok`, and at its baseline otherwise; no other clip has
moved; `hSlideAmount` is 0, and the click position is the pointer position when `ok`.  The
cumulative slide at the start of the call is applied to no clip. -/
theorem Drag_rejected_insert_positions (cO : CanOffsetClipFn) (cI : CanInsertClipFn)
    (viewInfo : ViewInfo) (fuel : Nat) (evt : TrackPanelMouseEvent) (h : TimeShiftHandle)
    (p : Project) (out : DragResult)
    (hwf : CaptureWellFormed p h.mClipMoveState.capturedClipArray)
    (hd : Drag cO cI viewInfo fuel false evt h p = some out)
    (hrej : out.vertical = VerticalOutcome.RejectedInsert) :
    ∃ pTrack undone p1 slide ok,
      evt.pCell = some pTrack ∧
      DoOffset fuel h.mClipMoveState p (some h.mCapturedTrack)
        (-h.mClipMoveState.hSlideAmount) none = some undone ∧
      p1 = (if h.mClipMoveState.capturedClipIsSelection = true then
        undone.moveSelection (-h.mClipMoveState.hSlideAmount) else undone) ∧
      slide = (FindDesiredSlideAmount viewInfo p1 h.mRectX evt.m_x h.mSnapManager
        h.mSlideUpDownOnly h.mSnapPreferRightEdge { h.mClipMoveState with hSlideAmount := 0 }
        h.mCapturedTrack pTrack).1 ∧
      ok = restoreOk cI p1 pTrack h.mCapturedTrack h.mClipMoveState.capturedClipArray slide ∧
      (∀ x, undone.clips x =
        if Captured h.mClipMoveState.capturedClipArray x then
          (p.clips x).Offset (-h.mClipMoveState.hSlideAmount)
        else p.clips x) ∧
      (∀ x, out.project.clips x =
        if Captured h.mClipMoveState.capturedClipArray x ∧ ok = true then
          (undone.clips x).Offset slide
        else undone.clips x) ∧
      out.handle.mClipMoveState.hSlideAmount = 0 ∧
      out.handle.mClipMoveState.mMouseClickX =
        (if ok = true then evt.m_x else h.mClipMoveState.mMouseClickX) ∧
      out.handle.mDidSlideVertically = h.mDidSlideVertically := by
  obtain ⟨pTrack, undone, p1, hcell, hundo, hp1, hdv⟩ :=
    Drag_vertical_undo cO cI viewInfo fuel false evt h p out hd (by rw [hrej]; decide)
  have harr := (FindDesiredSlideAmount_array viewInfo p1 h.mRectX evt.m_x h.mSnapManager
    h.mSlideUpDownOnly h.mSnapPreferRightEdge { h.mClipMoveState with hSlideAmount := 0 }
    h.mCapturedTrack pTrack).1
  have hfld := FindDesiredSlideAmount_fields viewInfo p1 h.mRectX evt.m_x h.mSnapManager
    h.mSlideUpDownOnly h.mSnapPreferRightEdge { h.mClipMoveState with hSlideAmount := 0 }
    h.mCapturedTrack pTrack
  generalize hfound : FindDesiredSlideAmount viewInfo p1 h.mRectX evt.m_x h.mSnapManager
    h.mSlideUpDownOnly h.mSnapPreferRightEdge { h.mClipMoveState with hSlideAmount := 0 }
    h.mCapturedTrack pTrack = found at hdv harr hfld
  have hne : h.mClipMoveState.capturedClipArray ≠ [] := by
    intro hnil
    have := DragVertical_empty cO cI viewInfo fuel evt pTrack found.1 _ p1 out
      (by rw [harr]; exact hnil) hdv
    rw [this] at hrej
    cases hrej
  obtain ⟨shifted, moved, put, hshift, hmoved, hput, hproj, hdid, hamt, hmx⟩ :=
    DragVertical_rejected_insert cO cI viewInfo fuel evt pTrack found.1 _ p1 out hdv hrej
  simp only [harr] at hshift hput hamt hmx
  have hundo2 : undone = h.mClipMoveState.capturedClipArray.foldl
      (DoOffsetEntry (-h.mClipMoveState.hSlideAmount) none) p := by
    unfold DoOffset at hundo
    rw [if_pos hne] at hundo
    exact (Option.some.inj hundo).symm
  have hun : ∀ x, undone.clips x =
      if Captured h.mClipMoveState.capturedClipArray x then
        (p.clips x).Offset (-h.mClipMoveState.hSlideAmount)
      else p.clips x := by
    intro x
    rw [hundo2, (DoOffset_fold_spec _ none _ p hwf.2.2 hwf.2.1).1 x]
    simp
  have hp1c : p1.clips = undone.clips := by
    rw [hp1]
    split <;> rfl
  obtain ⟨hmap, hhold⟩ := restored_entries cI p1 pTrack h.mCapturedTrack
    h.mClipMoveState.capturedClipArray true found.1 0
  have hnd := hwf.2.2
  rw [← filterMap_clip_of_map hmap] at hnd
  refine ⟨pTrack, undone, p1, found.1, _, hcell, hundo, hp1, by rw [hfound], rfl, hun,
    fun x => ?_, ?_, ?_, hdid⟩
  · rw [hproj, dtor_clips _ put.1 _ put.2 hput, hmoved,
      offsetHolders_clips _ _ _ _ _ hshift hhold hnd x]
    have hc1 : (pluckedFor p1 pTrack h.mCapturedTrack
        h.mClipMoveState.capturedClipArray).2.clips = undone.clips := by
      unfold pluckedFor
      rw [ctor_clips, hp1c]
    have hc2 : Captured (checkRestore cI (pluckedFor p1 pTrack h.mCapturedTrack
          h.mClipMoveState.capturedClipArray).2
        (TemporaryClipRemover.Fail (pluckedFor p1 pTrack h.mCapturedTrack
          h.mClipMoveState.capturedClipArray).1) true found.1 0).1 x ↔
        Captured h.mClipMoveState.capturedClipArray x := by
      rw [captured_iff_map, captured_iff_map, hmap]
    simp only [hc1, hc2]
  · rw [hamt, hfld.2.1]
    simp
  · rw [hmx, hfld.2.2]

theorem DoSlideHorizontal_single_exact (n : Nat) (state : ClipMoveState) (p : Project)
    (capturedTrack : TrackId) (tc : TrackClip) (a : ClipId)
    (harr : state.capturedClipArray = [tc]) (hc : tc.clip = some a)
    (hfree : clipFreeAt p tc.track a state.hSlideAmount = true)
    (hz : state.hSlideAmount ≠ 0) :
    DoSlideHorizontal CanOffsetClip (n + 1) state p capturedTrack =
      some (state, p.offsetClip a state.hSlideAmount) := by
  have hloop := slideLoop_single_settled CanOffsetClip n
    (1000 + 2 * (p.GetEndTime - p.GetStartTime)) state p tc a harr hc
    (CanOffsetClip_free p tc.track a _ hfree)
  unfold DoSlideHorizontal
  have hlen : state.capturedClipArray.length ≠ 0 := by simp [harr]
  simp only [if_pos hlen, hloop, Option.some_bind]
  rw [if_pos hz, DoOffset_single (n + 1) state p tc a _ harr hc]
  rfl

/-- The first step of the sample session: after `Click` at position 3 on clip 0, a `Drag` to
position 4 on the same track slides the clip by one second. -/
theorem sample_first_drag (cI : CanInsertClipFn) :
    Drag CanOffsetClip cI unitView 1 false ⟨4, some 0⟩ clickedHandle twoTrackProject =
      some ⟨RefreshAll, draggedHandle, draggedProject, VerticalOutcome.NotAttempted⟩ := by
  have hfound : FindDesiredSlideAmount unitView twoTrackProject 0 4 (some snapNothing) false
      false { slideState 0 with mMouseClickX := 3 } 0 0 =
      (1, { slideState 0 with mMouseClickX := 3 }) := by
    norm_num [FindDesiredSlideAmount, quantizedSlide, unitView, twoTrackProject, monoWaveTrack,
      slideState, rint, snapNothing]
  rw [Drag_single_on_track CanOffsetClip cI unitView 1 ⟨4, some 0⟩ clickedHandle
    twoTrackProject (TrackClip.new 0 (some 0)) 0 rfl rfl rfl rfl rfl]
  have hf2 : FindDesiredSlideAmount unitView twoTrackProject clickedHandle.mRectX 4
      clickedHandle.mSnapManager clickedHandle.mSlideUpDownOnly
      clickedHandle.mSnapPreferRightEdge clickedHandle.mClipMoveState
      clickedHandle.mCapturedTrack clickedHandle.mCapturedTrack =
      (1, { slideState 0 with mMouseClickX := 3 }) := hfound
  simp only [hf2]
  unfold DragHorizontal
  rw [if_neg (by norm_num)]
  rw [DoSlideHorizontal_single_exact 0 _ twoTrackProject _ (TrackClip.new 0 (some 0)) 0 rfl rfl
    (clipFreeAt_alone _ _ _ _ (by simp [twoTrackProject, monoWaveTrack, TrackClip.new]))
    (by norm_num)]
  rfl

theorem sample_second_drag :
    ∃ out, Drag CanOffsetClip insertOnlyHome unitView 1 false ⟨6, some 1⟩ draggedHandle
        draggedProject = some out ∧
      out.vertical = VerticalOutcome.RejectedInsert ∧
      (out.project.clips 0).GetStartTime = 5 := by
  simp [Drag, draggedHandle, draggedProject, clickedHandle, snapNothing, twoTrackProject,
    slideState, DoOffset, DoOffsetEntry,
    TrackClip.new, FindDesiredSlideAmount, quantizedSlide, unitView, monoWaveTrack, rint,
    DragVertical, TrackPosition, trackPositionFrom, Project.audioTracks,
    Project.isRightChannel, assignDestinations, resolveDestination, destinationOk,
    NthAudioTrack, TemporaryClipRemover.ctor, TemporaryClipRemover.dtor,
    TemporaryClipRemover.Fail, RemoveAndReturnClip, AddClip, checkInsert, checkRestore,
    offsetHolders, insertOnlyHome, Project.offsetClip, Function.update, WaveClip.Offset,
    WaveClip.GetStartTime, capturedStart, capturedEnd]
  norm_num

theorem sample_second_drag_refused :
    ∃ out, Drag CanOffsetClip insertNever unitView 1 false ⟨6, some 1⟩ draggedHandle
        draggedProject = some out ∧
      out.vertical = VerticalOutcome.RejectedInsert ∧
      (out.project.clips 0).GetStartTime = 2 := by
  simp [Drag, draggedHandle, draggedProject, clickedHandle, snapNothing, twoTrackProject,
    slideState, DoOffset, DoOffsetEntry,
    TrackClip.new, FindDesiredSlideAmount, quantizedSlide, unitView, monoWaveTrack, rint,
    DragVertical, TrackPosition, trackPositionFrom, Project.audioTracks,
    Project.isRightChannel, assignDestinations, resolveDestination, destinationOk,
    NthAudioTrack, TemporaryClipRemover.ctor, TemporaryClipRemover.dtor,
    TemporaryClipRemover.Fail, RemoveAndReturnClip, AddClip, checkInsert, checkRestore,
    offsetHolders, insertNever, Project.offsetClip, Function.update, WaveClip.Offset,
    WaveClip.GetStartTime, capturedStart, capturedEnd]

/-- C21 (the claim fails): a session on `twoTrackProject`, where clip 0 has the baseline
`[2, 5)` on track 0.  After `Click` at position 3, a first `Drag` to position 4 slides the
clip by one second (`hSlideAmount` = 1, the clip starts at 3).  A second `Drag`, to position 6
over track 1, requests the delta 3 and is rejected by `CanInsertClip` on track 1.  With an
insertion test that accepts the clip back on its own track the clip is put back at 5, the
baseline plus the delta of the rejected step, and not at 3, the baseline plus the cumulative
delta at the start of the call; with an insertion test that refuses it everywhere the clip is
put back at 2, the baseline itself. -/
theorem Drag_rejected_insert_drops_committed :
    (twoTrackProject.clips 0).GetStartTime = 2 ∧
    ∃ out1, Drag CanOffsetClip insertOnlyHome unitView 1 false ⟨4, some 0⟩ clickedHandle
        twoTrackProject = some out1 ∧
      Drag CanOffsetClip insertNever unitView 1 false ⟨4, some 0⟩ clickedHandle
        twoTrackProject = some out1 ∧
      out1.handle.mClipMoveState.hSlideAmount = 1 ∧
      (out1.project.clips 0).GetStartTime = 3 ∧
      (∃ out2, Drag CanOffsetClip insertOnlyHome unitView 1 false ⟨6, some 1⟩ out1.handle
          out1.project = some out2 ∧
        out2.vertical = VerticalOutcome.RejectedInsert ∧
        (out2.project.clips 0).GetStartTime = 5) ∧
      ∃ out2, Drag CanOffsetClip insertNever unitView 1 false ⟨6, some 1⟩ out1.handle
          out1.project = some out2 ∧
        out2.vertical = VerticalOutcome.RejectedInsert ∧
        (out2.project.clips 0).GetStartTime = 2 := by
  refine ⟨by norm_num [twoTrackProject, WaveClip.GetStartTime], _,
    sample_first_drag insertOnlyHome, sample_first_drag insertNever, ?_, ?_,
    sample_second_drag, sample_second_drag_refused⟩
  · norm_num [draggedHandle, slideState]
  · norm_num [draggedProject, twoTrackProject, Project.offsetClip, WaveClip.Offset,
      WaveClip.GetStartTime]

theorem draggedHandle_wellFormed :
    CaptureWellFormed draggedProject draggedHandle.mClipMoveState.capturedClipArray := by
  refine ⟨?_, ?_, ?_⟩
  · intro tc htc c hc
    simp only [draggedHandle, slideState, List.mem_singleton] at htc
    subst htc
    simp only [TrackClip.new, Option.some.injEq] at hc
    subst hc
    simp [draggedProject, twoTrackProject, monoWaveTrack, TrackClip.new, Project.offsetClip]
  · intro tc htc hc
    simp only [draggedHandle, slideState, List.mem_singleton] at htc
    subst htc
    simp [TrackClip.new] at hc
  · simp [draggedHandle, slideState, TrackClip.new]

/-- C21, witness: the second `Drag` of the sample session, to position 6 over track 1, with
the insertion test that accepts clip 0 on its own track only. -/
theorem Drag_rejected_insert_positions_witness :
    CaptureWellFormed draggedProject draggedHandle.mClipMoveState.capturedClipArray ∧
    ∃ out, Drag CanOffsetClip insertOnlyHome unitView 1 false ⟨6, some 1⟩ draggedHandle
        draggedProject = some out ∧
      out.vertical = VerticalOutcome.RejectedInsert ∧
      (out.project.clips 0).GetStartTime = 5 ∧
      out.handle.mClipMoveState.hSlideAmount = 0 := by
  obtain ⟨out, h1, h2, h3⟩ := sample_second_drag
  obtain ⟨_, _, _, _, _, _, _, _, _, _, _, _, h4, _⟩ :=
    Drag_rejected_insert_positions CanOffsetClip insertOnlyHome unitView 1 ⟨6, some 1⟩
      draggedHandle draggedProject out draggedHandle_wellFormed h1 h2
  exact ⟨draggedHandle_wellFormed, out, h1, h2, h3, h4⟩

/-! ## C23: termination of the loop of `DoSlideHorizontal` -/

theorem CanOffsetClip_congr {p q : Project} (h : SamePlacement p q) (t : TrackId) (c : ClipId)
    (a : ℚ) : CanOffsetClip q t c a = CanOffsetClip p t c a := by
  have hc : q.clips = p.clips := h.1
  have hm : (q.tracks t).mClips = (p.tracks t).mClips := (h.2 t).1
  have h1 : offsetCandidates q t c a = offsetCandidates p t c a := by
    unfold offsetCandidates
    rw [hc, hm]
  have h2 : ∀ d, clipFreeAt q t c d = clipFreeAt p t c d := by
    intro d
    unfold clipFreeAt
    rw [hc, hm]
  unfold CanOffsetClip
  simp only [h1, h2]

theorem displacedFor_congr {p q : Project} (h : SamePlacement p q) (arr : List TrackClip)
    (hwf : CaptureWellFormed p arr) (big : ℚ) (c : ClipId) :
    SamePlacement (displacedFor p arr big c) (displacedFor q arr big c) := by
  obtain ⟨a1, a2⟩ := DoOffset_fold_spec (-big) (some c) arr p hwf.2.2 hwf.2.1
  obtain ⟨b1, b2⟩ := DoOffset_fold_spec (-big) (some c) arr q hwf.2.2
    (samePlacement_wellFormed h hwf)
  unfold displacedFor
  refine ⟨?_, fun t => ?_⟩
  · funext x
    rw [a1 x, b1 x, h.1]
  · rw [(a2 t).1, (a2 t).2, (b2 t).1, (b2 t).2]
    exact h.2 t

theorem entryState_array (p : Project) (big : ℚ) (s : ClipMoveState) (tc : TrackClip) :
    (entryState p big s tc).capturedClipArray = s.capturedClipArray := by
  unfold entryState
  split
  · rfl
  · exact applyAllowed_array _ _

theorem passState_array (p : Project) (big : ℚ) (l : List TrackClip) (s : ClipMoveState) :
    (passState p big l s).capturedClipArray = s.capturedClipArray := by
  induction l generalizing s with
  | nil => rfl
  | cons tc rest ih =>
    simp only [passState, List.foldl_cons] at ih ⊢
    rw [ih, entryState_array]

/-- The loop body of `DoSlideHorizontal` for one entry returns; the state is the one of
`entryState`, and the clips are back where they were. -/
theorem slideEntry_eval (fuel : Nat) (big : ℚ) (p : Project) (arr : List TrackClip)
    (hwf : CaptureWellFormed p arr) (s : ClipMoveState) (q : Project) (tc : TrackClip)
    (htc : tc ∈ arr) (harr : s.capturedClipArray = arr) (hq : SamePlacement p q) :
    ∃ q2, slideEntry CanOffsetClip fuel big (s, q) tc = some (entryState p big s tc, q2) ∧
      SamePlacement p q2 := by
  have hne : arr ≠ [] := List.ne_nil_of_mem htc
  unfold slideEntry entryState
  cases hc : tc.clip with
  | none => exact ⟨q, rfl, hq⟩
  | some c =>
    simp only
    rw [DoOffset_of_ne_nil fuel s q none (-big) (some c) (by rw [harr]; exact hne)]
    simp only [Option.some_bind]
    rw [DoOffset_of_ne_nil fuel _ _ none big (some c)
      (by rw [applyAllowed_array, harr]; exact hne)]
    simp only [Option.map_some', applyAllowed_array, harr]
    have hcq : CanOffsetClip (arr.foldl (DoOffsetEntry (-big) (some c)) q) tc.track c
        s.hSlideAmount =
        CanOffsetClip (displacedFor p arr big c) tc.track c s.hSlideAmount :=
      CanOffsetClip_congr (displacedFor_congr hq arr hwf big c) _ _ _
    rw [hcq]
    exact ⟨_, rfl, displace_restore p q arr big c hq hwf⟩

theorem slidePass_eval (fuel : Nat) (big : ℚ) (p : Project) (arr : List TrackClip)
    (hwf : CaptureWellFormed p arr) (l : List TrackClip) (hsub : ∀ tc ∈ l, tc ∈ arr)
    (s : ClipMoveState) (q : Project) (harr : s.capturedClipArray = arr)
    (hq : SamePlacement p q) :
    ∃ q2, slidePass CanOffsetClip fuel big l (s, q) = some (passState p big l s, q2) ∧
      SamePlacement p q2 := by
  induction l generalizing s q with
  | nil => exact ⟨q, rfl, hq⟩
  | cons tc rest ih =>
    obtain ⟨q1, h1, hq1⟩ := slideEntry_eval fuel big p arr hwf s q tc
      (hsub tc (List.mem_cons_self _ _)) harr hq
    obtain ⟨q2, h2, hq2⟩ := ih (fun x hx => hsub x (List.mem_cons_of_mem _ hx))
      (entryState p big s tc) q1 (by rw [entryState_array, harr]) hq1
    refine ⟨q2, ?_, hq2⟩
    simp only [slidePass, h1, Option.some_bind, h2, passState, List.foldl_cons]

theorem offsetCandidates_sign (q : Project) (t : TrackId) (c : ClipId) (a D : ℚ)
    (hs : 0 ≤ a ↔ 0 ≤ D) :
    ∀ e ∈ offsetCandidates q t c a, e = a ∨ e ∈ offsetCandidates q t c D := by
  intro e he
  unfold offsetCandidates at he ⊢
  rcases List.mem_cons.1 he with h1 | h1
  · exact Or.inl h1
  · refine Or.inr (List.mem_cons_of_mem _ ?_)
    by_cases h0 : 0 ≤ a
    · simpa only [if_pos h0, if_pos (hs.1 h0)] using h1
    · simpa only [if_neg h0, if_neg (fun h => h0 (hs.2 h))] using h1

theorem zero_mem_offsetCandidates (q : Project) (t : TrackId) (c : ClipId) (D : ℚ) :
    (0 : ℚ) ∈ offsetCandidates q t c D := by
  unfold offsetCandidates
  simp

theorem CanOffsetClip_mem (q : Project) (t : TrackId) (c : ClipId) (a : ℚ)
    (h : (CanOffsetClip q t c a).1 = true) :
    (CanOffsetClip q t c a).2 ∈ offsetCandidates q t c a := by
  unfold CanOffsetClip at h ⊢
  cases hl : (offsetCandidates q t c a).filter
      (fun d => decide (withinRequest a d) && clipFreeAt q t c d) with
  | nil => simp [hl] at h
  | cons d ds =>
    simp only [hl]
    have hm := largestMagnitude_mem d ds
    rw [← hl] at hm
    exact (List.mem_filter.1 hm).1

theorem slideBounded_lt {h r : ℚ} (hb : SlideBounded h r) (hne : r ≠ h) : |r| < |h| := by
  obtain ⟨hs, hm⟩ := hb
  rcases lt_or_eq_of_le hm with h1 | h1
  · exact h1
  · exfalso
    rcases hs with e | ⟨a, b⟩ | ⟨a, b⟩
    · rw [e, abs_zero] at h1
      exact hne (by rw [e, abs_eq_zero.1 h1.symm])
    · rw [abs_of_pos a, abs_of_pos b] at h1
      exact hne h1
    · rw [abs_of_neg a, abs_of_neg b] at h1
      exact hne (neg_injective h1)

theorem slideBounded_sign {D h : ℚ} (hb : SlideBounded D h) (hne : h ≠ 0) :
    (0 ≤ h ↔ 0 ≤ D) := by
  rcases hb.1 with e | ⟨a, b⟩ | ⟨a, b⟩
  · exact absurd e hne
  · exact ⟨fun _ => le_of_lt a, fun _ => le_of_lt b⟩
  · exact ⟨fun h1 => absurd b (not_lt.2 h1), fun h1 => absurd a (not_lt.2 h1)⟩

theorem mem_slideCandidates (p : Project) (arr : List TrackClip) (big D : ℚ) (tc : TrackClip)
    (c : ClipId) (e : ℚ) (htc : tc ∈ arr) (hc : tc.clip = some c)
    (he : e ∈ offsetCandidates (displacedFor p arr big c) tc.track c D) :
    e ∈ slideCandidates p arr big D := by
  unfold slideCandidates
  refine List.mem_flatMap.2 ⟨tc, htc, ?_⟩
  simp only [hc]
  exact he

/-- One loop body either keeps the amount or takes a candidate amount of smaller magnitude. -/
theorem entryState_step (p : Project) (arr : List TrackClip) (big D : ℚ)
    (s : ClipMoveState) (tc : TrackClip) (htc : tc ∈ arr) (harr : s.capturedClipArray = arr)
    (hb : SlideBounded D s.hSlideAmount) :
    SlideBounded s.hSlideAmount (entryState p big s tc).hSlideAmount ∧
    ((entryState p big s tc).hSlideAmount = s.hSlideAmount ∨
      (|(entryState p big s tc).hSlideAmount| < |s.hSlideAmount| ∧
        (entryState p big s tc).hSlideAmount ∈ slideCandidates p arr big D)) := by
  unfold entryState
  cases hc : tc.clip with
  | none => exact ⟨slideBounded_refl _, Or.inl rfl⟩
  | some c =>
    simp only [harr]
    generalize hr : CanOffsetClip (displacedFor p arr big c) tc.track c s.hSlideAmount = r
    have hshr : r.1 = true → SlideBounded s.hSlideAmount r.2 := by
      intro h1
      rw [← hr] at h1 ⊢
      exact CanOffsetClip_shrinks _ _ _ _ h1
    refine ⟨applyAllowed_bounded s r hshr, ?_⟩
    unfold applyAllowed
    by_cases h1 : r.1 = true
    · rw [if_pos h1]
      by_cases h2 : s.hSlideAmount ≠ r.2
      · rw [if_pos h2]
        refine Or.inr ⟨slideBounded_lt (hshr h1) (fun e => h2 e.symm), ?_⟩
        have hz : s.hSlideAmount ≠ 0 := by
          intro hz
          have := (hshr h1).2
          rw [hz, abs_zero] at this
          exact h2 (by rw [hz, abs_eq_zero.1 (le_antisymm this (abs_nonneg _))])
        have hmem : r.2 ∈ offsetCandidates (displacedFor p arr big c) tc.track c
            s.hSlideAmount := by
          rw [← hr] at h1 ⊢
          exact CanOffsetClip_mem _ _ _ _ h1
        rcases offsetCandidates_sign _ _ _ _ D (slideBounded_sign hb hz) _ hmem with e | e
        · exact absurd e.symm h2
        · exact mem_slideCandidates p arr big D tc c _ htc hc e
      · rw [if_neg h2]
        exact Or.inl rfl
    · rw [if_neg h1]
      by_cases hz : s.hSlideAmount = 0
      · exact Or.inl hz.symm
      · refine Or.inr ⟨?_, mem_slideCandidates p arr big D tc c _ htc hc
          (zero_mem_offsetCandidates _ _ _ _)⟩
        simpa using hz

/-- One pass either keeps the amount or ends on a candidate amount of smaller magnitude. -/
theorem passState_step (p : Project) (arr : List TrackClip) (big D : ℚ)
    (l : List TrackClip) (hsub : ∀ tc ∈ l, tc ∈ arr)
    (s : ClipMoveState) (harr : s.capturedClipArray = arr)
    (hb : SlideBounded D s.hSlideAmount) :
    SlideBounded s.hSlideAmount (passState p big l s).hSlideAmount ∧
    ((passState p big l s).hSlideAmount = s.hSlideAmount ∨
      (|(passState p big l s).hSlideAmount| < |s.hSlideAmount| ∧
        (passState p big l s).hSlideAmount ∈ slideCandidates p arr big D)) := by
  induction l generalizing s with
  | nil => exact ⟨slideBounded_refl _, Or.inl rfl⟩
  | cons tc rest ih =>
    obtain ⟨b1, c1⟩ := entryState_step p arr big D s tc (hsub tc (List.mem_cons_self _ _))
      harr hb
    obtain ⟨b2, c2⟩ := ih (fun x hx => hsub x (List.mem_cons_of_mem _ hx))
      (entryState p big s tc) (by rw [entryState_array, harr]) (slideBounded_trans hb b1)
    simp only [passState, List.foldl_cons] at b2 c2 ⊢
    refine ⟨slideBounded_trans b1 b2, ?_⟩
    rcases c2 with e2 | ⟨m2, n2⟩
    · rw [e2]
      exact c1
    · refine Or.inr ⟨lt_of_lt_of_le m2 b1.2, n2⟩

theorem countP_lt_of_witness (l : List ℚ) (P Q : ℚ → Bool) (himp : ∀ x, P x = true → Q x = true)
    (x : ℚ) (hx : x ∈ l) (hP : P x = false) (hQ : Q x = true) :
    l.countP P < l.countP Q := by
  induction l with
  | nil => exact absurd hx (List.not_mem_nil x)
  | cons a rest ih =>
    have hmono : rest.countP P ≤ rest.countP Q := List.countP_mono_left (fun y _ => himp y)
    rcases List.mem_cons.1 hx with h1 | h1
    · subst h1
      rw [List.countP_cons_of_neg _ _ (by simp [hP]), List.countP_cons_of_pos _ _ hQ]
      exact Nat.lt_succ_of_le hmono
    · have := ih h1
      by_cases hPa : P a = true
      · rw [List.countP_cons_of_pos _ _ hPa, List.countP_cons_of_pos _ _ (himp a hPa)]
        exact Nat.succ_lt_succ this
      · rw [List.countP_cons_of_neg _ _ hPa]
        by_cases hQa : Q a = true
        · rw [List.countP_cons_of_pos _ _ hQa]
          exact Nat.lt_succ_of_lt this
        · rw [List.countP_cons_of_neg _ _ hQa]
          exact this

theorem slideMeasure_lt (p : Project) (arr : List TrackClip) (big D h h2 : ℚ)
    (hlt : |h2| < |h|) (hmem : h2 ∈ slideCandidates p arr big D) :
    slideMeasure p arr big D h2 < slideMeasure p arr big D h := by
  unfold slideMeasure
  refine countP_lt_of_witness _ _ _ (fun x hx => ?_) h2 hmem (by simp) (by simpa using hlt)
  simp only [decide_eq_true_eq] at hx ⊢
  exact lt_trans hx hlt

/-- The loop of `DoSlideHorizontal` returns when the fuel exceeds the measure of its amount;
the clips are then where they were, and the amount is within the request. -/
theorem slideLoop_returns (p : Project) (arr : List TrackClip) (big D : ℚ)
    (hwf : CaptureWellFormed p arr) :
    ∀ (n : Nat) (s : ClipMoveState) (q : Project), s.capturedClipArray = arr →
      SamePlacement p q → SlideBounded D s.hSlideAmount →
      slideMeasure p arr big D s.hSlideAmount < n →
      ∃ out, slideLoop CanOffsetClip big n (s, q) = some out ∧ SamePlacement p out.2 ∧
        out.1.capturedClipArray = arr ∧ SlideBounded D out.1.hSlideAmount := by
  intro n
  induction n with
  | zero => intro s q _ _ _ hm; exact absurd hm (Nat.not_lt_zero _)
  | succ n ih =>
    intro s q harr hq hb hm
    obtain ⟨q2, hpass, hq2⟩ := slidePass_eval (n + 1) big p arr hwf arr (fun _ h => h) s q
      harr hq
    obtain ⟨b1, c1⟩ := passState_step p arr big D arr (fun _ h => h) s harr hb
    have harr2 : (passState p big arr s).capturedClipArray = arr := by
      rw [passState_array, harr]
    simp only [slideLoop, harr, hpass, Option.some_bind]
    by_cases hne : (passState p big arr s).hSlideAmount ≠ s.hSlideAmount
    · rw [if_pos hne]
      rcases c1 with e | ⟨m1, n1⟩
      · exact absurd e hne
      · have hlt := slideMeasure_lt p arr big D _ _ m1 n1
        exact ih _ q2 harr2 hq2 (slideBounded_trans hb b1)
          (Nat.lt_of_lt_of_le hlt (Nat.le_of_lt_succ hm))
    · rw [if_neg hne]
      exact ⟨_, rfl, hq2, harr2, slideBounded_trans hb b1⟩

theorem countP_offsetCandidates (q : Project) (t : TrackId) (c : ClipId) (D h : ℚ)
    (hh : |h| ≤ |D|) :
    (offsetCandidates q t c D).countP (fun e => decide (|e| < |h|)) ≤
      ((q.tracks t).mClips.filter fun o => decide (o ≠ c)).length + 1 := by
  unfold offsetCandidates
  rw [List.cons_append, List.countP_cons_of_neg _ _ (by simpa using hh)]
  refine le_trans (List.countP_le_length _) ?_
  simp

theorem slideMeasure_le (p : Project) (arr : List TrackClip) (big D h : ℚ)
    (hwf : CaptureWellFormed p arr) (hh : |h| ≤ |D|) :
    slideMeasure p arr big D h + 1 ≤ slidePassBound p arr := by
  unfold slideMeasure slidePassBound slideCandidates
  refine Nat.succ_le_succ ?_
  have hgen : ∀ l : List TrackClip,
      (l.flatMap fun tc =>
        match tc.clip with
        | none => []
        | some c => offsetCandidates (displacedFor p arr big c) tc.track c D).countP
          (fun e => decide (|e| < |h|)) ≤
      (l.map fun tc =>
        match tc.clip with
        | none => 0
        | some c =>
          ((p.tracks tc.track).mClips.filter fun o => decide (o ≠ c)).length + 1).sum := by
    intro l
    induction l with
    | nil => simp
    | cons tc rest ih =>
      simp only [List.flatMap_cons, List.countP_append, List.map_cons, List.sum_cons]
      refine Nat.add_le_add ?_ ih
      cases hc : tc.clip with
      | none => simp
      | some c =>
        simp only
        have hm : ((displacedFor p arr big c).tracks tc.track).mClips =
            (p.tracks tc.track).mClips :=
          ((DoOffset_fold_spec (-big) (some c) arr p hwf.2.2 hwf.2.1).2 tc.track).1
        rw [← hm]
        exact countP_offsetCandidates _ _ _ _ _ hh
  exact hgen arr

/-- C23 (amended): with the oracle of the spec, on a well-formed, non-empty capture set, the
loop of `DoSlideHorizontal` returns within `slidePassBound` passes: one pass, and for every
captured clip one more than the number of other clips on its track.  On exit of the loop every
clip is where it was on entry; the call then returns with an amount that is zero or of the
sign of the request and no larger, every captured clip moved from its entry position by that
amount, and every other clip at its entry position.  In every pass, from any state, the
magnitude of `hSlideAmount` does not increase. -/
theorem DoSlideHorizontal_terminates (n : Nat) (state : ClipMoveState) (p : Project)
    (capturedTrack : TrackId) (hne : state.capturedClipArray ≠ [])
    (hwf : CaptureWellFormed p state.capturedClipArray)
    (hn : slidePassBound p state.capturedClipArray ≤ n) :
    (∃ sp out,
      slideLoop CanOffsetClip (1000 + 2 * (p.GetEndTime - p.GetStartTime)) n (state, p) =
        some sp ∧
      SamePlacement p sp.2 ∧
      DoSlideHorizontal CanOffsetClip n state p capturedTrack = some out ∧
      out.1 = sp.1 ∧
      SlideBounded state.hSlideAmount out.1.hSlideAmount ∧
      (∀ x, out.2.clips x =
        if Captured state.capturedClipArray x then (p.clips x).Offset out.1.hSlideAmount
        else p.clips x) ∧
      ∀ t, (out.2.tracks t).mClips = (p.tracks t).mClips) ∧
    ∀ (fuel : Nat) (big : ℚ) (l : List TrackClip) (sp out : ClipMoveState × Project),
      slidePass CanOffsetClip fuel big l sp = some out →
      |out.1.hSlideAmount| ≤ |sp.1.hSlideAmount| := by
  refine ⟨?_, fun fuel big l sp out h =>
    (slidePass_bounded CanOffsetClip CanOffsetClip_shrinks fuel big l sp out h).2⟩
  have hm := slideMeasure_le p state.capturedClipArray
    (1000 + 2 * (p.GetEndTime - p.GetStartTime)) state.hSlideAmount state.hSlideAmount hwf
    le_rfl
  obtain ⟨sp, hloop, hq, harr, hb⟩ := slideLoop_returns p state.capturedClipArray
    (1000 + 2 * (p.GetEndTime - p.GetStartTime)) state.hSlideAmount hwf n state p rfl
    ⟨rfl, fun _ => ⟨rfl, rfl⟩⟩ (slideBounded_refl _) (Nat.lt_of_lt_of_le hm hn)
  have hlen : state.capturedClipArray.length ≠ 0 := by
    simpa using hne
  unfold DoSlideHorizontal
  simp only [if_pos hlen, hloop, Option.some_bind]
  by_cases hz : sp.1.hSlideAmount ≠ 0
  · rw [if_pos hz, DoOffset_of_ne_nil n sp.1 sp.2 none _ none (by rw [harr]; exact hne)]
    obtain ⟨c1, c2⟩ := DoOffset_fold_spec sp.1.hSlideAmount none sp.1.capturedClipArray sp.2
      (by rw [harr]; exact hwf.2.2) (by rw [harr]; exact samePlacement_wellFormed hq hwf)
    refine ⟨sp, _, rfl, hq, rfl, rfl, hb, fun x => ?_, fun t => ?_⟩
    · simp only [Option.map_some']
      rw [c1 x, harr, hq.1]
      simp
    · simp only [Option.map_some']
      rw [(c2 t).1, (hq.2 t).1]
  · rw [if_neg hz]
    refine ⟨sp, sp, rfl, hq, rfl, rfl, hb, fun x => ?_, fun t => (hq.2 t).1⟩
    rw [not_not.1 hz, WaveClip.Offset_zero, hq.1]
    simp

/-- C23, witness: clip 0 on `[2, 5)` captured, clip 1 on `[6, 8)` stationary, request 2: the
bound is three passes, and the call returns within three passes. -/
theorem DoSlideHorizontal_terminates_witness :
    (slideState 2).capturedClipArray ≠ [] ∧
    CaptureWellFormed twoClipProject (slideState 2).capturedClipArray ∧
    slidePassBound twoClipProject (slideState 2).capturedClipArray ≤ 3 ∧
    ∃ out, DoSlideHorizontal CanOffsetClip 3 (slideState 2) twoClipProject 0 = some out ∧
      SlideBounded (slideState 2).hSlideAmount out.1.hSlideAmount := by
  have hb : slidePassBound twoClipProject (slideState 2).capturedClipArray ≤ 3 := by
    simp [slidePassBound, slideState, TrackClip.new, twoClipProject, monoWaveTrack]
  obtain ⟨⟨_, out, _, _, h1, _, h2, _⟩, _⟩ := DoSlideHorizontal_terminates 3 (slideState 2)
    twoClipProject 0 (by simp [slideState]) (slideState_wellFormed 2) hb
  exact ⟨by simp [slideState], slideState_wellFormed 2, hb, out, h1, h2⟩

/-! ## C23: a slide that needs more passes than there are clip boundaries -/

/-- A clip that overlaps the clip `o` at the request `a` to the left, and is free where its
start meets the end of `o`, is allowed to move up to there. -/
theorem CanOffsetClip_bump_left (q : Project) (t : TrackId) (c o : ClipId) (a : ℚ)
    (ha : a < 0) (ho : o ∈ (q.tracks t).mClips) (hoc : o ≠ c)
    (hov : ((q.clips c).Offset a).Overlaps (q.clips o))
    (hr0 : (q.clips o).GetEndTime - (q.clips c).GetStartTime ≤ 0)
    (hfree : clipFreeAt q t c ((q.clips o).GetEndTime - (q.clips c).GetStartTime) = true) :
    CanOffsetClip q t c a =
      (true, (q.clips o).GetEndTime - (q.clips c).GetStartTime) := by
  have hna : ¬ 0 ≤ a := not_le.2 ha
  have hov1 : (q.clips c).GetStartTime + a < (q.clips o).GetEndTime := by
    have := hov.1
    simpa [WaveClip.Offset, WaveClip.GetStartTime] using this
  have hov2 : (q.clips o).GetStartTime < (q.clips c).GetEndTime + a := by
    have := hov.2
    simp only [WaveClip.Offset, WaveClip.GetEndTime, WaveClip.GetStartTime] at this ⊢
    linarith
  have hw : withinRequest a ((q.clips o).GetEndTime - (q.clips c).GetStartTime) := by
    unfold withinRequest
    rw [if_neg hna]
    exact ⟨by linarith, hr0⟩
  obtain ⟨h1, h2⟩ := CanOffsetClip_largest q t c a _ hw hfree
  obtain ⟨h3, h4⟩ := CanOffsetClip_allowed q t c a h1
  unfold withinRequest at h3
  rw [if_neg hna] at h3
  rw [abs_of_nonpos hr0, abs_of_nonpos h3.2] at h2
  have hge : (q.clips o).GetEndTime - (q.clips c).GetStartTime ≤ (CanOffsetClip q t c a).2 := by
    by_contra hlt
    have hlt2 := not_le.1 hlt
    unfold clipFreeAt at h4
    have h5 := List.all_eq_true.1 h4 o ho
    simp only [decide_eq_true_eq] at h5
    rcases h5 with h5 | h5
    · exact hoc h5
    · apply h5
      constructor
      · simp only [WaveClip.Offset, WaveClip.GetStartTime] at hlt2 ⊢
        linarith
      · simp only [WaveClip.Offset, WaveClip.GetEndTime, WaveClip.GetStartTime] at h3 hov2 ⊢
        linarith [h3.1]
  have heq : (CanOffsetClip q t c a).2 =
      (q.clips o).GetEndTime - (q.clips c).GetStartTime := le_antisymm (by linarith) hge
  exact Prod.ext h1 heq

theorem comb_big :
    (1000 : ℚ) + 2 * (combProject.GetEndTime - combProject.GetStartTime) = 1092 := by
  norm_num [Project.GetEndTime, Project.GetStartTime, Project.trackEndTime,
    Project.trackStartTime, combProject, monoWaveTrack, WaveClip.GetEndTime,
    WaveClip.GetStartTime]

theorem combArray_wellFormed : CaptureWellFormed combProject combArray := by
  refine ⟨?_, ?_, ?_⟩
  · intro tc htc c hc
    simp only [combArray, List.mem_cons, List.mem_singleton, List.not_mem_nil, or_false] at htc
    rcases htc with h | h | h | h | h <;> subst h <;>
      simp only [TrackClip.new, Option.some.injEq] at hc <;> subst hc <;>
      simp [combProject, monoWaveTrack, TrackClip.new]
  · intro tc htc hc
    simp only [combArray, List.mem_cons, List.mem_singleton, List.not_mem_nil, or_false] at htc
    rcases htc with h | h | h | h | h <;> subst h <;> simp [TrackClip.new] at hc
  · simp [combArray, TrackClip.new]

theorem comb_captured (x : ClipId) :
    Captured combArray x ↔ x = 3 ∨ x = 4 ∨ x = 5 ∨ x = 6 ∨ x = 7 := by
  simp only [Captured, combArray, List.mem_cons, List.mem_singleton, List.not_mem_nil,
    or_false, exists_eq_or_imp, exists_eq_left, TrackClip.new, Option.some.injEq]
  constructor
  · rintro (h | h | h | h | h) <;> simp [← h]
  · rintro (h | h | h | h | h) <;> simp [h]

theorem comb_displaced_mClips (big : ℚ) (c : ClipId) :
    ((displacedFor combProject combArray big c).tracks 0).mClips = [0, 1, 2, 3, 4, 5, 6, 7] := by
  unfold displacedFor
  rw [((DoOffset_fold_spec (-big) (some c) combArray combProject combArray_wellFormed.2.2
    combArray_wellFormed.2.1).2 0).1]
  simp [combProject, monoWaveTrack]

theorem comb_displaced_clips (big : ℚ) (c x : ClipId) :
    (displacedFor combProject combArray big c).clips x =
      if (x = 3 ∨ x = 4 ∨ x = 5 ∨ x = 6 ∨ x = 7) ∧ x ≠ c then
        (combProject.clips x).Offset (-big)
      else combProject.clips x := by
  unfold displacedFor
  rw [(DoOffset_fold_spec (-big) (some c) combArray combProject combArray_wellFormed.2.2
    combArray_wellFormed.2.1).1 x]
  simp only [comb_captured, ne_eq, Option.some.injEq]

theorem comb_start (x : ClipId) :
    (combProject.clips x).GetStartTime =
      if x = 0 then 22 else if x = 1 then 37 else if x = 2 then 52 else if x = 3 then 53
      else if x = 4 then 55 else if x = 5 then 58 else if x = 6 then 60 else 65 := by
  simp only [combProject, WaveClip.GetStartTime]
  split_ifs <;> rfl

theorem comb_end (x : ClipId) :
    (combProject.clips x).GetEndTime =
      if x = 0 then 24 else if x = 1 then 38 else if x = 2 then 53 else if x = 3 then 55
      else if x = 4 then 58 else if x = 5 then 60 else if x = 6 then 65 else 68 := by
  simp only [combProject, WaveClip.GetEndTime]
  split_ifs <;> norm_num

theorem overlaps_offset_iff (a b : WaveClip) (e : ℚ) :
    (a.Offset e).Overlaps b ↔
      a.GetStartTime + e < b.GetEndTime ∧ b.GetStartTime < a.GetEndTime + e := by
  unfold WaveClip.Overlaps
  simp only [WaveClip.Offset, WaveClip.GetStartTime, WaveClip.GetEndTime]
  constructor
  · rintro ⟨h1, h2⟩
    exact ⟨h1, by linarith⟩
  · rintro ⟨h1, h2⟩
    exact ⟨h1, by linarith⟩

theorem offset_start (a : WaveClip) (e : ℚ) : (a.Offset e).GetStartTime = a.GetStartTime + e :=
  rfl

theorem offset_end (a : WaveClip) (e : ℚ) : (a.Offset e).GetEndTime = a.GetEndTime + e := by
  simp only [WaveClip.Offset, WaveClip.GetEndTime]
  ring

/-- In `combProject`, with the other captured clips displaced by 1092, a captured clip moved by
more than -1000 is free when it overlaps none of the stationary clips 0, 1 and 2. -/
theorem comb_free (c : ClipId) (e : ℚ) (hc : c = 3 ∨ c = 4 ∨ c = 5 ∨ c = 6 ∨ c = 7)
    (hlo : -1000 < e)
    (h0 : ¬ ((combProject.clips c).Offset e).Overlaps (combProject.clips 0))
    (h1 : ¬ ((combProject.clips c).Offset e).Overlaps (combProject.clips 1))
    (h2 : ¬ ((combProject.clips c).Offset e).Overlaps (combProject.clips 2)) :
    clipFreeAt (displacedFor combProject combArray 1092 c) 0 c e = true := by
  unfold clipFreeAt
  rw [comb_displaced_mClips]
  have hcc : (displacedFor combProject combArray 1092 c).clips c = combProject.clips c := by
    rw [comb_displaced_clips]
    simp
  have hfar : ∀ o, (o = 3 ∨ o = 4 ∨ o = 5 ∨ o = 6 ∨ o = 7) → o ≠ c →
      ¬ ((combProject.clips c).Offset e).Overlaps
        ((displacedFor combProject combArray 1092 c).clips o) := by
    intro o ho hoc hov
    rw [comb_displaced_clips, if_pos ⟨ho, hoc⟩, overlaps_offset_iff, offset_end, comb_start,
      comb_end] at hov
    have hs : (53 : ℚ) ≤ if c = 0 then 22 else if c = 1 then 37 else if c = 2 then 52
        else if c = 3 then 53 else if c = 4 then 55 else if c = 5 then 58
        else if c = 6 then 60 else 65 := by
      rcases hc with h | h | h | h | h <;> subst h <;> norm_num
    have he : (if o = 0 then (24 : ℚ) else if o = 1 then 38 else if o = 2 then 53
        else if o = 3 then 55 else if o = 4 then 58 else if o = 5 then 60
        else if o = 6 then 65 else 68) ≤ 68 := by
      split_ifs <;> norm_num
    linarith [hov.1]
  have hnear : ∀ o, (o = 0 ∨ o = 1 ∨ o = 2) →
      (displacedFor combProject combArray 1092 c).clips o = combProject.clips o := by
    intro o ho
    rw [comb_displaced_clips, if_neg]
    rintro ⟨h, _⟩
    rcases ho with h' | h' | h' <;> subst h' <;> simp at h
  simp only [List.all_cons, List.all_nil, Bool.and_true, Bool.and_eq_true, decide_eq_true_eq,
    hcc]
  refine ⟨Or.inr ?_, Or.inr ?_, Or.inr ?_, ?_, ?_, ?_, ?_, ?_⟩
  · rw [hnear 0 (Or.inl rfl)]; exact h0
  · rw [hnear 1 (Or.inr (Or.inl rfl))]; exact h1
  · rw [hnear 2 (Or.inr (Or.inr rfl))]; exact h2
  · by_cases h : (3 : ClipId) = c
    · exact Or.inl h
    · exact Or.inr (hfar 3 (by simp) h)
  · by_cases h : (4 : ClipId) = c
    · exact Or.inl h
    · exact Or.inr (hfar 4 (by simp) h)
  · by_cases h : (5 : ClipId) = c
    · exact Or.inl h
    · exact Or.inr (hfar 5 (by simp) h)
  · by_cases h : (6 : ClipId) = c
    · exact Or.inl h
    · exact Or.inr (hfar 6 (by simp) h)
  · by_cases h : (7 : ClipId) = c
    · exact Or.inl h
    · exact Or.inr (hfar 7 (by simp) h)

theorem no_overlap_of (a b : WaveClip) (e : ℚ)
    (h : b.GetEndTime ≤ a.GetStartTime + e ∨ a.GetEndTime + e ≤ b.GetStartTime) :
    ¬ (a.Offset e).Overlaps b := by
  rw [overlaps_offset_iff]
  rintro ⟨h1, h2⟩
  rcases h with h | h <;> linarith

theorem comb_query_free (c : ClipId) (s t h : ℚ) (hc : c = 3 ∨ c = 4 ∨ c = 5 ∨ c = 6 ∨ c = 7)
    (hs : (combProject.clips c).GetStartTime = s) (ht : (combProject.clips c).GetEndTime = t)
    (hnum : -1000 < h ∧ (24 ≤ s + h ∨ t + h ≤ 22) ∧ (38 ≤ s + h ∨ t + h ≤ 37) ∧
      (53 ≤ s + h ∨ t + h ≤ 52)) :
    CanOffsetClip (displacedFor combProject combArray 1092 c) 0 c h = (true, h) := by
  refine CanOffsetClip_free _ _ _ _ (comb_free c h hc hnum.1 ?_ ?_ ?_)
  · exact no_overlap_of _ _ _ (by rw [hs, ht, comb_start, comb_end]; simpa using hnum.2.1)
  · exact no_overlap_of _ _ _ (by rw [hs, ht, comb_start, comb_end]; simpa using hnum.2.2.1)
  · exact no_overlap_of _ _ _ (by rw [hs, ht, comb_start, comb_end]; simpa using hnum.2.2.2)

theorem comb_query_bump (c o : ClipId) (s t os oe h r : ℚ)
    (hc : c = 3 ∨ c = 4 ∨ c = 5 ∨ c = 6 ∨ c = 7) (ho : o = 0 ∨ o = 1 ∨ o = 2)
    (hs : (combProject.clips c).GetStartTime = s) (ht : (combProject.clips c).GetEndTime = t)
    (hos : (combProject.clips o).GetStartTime = os)
    (hoe : (combProject.clips o).GetEndTime = oe)
    (hr : r = oe - s)
    (hfix : r ≤ 0 ∧ -1000 < r ∧ (24 ≤ s + r ∨ t + r ≤ 22) ∧ (38 ≤ s + r ∨ t + r ≤ 37) ∧
      (53 ≤ s + r ∨ t + r ≤ 52))
    (hnum : h < 0 ∧ s + h < oe ∧ os < t + h) :
    CanOffsetClip (displacedFor combProject combArray 1092 c) 0 c h = (true, r) := by
  have hoc : o ≠ c := by
    rcases ho with h1 | h1 | h1 <;> rcases hc with h2 | h2 | h2 | h2 | h2 <;>
      subst h1 <;> subst h2 <;> decide
  have hcc : (displacedFor combProject combArray 1092 c).clips c = combProject.clips c := by
    rw [comb_displaced_clips]
    simp
  have hoo : (displacedFor combProject combArray 1092 c).clips o = combProject.clips o := by
    rw [comb_displaced_clips, if_neg]
    rintro ⟨h1, _⟩
    rcases ho with h' | h' | h' <;> subst h' <;> simp at h1
  have hmem : o ∈ ((displacedFor combProject combArray 1092 c).tracks 0).mClips := by
    rw [comb_displaced_mClips]
    rcases ho with h' | h' | h' <;> subst h' <;> simp
  have hfree : clipFreeAt (displacedFor combProject combArray 1092 c) 0 c r = true := by
    refine comb_free c r hc hfix.2.1 ?_ ?_ ?_
    · exact no_overlap_of _ _ _ (by rw [hs, ht, comb_start, comb_end]; simpa using hfix.2.2.1)
    · exact no_overlap_of _ _ _
        (by rw [hs, ht, comb_start, comb_end]; simpa using hfix.2.2.2.1)
    · exact no_overlap_of _ _ _
        (by rw [hs, ht, comb_start, comb_end]; simpa using hfix.2.2.2.2)
  have hb := CanOffsetClip_bump_left (displacedFor combProject combArray 1092 c) 0 c o h
    hnum.1 hmem hoc
    (by rw [hcc, hoo, overlaps_offset_iff, hs, ht, hos, hoe]; exact hnum.2)
    (by rw [hcc, hoo, hs, hoe, ← hr]; exact hfix.1)
    (by rw [hcc, hoo, hs, hoe, ← hr]; exact hfree)
  rw [hb, hcc, hoo, hs, hoe, ← hr]

theorem applyAllowed_combState (h r : ℚ) :
    applyAllowed (combState h) (true, r) = combState r := by
  unfold applyAllowed
  simp only [if_true]
  by_cases e : (combState h).hSlideAmount ≠ r
  · rw [if_pos e]
    rfl
  · rw [if_neg e]
    have e2 : h = r := not_not.1 e
    rw [e2]

theorem comb_entry (c : ClipId) (h r : ℚ)
    (hq : CanOffsetClip (displacedFor combProject combArray 1092 c) 0 c h = (true, r)) :
    entryState combProject 1092 (combState h) (TrackClip.new 0 (some c)) = combState r := by
  show applyAllowed (combState h)
    (CanOffsetClip (displacedFor combProject combArray 1092 c) 0 c h) = combState r
  rw [hq, applyAllowed_combState]

/-- One pass of the loop over the five captured clips of `combProject`, from the five queries
of the oracle. -/
theorem comb_pass (h0 h1 h2 h3 h4 h5 : ℚ)
    (q3 : CanOffsetClip (displacedFor combProject combArray 1092 3) 0 3 h0 = (true, h1))
    (q4 : CanOffsetClip (displacedFor combProject combArray 1092 4) 0 4 h1 = (true, h2))
    (q5 : CanOffsetClip (displacedFor combProject combArray 1092 5) 0 5 h2 = (true, h3))
    (q6 : CanOffsetClip (displacedFor combProject combArray 1092 6) 0 6 h3 = (true, h4))
    (q7 : CanOffsetClip (displacedFor combProject combArray 1092 7) 0 7 h4 = (true, h5)) :
    passState combProject 1092 combArray (combState h0) = combState h5 := by
  simp only [passState, combArray, List.foldl_cons, List.foldl_nil]
  rw [comb_entry 3 h0 h1 q3, comb_entry 4 h1 h2 q4, comb_entry 5 h2 h3 q5,
    comb_entry 6 h3 h4 q6, comb_entry 7 h4 h5 q7]

/-- A pass that changes the amount uses up one unit of fuel. -/
theorem slideLoop_none_step (p : Project) (arr : List TrackClip) (big : ℚ)
    (hwf : CaptureWellFormed p arr) (n : Nat) (s s2 : ClipMoveState)
    (harr : s.capturedClipArray = arr) (hpass : passState p big arr s = s2)
    (hne : s2.hSlideAmount ≠ s.hSlideAmount)
    (hnext : ∀ q, SamePlacement p q → slideLoop CanOffsetClip big n (s2, q) = none) :
    ∀ q, SamePlacement p q → slideLoop CanOffsetClip big (n + 1) (s, q) = none := by
  intro q hq
  obtain ⟨q2, h1, hq2⟩ := slidePass_eval (n + 1) big p arr hwf arr (fun _ h => h) s q harr hq
  simp only [slideLoop, harr, h1, Option.some_bind, hpass, if_pos hne]
  exact hnext q2 hq2

theorem slideLoop_some_step (p : Project) (arr : List TrackClip) (big : ℚ)
    (hwf : CaptureWellFormed p arr) (n : Nat) (s s2 sf : ClipMoveState)
    (harr : s.capturedClipArray = arr) (hpass : passState p big arr s = s2)
    (hne : s2.hSlideAmount ≠ s.hSlideAmount)
    (hnext : ∀ q, SamePlacement p q →
      ∃ out, slideLoop CanOffsetClip big n (s2, q) = some out ∧ out.1 = sf ∧
        SamePlacement p out.2) :
    ∀ q, SamePlacement p q →
      ∃ out, slideLoop CanOffsetClip big (n + 1) (s, q) = some out ∧ out.1 = sf ∧
        SamePlacement p out.2 := by
  intro q hq
  obtain ⟨q2, h1, hq2⟩ := slidePass_eval (n + 1) big p arr hwf arr (fun _ h => h) s q harr hq
  simp only [slideLoop, harr, h1, Option.some_bind, hpass, if_pos hne]
  exact hnext q2 hq2

theorem slideLoop_some_stop (p : Project) (arr : List TrackClip) (big : ℚ)
    (hwf : CaptureWellFormed p arr) (n : Nat) (s : ClipMoveState)
    (harr : s.capturedClipArray = arr) (hpass : passState p big arr s = s) :
    ∀ q, SamePlacement p q →
      ∃ out, slideLoop CanOffsetClip big (n + 1) (s, q) = some out ∧ out.1 = s ∧
        SamePlacement p out.2 := by
  intro q hq
  obtain ⟨q2, h1, hq2⟩ := slidePass_eval (n + 1) big p arr hwf arr (fun _ h => h) s q harr hq
  simp only [slideLoop, harr, h1, Option.some_bind, hpass, ne_eq, not_true_eq_false, if_false]
  exact ⟨_, rfl, rfl, hq2⟩

theorem comb_free_3 (h : ℚ)
    (hnum : -1000 < h ∧ (24 ≤ 53 + h ∨ 55 + h ≤ 22) ∧ (38 ≤ 53 + h ∨ 55 + h ≤ 37) ∧
      (53 ≤ 53 + h ∨ 55 + h ≤ 52)) :
    CanOffsetClip (displacedFor combProject combArray 1092 3) 0 3 h = (true, h) :=
  comb_query_free 3 53 55 h (by decide) (by rw [comb_start]; norm_num)
    (by rw [comb_end]; norm_num) hnum

theorem comb_free_4 (h : ℚ)
    (hnum : -1000 < h ∧ (24 ≤ 55 + h ∨ 58 + h ≤ 22) ∧ (38 ≤ 55 + h ∨ 58 + h ≤ 37) ∧
      (53 ≤ 55 + h ∨ 58 + h ≤ 52)) :
    CanOffsetClip (displacedFor combProject combArray 1092 4) 0 4 h = (true, h) :=
  comb_query_free 4 55 58 h (by decide) (by rw [comb_start]; norm_num)
    (by rw [comb_end]; norm_num) hnum

theorem comb_free_5 (h : ℚ)
    (hnum : -1000 < h ∧ (24 ≤ 58 + h ∨ 60 + h ≤ 22) ∧ (38 ≤ 58 + h ∨ 60 + h ≤ 37) ∧
      (53 ≤ 58 + h ∨ 60 + h ≤ 52)) :
    CanOffsetClip (displacedFor combProject combArray 1092 5) 0 5 h = (true, h) :=
  comb_query_free 5 58 60 h (by decide) (by rw [comb_start]; norm_num)
    (by rw [comb_end]; norm_num) hnum

theorem comb_free_6 (h : ℚ)
    (hnum : -1000 < h ∧ (24 ≤ 60 + h ∨ 65 + h ≤ 22) ∧ (38 ≤ 60 + h ∨ 65 + h ≤ 37) ∧
      (53 ≤ 60 + h ∨ 65 + h ≤ 52)) :
    CanOffsetClip (displacedFor combProject combArray 1092 6) 0 6 h = (true, h) :=
  comb_query_free 6 60 65 h (by decide) (by rw [comb_start]; norm_num)
    (by rw [comb_end]; norm_num) hnum

theorem comb_free_7 (h : ℚ)
    (hnum : -1000 < h ∧ (24 ≤ 65 + h ∨ 68 + h ≤ 22) ∧ (38 ≤ 65 + h ∨ 68 + h ≤ 37) ∧
      (53 ≤ 65 + h ∨ 68 + h ≤ 52)) :
    CanOffsetClip (displacedFor combProject combArray 1092 7) 0 7 h = (true, h) :=
  comb_query_free 7 65 68 h (by decide) (by rw [comb_start]; norm_num)
    (by rw [comb_end]; norm_num) hnum

theorem comb_bump_3_0 (h : ℚ) (hnum : h < 0 ∧ 53 + h < 24 ∧ 22 < 55 + h) :
    CanOffsetClip (displacedFor combProject combArray 1092 3) 0 3 h = (true, (-29)) :=
  comb_query_bump 3 0 53 55 22 24 h (-29) (by decide) (by decide)
    (by rw [comb_start]; norm_num) (by rw [comb_end]; norm_num)
    (by rw [comb_start]; norm_num) (by rw [comb_end]; norm_num) (by norm_num) (by norm_num)
    hnum

theorem comb_bump_3_1 (h : ℚ) (hnum : h < 0 ∧ 53 + h < 38 ∧ 37 < 55 + h) :
    CanOffsetClip (displacedFor combProject combArray 1092 3) 0 3 h = (true, (-15)) :=
  comb_query_bump 3 1 53 55 37 38 h (-15) (by decide) (by decide)
    (by rw [comb_start]; norm_num) (by rw [comb_end]; norm_num)
    (by rw [comb_start]; norm_num) (by rw [comb_end]; norm_num) (by norm_num) (by norm_num)
    hnum

theorem comb_bump_3_2 (h : ℚ) (hnum : h < 0 ∧ 53 + h < 53 ∧ 52 < 55 + h) :
    CanOffsetClip (displacedFor combProject combArray 1092 3) 0 3 h = (true, 0) :=
  comb_query_bump 3 2 53 55 52 53 h 0 (by decide) (by decide)
    (by rw [comb_start]; norm_num) (by rw [comb_end]; norm_num)
    (by rw [comb_start]; norm_num) (by rw [comb_end]; norm_num) (by norm_num) (by norm_num)
    hnum

theorem comb_bump_4_0 (h : ℚ) (hnum : h < 0 ∧ 55 + h < 24 ∧ 22 < 58 + h) :
    CanOffsetClip (displacedFor combProject combArray 1092 4) 0 4 h = (true, (-31)) :=
  comb_query_bump 4 0 55 58 22 24 h (-31) (by decide) (by decide)
    (by rw [comb_start]; norm_num) (by rw [comb_end]; norm_num)
    (by rw [comb_start]; norm_num) (by rw [comb_end]; norm_num) (by norm_num) (by norm_num)
    hnum

theorem comb_bump_4_1 (h : ℚ) (hnum : h < 0 ∧ 55 + h < 38 ∧ 37 < 58 + h) :
    CanOffsetClip (displacedFor combProject combArray 1092 4) 0 4 h = (true, (-17)) :=
  comb_query_bump 4 1 55 58 37 38 h (-17) (by decide) (by decide)
    (by rw [comb_start]; norm_num) (by rw [comb_end]; norm_num)
    (by rw [comb_start]; norm_num) (by rw [comb_end]; norm_num) (by norm_num) (by norm_num)
    hnum

theorem comb_bump_4_2 (h : ℚ) (hnum : h < 0 ∧ 55 + h < 53 ∧ 52 < 58 + h) :
    CanOffsetClip (displacedFor combProject combArray 1092 4) 0 4 h = (true, (-2)) :=
  comb_query_bump 4 2 55 58 52 53 h (-2) (by decide) (by decide)
    (by rw [comb_start]; norm_num) (by rw [comb_end]; norm_num)
    (by rw [comb_start]; norm_num) (by rw [comb_end]; norm_num) (by norm_num) (by norm_num)
    hnum

theorem comb_bump_5_0 (h : ℚ) (hnum : h < 0 ∧ 58 + h < 24 ∧ 22 < 60 + h) :
    CanOffsetClip (displacedFor combProject combArray 1092 5) 0 5 h = (true, (-34)) :=
  comb_query_bump 5 0 58 60 22 24 h (-34) (by decide) (by decide)
    (by rw [comb_start]; norm_num) (by rw [comb_end]; norm_num)
    (by rw [comb_start]; norm_num) (by rw [comb_end]; norm_num) (by norm_num) (by norm_num)
    hnum

theorem comb_bump_5_1 (h : ℚ) (hnum : h < 0 ∧ 58 + h < 38 ∧ 37 < 60 + h) :
    CanOffsetClip (displacedFor combProject combArray 1092 5) 0 5 h = (true, (-20)) :=
  comb_query_bump 5 1 58 60 37 38 h (-20) (by decide) (by decide)
    (by rw [comb_start]; norm_num) (by rw [comb_end]; norm_num)
    (by rw [comb_start]; norm_num) (by rw [comb_end]; norm_num) (by norm_num) (by norm_num)
    hnum

theorem comb_bump_5_2 (h : ℚ) (hnum : h < 0 ∧ 58 + h < 53 ∧ 52 < 60 + h) :
    CanOffsetClip (displacedFor combProject combArray 1092 5) 0 5 h = (true, (-5)) :=
  comb_query_bump 5 2 58 60 52 53 h (-5) (by decide) (by decide)
    (by rw [comb_start]; norm_num) (by rw [comb_end]; norm_num)
    (by rw [comb_start]; norm_num) (by rw [comb_end]; norm_num) (by norm_num) (by norm_num)
    hnum

theorem comb_bump_6_0 (h : ℚ) (hnum : h < 0 ∧ 60 + h < 24 ∧ 22 < 65 + h) :
    CanOffsetClip (displacedFor combProject combArray 1092 6) 0 6 h = (true, (-36)) :=
  comb_query_bump 6 0 60 65 22 24 h (-36) (by decide) (by decide)
    (by rw [comb_start]; norm_num) (by rw [comb_end]; norm_num)
    (by rw [comb_start]; norm_num) (by rw [comb_end]; norm_num) (by norm_num) (by norm_num)
    hnum

theorem comb_bump_6_1 (h : ℚ) (hnum : h < 0 ∧ 60 + h < 38 ∧ 37 < 65 + h) :
    CanOffsetClip (displacedFor combProject combArray 1092 6) 0 6 h = (true, (-22)) :=
  comb_query_bump 6 1 60 65 37 38 h (-22) (by decide) (by decide)
    (by rw [comb_start]; norm_num) (by rw [comb_end]; norm_num)
    (by rw [comb_start]; norm_num) (by rw [comb_end]; norm_num) (by norm_num) (by norm_num)
    hnum

theorem comb_bump_6_2 (h : ℚ) (hnum : h < 0 ∧ 60 + h < 53 ∧ 52 < 65 + h) :
    CanOffsetClip (displacedFor combProject combArray 1092 6) 0 6 h = (true, (-7)) :=
  comb_query_bump 6 2 60 65 52 53 h (-7) (by decide) (by decide)
    (by rw [comb_start]; norm_num) (by rw [comb_end]; norm_num)
    (by rw [comb_start]; norm_num) (by rw [comb_end]; norm_num) (by norm_num) (by norm_num)
    hnum

theorem comb_bump_7_0 (h : ℚ) (hnum : h < 0 ∧ 65 + h < 24 ∧ 22 < 68 + h) :
    CanOffsetClip (displacedFor combProject combArray 1092 7) 0 7 h = (true, (-41)) :=
  comb_query_bump 7 0 65 68 22 24 h (-41) (by decide) (by decide)
    (by rw [comb_start]; norm_num) (by rw [comb_end]; norm_num)
    (by rw [comb_start]; norm_num) (by rw [comb_end]; norm_num) (by norm_num) (by norm_num)
    hnum

theorem comb_bump_7_1 (h : ℚ) (hnum : h < 0 ∧ 65 + h < 38 ∧ 37 < 68 + h) :
    CanOffsetClip (displacedFor combProject combArray 1092 7) 0 7 h = (true, (-27)) :=
  comb_query_bump 7 1 65 68 37 38 h (-27) (by decide) (by decide)
    (by rw [comb_start]; norm_num) (by rw [comb_end]; norm_num)
    (by rw [comb_start]; norm_num) (by rw [comb_end]; norm_num) (by norm_num) (by norm_num)
    hnum

theorem comb_bump_7_2 (h : ℚ) (hnum : h < 0 ∧ 65 + h < 53 ∧ 52 < 68 + h) :
    CanOffsetClip (displacedFor combProject combArray 1092 7) 0 7 h = (true, (-12)) :=
  comb_query_bump 7 2 65 68 52 53 h (-12) (by decide) (by decide)
    (by rw [comb_start]; norm_num) (by rw [comb_end]; norm_num)
    (by rw [comb_start]; norm_num) (by rw [comb_end]; norm_num) (by norm_num) (by norm_num)
    hnum

theorem comb_pass_1 :
    passState combProject 1092 combArray (combState (-45)) = combState (-41) :=
  comb_pass (-45) (-45) (-45) (-45) (-45) (-41)
    (comb_free_3 (-45) (by norm_num)) (comb_free_4 (-45) (by norm_num))
    (comb_free_5 (-45) (by norm_num)) (comb_free_6 (-45) (by norm_num))
    (comb_bump_7_0 (-45) (by norm_num))

theorem comb_pass_2 :
    passState combProject 1092 combArray (combState (-41)) = combState (-36) :=
  comb_pass (-41) (-41) (-41) (-41) (-36) (-36)
    (comb_free_3 (-41) (by norm_num)) (comb_free_4 (-41) (by norm_num))
    (comb_free_5 (-41) (by norm_num)) (comb_bump_6_0 (-41) (by norm_num))
    (comb_free_7 (-36) (by norm_num))

theorem comb_pass_3 :
    passState combProject 1092 combArray (combState (-36)) = combState (-34) :=
  comb_pass (-36) (-36) (-36) (-34) (-34) (-34)
    (comb_free_3 (-36) (by norm_num)) (comb_free_4 (-36) (by norm_num))
    (comb_bump_5_0 (-36) (by norm_num)) (comb_free_6 (-34) (by norm_num))
    (comb_free_7 (-34) (by norm_num))

theorem comb_pass_4 :
    passState combProject 1092 combArray (combState (-34)) = combState (-31) :=
  comb_pass (-34) (-34) (-31) (-31) (-31) (-31)
    (comb_free_3 (-34) (by norm_num)) (comb_bump_4_0 (-34) (by norm_num))
    (comb_free_5 (-31) (by norm_num)) (comb_free_6 (-31) (by norm_num))
    (comb_free_7 (-31) (by norm_num))

theorem comb_pass_5 :
    passState combProject 1092 combArray (combState (-31)) = combState (-27) :=
  comb_pass (-31) (-29) (-29) (-29) (-29) (-27)
    (comb_bump_3_0 (-31) (by norm_num)) (comb_free_4 (-29) (by norm_num))
    (comb_free_5 (-29) (by norm_num)) (comb_free_6 (-29) (by norm_num))
    (comb_bump_7_1 (-29) (by norm_num))

theorem comb_pass_6 :
    passState combProject 1092 combArray (combState (-27)) = combState (-22) :=
  comb_pass (-27) (-27) (-27) (-27) (-22) (-22)
    (comb_free_3 (-27) (by norm_num)) (comb_free_4 (-27) (by norm_num))
    (comb_free_5 (-27) (by norm_num)) (comb_bump_6_1 (-27) (by norm_num))
    (comb_free_7 (-22) (by norm_num))

theorem comb_pass_7 :
    passState combProject 1092 combArray (combState (-22)) = combState (-20) :=
  comb_pass (-22) (-22) (-22) (-20) (-20) (-20)
    (comb_free_3 (-22) (by norm_num)) (comb_free_4 (-22) (by norm_num))
    (comb_bump_5_1 (-22) (by norm_num)) (comb_free_6 (-20) (by norm_num))
    (comb_free_7 (-20) (by norm_num))

theorem comb_pass_8 :
    passState combProject 1092 combArray (combState (-20)) = combState (-17) :=
  comb_pass (-20) (-20) (-17) (-17) (-17) (-17)
    (comb_free_3 (-20) (by norm_num)) (comb_bump_4_1 (-20) (by norm_num))
    (comb_free_5 (-17) (by norm_num)) (comb_free_6 (-17) (by norm_num))
    (comb_free_7 (-17) (by norm_num))

theorem comb_pass_9 :
    passState combProject 1092 combArray (combState (-17)) = combState (-12) :=
  comb_pass (-17) (-15) (-15) (-15) (-15) (-12)
    (comb_bump_3_1 (-17) (by norm_num)) (comb_free_4 (-15) (by norm_num))
    (comb_free_5 (-15) (by norm_num)) (comb_free_6 (-15) (by norm_num))
    (comb_bump_7_2 (-15) (by norm_num))

theorem comb_pass_10 :
    passState combProject 1092 combArray (combState (-12)) = combState (-7) :=
  comb_pass (-12) (-12) (-12) (-12) (-7) (-7)
    (comb_free_3 (-12) (by norm_num)) (comb_free_4 (-12) (by norm_num))
    (comb_free_5 (-12) (by norm_num)) (comb_bump_6_2 (-12) (by norm_num))
    (comb_free_7 (-7) (by norm_num))

theorem comb_pass_11 :
    passState combProject 1092 combArray (combState (-7)) = combState (-5) :=
  comb_pass (-7) (-7) (-7) (-5) (-5) (-5)
    (comb_free_3 (-7) (by norm_num)) (comb_free_4 (-7) (by norm_num))
    (comb_bump_5_2 (-7) (by norm_num)) (comb_free_6 (-5) (by norm_num))
    (comb_free_7 (-5) (by norm_num))

theorem comb_pass_12 :
    passState combProject 1092 combArray (combState (-5)) = combState (-2) :=
  comb_pass (-5) (-5) (-2) (-2) (-2) (-2)
    (comb_free_3 (-5) (by norm_num)) (comb_bump_4_2 (-5) (by norm_num))
    (comb_free_5 (-2) (by norm_num)) (comb_free_6 (-2) (by norm_num))
    (comb_free_7 (-2) (by norm_num))

theorem comb_pass_13 :
    passState combProject 1092 combArray (combState (-2)) = combState 0 :=
  comb_pass (-2) 0 0 0 0 0
    (comb_bump_3_2 (-2) (by norm_num)) (comb_free_4 0 (by norm_num))
    (comb_free_5 0 (by norm_num)) (comb_free_6 0 (by norm_num))
    (comb_free_7 0 (by norm_num))

theorem comb_pass_14 :
    passState combProject 1092 combArray (combState 0) = combState 0 :=
  comb_pass 0 0 0 0 0 0
    (comb_free_3 0 (by norm_num)) (comb_free_4 0 (by norm_num))
    (comb_free_5 0 (by norm_num)) (comb_free_6 0 (by norm_num))
    (comb_free_7 0 (by norm_num))

/-- Thirteen passes of the loop do not settle the request -45 on `combProject`: each of them
changes the amount. -/
theorem comb_loop_none :
    ∀ q, SamePlacement combProject q →
      slideLoop CanOffsetClip 1092 13 (combState (-45), q) = none := by
  have l0 : ∀ q, SamePlacement combProject q →
      slideLoop CanOffsetClip 1092 0 (combState 0, q) = none := fun _ _ => rfl
  have l1 := slideLoop_none_step combProject combArray 1092 combArray_wellFormed 0
    (combState (-2)) (combState 0) rfl comb_pass_13
    (by show (0 : ℚ) ≠ (-2); norm_num) l0
  have l2 := slideLoop_none_step combProject combArray 1092 combArray_wellFormed 1
    (combState (-5)) (combState (-2)) rfl comb_pass_12
    (by show ((-2) : ℚ) ≠ (-5); norm_num) l1
  have l3 := slideLoop_none_step combProject combArray 1092 combArray_wellFormed 2
    (combState (-7)) (combState (-5)) rfl comb_pass_11
    (by show ((-5) : ℚ) ≠ (-7); norm_num) l2
  have l4 := slideLoop_none_step combProject combArray 1092 combArray_wellFormed 3
    (combState (-12)) (combState (-7)) rfl comb_pass_10
    (by show ((-7) : ℚ) ≠ (-12); norm_num) l3
  have l5 := slideLoop_none_step combProject combArray 1092 combArray_wellFormed 4
    (combState (-17)) (combState (-12)) rfl comb_pass_9
    (by show ((-12) : ℚ) ≠ (-17); norm_num) l4
  have l6 := slideLoop_none_step combProject combArray 1092 combArray_wellFormed 5
    (combState (-20)) (combState (-17)) rfl comb_pass_8
    (by show ((-17) : ℚ) ≠ (-20); norm_num) l5
  have l7 := slideLoop_none_step combProject combArray 1092 combArray_wellFormed 6
    (combState (-22)) (combState (-20)) rfl comb_pass_7
    (by show ((-20) : ℚ) ≠ (-22); norm_num) l6
  have l8 := slideLoop_none_step combProject combArray 1092 combArray_wellFormed 7
    (combState (-27)) (combState (-22)) rfl comb_pass_6
    (by show ((-22) : ℚ) ≠ (-27); norm_num) l7
  have l9 := slideLoop_none_step combProject combArray 1092 combArray_wellFormed 8
    (combState (-31)) (combState (-27)) rfl comb_pass_5
    (by show ((-27) : ℚ) ≠ (-31); norm_num) l8
  have l10 := slideLoop_none_step combProject combArray 1092 combArray_wellFormed 9
    (combState (-34)) (combState (-31)) rfl comb_pass_4
    (by show ((-31) : ℚ) ≠ (-34); norm_num) l9
  have l11 := slideLoop_none_step combProject combArray 1092 combArray_wellFormed 10
    (combState (-36)) (combState (-34)) rfl comb_pass_3
    (by show ((-34) : ℚ) ≠ (-36); norm_num) l10
  have l12 := slideLoop_none_step combProject combArray 1092 combArray_wellFormed 11
    (combState (-41)) (combState (-36)) rfl comb_pass_2
    (by show ((-36) : ℚ) ≠ (-41); norm_num) l11
  have l13 := slideLoop_none_step combProject combArray 1092 combArray_wellFormed 12
    (combState (-45)) (combState (-41)) rfl comb_pass_1
    (by show ((-41) : ℚ) ≠ (-45); norm_num) l12
  exact l13

/-- The fourteenth pass leaves the amount 0 as it is, and the loop returns. -/
theorem comb_loop_some :
    ∀ q, SamePlacement combProject q →
      ∃ out, slideLoop CanOffsetClip 1092 14 (combState (-45), q) = some out ∧
        out.1 = combState 0 ∧ SamePlacement combProject out.2 := by
  have l0 := slideLoop_some_stop combProject combArray 1092 combArray_wellFormed 0
    (combState 0) rfl comb_pass_14
  have l1 := slideLoop_some_step combProject combArray 1092 combArray_wellFormed 1
    (combState (-2)) (combState 0) (combState 0) rfl comb_pass_13
    (by show (0 : ℚ) ≠ (-2); norm_num) l0
  have l2 := slideLoop_some_step combProject combArray 1092 combArray_wellFormed 2
    (combState (-5)) (combState (-2)) (combState 0) rfl comb_pass_12
    (by show ((-2) : ℚ) ≠ (-5); norm_num) l1
  have l3 := slideLoop_some_step combProject combArray 1092 combArray_wellFormed 3
    (combState (-7)) (combState (-5)) (combState 0) rfl comb_pass_11
    (by show ((-5) : ℚ) ≠ (-7); norm_num) l2
  have l4 := slideLoop_some_step combProject combArray 1092 combArray_wellFormed 4
    (combState (-12)) (combState (-7)) (combState 0) rfl comb_pass_10
    (by show ((-7) : ℚ) ≠ (-12); norm_num) l3
  have l5 := slideLoop_some_step combProject combArray 1092 combArray_wellFormed 5
    (combState (-17)) (combState (-12)) (combState 0) rfl comb_pass_9
    (by show ((-12) : ℚ) ≠ (-17); norm_num) l4
  have l6 := slideLoop_some_step combProject combArray 1092 combArray_wellFormed 6
    (combState (-20)) (combState (-17)) (combState 0) rfl comb_pass_8
    (by show ((-17) : ℚ) ≠ (-20); norm_num) l5
  have l7 := slideLoop_some_step combProject combArray 1092 combArray_wellFormed 7
    (combState (-22)) (combState (-20)) (combState 0) rfl comb_pass_7
    (by show ((-20) : ℚ) ≠ (-22); norm_num) l6
  have l8 := slideLoop_some_step combProject combArray 1092 combArray_wellFormed 8
    (combState (-27)) (combState (-22)) (combState 0) rfl comb_pass_6
    (by show ((-22) : ℚ) ≠ (-27); norm_num) l7
  have l9 := slideLoop_some_step combProject combArray 1092 combArray_wellFormed 9
    (combState (-31)) (combState (-27)) (combState 0) rfl comb_pass_5
    (by show ((-27) : ℚ) ≠ (-31); norm_num) l8
  have l10 := slideLoop_some_step combProject combArray 1092 combArray_wellFormed 10
    (combState (-34)) (combState (-31)) (combState 0) rfl comb_pass_4
    (by show ((-31) : ℚ) ≠ (-34); norm_num) l9
  have l11 := slideLoop_some_step combProject combArray 1092 combArray_wellFormed 11
    (combState (-36)) (combState (-34)) (combState 0) rfl comb_pass_3
    (by show ((-34) : ℚ) ≠ (-36); norm_num) l10
  have l12 := slideLoop_some_step combProject combArray 1092 combArray_wellFormed 12
    (combState (-41)) (combState (-36)) (combState 0) rfl comb_pass_2
    (by show ((-36) : ℚ) ≠ (-41); norm_num) l11
  have l13 := slideLoop_some_step combProject combArray 1092 combArray_wellFormed 13
    (combState (-45)) (combState (-41)) (combState 0) rfl comb_pass_1
    (by show ((-41) : ℚ) ≠ (-45); norm_num) l12
  exact l13

theorem combProject_noOverlap : NoOverlap combProject := by
  intro t c hc o ho hne
  by_cases ht : t = 0
  · subst ht
    unfold WaveClip.Overlaps
    rw [comb_start, comb_end, comb_start, comb_end]
    simp only [combProject, monoWaveTrack, if_true, List.mem_cons, List.mem_singleton,
      List.not_mem_nil, or_false] at hc ho
    rcases hc with h | h | h | h | h | h | h | h <;>
      rcases ho with h2 | h2 | h2 | h2 | h2 | h2 | h2 | h2 <;>
      subst h <;> subst h2 <;> first | exact absurd rfl hne | norm_num
  · simp [combProject, monoWaveTrack, ht] at hc

/-- C23 (the claim fails): on `combProject` the five abutting clips 3 to 7 are captured and the
request is -45.  The clips of the one track have eleven distinct boundaries (22, 24, 37, 38,
52, 53, 55, 58, 60, 65, 68), so the claimed bound is twelve passes.  With the oracle of the
spec the amount changes in each of the first thirteen passes (-41, -36, -34, -31, -27, -22,
-20, -17, -12, -7, -5, -2, 0): thirteen passes do not suffice, and the loop returns in the
fourteenth pass with the amount 0. -/
theorem DoSlideHorizontal_passes_exceed_boundaries :
    CaptureWellFormed combProject (combState (-45)).capturedClipArray ∧
    NoOverlap combProject ∧
    (∀ c ∈ (combProject.tracks 0).mClips,
      (combProject.clips c).GetStartTime ∈
        ([22, 24, 37, 38, 52, 53, 55, 58, 60, 65, 68] : List ℚ) ∧
      (combProject.clips c).GetEndTime ∈
        ([22, 24, 37, 38, 52, 53, 55, 58, 60, 65, 68] : List ℚ)) ∧
    ([22, 24, 37, 38, 52, 53, 55, 58, 60, 65, 68] : List ℚ).length = 11 ∧
    DoSlideHorizontal CanOffsetClip 13 (combState (-45)) combProject 0 = none ∧
    ∃ out, DoSlideHorizontal CanOffsetClip 14 (combState (-45)) combProject 0 = some out ∧
      out.1.hSlideAmount = 0 := by
  have hlen : (combState (-45)).capturedClipArray.length ≠ 0 := by
    simp [combState, combArray]
  refine ⟨combArray_wellFormed, combProject_noOverlap, ?_, rfl, ?_, ?_⟩
  · intro c hc
    rw [comb_start, comb_end]
    simp only [combProject, monoWaveTrack, if_true, List.mem_cons, List.mem_singleton,
      List.not_mem_nil, or_false] at hc
    rcases hc with h | h | h | h | h | h | h | h <;> subst h <;> norm_num
  · unfold DoSlideHorizontal
    simp only [if_pos hlen, comb_big]
    rw [comb_loop_none combProject (samePlacement_refl _)]
    rfl
  · unfold DoSlideHorizontal
    simp only [if_pos hlen, comb_big]
    obtain ⟨sp, h1, h2, _⟩ := comb_loop_some combProject (samePlacement_refl _)
    rw [h1]
    have hz : sp.1.hSlideAmount = 0 := by
      rw [h2]
      rfl
    simp only [Option.some_bind, hz, ne_eq, not_true_eq_false, if_false]
    exact ⟨sp, rfl, hz⟩

/-! ## C22: a refused request of zero -/

end TimeShift
